import Mathlib

/-!
# GMRES Krylov solver engine (`src/sles/ksp/impls/gmres/gmres.c`)

A shallow embedding of the restarted GMRES implementation: the Hessenberg QR
update by Givens rotations, the triangular back-substitution with the unwinding
of the preconditioner, and the restart-cycle driver.

The embedding is parametric in the scalar type `S` (the C type `double`) and in
the vector type `E` (the C type `Vec`).  The routines only use the operations
`+ - * /`, unary minus, the comparisons `>` and `==`, and the library functions
`sqrt` and `fabs`; the theorems in exact arithmetic instantiate `S` with the
real numbers.
-/

namespace GMRES

/-! ## Data model -/

/-- Vector handles.  `soln` and `rhs` are the solution and right-hand side of
the iterative context, `work k` is slot `k` of the pointer table
`gmresP->vecs`, and `user k` is a vector supplied by a caller. -/
inductive Vec where
  | soln : Vec
  | rhs : Vec
  | work (k : Nat) : Vec
  | user (k : Nat) : Vec
  deriving DecidableEq

/-- Modelled from the spec: the constant `VEC_OFFSET` of the header `gmresp.h`,
which is not among the sources.  Three scratch vectors precede the Krylov basis
in the pointer table. -/
def VEC_OFFSET : Nat := 3

/-- Modelled from the spec: the accessor `VEC_TEMP` of the header `gmresp.h`
(the scratch vector in which the correction is accumulated). -/
def VEC_TEMP : Vec := Vec.work 0

/-- Modelled from the spec: the accessor `VEC_TEMP_MATOP` of the header
`gmresp.h` (the scratch vector of an operator application). -/
def VEC_TEMP_MATOP : Vec := Vec.work 1

/-- Modelled from the spec: the accessor `VEC_BINVF` of the header `gmresp.h`
(the preconditioned right-hand side). -/
def VEC_BINVF : Vec := Vec.work 2

/-- Modelled from the spec: the accessor `VEC_VV(i)` of the header `gmresp.h`,
the Krylov basis vector `V[i]`. -/
def VEC_VV (i : Nat) : Vec := Vec.work (VEC_OFFSET + i)

/-- Modelled from the spec: the accessor `VEC_SOLN` of the header `gmresp.h`. -/
def VEC_SOLN : Vec := Vec.soln

/-- Modelled from the spec: the accessor `VEC_RHS` of the header `gmresp.h`. -/
def VEC_RHS : Vec := Vec.rhs

/-- The scalar buffer a `double*` work-area argument points to: the residual
projection `RS` itself (the call `BuildGmresSoln(RS(0), ...)`) or the separate
work area `gmresP->nrs`. -/
inductive Buf where
  | rsArea : Buf
  | nrsArea : Buf
  deriving DecidableEq

/-- The iterative context `KSP` together with its GMRES private part
`KSPiGMRESCntx`.  Modelled from the spec: the accessors `HH(a,b)`, `HES(a,b)`,
`RS(a)`, `CC(a)`, `SS(a)` of the header `gmresp.h` address entry (row `a`,
column `b`) of independently indexed buffers, the rows of one column being
adjacent in memory. -/
structure KSP (S E : Type) where
  max_it : Int
  right_pre : Bool
  guess_zero : Bool
  rtol : S
  atol : S
  ttol : S
  res_hist_size : Int
  residual_history : Option (Int → S)
  res_act_size : Int
  usr_monitor : Bool
  nmatop : Int
  nvectors : Int
  vec : Vec → E
  max_k : Int
  it : Int
  haptol : S
  epsabs : S
  hh : Nat → Nat → S
  hes : Nat → Nat → S
  rs : Nat → S
  cc : Nat → S
  ss : Nat → S
  nrs : Nat → S
  vv_allocated : Int
  vecs_allocated : Int
  delta_allocate : Int
  nwork_alloc : Int
  mwork_alloc : Int → Int

/-- Store `v` at index `i` of a one-dimensional buffer. -/
def setAt {S : Type} (f : Nat → S) (i : Nat) (v : S) : Nat → S :=
  fun k => if k = i then v else f k

/-- Store `v` at entry (row `a`, column `b`) of a two-dimensional buffer. -/
def setAt2 {S : Type} (f : Nat → Nat → S) (a b : Nat) (v : S) : Nat → Nat → S :=
  fun r c => if r = a ∧ c = b then v else f r c

namespace KSP

variable {S E : Type}

/-- Assignment `*HH(a,b) = v`. -/
def setHH (st : KSP S E) (a b : Nat) (v : S) : KSP S E :=
  { st with hh := setAt2 st.hh a b v }

/-- Assignment `*HES(a,b) = v`. -/
def setHES (st : KSP S E) (a b : Nat) (v : S) : KSP S E :=
  { st with hes := setAt2 st.hes a b v }

/-- Assignment `*RS(a) = v`. -/
def setRS (st : KSP S E) (a : Nat) (v : S) : KSP S E :=
  { st with rs := setAt st.rs a v }

/-- Assignment `*CC(a) = v`. -/
def setCC (st : KSP S E) (a : Nat) (v : S) : KSP S E :=
  { st with cc := setAt st.cc a v }

/-- Assignment `*SS(a) = v`. -/
def setSS (st : KSP S E) (a : Nat) (v : S) : KSP S E :=
  { st with ss := setAt st.ss a v }

/-- Overwrite the content of the vector `x`. -/
def setVec (st : KSP S E) (x : Vec) (v : E) : KSP S E :=
  { st with vec := fun y => if y = x then v else st.vec y }

/-- Read `p[k]` through a work-area pointer `p`. -/
def readBuf (st : KSP S E) (p : Buf) (k : Nat) : S :=
  match p with
  | Buf.rsArea => st.rs k
  | Buf.nrsArea => st.nrs k

/-- Assignment `p[k] = v` through a work-area pointer `p`. -/
def writeBuf (st : KSP S E) (p : Buf) (k : Nat) (v : S) : KSP S E :=
  match p with
  | Buf.rsArea => { st with rs := setAt st.rs k v }
  | Buf.nrsArea => { st with nrs := setAt st.nrs k v }

end KSP

/-! ## Hessenberg QR update -/

section Kernels

variable {S E : Type} [Add S] [Sub S] [Mul S] [Div S] [Neg S]

/-- The loop `for (j=1; j<=it; j++)` of `GMRESUpdateHessenberg`, after its
first `n` passes: the stored rotations `0 .. n-1` have been applied to column
`it`.  In pass `j` the pointers `hh`, `cc`, `ss` address row `j-1`. -/
def applyRotations (it : Nat) (st : KSP S E) : Nat → KSP S E
  | 0 => st
  | n + 1 =>
    let s := applyRotations it st n
    let tt := s.hh n it
    let s1 := s.setHH n it (s.cc n * tt + s.ss n * s.hh (n + 1) it)
    s1.setHH (n + 1) it (s1.cc n * s1.hh (n + 1) it - s1.ss n * tt)

/-- The routine `GMRESUpdateHessenberg(itP, it)`: the updated context and the
returned residual estimate. -/
def GMRESUpdateHessenberg (sqrt fabs : S → S) (st : KSP S E) (it : Nat) : KSP S E × S :=
  let s0 := applyRotations it st it
  let tt := sqrt (s0.hh it it * s0.hh it it + s0.hh (it + 1) it * s0.hh (it + 1) it)
  let s1 := s0.setCC it (s0.hh it it / tt)
  let s2 := s1.setSS it (s1.hh (it + 1) it / tt)
  let s3 := s2.setRS (it + 1) (-(s2.ss it * s2.rs it))
  let s4 := s3.setRS it (s3.cc it * s3.rs it)
  let s5 := s4.setHH it it (s4.cc it * s4.hh it it + s4.ss it * s4.hh (it + 1) it)
  (s5, fabs (s5.rs (it + 1)))

/-! ## Back-substitution -/

/-- The inner loop `for (j=k+1; j<=it; j++) tt = tt - *HH(k,j) * nrs[j]` of
`BuildGmresSoln` after its first `m` passes, started with the value `tt`. -/
def backInner (st : KSP S E) (nrs : Buf) (k : Nat) (tt : S) : Nat → S
  | 0 => tt
  | m + 1 => backInner st nrs k tt m - st.hh k (k + 1 + m) * st.readBuf nrs (k + 1 + m)

/-- The outer loop `for (ii=1; ii<=it; ii++)` of `BuildGmresSoln` after its
first `c` passes; pass `ii` computes `nrs[it - ii]`. -/
def backOuter (nrs : Buf) (it : Nat) (st : KSP S E) : Nat → KSP S E
  | 0 => st
  | c + 1 =>
    let s := backOuter nrs it st c
    let k := it - (c + 1)
    let tt := backInner s nrs k (s.rs k) (it - k)
    s.writeBuf nrs k (tt / s.hh k k)

/-- The scalar part of `BuildGmresSoln` for `it >= 0`: the assignment
`nrs[it] = *RS(it) / *HH(it,it)` followed by the back-substitution loop. -/
def backSubst (nrs : Buf) (st : KSP S E) (it : Nat) : KSP S E :=
  backOuter nrs it (st.writeBuf nrs it (st.rs it / st.hh it it)) it

end Kernels

/-! ## External collaborators -/

/-- Modelled from the spec: the collaborators the core consumes and does not
implement, none of which is among the sources: the library functions `sqrt`
and `fabs`, the vector operations (`VecNorm`, `VecScale`, `VecAXPY(a,x,y)`
which performs `y <- y + a x`, `VecSet`), the operator application `MM`, the
preconditioner application `PRE`, the orthogonalization plug-in
`gmresP->orthog` and the convergence test `itP->converged` called by the macro
`CONVERGED(itP,res,n)`. -/
structure Ext (S E : Type) where
  sqrt : S → S
  fabs : S → S
  VecNorm : E → S
  VecScale : S → E → E
  VecAXPY : S → E → E → E
  VecSet : S → E → E
  MM : E → E
  PRE : E → E
  orthog : KSP S E → Nat → KSP S E
  converged : KSP S E → Int → S → Int

/-- The calls a routine makes to its collaborators, in the order made. -/
inductive Event (S : Type) where
  | mm (src dst : Vec) : Event S
  | pre (src dst : Vec) : Event S
  | orthog (it : Nat) : Event S
  | monitor (n : Int) (res : S) : Event S
  | history (idx : Int) (res : S) : Event S
  | getNewVectors (it : Int) : Event S
  | scale (x : Vec) : Event S
  | update (it : Nat) : Event S
  | buildSoln (it : Int) : Event S

/-- Whether an event is a call of `GMRESUpdateHessenberg`. -/
def Event.isUpdate {S : Type} : Event S → Bool
  | Event.update _ => true
  | _ => false

/-- Whether an event is a call of the monitor. -/
def Event.isMonitor {S : Type} : Event S → Bool
  | Event.monitor _ _ => true
  | _ => false

/-- Whether an event is a call of `BuildGmresSoln`. -/
def Event.isBuildSoln {S : Type} : Event S → Bool
  | Event.buildSoln _ => true
  | _ => false

section Vectors

variable {S E : Type}

/-- Modelled from the spec: the routine `BasicMultiMaxpy(v, n, alpha, z)`,
declared in `gmres.c` and defined outside the sources, the "multi-scaled-add"
`z <- z + sum_{j=0..n} alpha[j] v[j]`; here after its first `m` terms. -/
def BasicMultiMaxpy (ext : Ext S E) (st : KSP S E) (alpha : Buf) (z : Vec) : Nat → KSP S E
  | 0 => st
  | m + 1 =>
    let s := BasicMultiMaxpy ext st alpha z m
    s.setVec z (ext.VecAXPY (s.readBuf alpha m) (s.vec (VEC_VV m)) (s.vec z))

variable [Add S] [Sub S] [Mul S] [Div S] [Neg S] [Zero S] [One S]

/-- The routine `BuildGmresSoln(nrs, vs, vdest, itP, it)`. -/
def BuildGmresSoln (ext : Ext S E) (nrs : Buf) (vs vdest : Vec) (st : KSP S E) (it : Int) :
    KSP S E :=
  if it < 0 then
    if vdest ≠ vs then st.setVec vdest (st.vec vs) else st
  else
    let s0 := backSubst nrs st it.toNat
    let s1 := s0.setVec VEC_TEMP (ext.VecSet 0 (s0.vec VEC_TEMP))
    let s2 := BasicMultiMaxpy ext s1 nrs VEC_TEMP (it.toNat + 1)
    if s2.right_pre then
      if vdest ≠ vs then
        let s3 := s2.setVec vdest (ext.PRE (s2.vec VEC_TEMP))
        s3.setVec vdest (ext.VecAXPY 1 (s3.vec vs) (s3.vec vdest))
      else
        let s3 := s2.setVec VEC_TEMP_MATOP (ext.PRE (s2.vec VEC_TEMP))
        s3.setVec vdest (ext.VecAXPY 1 (s3.vec VEC_TEMP_MATOP) (s3.vec vdest))
    else
      if vdest ≠ vs then
        let s3 := s2.setVec vdest (s2.vec VEC_TEMP)
        s3.setVec vdest (ext.VecAXPY 1 (s3.vec vs) (s3.vec vdest))
      else
        s2.setVec vdest (ext.VecAXPY 1 (s2.vec VEC_TEMP) (s2.vec vdest))

/-- Modelled from the spec: the macro `MATOP(itP, a, b, tmp)` of the header
that is not among the sources.  By the header comment of `gmres.c` the operator
of the cycle is `A B^-1` under right preconditioning and `B^-1 A` under left
preconditioning; the result goes to `b` and `tmp` is scratch. -/
def MATOP (ext : Ext S E) (st : KSP S E) (a b tmp : Vec) : KSP S E × List (Event S) :=
  if st.right_pre then
    let s := st.setVec tmp (ext.PRE (st.vec a))
    (s.setVec b (ext.MM (s.vec tmp)), [Event.pre a tmp, Event.mm tmp b])
  else
    let s := st.setVec tmp (ext.MM (st.vec a))
    (s.setVec b (ext.PRE (s.vec tmp)), [Event.mm a tmp, Event.pre tmp b])

end Vectors

/-! ## Basis storage -/

/-- The value of `nalloc` at the test `if (nalloc == 0)` of
`GMRESGetNewVectors(itP, it)`. -/
def newVectorCount {S E : Type} (st : KSP S E) (it : Int) : Int :=
  if it + VEC_OFFSET + st.delta_allocate ≥ st.vecs_allocated then
    st.vecs_allocated - it - VEC_OFFSET
  else st.delta_allocate

/-- The routine `GMRESGetNewVectors(itP, it)`: the bookkeeping of a new batch
of `nalloc` work vectors, placed in the pointer slots from `it + VEC_OFFSET`
on. -/
def GMRESGetNewVectors {S E : Type} (st : KSP S E) (it : Int) : KSP S E :=
  let nwork := st.nwork_alloc
  let nalloc := newVectorCount st it
  if nalloc = 0 then st
  else
    { st with
      vv_allocated := st.vv_allocated + nalloc
      mwork_alloc := fun i => if i = nwork then nalloc else st.mwork_alloc i
      nwork_alloc := st.nwork_alloc + 1 }

/-! ## Cycle driver -/

/-- An event list without calls of the QR update or of the reconstruction. -/
def quiet {S : Type} (tr : List (Event S)) : Prop :=
  ∀ e ∈ tr, e.isUpdate = false ∧ e.isBuildSoln = false

/-- The local variables of `GMREScycle` that live across the inner loop,
together with the calls made so far. -/
structure Loop (S E : Type) where
  ksp : KSP S E
  res : S
  it : Nat
  converged : Int
  hist_len : Int
  trace : List (Event S)

/-- What `GMREScycle` hands back: the returned status, the value left in
`*itcount` (`none` for a null pointer), the context and the calls made. -/
structure CycleResult (S E : Type) where
  status : Int
  itcount : Option Int
  ksp : KSP S E
  trace : List (Event S)

section Cycle

variable {S E : Type} [Add S] [Sub S] [Mul S] [Div S] [Neg S] [Zero S] [One S]
  [LT S] [DecidableRel (fun a b : S => a < b)] [DecidableEq S]

/-- The statement `if (nres && hist_len > n) nres[n] = res` of `GMREScycle`. -/
def recordHistory (hist_len : Int) (st : KSP S E) (n : Int) (res : S) :
    KSP S E × List (Event S) :=
  match st.residual_history with
  | some nres =>
    if hist_len > n then
      ({ st with residual_history := some (fun i => if i = n then res else nres i) },
        [Event.history n res])
    else (st, [])
  | none => (st, [])

/-- The statement `if (itP->usr_monitor) { gmresP->it = it - 1; (*itP->usr_monitor)(...) }`
of `GMREScycle`. -/
def callMonitor (st : KSP S E) (it : Nat) (n : Int) (res : S) : KSP S E × List (Event S) :=
  if st.usr_monitor then ({ st with it := (it : Int) - 1 }, [Event.monitor n res])
  else (st, [])

/-- The first part of one pass of the inner loop of `GMREScycle`, up to and
including the call of the orthogonalization routine: the context and the
calls made. -/
def cycleArnoldi (ext : Ext S E) (itsSoFar : Int) (l : Loop S E) : KSP S E × List (Event S) :=
  let it := l.it
  let h := recordHistory l.hist_len l.ksp (it + itsSoFar) l.res
  let m := callMonitor h.1 it (it + itsSoFar) l.res
  let g : KSP S E × List (Event S) :=
    if m.1.vv_allocated ≤ (it : Int) + VEC_OFFSET + 1 then
      (GMRESGetNewVectors m.1 ((it : Int) + 1), [Event.getNewVectors ((it : Int) + 1)])
    else (m.1, [])
  let a := MATOP ext g.1 (VEC_VV it) (VEC_VV (it + 1)) VEC_TEMP_MATOP
  (ext.orthog a.1 it, h.2 ++ m.2 ++ g.2 ++ a.2 ++ [Event.orthog it])

/-- The value of `hapbnd` at the test `if (tt > hapbnd)` of `GMREScycle`. -/
def happyBound (ext : Ext S E) (st : KSP S E) (it : Nat) : S :=
  let hapbnd := st.epsabs * ext.fabs (st.hh it it / st.rs it)
  if hapbnd > st.haptol then st.haptol else hapbnd

/-- The second part of one pass of the inner loop of `GMREScycle`: the norm of
the new direction, the happy-breakdown test and the normalization. -/
def cycleNormalize (ext : Ext S E) (st : KSP S E) (it : Nat) : KSP S E × List (Event S) :=
  let tt := ext.VecNorm (st.vec (VEC_VV (it + 1)))
  let s1 := st.setHH (it + 1) it tt
  let s2 := s1.setHES (it + 1) it tt
  let hapbnd := happyBound ext s2 it
  if tt > hapbnd then
    (s2.setVec (VEC_VV (it + 1)) (ext.VecScale (1 / tt) (s2.vec (VEC_VV (it + 1)))),
      [Event.scale (VEC_VV (it + 1))])
  else (s2, [])

/-- One pass of the body of the inner loop of `GMREScycle`. -/
def cycleBody (ext : Ext S E) (itsSoFar : Int) (l : Loop S E) : Loop S E :=
  let a := cycleArnoldi ext itsSoFar l
  let n := cycleNormalize ext a.1 l.it
  let u := GMRESUpdateHessenberg ext.sqrt ext.fabs n.1 l.it
  { ksp := { u.1 with it := ((l.it + 1 : Nat) : Int) - 1 }
    res := u.2
    it := l.it + 1
    converged := l.converged
    hist_len := l.hist_len
    trace := l.trace ++ a.2 ++ n.2 ++ [Event.update l.it] }

/-- The inner loop
`while (!(converged = CONVERGED(itP,res,it+itsSoFar)) && it < max_k && it + itsSoFar < max_it)`
of `GMREScycle`. -/
def cycleLoop (ext : Ext S E) (max_k max_it itsSoFar : Int) (l : Loop S E) : Loop S E :=
  let c := ext.converged l.ksp (l.it + itsSoFar) l.res
  if c = 0 ∧ (l.it : Int) < max_k ∧ (l.it : Int) + itsSoFar < max_it then
    cycleLoop ext max_k max_it itsSoFar (cycleBody ext itsSoFar { l with converged := c })
  else { l with converged := c }
termination_by (max_k - l.it).toNat
decreasing_by
  simp only [cycleBody]
  omega

/-- The bookkeeping of `GMREScycle` between the inner loop and the statement
`if (itcount) *itcount = it`: the operation counters, the last entry of the
residual history, `res_act_size` and the last call of the monitor. -/
def cycleTally (itsSoFar : Int) (l : Loop S E) : KSP S E × List (Event S) :=
  let it : Int := l.it
  let s0 : KSP S E :=
    { l.ksp with nmatop := l.ksp.nmatop + it, nvectors := l.ksp.nvectors + (3 + it * (3 + (it - 1))) }
  let h := recordHistory l.hist_len s0 (it + itsSoFar) l.res
  let s1 : KSP S E :=
    match h.1.residual_history with
    | some _ =>
      { h.1 with res_act_size :=
          if l.hist_len < it + itsSoFar then l.hist_len else it + itsSoFar + 1 }
    | none => h.1
  let m := callMonitor s1 l.it (it + itsSoFar) l.res
  (m.1, h.2 ++ m.2)

/-- The part of `GMREScycle` after the inner loop. -/
def cycleFinish (ext : Ext S E) (itcount : Option Int) (itsSoFar : Int) (l : Loop S E) :
    CycleResult S E :=
  let it : Int := l.it
  let t := cycleTally itsSoFar l
  let cnt := itcount.map (fun _ => it)
  if it = 0 then
    { status := 0, itcount := cnt, ksp := t.1, trace := l.trace ++ t.2 }
  else
    { status := if l.converged = 0 then 1 else 0
      itcount := cnt
      ksp := BuildGmresSoln ext Buf.rsArea VEC_SOLN VEC_SOLN t.1 (it - 1)
      trace := l.trace ++ t.2 ++ [Event.buildSoln (it - 1)] }

/-- The part of `GMREScycle` between the do-nothing test and the inner loop,
for a nonzero `res_norm`: the scaling of the initial residual, the target
tolerance `ttol` and the local variables at the loop entry. -/
def cycleInit (ext : Ext S E) (restart : Int) (st : KSP S E) : Loop S E :=
  let res_norm := ext.VecNorm (st.vec (VEC_VV 0))
  let s0 := st.setRS 0 res_norm
  let s1 := s0.setVec (VEC_VV 0) (ext.VecScale (1 / res_norm) (s0.vec (VEC_VV 0)))
  let s2 : KSP S E :=
    if restart = 0 then
      let rtol := s1.rtol * res_norm
      { s1 with ttol := if s1.atol > rtol then s1.atol else rtol }
    else s1
  let s3 : KSP S E := { s2 with it := (0 : Int) - 1 }
  { ksp := s3, res := res_norm, it := 0, converged := 0, hist_len := st.res_hist_size,
    trace := [Event.scale (VEC_VV 0)] }

/-- The routine `GMREScycle(itcount, itsSoFar, restart, itP)`.  The argument
`itcount` is `none` for a null pointer and the previous content of `*itcount`
otherwise. -/
def GMREScycle (ext : Ext S E) (itcount : Option Int) (itsSoFar : Int) (restart : Int)
    (st : KSP S E) : CycleResult S E :=
  let max_k := st.max_k
  let max_it := st.max_it
  let res_norm := ext.VecNorm (st.vec (VEC_VV 0))
  let s0 := st.setRS 0 res_norm
  if res_norm = 0 then
    { status := 0, itcount := itcount.map (fun _ => 0), ksp := s0, trace := [] }
  else
    cycleFinish ext itcount itsSoFar
      (cycleLoop ext max_k max_it itsSoFar (cycleInit ext restart st))

/-- The routine `KSPiGMRESDefaultConverged(itP, n, rnorm, dummy)`. -/
def KSPiGMRESDefaultConverged [LE S] [DecidableRel (fun a b : S => a ≤ b)]
    (st : KSP S E) (_n : Int) (rnorm : S) : Int :=
  if rnorm ≤ st.ttol then 1 else 0

end Cycle

/-! ## The QR factorization built by a cycle -/

section Factorization

variable {S E : Type} [Add S] [Sub S] [Mul S] [Div S] [Neg S]

/-- What one pass of the inner loop of `GMREScycle` leaves in column `j` of
`HH` before the QR update: the coefficients `H[0..j, j]` recorded by the
orthogonalization plug-in and the norm `H[j+1, j]` stored by the statement
`*HH(it+1,it) = tt`.  The rows below are not written. -/
def loadColumn (H : Nat → Nat → S) (st : KSP S E) (j : Nat) : KSP S E :=
  { st with hh := fun r c => if c = j ∧ r ≤ j + 1 then H r c else st.hh r c }

/-- The scalar work of the first `n` passes of the inner loop of `GMREScycle`
for the Hessenberg matrix `H`: pass `j` fills column `j` and calls
`GMRESUpdateHessenberg(itP, j)`. -/
def qrUpdates (sqrt fabs : S → S) (H : Nat → Nat → S) (st : KSP S E) : Nat → KSP S E
  | 0 => st
  | n + 1 => (GMRESUpdateHessenberg sqrt fabs (loadColumn H (qrUpdates sqrt fabs H st n) n) n).1

end Factorization

section Rotations

variable {R : Type} [CommRing R]

/-- The plane rotation with cosine `c` and sine `s` in the coordinates `j` and
`j + 1` of a sequence, as the loop of `GMRESUpdateHessenberg` applies it to a
column. -/
def givens (c s : R) (j : Nat) (w : Nat → R) : Nat → R :=
  fun i =>
    if i = j then c * w j + s * w (j + 1)
    else if i = j + 1 then c * w (j + 1) - s * w j
    else w i

/-- The rotations `0 .. n-1` of the sequences `c`, `s` applied in order. -/
def rotSeq (c s : Nat → R) : Nat → (Nat → R) → Nat → R
  | 0, w => w
  | n + 1, w => givens (c n) (s n) n (rotSeq c s n w)

/-- Column `j` of an upper Hessenberg matrix with the entries `H[0..j+1, j]`. -/
def hessColumn (H : Nat → Nat → R) (j : Nat) : Nat → R :=
  fun i => if i ≤ j + 1 then H i j else 0

/-- The right-hand side `beta e_0` of the least-squares problem. -/
def firstUnit (beta : R) : Nat → R :=
  fun i => if i = 0 then beta else 0

/-- The residual coordinates `beta e_0 - H z` of the coefficients `z[0..n-1]`
in the Krylov basis. -/
def lsResidual (beta : R) (H : Nat → Nat → R) (n : Nat) (z : Nat → R) : Nat → R :=
  fun i => firstUnit beta i - ∑ j in Finset.range n, z j * hessColumn H j i

end Rotations

/-- The invariant of the QR factorization after `K` column updates: the stored
rotations are orthogonal, they map the right-hand side `beta e_0` to `RS` and
the Hessenberg columns `0 .. K-1` to the columns of the triangular factor kept
in `HH`, whose diagonal does not vanish. -/
def qrInv {E : Type} (H : Nat → Nat → ℝ) (beta : ℝ) (K : Nat) (s : KSP ℝ E) : Prop :=
  (∀ j, j < K → (s.cc j) ^ 2 + (s.ss j) ^ 2 = 1) ∧
  (∀ i, rotSeq s.cc s.ss K (firstUnit beta) i = if i ≤ K then s.rs i else 0) ∧
  (∀ j, j < K → ∀ i, rotSeq s.cc s.ss K (hessColumn H j) i = if i ≤ j then s.hh i j else 0) ∧
  (∀ j, j < K → s.hh j j ≠ 0)

/-! ## Exact arithmetic with undefined quotients -/

/-- Scalars of an exact arithmetic in which a quotient by zero has no value.
The element `undef` is absorbing for every operation and never compares, as the
IEEE "not a number" that `0.0/0.0` produces. -/
inductive PVal (α : Type) where
  | val (a : α) : PVal α
  | undef : PVal α
  deriving DecidableEq

namespace PVal

variable {α : Type}

/-- Lift a unary function. -/
def map (f : α → α) : PVal α → PVal α
  | val a => val (f a)
  | undef => undef

/-- Lift a binary operation. -/
def map2 (f : α → α → α) : PVal α → PVal α → PVal α
  | val a, val b => val (f a b)
  | _, _ => undef

/-- The quotient, undefined for a zero divisor. -/
def quot [Div α] [Zero α] [DecidableEq α] : PVal α → PVal α → PVal α
  | val a, val b => if b = 0 then undef else val (a / b)
  | _, _ => undef

/-- The order between defined values; an undefined value is not below anything. -/
def le [LE α] : PVal α → PVal α → Prop
  | val a, val b => a ≤ b
  | _, _ => False

/-- The strict order between defined values. -/
def lt [LT α] : PVal α → PVal α → Prop
  | val a, val b => a < b
  | _, _ => False

instance [Add α] : Add (PVal α) := ⟨map2 (fun a b => a + b)⟩
instance [Sub α] : Sub (PVal α) := ⟨map2 (fun a b => a - b)⟩
instance [Mul α] : Mul (PVal α) := ⟨map2 (fun a b => a * b)⟩
instance [Neg α] : Neg (PVal α) := ⟨map (fun a => -a)⟩
instance [Div α] [Zero α] [DecidableEq α] : Div (PVal α) := ⟨quot⟩
instance [Zero α] : Zero (PVal α) := ⟨val 0⟩
instance [One α] : One (PVal α) := ⟨val 1⟩
instance [LE α] : LE (PVal α) := ⟨le⟩
instance [LT α] : LT (PVal α) := ⟨lt⟩

end PVal

/-! ## Rational test data -/

/-- A square root on the rationals, exact on the squares of rationals; it
stands for `sqrt` where a routine is evaluated on rational data. -/
def qsqrt (x : ℚ) : ℚ := (Nat.sqrt x.num.toNat : ℚ) / (Nat.sqrt x.den : ℚ)

/-- A context with every buffer and every vector cleared: restart length
`max_k`, iteration budget `max_it`, five preallocated work vectors. -/
def blankKSP (S E : Type) [Zero S] [Zero E] (max_k max_it : Int) : KSP S E :=
  { max_it := max_it, right_pre := false, guess_zero := false, rtol := 0, atol := 0, ttol := 0,
    res_hist_size := 0, residual_history := none, res_act_size := 0, usr_monitor := false,
    nmatop := 0, nvectors := 0, vec := fun _ => 0,
    max_k := max_k, it := 0, haptol := 0, epsabs := 0,
    hh := fun _ _ => 0, hes := fun _ _ => 0, rs := fun _ => 0, cc := fun _ => 0,
    ss := fun _ => 0, nrs := fun _ => 0, vv_allocated := 5, vecs_allocated := 5 + max_k,
    delta_allocate := 5, nwork_alloc := 1, mwork_alloc := fun _ => 5 }

/-- A cleared context on one-dimensional vectors with the initial residual
`r0` in `V[0]`. -/
def demoKSP (S : Type) [Zero S] (max_k max_it : Int) (r0 : ℚ) : KSP S ℚ :=
  { blankKSP S ℚ max_k max_it with vec := fun x => if x = VEC_VV 0 then r0 else 0 }

/-- Collaborators on one-dimensional rational vectors: the operator is the
multiplication by `a`, the preconditioner by `b`, the norm is the absolute
value, the orthogonalization plug-in is the Gram-Schmidt step of a
one-dimensional space and the convergence test is the default one. -/
def demoExt (a b : ℚ) : Ext ℚ ℚ :=
  { sqrt := qsqrt
    fabs := fun x => |x|
    VecNorm := fun x => |x|
    VecScale := fun c x => c * x
    VecAXPY := fun c x y => y + c * x
    VecSet := fun c _ => c
    MM := fun x => a * x
    PRE := fun x => b * x
    orthog := fun st it =>
      let h := st.vec (VEC_VV (it + 1)) * st.vec (VEC_VV it)
      ((st.setHH it it h).setHES it it h).setVec (VEC_VV (it + 1))
        (st.vec (VEC_VV (it + 1)) - h * st.vec (VEC_VV it))
    converged := KSPiGMRESDefaultConverged }

/-- The zero column: a context whose Hessenberg column 0 vanishes, with
`RS[0] = 1`, over the arithmetic with undefined quotients. -/
def zeroColumnKSP : KSP (PVal ℚ) ℚ :=
  { demoKSP (PVal ℚ) 3 10 1 with
    hh := fun _ _ => PVal.val 0
    rs := fun k => if k = 0 then PVal.val 1 else PVal.val 0 }

/-- The hand-constructed triangular system of the specification: diagonal
`(2, 3, 4)`, unit first super-diagonal, `HH[0,2] = 0` and `RS = (2, 3, 4)`,
in a context whose basis vector `V[0]` is `1`. -/
def triangularKSP : KSP ℚ ℚ :=
  { demoKSP ℚ 3 10 1 with
    hh := fun r c => if r = c then (r : ℚ) + 2 else if r + 1 = c then 1 else 0
    rs := fun k => (k : ℚ) + 2 }

/-! ## Real test data -/

/-- A real context whose Hessenberg column 0 is `(3, 4)`, with `RS[0] = 10`. -/
def givensKSP : KSP ℝ ℝ :=
  { blankKSP ℝ ℝ 3 10 with
    hh := fun r c => if r = 0 ∧ c = 0 then 3 else if r = 1 ∧ c = 0 then 4 else 0
    rs := fun _ => 10 }

/-- A real context with one stored rotation, `CC[0] = 0` and `SS[0] = 1`,
whose Hessenberg column 1 is `(-3, 7, 4)`, with `RS[1] = 10`. -/
def rotatedKSP : KSP ℝ ℝ :=
  { blankKSP ℝ ℝ 3 10 with
    hh := fun r c =>
      if c = 1 then (if r = 0 then -3 else if r = 1 then 7 else if r = 2 then 4 else 0) else 0
    cc := fun _ => 0
    ss := fun k => if k = 0 then 1 else 0
    rs := fun _ => 10 }

/-- Orthonormal vectors of the plane, the complex numbers as a real inner
product space: `V[0] = 1` and `V[i] = I` for the other indices. -/
def planeV (i : Nat) : ℂ := if i = 0 then 1 else Complex.I

/-- A cleared context on the plane with `RS[0] = 1`. -/
def planeKSP : KSP ℝ ℂ :=
  { blankKSP ℝ ℂ 1 1 with rs := fun _ => 1 }

/-- A cleared context on the plane with `RS[0] = 1` whose vector `V[1]` holds
the direction `I`, of norm 1, as the orthogonalization leaves it for the
quarter turn and `V[0] = 1`. -/
def turnKSP : KSP ℝ ℂ :=
  { blankKSP ℝ ℂ 1 1 with
    rs := fun _ => 1
    vec := fun x => if x = VEC_VV 1 then Complex.I else 0 }

/-- A cleared context on the plane with the residual `1` in `V[0]`, restart
length 1 and a budget of one iteration. -/
def unitKSP : KSP ℝ ℂ :=
  { blankKSP ℝ ℂ 1 1 with vec := fun x => if x = VEC_VV 0 then 1 else 0 }

/-- The Hessenberg matrix of the quarter turn of the plane in the basis
`planeV`: `H[1,0] = 1` and the other entries of column 0 vanish. -/
def turnHessenberg (r c : Nat) : ℝ := if r = c + 1 then 1 else 0

/-- Collaborators on the plane for a given `sqrt`: the operator and the
preconditioner are the identity, the plug-in writes nothing and the
convergence test never passes. -/
def planeExt (sqrt : ℝ → ℝ) : Ext ℝ ℂ :=
  { sqrt := sqrt
    fabs := fun x => |x|
    VecNorm := fun x => sqrt (x.re ^ 2 + x.im ^ 2)
    VecScale := fun c x => ⟨c * x.re, c * x.im⟩
    VecAXPY := fun c x y => ⟨y.re + c * x.re, y.im + c * x.im⟩
    VecSet := fun c _ => ⟨c, c⟩
    MM := fun x => x
    PRE := fun x => x
    orthog := fun st _ => st
    converged := fun _ _ _ => 0 }

/-- The local variables at the entry of the inner loop for the operator
`2 x`, a trivial preconditioner and the initial residual `5`. -/
def demoLoop : Loop ℚ ℚ := cycleInit (demoExt 2 1) 0 (demoKSP ℚ 3 10 5)

/-! ## Arithmetic with the range of double precision -/

/-- Scalars with the range of IEEE double precision: a rational value, an
infinity with its sign (`true` for the negative one) or "not a number".  The
arithmetic is exact on the rationals except at the two ends of the range: a
result of magnitude at least `2^1024` overflows to an infinity and a result of
magnitude below `2^-1075` underflows to zero.  Rounding inside the range and
the sign of a zero are not represented, so a run is reproduced exactly when its
finite values are representable and no zero divisor is negative, as in runs
on powers of two. -/
inductive Dbl where
  | fin (q : ℚ) : Dbl
  | inf (negative : Bool) : Dbl
  | nan : Dbl
  deriving DecidableEq

namespace Dbl

/-- The value that a result computed exactly takes in the range of doubles. -/
def ofExact (q : ℚ) : Dbl :=
  if (2 : ℚ) ^ 1024 ≤ |q| then inf (decide (q < 0))
  else if |q| < 1 / (2 : ℚ) ^ 1075 then fin 0
  else fin q

/-- The opposite. -/
def neg : Dbl → Dbl
  | fin q => fin (-q)
  | inf s => inf (!s)
  | nan => nan

/-- The sum; the sum of the two infinities is not a number. -/
def add : Dbl → Dbl → Dbl
  | fin a, fin b => ofExact (a + b)
  | fin _, inf s => inf s
  | inf s, fin _ => inf s
  | inf s, inf t => if s = t then inf s else nan
  | _, _ => nan

/-- The product; the product of zero and an infinity is not a number. -/
def mul : Dbl → Dbl → Dbl
  | fin a, fin b => ofExact (a * b)
  | fin a, inf s => if a = 0 then nan else inf (xor (decide (a < 0)) s)
  | inf s, fin b => if b = 0 then nan else inf (xor s (decide (b < 0)))
  | inf s, inf t => inf (xor s t)
  | _, _ => nan

/-- The quotient: `0/0` and the quotient of two infinities are not numbers, a
nonzero value over zero is an infinity and a finite value over an infinity
is zero. -/
def div : Dbl → Dbl → Dbl
  | fin a, fin b =>
    if b = 0 then (if a = 0 then nan else inf (decide (a < 0))) else ofExact (a / b)
  | fin _, inf _ => fin 0
  | inf s, fin b => inf (xor s (decide (b < 0)))
  | _, _ => nan

/-- The library function `sqrt` on this arithmetic, through `qsqrt` on the
finite values. -/
def sqrt : Dbl → Dbl
  | fin q => if q < 0 then nan else fin (qsqrt q)
  | inf s => if s then nan else inf false
  | nan => nan

/-- The library function `fabs` on this arithmetic. -/
def fabs : Dbl → Dbl
  | fin q => fin |q|
  | inf _ => inf false
  | nan => nan

/-- The order `<=`; "not a number" compares with nothing. -/
def le : Dbl → Dbl → Prop
  | fin a, fin b => a ≤ b
  | fin _, inf s => s = false
  | inf s, fin _ => s = true
  | inf s, inf t => s = true ∨ t = false
  | _, _ => False

/-- The order `<`; "not a number" compares with nothing. -/
def lt : Dbl → Dbl → Prop
  | fin a, fin b => a < b
  | fin _, inf s => s = false
  | inf s, fin _ => s = true
  | inf s, inf t => s = true ∧ t = false
  | _, _ => False

instance : Zero Dbl := ⟨fin 0⟩
instance : One Dbl := ⟨fin 1⟩
instance : Neg Dbl := ⟨neg⟩
instance : Add Dbl := ⟨add⟩
instance : Sub Dbl := ⟨fun a b => add a (neg b)⟩
instance : Mul Dbl := ⟨mul⟩
instance : Div Dbl := ⟨div⟩
instance : LE Dbl := ⟨le⟩
instance : LT Dbl := ⟨lt⟩

instance decLe : DecidableRel (fun a b : Dbl => a ≤ b) := fun a b =>
  match a, b with
  | fin a, fin b => inferInstanceAs (Decidable (a ≤ b))
  | fin _, inf s => inferInstanceAs (Decidable (s = false))
  | inf s, fin _ => inferInstanceAs (Decidable (s = true))
  | inf s, inf t => inferInstanceAs (Decidable (s = true ∨ t = false))
  | fin _, nan => isFalse (fun h => h)
  | inf _, nan => isFalse (fun h => h)
  | nan, _ => isFalse (fun h => by cases h)

instance decLt : DecidableRel (fun a b : Dbl => a < b) := fun a b =>
  match a, b with
  | fin a, fin b => inferInstanceAs (Decidable (a < b))
  | fin _, inf s => inferInstanceAs (Decidable (s = false))
  | inf s, fin _ => inferInstanceAs (Decidable (s = true))
  | inf s, inf t => inferInstanceAs (Decidable (s = true ∧ t = false))
  | fin _, nan => isFalse (fun h => h)
  | inf _, nan => isFalse (fun h => h)
  | nan, _ => isFalse (fun h => by cases h)

end Dbl

/-- Collaborators on one-dimensional vectors over the arithmetic `Dbl`: the
operator is the multiplication by `a`, the preconditioner is the identity, the
norm is the absolute value, the orthogonalization plug-in is the Gram-Schmidt
step of a one-dimensional space and the convergence test is the default one. -/
def dblExt (a : Dbl) : Ext Dbl Dbl :=
  { sqrt := Dbl.sqrt
    fabs := Dbl.fabs
    VecNorm := Dbl.fabs
    VecScale := fun c x => c * x
    VecAXPY := fun c x y => y + c * x
    VecSet := fun c _ => c
    MM := fun x => a * x
    PRE := fun x => x
    orthog := fun st it =>
      let h := st.vec (VEC_VV (it + 1)) * st.vec (VEC_VV it)
      ((st.setHH it it h).setHES it it h).setVec (VEC_VV (it + 1))
        (st.vec (VEC_VV (it + 1)) - h * st.vec (VEC_VV it))
    converged := KSPiGMRESDefaultConverged }

/-- A cleared context on one-dimensional vectors over `Dbl` with the initial
residual 1 in `V[0]`, restart length 3 and a budget of 10 iterations. -/
def dblKSP : KSP Dbl Dbl :=
  { blankKSP Dbl Dbl 3 10 with vec := fun x => if x = VEC_VV 0 then Dbl.fin 1 else Dbl.fin 0 }

/-- The power `2^-600`, a double whose square `2^-1200` is below the range. -/
def tiny : ℚ := 1 / 2 ^ 600

/-- The power `2^600`, a double whose square `2^1200` is above the range. -/
def huge : ℚ := 2 ^ 600

/-- The collaborators `dblExt` for the operator `2^-600 x`. -/
def tinyExt : Ext Dbl Dbl := dblExt (Dbl.fin tiny)

/-- The Euclidean norm of a pair over `Dbl`, computed with a scaling by the
larger magnitude, as a vector library does to keep the squares in range. -/
def Dbl.norm2 (x : Dbl × Dbl) : Dbl :=
  let m := if Dbl.fabs x.1 < Dbl.fabs x.2 then Dbl.fabs x.2 else Dbl.fabs x.1
  if m = 0 then 0
  else m * Dbl.sqrt ((x.1 / m) * (x.1 / m) + (x.2 / m) * (x.2 / m))

/-- The first `n` projections of a Gram-Schmidt step on pairs over `Dbl`:
`V[it+1]` is made orthogonal to `V[0 .. n-1]` and the coefficients go to column
`it` of `HH` and `HES`. -/
def pairOrthog (st : KSP Dbl (Dbl × Dbl)) (it : Nat) : Nat → KSP Dbl (Dbl × Dbl)
  | 0 => st
  | n + 1 =>
    let s := pairOrthog st it n
    let w := s.vec (VEC_VV (it + 1))
    let v := s.vec (VEC_VV n)
    let h := w.1 * v.1 + w.2 * v.2
    ((s.setHH n it h).setHES n it h).setVec (VEC_VV (it + 1)) (w.1 - h * v.1, w.2 - h * v.2)

/-- Collaborators on pairs over `Dbl`: the operator maps `(x, y)` to
`2^600 (x, x)`, the preconditioner is the identity, the norm is the Euclidean
one, the orthogonalization plug-in is the Gram-Schmidt step and the
convergence test is the default one. -/
def hugeExt : Ext Dbl (Dbl × Dbl) :=
  { sqrt := Dbl.sqrt
    fabs := Dbl.fabs
    VecNorm := Dbl.norm2
    VecScale := fun c x => (c * x.1, c * x.2)
    VecAXPY := fun c x y => (y.1 + c * x.1, y.2 + c * x.2)
    VecSet := fun c _ => (c, c)
    MM := fun x => (Dbl.fin huge * x.1, Dbl.fin huge * x.1)
    PRE := fun x => x
    orthog := fun st it => pairOrthog st it (it + 1)
    converged := KSPiGMRESDefaultConverged }

/-- A cleared context on pairs over `Dbl` with the initial residual `(1, 0)` in
`V[0]`, restart length 3 and a budget of 10 iterations. -/
def hugeKSP : KSP Dbl (Dbl × Dbl) :=
  { blankKSP Dbl (Dbl × Dbl) 3 10 with
    vec := fun x => if x = VEC_VV 0 then (Dbl.fin 1, Dbl.fin 0) else (Dbl.fin 0, Dbl.fin 0) }

/-! ## Restart driver -/

/-- The configuration of a solve: the budget, the restart length, the
tolerances, the side of the preconditioner, the length of the history buffer,
the presence of a monitor and the breakdown thresholds.  No buffer, vector or
counter is part of it. -/
def KSP.setup {S E : Type} (st : KSP S E) :
    Int × Int × S × S × S × Bool × Bool × Int × Bool × S × S :=
  (st.max_it, st.max_k, st.rtol, st.atol, st.ttol, st.right_pre, st.guess_zero,
    st.res_hist_size, st.usr_monitor, st.haptol, st.epsabs)

/-- Modelled from the spec: the vector operation `VecCopy(x, y)` of the vector
library, which is not among the sources: `y <- x`. -/
def VecCopy {S E : Type} (st : KSP S E) (x y : Vec) : KSP S E :=
  st.setVec y (st.vec x)

/-- One call of `GMREScycle` made by `KSPiGMRESSolve`: the arguments
`itsSoFar` and `restart`, the returned status and the count left in `its`. -/
structure CycleCall where
  itsSoFar : Int
  restart : Int
  status : Int
  its : Int
  deriving DecidableEq

/-- The local variables of `KSPiGMRESSolve` that live across the restart loop,
together with the cycles run so far. -/
structure Solve (S E : Type) where
  ksp : KSP S E
  its : Int
  itcount : Int
  restart : Int
  cycles : List CycleCall

/-- What `KSPiGMRESSolve` hands back: the returned value, the value written to
`*outits` (`none` when the routine returns without writing it), the context and
the cycles run. -/
structure SolveResult (S E : Type) where
  status : Int
  outits : Option Int
  ksp : KSP S E
  cycles : List CycleCall

section Driver

variable {S E : Type} [Add S] [Sub S] [Mul S] [Div S] [Neg S] [Zero S] [One S]
  [LT S] [DecidableRel (fun a b : S => a < b)] [DecidableEq S]

/-- The local variables of `GMREScycle` after `k` passes of the body of the
inner loop entered with the local variables `l`, each preceded by the
evaluation of the convergence test; the loop condition is not consulted, the
passes the loop really makes are the first ones of this sequence. -/
def cyclePass (ext : Ext S E) (itsSoFar : Int) (l : Loop S E) : Nat → Loop S E
  | 0 => l
  | k + 1 =>
    let x := cyclePass ext itsSoFar l k
    cycleBody ext itsSoFar { x with converged := ext.converged x.ksp (x.it + itsSoFar) x.res }

/-- The routine `GMRESResidual(itP, restart)`: the context with the residual
`inv(B) (f - A x)` in `V[0]`, and the returned error code.  Modelled from the
spec: the macro `MM(itP, a, b)` of the header that is not among the sources
applies the operator, `b <- A a`. -/
def GMRESResidual (ext : Ext S E) (st : KSP S E) (_restart : Int) : KSP S E × Int :=
  let mone : S := -1
  let s0 :=
    if st.right_pre then st.setVec VEC_TEMP (ext.MM (st.vec VEC_SOLN))
    else (MATOP ext st VEC_SOLN VEC_TEMP VEC_TEMP_MATOP).1
  let s1 := VecCopy s0 VEC_BINVF (VEC_VV 0)
  (s1.setVec (VEC_VV 0) (ext.VecAXPY mone (s1.vec VEC_TEMP) (s1.vec (VEC_VV 0))), 0)

/-- The statements `itcount += its; *outits = itcount; return 0;` that follow
the restart loop of `KSPiGMRESSolve`. -/
def solveExit (s : Solve S E) : SolveResult S E :=
  { status := 0, outits := some (s.itcount + s.its), ksp := s.ksp, cycles := s.cycles }

/-- The restart loop `while (err = GMREScycle(&its, itcount, restart, itP))` of
`KSPiGMRESSolve` followed by the exit statements, run for at most `fuel` calls
of `GMREScycle`; `none` when the fuel does not suffice. -/
def solveLoop (ext : Ext S E) : Nat → Solve S E → Option (SolveResult S E)
  | 0, _ => none
  | fuel + 1, s =>
    let r := GMREScycle ext (some s.its) s.itcount s.restart s.ksp
    let its := r.itcount.getD s.its
    let s1 : Solve S E :=
      { ksp := r.ksp, its := its, itcount := s.itcount, restart := s.restart,
        cycles := s.cycles ++ [{ itsSoFar := s.itcount, restart := s.restart,
                                 status := r.status, its := its }] }
    if r.status ≠ 0 then
      let g := GMRESResidual ext s1.ksp 1
      let s2 : Solve S E :=
        { ksp := g.1, its := its, itcount := s1.itcount + its, restart := 1, cycles := s1.cycles }
      if g.2 ≠ 0 then some { status := g.2, outits := none, ksp := g.1, cycles := s2.cycles }
      else if s2.itcount > s2.ksp.max_it then some (solveExit s2)
      else solveLoop ext fuel s2
    else some (solveExit s1)

/-- The part of `KSPiGMRESSolve` before the restart loop: the preconditioned
right-hand side goes to `VEC_BINVF` and the initial residual to `V[0]`; the
context and the error code of the residual computation.  Modelled from the
spec: the macro `PRE(itP, a, b)` of the header that is not among the sources
applies the preconditioner, `b <- inv(B) a`. -/
def solveInit (ext : Ext S E) (st : KSP S E) : KSP S E × Int :=
  let s0 :=
    if !st.right_pre then st.setVec VEC_BINVF (ext.PRE (st.vec VEC_RHS))
    else VecCopy st VEC_RHS VEC_BINVF
  if !s0.guess_zero then GMRESResidual ext s0 0
  else (VecCopy s0 VEC_BINVF (VEC_VV 0), 0)

/-- The routine `KSPiGMRESSolve(itP, outits)`, run for at most `fuel` calls of
`GMREScycle`.  The argument `its0` is the content of the uninitialized local
variable `its`. -/
def KSPiGMRESSolve (ext : Ext S E) (fuel : Nat) (its0 : Int) (st : KSP S E) :
    Option (SolveResult S E) :=
  let p := solveInit ext st
  if p.2 ≠ 0 then some { status := p.2, outits := none, ksp := p.1, cycles := [] }
  else solveLoop ext fuel { ksp := p.1, its := its0, itcount := 0, restart := 0, cycles := [] }

end Driver

/-! ## Test data of the restart driver -/

/-- The context `demoKSP` with initial residual 5, relative tolerance `1/10`
and absolute tolerance `1/4`. -/
def tolKSP : KSP ℚ ℚ :=
  { demoKSP ℚ 3 10 5 with rtol := 1 / 10, atol := 1 / 4 }

/-- The context `demoKSP` with a residual-history buffer of length 4 whose
entries all hold `-1`. -/
def histKSP (r0 : ℚ) : KSP ℚ ℚ :=
  { demoKSP ℚ 3 10 r0 with res_hist_size := 4, residual_history := some (fun _ => -1) }

/-- A cleared context on one-dimensional vectors for a solve from the zero
initial guess with the right-hand side `f`. -/
def rhsKSP (max_k max_it : Int) (f : ℚ) : KSP ℚ ℚ :=
  { blankKSP ℚ ℚ max_k max_it with
    guess_zero := true
    vec := fun x => if x = VEC_RHS then f else 0 }

/-- The first `n` projections of a Gram-Schmidt step on the rational plane:
`V[it+1]` is made orthogonal to `V[0 .. n-1]` and the coefficients go to column
`it` of `HH` and `HES`. -/
def planeOrthog (st : KSP ℚ (ℚ × ℚ)) (it : Nat) : Nat → KSP ℚ (ℚ × ℚ)
  | 0 => st
  | n + 1 =>
    let s := planeOrthog st it n
    let w := s.vec (VEC_VV (it + 1))
    let v := s.vec (VEC_VV n)
    let h := w.1 * v.1 + w.2 * v.2
    ((s.setHH n it h).setHES n it h).setVec (VEC_VV (it + 1)) (w.1 - h * v.1, w.2 - h * v.2)

/-- Collaborators on the rational plane: the operator swaps the two
coordinates, the preconditioner is the identity, the norm is the Euclidean one
through `qsqrt`, the orthogonalization plug-in is the Gram-Schmidt step and the
convergence test is the default one. -/
def swapExt : Ext ℚ (ℚ × ℚ) :=
  { sqrt := qsqrt
    fabs := fun x => |x|
    VecNorm := fun x => qsqrt (x.1 * x.1 + x.2 * x.2)
    VecScale := fun c x => (c * x.1, c * x.2)
    VecAXPY := fun c x y => (y.1 + c * x.1, y.2 + c * x.2)
    VecSet := fun c _ => (c, c)
    MM := fun x => (x.2, x.1)
    PRE := fun x => x
    orthog := fun st it => planeOrthog st it (it + 1)
    converged := KSPiGMRESDefaultConverged }

/-- A cleared context on the rational plane for a solve from the zero initial
guess with the right-hand side `(1, 0)` and relative tolerance `1/2`. -/
def swapRhsKSP (max_k max_it : Int) : KSP ℚ (ℚ × ℚ) :=
  { blankKSP ℚ (ℚ × ℚ) max_k max_it with
    rtol := 1 / 2
    guess_zero := true
    vec := fun x => if x = VEC_RHS then (1, 0) else 0 }

/-- The context at the entry of the first cycle of the solve on one-dimensional
vectors with right-hand side 5, restart length 3 and a budget of one
iteration. -/
def demoEntry : KSP ℚ ℚ := (solveInit (demoExt 2 1) (rhsKSP 3 1 5)).1

/-- The context at the entry of the first cycle of the solve on the plane with
the swap operator, restart length 2 and a budget of one iteration. -/
def swapEntry : KSP ℚ (ℚ × ℚ) := (solveInit swapExt (swapRhsKSP 2 1)).1

/-- The context at the entry of the second cycle of that solve: what the first
cycle returned, with the residual recomputed in `V[0]`. -/
def swapRestart : KSP ℚ (ℚ × ℚ) :=
  (GMRESResidual swapExt (GMREScycle swapExt (some 0) 0 0 swapEntry).ksp 1).1

/-! ## Work vectors -/

/-- The allocation state of the basis storage: the number of work vectors in
use, the number of pointer slots, the batch size and the number of batches. -/
def KSP.alloc {S E : Type} (st : KSP S E) : Int × Int × Int × Int :=
  (st.vv_allocated, st.vecs_allocated, st.delta_allocate, st.nwork_alloc)

/-- The routine `KSPiGMRESSetUp(itP)`: the returned code and the context.  The
argument `ierr` is the code returned by `KSPCheckDef`, `mem` is the code that
the macro `CHKPTR` returns when an allocation fails (0 when every `MALLOC`
succeeds) and `q_preallocate` is the field of that name.  The scalar buffers
are allocated without being written, so their content is left as it is. -/
def KSPiGMRESSetUp {S E : Type} (ierr mem : Int) (q_preallocate : Bool) (st : KSP S E) :
    Int × KSP S E :=
  if ierr ≠ 0 then (ierr, st)
  else if mem ≠ 0 then (mem, st)
  else
    let max_k := st.max_k
    let s1 : KSP S E := { st with vecs_allocated := VEC_OFFSET + 2 + max_k }
    if q_preallocate then
      (0, { s1 with
            vv_allocated := VEC_OFFSET + 2 + max_k
            mwork_alloc := fun i => if i = 0 then VEC_OFFSET + 2 + max_k else s1.mwork_alloc i
            nwork_alloc := 1 })
    else
      (0, { s1 with
            vv_allocated := 5
            mwork_alloc := fun i => if i = 0 then 5 else s1.mwork_alloc i
            nwork_alloc := 1 })

/-- The loop `for (i=0; i<gmresP->vv_allocated; i++)` of `KSPiGMRESAdjustWork`
from the index `i` on, with `n` passes left: the returned code and the indices
of the slots `user_work[i]`, `mwork_alloc[i]` handed to the callback.
Modelled from the spec: the macro `SETERR(1, msg)` of a header that is not
among the sources returns the code 1. -/
def adjustFrom {S E : Type} (adjust : Nat → Int → Int) (st : KSP S E) (i : Nat) :
    Nat → Int × List Nat
  | 0 => (0, [])
  | n + 1 =>
    if adjust i (st.mwork_alloc i) ≠ 0 then (1, [i])
    else ((adjustFrom adjust st (i + 1) n).1, i :: (adjustFrom adjust st (i + 1) n).2)

/-- The routine `KSPiGMRESAdjustWork(itP)`.  The argument `adjust` is the
callback `itP->adjust_work_vectors` (`none` for a null pointer), which receives
the batch `user_work[i]`, named here by its index, and `mwork_alloc[i]`. -/
def KSPiGMRESAdjustWork {S E : Type} (adjust : Option (Nat → Int → Int)) (st : KSP S E) :
    Int × List Nat :=
  match adjust with
  | none => (0, [])
  | some f => adjustFrom f st 0 st.vv_allocated.toNat

/-- The loop `for (i=0; i<gmresP->nwork_alloc; i++) VecFreeVecs(...)` of
`KSPiGMRESDestroy`: the batches freed, each with the size passed. -/
def KSPiGMRESDestroy {S E : Type} (st : KSP S E) : List (Nat × Int) :=
  (List.range st.nwork_alloc.toNat).map (fun i => (i, st.mwork_alloc i))

/-- The context of a pass of the inner loop of `GMREScycle` after the growth
step `if (gmresP->vv_allocated <= it + VEC_OFFSET + 1) GMRESGetNewVectors(itP, it+1)`,
before the operator is applied. -/
def cycleGrowth {S E : Type} (itsSoFar : Int) (l : Loop S E) : KSP S E :=
  let h := recordHistory l.hist_len l.ksp (l.it + itsSoFar) l.res
  let m := callMonitor h.1 l.it (l.it + itsSoFar) l.res
  if m.1.vv_allocated ≤ (l.it : Int) + VEC_OFFSET + 1 then
    GMRESGetNewVectors m.1 ((l.it : Int) + 1)
  else m.1

/-- The context of a pass of the inner loop of `GMREScycle` at the test
`if (gmresP->vv_allocated <= it + VEC_OFFSET + 1)` of the growth step, after
the history entry and the call of the monitor. -/
def cycleBeforeGrowth {S E : Type} (itsSoFar : Int) (l : Loop S E) : KSP S E :=
  (callMonitor (recordHistory l.hist_len l.ksp (l.it + itsSoFar) l.res).1 l.it
    (l.it + itsSoFar) l.res).1

/-- The capacity invariant of the basis storage: the pointer table has
`VEC_OFFSET + 2 + max_k` slots, at least `VEC_OFFSET + 2` and at most as many
work vectors as slots are in use, and the batch size is positive. -/
def capInv {S E : Type} (st : KSP S E) : Prop :=
  st.vecs_allocated = VEC_OFFSET + 2 + st.max_k ∧ (VEC_OFFSET : Int) + 2 ≤ st.vv_allocated ∧
  st.vv_allocated ≤ st.vecs_allocated ∧ 1 ≤ st.delta_allocate

/-- The calls of `GMREScycle` that the restart loop of `KSPiGMRESSolve` makes
when run for at most `fuel` calls: for each call the context on entry and the
arguments `itsSoFar` and `restart`, in the order of the calls. -/
def cycleEntries {S E : Type} [Add S] [Sub S] [Mul S] [Div S] [Neg S] [Zero S] [One S]
    [LT S] [DecidableRel (fun a b : S => a < b)] [DecidableEq S]
    (ext : Ext S E) : Nat → Solve S E → List (KSP S E × Int × Int)
  | 0, _ => []
  | fuel + 1, s =>
    let r := GMREScycle ext (some s.its) s.itcount s.restart s.ksp
    let its := r.itcount.getD s.its
    let s1 : Solve S E :=
      { ksp := r.ksp, its := its, itcount := s.itcount, restart := s.restart,
        cycles := s.cycles ++ [{ itsSoFar := s.itcount, restart := s.restart,
                                 status := r.status, its := its }] }
    if r.status ≠ 0 then
      let g := GMRESResidual ext s1.ksp 1
      let s2 : Solve S E :=
        { ksp := g.1, its := its, itcount := s1.itcount + its, restart := 1, cycles := s1.cycles }
      if g.2 ≠ 0 then [(s.ksp, s.itcount, s.restart)]
      else if s2.itcount > s2.ksp.max_it then [(s.ksp, s.itcount, s.restart)]
      else (s.ksp, s.itcount, s.restart) :: cycleEntries ext fuel s2
    else [(s.ksp, s.itcount, s.restart)]

/-- The context that a pass of the inner loop of `GMREScycle` entered with
the local variables `l` hands to `GMRESUpdateHessenberg(itP, it)`: column `it`
of `HH` holds the coefficients of the orthogonalization and, below them, the
norm of the new direction. -/
def cycleUpdateInput {S E : Type} [Add S] [Sub S] [Mul S] [Div S] [Neg S] [Zero S] [One S]
    [LT S] [DecidableRel (fun a b : S => a < b)] [DecidableEq S]
    (ext : Ext S E) (itsSoFar : Int) (l : Loop S E) : KSP S E :=
  (cycleNormalize ext (cycleArnoldi ext itsSoFar l).1 l.it).1

/-! ## Nonlinear solver context (`src/snes/interface/snes.c`) -/

/-- Modelled from the spec: the type `SNESProblemType` of the header
`petscsnes.h`, which is not among the sources, with the two values that
`SNESCreate` accepts; `other` stands for any other value. -/
inductive SNESProblemType where
  | nonlinearEquations : SNESProblemType
  | unconstrainedMinimization : SNESProblemType
  | other (n : Int) : SNESProblemType
  deriving DecidableEq

/-- The context `SNES_KSP_EW_ConvCtx` as `SNESCreate` fills it. -/
structure SNESConvCtx where
  version : Int
  rtol_0 : ℚ
  rtol_last : ℚ
  rtol_max : ℚ
  gamma : ℚ
  alpha2 : ℚ
  alpha : ℚ
  threshold : ℚ
  lresid_last : ℚ
  norm_last : ℚ

/-- The fields of the context `SNES` that `SNESCreate` assigns.  The type
`PetscReal` is taken as the rationals, a pointer as an optional handle. -/
structure SNES where
  max_its : Int
  max_funcs : Int
  norm : ℚ
  rtol : ℚ
  ttol : ℚ
  atol : ℚ
  xtol : ℚ
  trunctol : ℚ
  nfuncs : Int
  nfailures : Int
  linear_its : Int
  numbermonitors : Int
  data : Option Nat
  view : Option Nat
  computeumfunction : Option Nat
  umfunP : Option Nat
  fc : Option Nat
  deltatol : ℚ
  fmin : ℚ
  method_class : SNESProblemType
  set_method_called : Int
  setupcalled : Int
  ksp_ewconv : Bool
  vwork : Option Nat
  nwork : Int
  conv_hist_len : Int
  conv_hist_max : Int
  conv_hist : Option Nat
  conv_hist_its : Option Nat
  conv_hist_reset : Bool
  reason : Int
  kspconvctx : Option SNESConvCtx

/-- Modelled from the spec: what the collaborators of `SNESCreate` that are
not among the sources do in one call: the code `PETSC_ERR_ARG_OUTOFRANGE`, the
codes returned by the macro `PetscHeaderCreate`, by `SLESCreate` and by
`PetscPublishAll`, whether `PetscNew` returns a context and the code that
`CHKPTRQ` returns when it does not, and the library function `sqrt`. -/
structure SNESEnv where
  errOutOfRange : Int
  headerErr : Int
  newOk : Bool
  errNoMem : Int
  slesErr : Int
  publishErr : Int
  sqrt : ℚ → ℚ

/-- The routine `SNESCreate(comm, type, outsnes)`: the returned code and the
content of `*outsnes` (`none` for the null pointer). -/
def SNESCreate (env : SNESEnv) (type : SNESProblemType) : Int × Option SNES :=
  if type ≠ SNESProblemType.unconstrainedMinimization ∧
      type ≠ SNESProblemType.nonlinearEquations then
    (env.errOutOfRange, none)
  else if env.headerErr ≠ 0 then (env.headerErr, none)
  else
    let tol : ℚ × ℚ × ℚ :=
      if type = SNESProblemType.unconstrainedMinimization then
        (1 / 10 ^ 8, 0, 1 / 10 ^ 10)
      else (1 / 10 ^ 8, 0, 1 / 10 ^ 50)
    let snes0 : SNES :=
      { max_its := 50, max_funcs := 10000, norm := 0,
        rtol := tol.1, ttol := tol.2.1, atol := tol.2.2,
        xtol := 1 / 10 ^ 8, trunctol := 1 / 10 ^ 12,
        nfuncs := 0, nfailures := 0, linear_its := 0, numbermonitors := 0,
        data := none, view := none, computeumfunction := none, umfunP := none, fc := none,
        deltatol := 1 / 10 ^ 12, fmin := -(10 ^ 30),
        method_class := type, set_method_called := 0, setupcalled := 0,
        ksp_ewconv := false, vwork := none, nwork := 0,
        conv_hist_len := 0, conv_hist_max := 0, conv_hist := none, conv_hist_its := none,
        conv_hist_reset := true, reason := 0, kspconvctx := none }
    if !env.newOk then (env.errNoMem, none)
    else
      let alpha2 : ℚ := (1 / 2) * (1 + env.sqrt 5)
      let kctx : SNESConvCtx :=
        { version := 2, rtol_0 := 3 / 10, rtol_last := 0, rtol_max := 9 / 10, gamma := 1,
          alpha2 := alpha2, alpha := alpha2, threshold := 1 / 10, lresid_last := 0,
          norm_last := 0 }
      let snes : SNES := { snes0 with kspconvctx := some kctx }
      if env.slesErr ≠ 0 then (env.slesErr, none)
      else if env.publishErr ≠ 0 then (env.publishErr, some snes)
      else (0, some snes)

/-- The routine `SNESGetTolerances(snes, atol, rtol, stol, maxit, maxf)`: the
values written through the five pointers, `none` where the flag says that the
pointer is null. -/
def SNESGetTolerances (snes : SNES) (atol rtol stol maxit maxf : Bool) :
    Option ℚ × Option ℚ × Option ℚ × Option Int × Option Int :=
  (if atol then some snes.atol else none, if rtol then some snes.rtol else none,
    if stol then some snes.xtol else none, if maxit then some snes.max_its else none,
    if maxf then some snes.max_funcs else none)

/-- The routine `SNESScaleStep_Private(snes, y, fnorm, delta, gpnorm, ynorm)`:
the step left in `y` and the values written to `*gpnorm` and `*ynorm`.
Modelled from the spec: `VecNorm(y, NORM_2, &norm)` and `VecScale(&a, y)` are
operations of the vector library, which is not among the sources; they are
taken to return without error. -/
def SNESScaleStep_Private {S E : Type} [Sub S] [Mul S] [Div S] [Zero S] [One S] [LT S]
    [DecidableRel (fun a b : S => a < b)] (VecNorm : E → S) (VecScale : S → E → E)
    (y : E) (fnorm delta : S) : E × S × S :=
  let norm := VecNorm y
  if norm > delta then
    let norm1 := delta / norm
    (VecScale norm1 y, (1 - norm1) * fnorm, delta)
  else (y, 0, norm)

/-- Collaborators of `SNESCreate` that all succeed. -/
def okEnv : SNESEnv :=
  { errOutOfRange := 63, headerErr := 0, newOk := true, errNoMem := 55, slesErr := 0,
    publishErr := 0, sqrt := qsqrt }

/-- The context `demoKSP` with initial residual 5, a budget of one iteration
and a residual-history buffer of length 1. -/
def shortHistKSP : KSP ℚ ℚ :=
  { demoKSP ℚ 10 1 5 with res_hist_size := 1, residual_history := some (fun _ => -1) }

/-- The context `demoKSP` with initial residual 5 and a registered monitor. -/
def monitorKSP : KSP ℚ ℚ :=
  { demoKSP ℚ 3 10 5 with usr_monitor := true }

/-! # Theorems -/

set_option linter.unusedSectionVars false
set_option linter.unusedVariables false

/-! ## Back-substitution and reconstruction -/

section Frame
variable {S E : Type}

@[simp] theorem setAt_same (f : Nat → S) (i : Nat) (v : S) : setAt f i v i = v := by
  simp [setAt]

theorem setAt_other (f : Nat → S) {i k : Nat} (v : S) (h : k ≠ i) : setAt f i v k = f k := by
  simp [setAt, h]

theorem readBuf_writeBuf (st : KSP S E) (p : Buf) (k j : Nat) (v : S) :
    (st.writeBuf p k v).readBuf p j = if j = k then v else st.readBuf p j := by
  cases p <;> simp [KSP.writeBuf, KSP.readBuf, setAt]

theorem hh_writeBuf (st : KSP S E) (p : Buf) (k : Nat) (v : S) :
    (st.writeBuf p k v).hh = st.hh := by
  cases p <;> rfl

theorem rs_writeBuf_other (st : KSP S E) (p : Buf) {k i : Nat} (v : S) (h : i ≠ k) :
    (st.writeBuf p k v).rs i = st.rs i := by
  cases p
  · simp [KSP.writeBuf, setAt, h]
  · rfl

end Frame

section BackSubst
variable {α E : Type} [Field α]

theorem backInner_eq (st : KSP α E) (p : Buf) (k : Nat) (tt : α) (m : Nat) :
    backInner st p k tt m
      = tt - ∑ i in Finset.range m, st.hh k (k + 1 + i) * st.readBuf p (k + 1 + i) := by
  induction m with
  | zero => simp [backInner]
  | succ m ih => rw [backInner, ih, Finset.sum_range_succ]; ring

theorem hh_backOuter (p : Buf) (it : Nat) (st : KSP α E) (c : Nat) :
    (backOuter p it st c).hh = st.hh := by
  induction c with
  | zero => rfl
  | succ c ih => simp only [backOuter, hh_writeBuf, ih]

/-- Invariant of the back-substitution loop: after `c` passes the rows
`it - c .. it` of the triangular system are solved and the entries of `RS`
below index `it - c` still hold their values on entry. -/
theorem backOuter_inv (p : Buf) (it : Nat) (st s0 : KSP α E)
    (hh0 : s0.hh = st.hh) (hd : ∀ k, k ≤ it → st.hh k k ≠ 0)
    (hrs0 : ∀ i, i < it → s0.rs i = st.rs i)
    (hrow : st.hh it it * s0.readBuf p it = st.rs it) (c : Nat) (hc : c ≤ it) :
    (∀ i, i < it - c → (backOuter p it s0 c).rs i = st.rs i) ∧
    (∀ k, it - c ≤ k → k ≤ it →
      ∑ j in Finset.Ico k (it + 1), st.hh k j * (backOuter p it s0 c).readBuf p j = st.rs k) := by
  induction c with
  | zero =>
    refine ⟨fun i hi => hrs0 i (by omega), fun k h1 h2 => ?_⟩
    have hk : k = it := by omega
    subst hk
    simp [backOuter, hrow]
  | succ c ih =>
    obtain ⟨ih1, ih2⟩ := ih (by omega)
    have hk0 : it - (c + 1) < it - c := by omega
    constructor
    · intro i hi
      simp only [backOuter]
      rw [rs_writeBuf_other _ _ _ (by omega)]
      exact ih1 i (by omega)
    · intro k h1 h2
      simp only [backOuter]
      by_cases hk : k = it - (c + 1)
      · subst hk
        rw [Finset.sum_eq_sum_Ico_succ_bot (by omega)]
        have hrest : ∀ j ∈ Finset.Ico (it - (c + 1) + 1) (it + 1),
            st.hh (it - (c + 1)) j * ((backOuter p it s0 c).writeBuf p (it - (c + 1))
              (backInner (backOuter p it s0 c) p (it - (c + 1))
                ((backOuter p it s0 c).rs (it - (c + 1))) (it - (it - (c + 1))) /
                (backOuter p it s0 c).hh (it - (c + 1)) (it - (c + 1)))).readBuf p j
            = st.hh (it - (c + 1)) j * (backOuter p it s0 c).readBuf p j := by
          intro j hj
          rw [Finset.mem_Ico] at hj
          rw [readBuf_writeBuf, if_neg (by omega)]
        rw [Finset.sum_congr rfl hrest, readBuf_writeBuf, if_pos rfl, backInner_eq,
          hh_backOuter, hh0, ih1 _ hk0, mul_div_cancel₀ _ (hd _ (by omega)),
          Finset.sum_Ico_eq_sum_range]
        have : it + 1 - (it - (c + 1) + 1) = it - (it - (c + 1)) := by omega
        rw [this]
        ring
      · have hrest : ∀ j ∈ Finset.Ico k (it + 1),
            st.hh k j * ((backOuter p it s0 c).writeBuf p (it - (c + 1))
              (backInner (backOuter p it s0 c) p (it - (c + 1))
                ((backOuter p it s0 c).rs (it - (c + 1))) (it - (it - (c + 1))) /
                (backOuter p it s0 c).hh (it - (c + 1)) (it - (c + 1)))).readBuf p j
            = st.hh k j * (backOuter p it s0 c).readBuf p j := by
          intro j hj
          rw [Finset.mem_Ico] at hj
          rw [readBuf_writeBuf, if_neg (by omega)]
        rw [Finset.sum_congr rfl hrest]
        exact ih2 k (by omega) h2

theorem backSubst_solves (p : Buf) (st : KSP α E) (it : Nat)
    (hd : ∀ k, k ≤ it → st.hh k k ≠ 0) (k : Nat) (hk : k ≤ it) :
    ∑ j in Finset.Icc k it, st.hh k j * (backSubst p st it).readBuf p j = st.rs k := by
  have h := (backOuter_inv p it st (st.writeBuf p it (st.rs it / st.hh it it))
    (hh_writeBuf _ _ _ _) hd (fun i hi => rs_writeBuf_other _ _ _ (by omega))
    (by rw [readBuf_writeBuf, if_pos rfl, mul_div_cancel₀ _ (hd it le_rfl)]) it le_rfl).2 k
    (by omega) hk
  rw [← Nat.Ico_succ_right]
  exact h
end BackSubst

section VectorFrame
variable {S E : Type}

theorem vec_writeBuf (st : KSP S E) (p : Buf) (k : Nat) (v : S) :
    (st.writeBuf p k v).vec = st.vec := by
  cases p <;> rfl

theorem right_pre_writeBuf (st : KSP S E) (p : Buf) (k : Nat) (v : S) :
    (st.writeBuf p k v).right_pre = st.right_pre := by
  cases p <;> rfl

theorem readBuf_setVec (st : KSP S E) (x : Vec) (v : E) (p : Buf) (k : Nat) :
    (st.setVec x v).readBuf p k = st.readBuf p k := by
  cases p <;> rfl

theorem vec_setVec_same (st : KSP S E) (x : Vec) (v : E) : (st.setVec x v).vec x = v := by
  simp [KSP.setVec]

theorem vec_setVec_other (st : KSP S E) {x y : Vec} (v : E) (h : y ≠ x) :
    (st.setVec x v).vec y = st.vec y := by
  simp [KSP.setVec, h]

/-- The multi-scaled-add only writes the vector `z`. -/
theorem BasicMultiMaxpy_frame (ext : Ext S E) (st : KSP S E) (alpha : Buf) (z : Vec) (m : Nat) :
    (BasicMultiMaxpy ext st alpha z m).right_pre = st.right_pre ∧
    (∀ k, (BasicMultiMaxpy ext st alpha z m).readBuf alpha k = st.readBuf alpha k) ∧
    (∀ x, x ≠ z → (BasicMultiMaxpy ext st alpha z m).vec x = st.vec x) := by
  induction m with
  | zero => exact ⟨rfl, fun _ => rfl, fun _ _ => rfl⟩
  | succ m ih =>
    obtain ⟨h1, h2, h3⟩ := ih
    refine ⟨h1, fun k => ?_, fun x hx => ?_⟩
    · simp only [BasicMultiMaxpy]
      rw [readBuf_setVec, h2]
    · simp only [BasicMultiMaxpy]
      rw [vec_setVec_other _ _ hx, h3 x hx]
end VectorFrame

section Reconstruction
variable {α E : Type} [Field α] [AddCommGroup E] [Module α E]

theorem vec_backOuter (p : Buf) (it : Nat) (st : KSP α E) (c : Nat) :
    (backOuter p it st c).vec = st.vec ∧ (backOuter p it st c).right_pre = st.right_pre := by
  induction c with
  | zero => exact ⟨rfl, rfl⟩
  | succ c ih => simp only [backOuter, vec_writeBuf, right_pre_writeBuf, ih, and_self]

theorem vec_backSubst (p : Buf) (st : KSP α E) (it : Nat) :
    (backSubst p st it).vec = st.vec ∧ (backSubst p st it).right_pre = st.right_pre := by
  unfold backSubst
  rw [(vec_backOuter _ _ _ _).1, (vec_backOuter _ _ _ _).2, vec_writeBuf, right_pre_writeBuf]
  exact ⟨rfl, rfl⟩

theorem BasicMultiMaxpy_vec (ext : Ext α E) (hax : ∀ a x y, ext.VecAXPY a x y = y + a • x)
    (st : KSP α E) (alpha : Buf) (z : Vec) (hz : ∀ j, z ≠ VEC_VV j) (m : Nat) :
    (BasicMultiMaxpy ext st alpha z m).vec z
      = st.vec z + ∑ j in Finset.range m, st.readBuf alpha j • st.vec (VEC_VV j) := by
  induction m with
  | zero => simp [BasicMultiMaxpy]
  | succ m ih =>
    obtain ⟨_, h2, h3⟩ := BasicMultiMaxpy_frame ext st alpha z m
    simp only [BasicMultiMaxpy]
    rw [vec_setVec_same, hax, ih, h2, h3 _ (fun h => hz m h.symm), Finset.sum_range_succ, add_assoc]

/-- The scalar buffers on return from `BuildGmresSoln` are those left by the
back-substitution. -/
theorem BuildGmresSoln_readBuf (ext : Ext α E) (p : Buf) (vs vdest : Vec) (st : KSP α E)
    (it : Nat) (k : Nat) :
    (BuildGmresSoln ext p vs vdest st (it : Int)).readBuf p k = (backSubst p st it).readBuf p k := by
  have hlt : ¬ ((it : Int) < 0) := by omega
  simp only [BuildGmresSoln, hlt, if_false, Int.toNat_ofNat]
  split <;> split <;>
    simp only [readBuf_setVec, (BasicMultiMaxpy_frame ext _ p VEC_TEMP (it + 1)).2.1]

/-- C1. Back-substitution solves the triangular system: for every `it` and every
`HH` with nonzero diagonal entries `HH[k,k]`, `k <= it`, the coefficients that
`BuildGmresSoln` leaves in its work area satisfy
`sum_{j=k..it} HH[k,j] * y[j] = RS[k]` for every `k <= it`, with `HH` and `RS`
as on entry, whether the work area is `RS` itself or a separate buffer. -/
theorem BuildGmresSoln_solves_triangular (ext : Ext α E) (p : Buf) (vs vdest : Vec)
    (st : KSP α E) (it : Nat) (hd : ∀ k, k ≤ it → st.hh k k ≠ 0) (k : Nat) (hk : k ≤ it) :
    ∑ j in Finset.Icc k it,
      st.hh k j * (BuildGmresSoln ext p vs vdest st (it : Int)).readBuf p j = st.rs k := by
  simp only [BuildGmresSoln_readBuf]
  exact backSubst_solves p st it hd k hk

/-- The scratch vector after the accumulation of the correction: it holds the
combination of the basis vectors, and no other vector has changed. -/
theorem correction_accumulated (ext : Ext α E)
    (hax : ∀ a x y, ext.VecAXPY a x y = y + a • x) (hset : ∀ x, ext.VecSet 0 x = 0)
    (p : Buf) (st : KSP α E) (it : Nat) :
    (BasicMultiMaxpy ext ((backSubst p st it).setVec VEC_TEMP
        (ext.VecSet 0 ((backSubst p st it).vec VEC_TEMP))) p VEC_TEMP (it + 1)).vec VEC_TEMP
      = ∑ j in Finset.range (it + 1), (backSubst p st it).readBuf p j • st.vec (VEC_VV j) ∧
    (∀ x, x ≠ VEC_TEMP →
      (BasicMultiMaxpy ext ((backSubst p st it).setVec VEC_TEMP
        (ext.VecSet 0 ((backSubst p st it).vec VEC_TEMP))) p VEC_TEMP (it + 1)).vec x
        = st.vec x) ∧
    (BasicMultiMaxpy ext ((backSubst p st it).setVec VEC_TEMP
        (ext.VecSet 0 ((backSubst p st it).vec VEC_TEMP))) p VEC_TEMP (it + 1)).right_pre
      = st.right_pre := by
  have hTz : ∀ j, VEC_TEMP ≠ VEC_VV j := by
    intro j h
    simp only [VEC_TEMP, VEC_VV, VEC_OFFSET, Vec.work.injEq] at h
    omega
  obtain ⟨hv0, hr0⟩ := vec_backSubst p st it
  obtain ⟨hr2, _, hv2⟩ := BasicMultiMaxpy_frame ext
    ((backSubst p st it).setVec VEC_TEMP (ext.VecSet 0 ((backSubst p st it).vec VEC_TEMP)))
    p VEC_TEMP (it + 1)
  refine ⟨?_, fun x hx => ?_, ?_⟩
  · rw [BasicMultiMaxpy_vec ext hax _ p VEC_TEMP hTz (it + 1), vec_setVec_same, hset, zero_add]
    refine Finset.sum_congr rfl (fun j _ => ?_)
    rw [readBuf_setVec, vec_setVec_other _ _ (hTz j).symm, hv0]
  · rw [hv2 x hx, vec_setVec_other _ _ hx, hv0]
  · rw [hr2]
    exact hr0

/-- C9. Unwinding the preconditioner: for every `it`, with `y` the coefficients
of the back-substitution and `x` the content of `vs` on entry, `BuildGmresSoln`
leaves `vdest = x + B^-1 (sum_{j<=it} y[j] V[j])` under right preconditioning
and `vdest = x + sum_{j<=it} y[j] V[j]` otherwise, both in place (`vdest` is
`vs`) and out of place, where `vs` is unchanged.  The vectors `vs` and `vdest`
are not work vectors of the solver, `VecAXPY(a,x,y)` adds `a x` to `y` and
`VecSet` of zero clears a vector. -/
theorem BuildGmresSoln_unwinds (ext : Ext α E)
    (hax : ∀ a x y, ext.VecAXPY a x y = y + a • x) (hset : ∀ x, ext.VecSet 0 x = 0)
    (p : Buf) (vs vdest : Vec) (st : KSP α E) (it : Nat)
    (hvs : ∀ k, vs ≠ Vec.work k) (hvd : ∀ k, vdest ≠ Vec.work k) :
    (BuildGmresSoln ext p vs vdest st (it : Int)).vec vdest
      = st.vec vs +
        (if st.right_pre then
          ext.PRE (∑ j in Finset.range (it + 1),
            (BuildGmresSoln ext p vs vdest st (it : Int)).readBuf p j • st.vec (VEC_VV j))
        else
          ∑ j in Finset.range (it + 1),
            (BuildGmresSoln ext p vs vdest st (it : Int)).readBuf p j • st.vec (VEC_VV j)) ∧
    (vdest ≠ vs → (BuildGmresSoln ext p vs vdest st (it : Int)).vec vs = st.vec vs) := by
  simp only [BuildGmresSoln_readBuf]
  have hlt : ¬ ((it : Int) < 0) := by omega
  obtain ⟨hT, hv, hrp⟩ := correction_accumulated ext hax hset p st it
  have hvsT : vs ≠ VEC_TEMP := hvs 0
  have hvsM : vs ≠ VEC_TEMP_MATOP := hvs 1
  have hvdT : vdest ≠ VEC_TEMP := hvd 0
  have hvdM : vdest ≠ VEC_TEMP_MATOP := hvd 1
  have hMT : VEC_TEMP ≠ VEC_TEMP_MATOP := by simp [VEC_TEMP, VEC_TEMP_MATOP]
  simp only [BuildGmresSoln, hlt, if_false, Int.toNat_ofNat, hrp]
  generalize BasicMultiMaxpy ext ((backSubst p st it).setVec VEC_TEMP
        (ext.VecSet 0 ((backSubst p st it).vec VEC_TEMP))) p VEC_TEMP (it + 1) = s2 at hT hv
  by_cases hrpre : st.right_pre = true <;> by_cases hne : vdest = vs
  · subst hne
    simp only [hrpre, if_true, ne_eq, not_true_eq_false, if_false, false_implies, and_true]
    rw [vec_setVec_same, hax, one_smul, vec_setVec_same, vec_setVec_other _ _ hvdM,
      hv _ hvdT, hT]
  · simp only [hrpre, if_true, ne_eq, hne, not_false_eq_true, true_implies]
    rw [vec_setVec_same, hax, one_smul, vec_setVec_same, vec_setVec_other _ _ (Ne.symm hne),
      vec_setVec_other _ _ (Ne.symm hne), vec_setVec_other _ _ (Ne.symm hne), hv _ hvsT, hT]
    exact ⟨add_comm _ _, rfl⟩
  · subst hne
    simp only [hrpre, Bool.false_eq_true, if_false, ne_eq, not_true_eq_false, false_implies,
      and_true]
    rw [vec_setVec_same, hax, one_smul, hv _ hvdT, hT]
  · simp only [hrpre, Bool.false_eq_true, if_false, ne_eq, hne, not_false_eq_true, if_true,
      true_implies]
    rw [vec_setVec_same, hax, one_smul, vec_setVec_same, vec_setVec_other _ _ (Ne.symm hne),
      vec_setVec_other _ _ (Ne.symm hne), vec_setVec_other _ _ (Ne.symm hne), hv _ hvsT, hT]
    exact ⟨add_comm _ _, rfl⟩
end Reconstruction

/-! ## Hessenberg QR update -/

section RotationLoop
variable {S E : Type} [Add S] [Sub S] [Mul S] [Div S] [Neg S]

/-- The rotation loop writes rows `0 .. n` of column `it` of `HH` and nothing else. -/
theorem applyRotations_frame (it : Nat) (st : KSP S E) (n : Nat) :
    ∃ H : Nat → Nat → S, applyRotations it st n = { st with hh := H } ∧
      ∀ r c, (c ≠ it ∨ n < r) → H r c = st.hh r c := by
  induction n with
  | zero => exact ⟨st.hh, rfl, fun _ _ _ => rfl⟩
  | succ n ih =>
    obtain ⟨H, hH, hfr⟩ := ih
    refine ⟨((applyRotations it st (n + 1)).hh), ?_, ?_⟩
    · simp only [applyRotations]
      rw [hH]
      rfl
    · intro r c h
      simp only [applyRotations]
      rw [hH]
      simp only [KSP.setHH, setAt2]
      rw [if_neg (by omega), if_neg (by omega)]
      exact hfr r c (by omega)
end RotationLoop

/-- The values stored by the QR update in terms of the entry that the
rotation loop of the routine leaves in `HH[it,it]`. -/
theorem update_givens {E : Type} (st : KSP ℝ E) (it : Nat)
    (hne : ((applyRotations it st it).hh it it) ^ 2 + (st.hh (it + 1) it) ^ 2 ≠ 0) :
    Real.sqrt (((applyRotations it st it).hh it it) ^ 2 + (st.hh (it + 1) it) ^ 2) ≠ 0 ∧
    (GMRESUpdateHessenberg Real.sqrt (fun x => |x|) st it).1.cc it
      = (applyRotations it st it).hh it it
        / Real.sqrt (((applyRotations it st it).hh it it) ^ 2 + (st.hh (it + 1) it) ^ 2) ∧
    (GMRESUpdateHessenberg Real.sqrt (fun x => |x|) st it).1.ss it
      = st.hh (it + 1) it
        / Real.sqrt (((applyRotations it st it).hh it it) ^ 2 + (st.hh (it + 1) it) ^ 2) ∧
    (GMRESUpdateHessenberg Real.sqrt (fun x => |x|) st it).1.rs it
      = (GMRESUpdateHessenberg Real.sqrt (fun x => |x|) st it).1.cc it * st.rs it ∧
    (GMRESUpdateHessenberg Real.sqrt (fun x => |x|) st it).1.rs (it + 1)
      = -(GMRESUpdateHessenberg Real.sqrt (fun x => |x|) st it).1.ss it * st.rs it ∧
    (GMRESUpdateHessenberg Real.sqrt (fun x => |x|) st it).2
      = |(GMRESUpdateHessenberg Real.sqrt (fun x => |x|) st it).1.rs (it + 1)| := by
  obtain ⟨H, hH, hfr⟩ := applyRotations_frame it st it
  have hg : H (it + 1) it = st.hh (it + 1) it := hfr _ _ (Or.inr (Nat.lt_succ_self it))
  rw [hH] at hne ⊢
  simp only at hne
  refine ⟨?_, ?_, ?_, ?_, ?_, ?_⟩
  · intro h0
    rw [Real.sqrt_eq_zero (by positivity)] at h0
    exact hne h0
  all_goals simp [GMRESUpdateHessenberg, hH, KSP.setCC, KSP.setSS, KSP.setRS, KSP.setHH, setAt, setAt2, hg, sq]

theorem GMRESUpdateHessenberg_ret {E : Type} (st : KSP ℝ E) (it : Nat) :
    (GMRESUpdateHessenberg Real.sqrt (fun x => |x|) st it).2
      = |-(st.hh (it + 1) it
        / Real.sqrt (((applyRotations it st it).hh it it) ^ 2 + (st.hh (it + 1) it) ^ 2)
        * st.rs it)| := by
  obtain ⟨H, hH, hfr⟩ := applyRotations_frame it st it
  have hg : H (it + 1) it = st.hh (it + 1) it := hfr _ _ (Or.inr (Nat.lt_succ_self it))
  rw [hH]
  simp [GMRESUpdateHessenberg, hH, KSP.setCC, KSP.setSS, KSP.setRS, KSP.setHH, setAt, setAt2, hg, sq]

theorem abs_div_sqrt_le_one (h g : ℝ) (hne : h ^ 2 + g ^ 2 ≠ 0) :
    |g / Real.sqrt (h ^ 2 + g ^ 2)| ≤ 1 := by
  have hpos : 0 < Real.sqrt (h ^ 2 + g ^ 2) :=
    Real.sqrt_pos.mpr (lt_of_le_of_ne (by positivity) (Ne.symm hne))
  rw [abs_div, abs_of_pos hpos, div_le_one hpos]
  exact Real.abs_le_sqrt (by nlinarith [sq_nonneg h])

theorem update_estimate_le {E : Type} (st : KSP ℝ E) (it : Nat)
    (hne : ((applyRotations it st it).hh it it) ^ 2 + (st.hh (it + 1) it) ^ 2 ≠ 0) :
    (GMRESUpdateHessenberg Real.sqrt (fun x => |x|) st it).2 ≤ |st.rs it| := by
  rw [GMRESUpdateHessenberg_ret, abs_neg, abs_mul]
  calc _ ≤ 1 * |st.rs it| :=
        mul_le_mul_of_nonneg_right (abs_div_sqrt_le_one _ _ hne) (abs_nonneg _)
    _ = |st.rs it| := one_mul _

namespace PVal
variable {α : Type}
theorem val_add_val [Add α] (a b : α) : (val a + val b : PVal α) = val (a + b) := rfl
theorem val_mul_val [Mul α] (a b : α) : (val a * val b : PVal α) = val (a * b) := rfl
theorem val_div_val [Div α] [Zero α] [DecidableEq α] (a b : α) :
    (val a / val b : PVal α) = if b = 0 then undef else val (a / b) := rfl
theorem undef_mul [Mul α] (x : PVal α) : (undef * x : PVal α) = undef := rfl
theorem neg_undef [Neg α] : (-(undef : PVal α)) = undef := rfl
theorem not_undef_le [LE α] (x : PVal α) : ¬ (undef ≤ x) := fun h => h
end PVal

/-- Counterexample to C3 as stated: for the zero Hessenberg column (`h = g = 0`)
with `RS[0] = 1` the routine divides by `sqrt 0 = 0`, the returned estimate has
no value and is not below `|RS[0]| = 1`. -/
theorem zeroColumn_estimate_undefined :
    ¬ ((GMRESUpdateHessenberg (PVal.map qsqrt) (PVal.map (fun x => |x|)) zeroColumnKSP 0).2
        ≤ PVal.map (fun x => |x|) (zeroColumnKSP.rs 0)) := by
  have h : (GMRESUpdateHessenberg (PVal.map qsqrt) (PVal.map (fun x => |x|)) zeroColumnKSP 0).2
      = PVal.undef := by
    simp [GMRESUpdateHessenberg, applyRotations, zeroColumnKSP, KSP.setCC, KSP.setSS, KSP.setRS,
      KSP.setHH, setAt, setAt2, PVal.map, qsqrt, PVal.val_add_val, PVal.val_mul_val,
      PVal.val_div_val, PVal.undef_mul, PVal.neg_undef]
  rw [h]
  exact PVal.not_undef_le _

/-! ## Cycle driver -/

section CycleLemmas
variable {S E : Type} [Add S] [Sub S] [Mul S] [Div S] [Neg S] [Zero S] [One S]
  [LT S] [DecidableRel (fun a b : S => a < b)] [DecidableEq S]

theorem cycleLoop_step (ext : Ext S E) (max_k max_it itsSoFar : Int) (l : Loop S E)
    (h : ext.converged l.ksp (l.it + itsSoFar) l.res = 0 ∧ (l.it : Int) < max_k ∧
      (l.it : Int) + itsSoFar < max_it) :
    cycleLoop ext max_k max_it itsSoFar l
      = cycleLoop ext max_k max_it itsSoFar (cycleBody ext itsSoFar
          { l with converged := ext.converged l.ksp (l.it + itsSoFar) l.res }) := by
  rw [cycleLoop]
  exact if_pos h

theorem cycleLoop_exit (ext : Ext S E) (max_k max_it itsSoFar : Int) (l : Loop S E)
    (h : ¬ (ext.converged l.ksp (l.it + itsSoFar) l.res = 0 ∧ (l.it : Int) < max_k ∧
      (l.it : Int) + itsSoFar < max_it)) :
    cycleLoop ext max_k max_it itsSoFar l
      = { l with converged := ext.converged l.ksp (l.it + itsSoFar) l.res } := by
  rw [cycleLoop]
  exact if_neg h

theorem cycleLoop_bounds (ext : Ext S E) (max_k max_it itsSoFar : Int) (l : Loop S E)
    (h1 : (l.it : Int) ≤ max_k) (h2 : (l.it : Int) + itsSoFar ≤ max_it) :
    ((cycleLoop ext max_k max_it itsSoFar l).it : Int) ≤ max_k ∧
    ((cycleLoop ext max_k max_it itsSoFar l).it : Int) + itsSoFar ≤ max_it := by
  induction l using cycleLoop.induct ext max_k max_it itsSoFar with
  | case1 l c hc ih =>
    rw [cycleLoop_step ext max_k max_it itsSoFar l hc]
    apply ih
    · show ((l.it + 1 : Nat) : Int) ≤ max_k
      omega
    · show ((l.it + 1 : Nat) : Int) + itsSoFar ≤ max_it
      omega
  | case2 l c hc =>
    rw [cycleLoop_exit ext max_k max_it itsSoFar l hc]
    exact ⟨h1, h2⟩

/-- The inner loop only advances the iteration index, and when the index has not
moved no pass of the body was made. -/
theorem cycleLoop_it_mono (ext : Ext S E) (max_k max_it itsSoFar : Int) (l : Loop S E) :
    l.it ≤ (cycleLoop ext max_k max_it itsSoFar l).it ∧
    ((cycleLoop ext max_k max_it itsSoFar l).it = l.it →
      cycleLoop ext max_k max_it itsSoFar l
        = { l with converged := ext.converged l.ksp (l.it + itsSoFar) l.res }) := by
  induction l using cycleLoop.induct ext max_k max_it itsSoFar with
  | case1 l c hc ih =>
    rw [cycleLoop_step ext max_k max_it itsSoFar l hc]
    have h : l.it + 1 ≤ (cycleLoop ext max_k max_it itsSoFar (cycleBody ext itsSoFar
          { l with converged := ext.converged l.ksp (l.it + itsSoFar) l.res })).it := ih.1
    exact ⟨by omega, fun he => by omega⟩
  | case2 l c hc =>
    rw [cycleLoop_exit ext max_k max_it itsSoFar l hc]
    exact ⟨le_rfl, fun _ => rfl⟩

/-- At the exit of the inner loop the flag `converged` holds the value of the
convergence test on the residual estimate of the exit state, and one of the
three loop conditions fails. -/
theorem cycleLoop_converged (ext : Ext S E) (max_k max_it itsSoFar : Int) (l : Loop S E) :
    let x := cycleLoop ext max_k max_it itsSoFar l
    x.converged = ext.converged x.ksp (x.it + itsSoFar) x.res ∧
    ¬ (x.converged = 0 ∧ (x.it : Int) < max_k ∧ (x.it : Int) + itsSoFar < max_it) := by
  induction l using cycleLoop.induct ext max_k max_it itsSoFar with
  | case1 l c hc ih =>
    rw [cycleLoop_step ext max_k max_it itsSoFar l hc]
    exact ih
  | case2 l c hc =>
    rw [cycleLoop_exit ext max_k max_it itsSoFar l hc]
    exact ⟨rfl, hc⟩

theorem recordHistory_vec (hl : Int) (st : KSP S E) (n : Int) (res : S) :
    (recordHistory hl st n res).1.vec = st.vec := by
  unfold recordHistory
  split
  · split <;> rfl
  · rfl

theorem cycle_zero_residual (ext : Ext S E) (itcount : Option Int) (itsSoFar restart : Int)
    (st : KSP S E) (h0 : ext.VecNorm (st.vec (VEC_VV 0)) = 0) :
    (GMREScycle ext itcount itsSoFar restart st).status = 0 ∧
    (GMREScycle ext itcount itsSoFar restart st).itcount = itcount.map (fun _ => 0) ∧
    (GMREScycle ext itcount itsSoFar restart st).ksp = st.setRS 0 0 ∧
    (GMREScycle ext itcount itsSoFar restart st).ksp.vec = st.vec ∧
    (GMREScycle ext itcount itsSoFar restart st).trace = [] := by
  simp [GMREScycle, h0, KSP.setRS]

theorem GMREScycle_of_ne (ext : Ext S E) (itcount : Option Int) (itsSoFar restart : Int)
    (st : KSP S E) (h0 : ext.VecNorm (st.vec (VEC_VV 0)) ≠ 0) :
    GMREScycle ext itcount itsSoFar restart st
      = cycleFinish ext itcount itsSoFar
          (cycleLoop ext st.max_k st.max_it itsSoFar (cycleInit ext restart st)) := by
  simp [GMREScycle, h0]

theorem cycleFinish_itcount (ext : Ext S E) (c : Int) (itsSoFar : Int) (l : Loop S E) :
    (cycleFinish ext (some c) itsSoFar l).itcount = some (l.it : Int) := by
  unfold cycleFinish
  simp only
  split <;> rfl

/-- C7. Cycle iteration bounds: the inner loop of `GMREScycle` is a total
function (it terminates for every context and every convergence test), and
for `max_k >= 0` and `0 <= itsSoFar <= max_it` the count the cycle reports
satisfies `0 <= itcount <= max_k` and `itcount + itsSoFar <= max_it`. -/
theorem GMREScycle_itcount_bounds (ext : Ext S E) (c : Int) (itsSoFar restart : Int)
    (st : KSP S E) (hk : 0 ≤ st.max_k) (hs : 0 ≤ itsSoFar) (hm : itsSoFar ≤ st.max_it) :
    ∃ n : Int, (GMREScycle ext (some c) itsSoFar restart st).itcount = some n ∧
      0 ≤ n ∧ n ≤ st.max_k ∧ n + itsSoFar ≤ st.max_it := by
  by_cases h0 : ext.VecNorm (st.vec (VEC_VV 0)) = 0
  · exact ⟨0, (cycle_zero_residual ext (some c) itsSoFar restart st h0).2.1, le_rfl, hk,
      by omega⟩
  · rw [GMREScycle_of_ne ext _ itsSoFar restart st h0, cycleFinish_itcount]
    have hb := cycleLoop_bounds ext st.max_k st.max_it itsSoFar (cycleInit ext restart st)
      (by show ((0 : Nat) : Int) ≤ st.max_k; omega)
      (by show ((0 : Nat) : Int) + itsSoFar ≤ st.max_it; omega)
    exact ⟨_, rfl, by omega, hb.1, hb.2⟩

theorem recordHistory_quiet (hl : Int) (st : KSP S E) (n : Int) (res : S) :
    quiet (recordHistory hl st n res).2 := by
  unfold recordHistory quiet
  split
  · split <;> simp [Event.isUpdate, Event.isBuildSoln]
  · simp

theorem callMonitor_quiet (st : KSP S E) (it : Nat) (n : Int) (res : S) :
    quiet (callMonitor st it n res).2 := by
  unfold callMonitor quiet
  split <;> simp [Event.isUpdate, Event.isBuildSoln]

theorem callMonitor_vec (st : KSP S E) (it : Nat) (n : Int) (res : S) :
    (callMonitor st it n res).1.vec = st.vec := by
  unfold callMonitor
  split <;> rfl

theorem MATOP_quiet (ext : Ext S E) (st : KSP S E) (a b tmp : Vec) :
    quiet (MATOP ext st a b tmp).2 := by
  unfold MATOP quiet
  split <;> simp [Event.isUpdate, Event.isBuildSoln]

theorem cycleNormalize_quiet (ext : Ext S E) (st : KSP S E) (it : Nat) :
    quiet (cycleNormalize ext st it).2 := by
  unfold cycleNormalize quiet
  simp only
  split <;> simp [Event.isUpdate, Event.isBuildSoln]

theorem quiet_append {a b : List (Event S)} (ha : quiet a) (hb : quiet b) : quiet (a ++ b) := by
  intro e he
  rcases List.mem_append.mp he with h | h
  · exact ha e h
  · exact hb e h

theorem quiet_countP {a : List (Event S)} (ha : quiet a) :
    a.countP Event.isUpdate = 0 ∧ a.countP Event.isBuildSoln = 0 := by
  constructor
  · rw [List.countP_eq_zero]; intro e he; simp [(ha e he).1]
  · rw [List.countP_eq_zero]; intro e he; simp [(ha e he).2]

theorem cycleArnoldi_quiet (ext : Ext S E) (itsSoFar : Int) (l : Loop S E) :
    quiet (cycleArnoldi ext itsSoFar l).2 := by
  simp only [cycleArnoldi]
  refine quiet_append (quiet_append (quiet_append (quiet_append
      (recordHistory_quiet _ _ _ _) (callMonitor_quiet _ _ _ _)) ?_) (MATOP_quiet _ _ _ _ _)) ?_
  · intro e he
    split at he <;> simp at he
    simp [he, Event.isUpdate, Event.isBuildSoln]
  · intro e he
    simp at he
    simp [he, Event.isUpdate, Event.isBuildSoln]

/-- One pass of the loop body appends calls that end with one QR update and
contain no other QR update and no reconstruction. -/
theorem cycleBody_trace (ext : Ext S E) (itsSoFar : Int) (l : Loop S E) :
    ∃ mid, quiet mid ∧
      (cycleBody ext itsSoFar l).trace = l.trace ++ mid ++ [Event.update l.it] :=
  ⟨(cycleArnoldi ext itsSoFar l).2 ++ (cycleNormalize ext (cycleArnoldi ext itsSoFar l).1 l.it).2,
    quiet_append (cycleArnoldi_quiet _ _ _) (cycleNormalize_quiet _ _ _),
    by simp only [cycleBody, List.append_assoc]⟩

theorem cycleLoop_trace (ext : Ext S E) (max_k max_it itsSoFar : Int) (l : Loop S E) :
    (cycleLoop ext max_k max_it itsSoFar l).trace.countP Event.isUpdate
        = l.trace.countP Event.isUpdate + ((cycleLoop ext max_k max_it itsSoFar l).it - l.it) ∧
    (cycleLoop ext max_k max_it itsSoFar l).trace.countP Event.isBuildSoln
        = l.trace.countP Event.isBuildSoln := by
  induction l using cycleLoop.induct ext max_k max_it itsSoFar with
  | case1 l c hc ih =>
    simp only [c] at hc ih
    rw [cycleLoop_step ext max_k max_it itsSoFar l hc]
    obtain ⟨mid, hq, ht⟩ := cycleBody_trace ext itsSoFar
      { l with converged := ext.converged l.ksp (l.it + itsSoFar) l.res }
    have hmono := (cycleLoop_it_mono ext max_k max_it itsSoFar (cycleBody ext itsSoFar
      { l with converged := ext.converged l.ksp (l.it + itsSoFar) l.res })).1
    have hit : (cycleBody ext itsSoFar
      { l with converged := ext.converged l.ksp (l.it + itsSoFar) l.res }).it = l.it + 1 := rfl
    rw [ih.1, ih.2, ht, hit]
    rw [hit] at hmono
    simp only [List.countP_append, (quiet_countP hq).1, (quiet_countP hq).2, List.countP_cons,
      List.countP_nil, Event.isUpdate, Event.isBuildSoln]
    constructor
    · simp; omega
    · simp
  | case2 l c hc =>
    rw [cycleLoop_exit ext max_k max_it itsSoFar l hc]
    simp

theorem recordHistory_rs (hl : Int) (st : KSP S E) (n : Int) (res : S) :
    (recordHistory hl st n res).1.rs = st.rs := by
  unfold recordHistory
  split
  · split <;> rfl
  · rfl

theorem callMonitor_rs (st : KSP S E) (it : Nat) (n : Int) (res : S) :
    (callMonitor st it n res).1.rs = st.rs := by
  unfold callMonitor
  split <;> rfl

theorem recordHistory_hh (hl : Int) (st : KSP S E) (n : Int) (res : S) :
    (recordHistory hl st n res).1.hh = st.hh := by
  unfold recordHistory
  split
  · split <;> rfl
  · rfl

theorem callMonitor_hh (st : KSP S E) (it : Nat) (n : Int) (res : S) :
    (callMonitor st it n res).1.hh = st.hh := by
  unfold callMonitor
  split <;> rfl

theorem cycleTally_quiet (itsSoFar : Int) (l : Loop S E) : quiet (cycleTally itsSoFar l).2 :=
  quiet_append (recordHistory_quiet _ _ _ _) (callMonitor_quiet _ _ _ _)

theorem cycleTally_vec (itsSoFar : Int) (l : Loop S E) :
    (cycleTally itsSoFar l).1.vec = l.ksp.vec := by
  simp only [cycleTally]
  rw [callMonitor_vec]
  split
  · exact recordHistory_vec _ _ _ _
  · exact recordHistory_vec _ _ _ _

/-- The bookkeeping after the loop leaves the vectors, `HH` and `RS` as the
loop left them. -/
theorem cycleTally_frame (itsSoFar : Int) (l : Loop S E) :
    (cycleTally itsSoFar l).1.vec = l.ksp.vec ∧ (cycleTally itsSoFar l).1.hh = l.ksp.hh ∧
    (cycleTally itsSoFar l).1.rs = l.ksp.rs := by
  refine ⟨cycleTally_vec itsSoFar l, ?_, ?_⟩
  · simp only [cycleTally]
    rw [callMonitor_hh]
    split
    · exact recordHistory_hh _ _ _ _
    · exact recordHistory_hh _ _ _ _
  · simp only [cycleTally]
    rw [callMonitor_rs]
    split
    · exact recordHistory_rs _ _ _ _
    · exact recordHistory_rs _ _ _ _

theorem cycleFinish_zero (ext : Ext S E) (c : Option Int) (itsSoFar : Int) (l : Loop S E)
    (h : l.it = 0) :
    (cycleFinish ext c itsSoFar l).status = 0 ∧
    (cycleFinish ext c itsSoFar l).ksp.vec = l.ksp.vec ∧
    ∃ tail, quiet tail ∧ (cycleFinish ext c itsSoFar l).trace = l.trace ++ tail := by
  have h0 : ((l.it : Nat) : Int) = 0 := by omega
  simp only [cycleFinish, h0, if_true]
  exact ⟨trivial, cycleTally_vec _ _, _, cycleTally_quiet itsSoFar l, rfl⟩

theorem cycleFinish_pos (ext : Ext S E) (c : Option Int) (itsSoFar : Int) (l : Loop S E)
    (h : 1 ≤ l.it) :
    (cycleFinish ext c itsSoFar l).status = (if l.converged = 0 then 1 else 0) ∧
    ∃ pre tail, quiet tail ∧
      (cycleFinish ext c itsSoFar l).trace
        = l.trace ++ tail ++ [Event.buildSoln ((l.it : Int) - 1)] ∧
      (cycleFinish ext c itsSoFar l).ksp
        = BuildGmresSoln ext Buf.rsArea VEC_SOLN VEC_SOLN pre ((l.it : Int) - 1) ∧
      pre.vec = l.ksp.vec ∧ pre.hh = l.ksp.hh ∧ pre.rs = l.ksp.rs := by
  have h0 : ¬ ((l.it : Nat) : Int) = 0 := by omega
  simp only [cycleFinish, h0, if_false]
  exact ⟨trivial, _, _, cycleTally_quiet itsSoFar l, rfl, rfl, cycleTally_frame itsSoFar l⟩

/-- The status of a cycle with nonzero initial residual: 0 when the loop made
no pass, and otherwise 1 exactly when the flag `converged` is 0 at the loop
exit. -/
theorem cycle_status (ext : Ext S E) (c : Option Int) (itsSoFar restart : Int) (st : KSP S E)
    (h0 : ext.VecNorm (st.vec (VEC_VV 0)) ≠ 0) :
    (GMREScycle ext c itsSoFar restart st).status
      = if (cycleLoop ext st.max_k st.max_it itsSoFar (cycleInit ext restart st)).it = 0 then 0
        else if (cycleLoop ext st.max_k st.max_it itsSoFar (cycleInit ext restart st)).converged
          = 0 then 1 else 0 := by
  rw [GMREScycle_of_ne ext c itsSoFar restart st h0]
  by_cases hz : (cycleLoop ext st.max_k st.max_it itsSoFar (cycleInit ext restart st)).it = 0
  · rw [if_pos hz]
    exact (cycleFinish_zero ext c itsSoFar _ hz).1
  · rw [if_neg hz]
    exact (cycleFinish_pos ext c itsSoFar _ (Nat.one_le_iff_ne_zero.mpr hz)).1

theorem cycleInit_vec_soln (ext : Ext S E) (restart : Int) (st : KSP S E) :
    (cycleInit ext restart st).ksp.vec VEC_SOLN = st.vec VEC_SOLN := by
  simp only [cycleInit]
  split <;> simp [KSP.setVec, KSP.setRS, VEC_SOLN, VEC_VV]

/-- C8. Reconstruction happens iff work was done: with `n` the reported count,
which is the number of QR updates the cycle made, a cycle with `n = 0` makes
no call of `BuildGmresSoln`, leaves the solution vector as it was and returns
0, and a cycle with `n >= 1` ends, whatever stopped the loop, with one call
`BuildGmresSoln(RS(0), VEC_SOLN, VEC_SOLN, itP, n - 1)`, applied to the
vectors, `HH` and `RS` that the inner loop left, whose result is the context
the cycle returns. -/
theorem GMREScycle_reconstruction (ext : Ext S E) (c : Int) (itsSoFar restart : Int)
    (st : KSP S E) :
    ∃ n : Nat,
      (GMREScycle ext (some c) itsSoFar restart st).itcount = some (n : Int) ∧
      (GMREScycle ext (some c) itsSoFar restart st).trace.countP Event.isUpdate = n ∧
      (n = 0 →
        (GMREScycle ext (some c) itsSoFar restart st).trace.countP Event.isBuildSoln = 0 ∧
        (GMREScycle ext (some c) itsSoFar restart st).ksp.vec VEC_SOLN = st.vec VEC_SOLN ∧
        (GMREScycle ext (some c) itsSoFar restart st).status = 0) ∧
      (1 ≤ n →
        ∃ pre tr, tr.countP Event.isBuildSoln = 0 ∧
          (GMREScycle ext (some c) itsSoFar restart st).trace
            = tr ++ [Event.buildSoln ((n : Int) - 1)] ∧
          (GMREScycle ext (some c) itsSoFar restart st).ksp
            = BuildGmresSoln ext Buf.rsArea VEC_SOLN VEC_SOLN pre ((n : Int) - 1) ∧
          pre.vec = (cycleLoop ext st.max_k st.max_it itsSoFar (cycleInit ext restart st)).ksp.vec ∧
          pre.hh = (cycleLoop ext st.max_k st.max_it itsSoFar (cycleInit ext restart st)).ksp.hh ∧
          pre.rs = (cycleLoop ext st.max_k st.max_it itsSoFar (cycleInit ext restart st)).ksp.rs) := by
  by_cases h0 : ext.VecNorm (st.vec (VEC_VV 0)) = 0
  · obtain ⟨h1, h2, _, h4, h5⟩ := cycle_zero_residual ext (some c) itsSoFar restart st h0
    refine ⟨0, h2, by rw [h5]; rfl, fun _ => ⟨by rw [h5]; rfl, by rw [h4], h1⟩, fun h => ?_⟩
    omega
  · rw [GMREScycle_of_ne ext _ itsSoFar restart st h0]
    have htr := cycleLoop_trace ext st.max_k st.max_it itsSoFar (cycleInit ext restart st)
    have hmono := cycleLoop_it_mono ext st.max_k st.max_it itsSoFar (cycleInit ext restart st)
    have hi : (cycleInit ext restart st).it = 0 := rfl
    have hu : (cycleInit ext restart st).trace.countP Event.isUpdate = 0 := rfl
    have hb : (cycleInit ext restart st).trace.countP Event.isBuildSoln = 0 := rfl
    rw [hi, hu, hb] at htr
    rw [hi] at hmono
    refine ⟨(cycleLoop ext st.max_k st.max_it itsSoFar (cycleInit ext restart st)).it,
      cycleFinish_itcount _ _ _ _, ?_, ?_, ?_⟩
    · by_cases hz : (cycleLoop ext st.max_k st.max_it itsSoFar (cycleInit ext restart st)).it = 0
      · obtain ⟨_, _, tail, hq, ht⟩ := cycleFinish_zero ext (some c) itsSoFar _ hz
        rw [ht, List.countP_append, htr.1, (quiet_countP hq).1]
        omega
      · obtain ⟨_, pre, tail, hq, ht, _⟩ := cycleFinish_pos ext (some c) itsSoFar _
          (Nat.one_le_iff_ne_zero.mpr hz)
        rw [ht, List.countP_append, List.countP_append, htr.1, (quiet_countP hq).1]
        simp [Event.isUpdate]
    · intro hz
      obtain ⟨hs, hv, tail, hq, ht⟩ := cycleFinish_zero ext (some c) itsSoFar _ hz
      refine ⟨?_, ?_, hs⟩
      · rw [ht, List.countP_append, htr.2, (quiet_countP hq).2]
      · rw [hv, hmono.2 hz]
        exact cycleInit_vec_soln ext restart st
    · intro hp
      obtain ⟨_, pre, tail, hq, ht, hk, hf⟩ := cycleFinish_pos ext (some c) itsSoFar _ hp
      refine ⟨pre, _, ?_, ht, hk, hf⟩
      rw [List.countP_append, htr.2, (quiet_countP hq).2]
end CycleLemmas

/-! ## Rotations and the QR factorization -/

section RotLemmas
variable {R : Type} [CommRing R]

theorem givens_high (c s : R) (j : Nat) (w : Nat → R) {i : Nat} (h : j + 1 < i) :
    givens c s j w i = w i := by
  simp only [givens]
  rw [if_neg (by omega), if_neg (by omega)]

theorem givens_low (c s : R) (j : Nat) (w : Nat → R) {i : Nat} (h : i < j) :
    givens c s j w i = w i := by
  simp only [givens]
  rw [if_neg (by omega), if_neg (by omega)]

theorem rotSeq_high (c s : Nat → R) (n : Nat) (w : Nat → R) {i : Nat} (h : n < i) :
    rotSeq c s n w i = w i := by
  induction n with
  | zero => rfl
  | succ n ih =>
    simp only [rotSeq]
    rw [givens_high _ _ _ _ (by omega), ih (by omega)]

/-- The rotations `0 .. n-1` only read the coordinates `0 .. n`. -/
theorem rotSeq_local (c s : Nat → R) (n N : Nat) (w w' : Nat → R) (hn : n ≤ N)
    (h : ∀ i, i ≤ N → w i = w' i) : ∀ i, i ≤ N → rotSeq c s n w i = rotSeq c s n w' i := by
  induction n with
  | zero => exact h
  | succ n ih =>
    intro i hi
    have ih' := ih (by omega)
    simp only [rotSeq, givens]
    rw [ih' n (by omega), ih' (n + 1) (by omega), ih' i hi]

/-- The rotations `0 .. n-1` only depend on the first `n` cosines and sines. -/
theorem rotSeq_congr (c s c' s' : Nat → R) (n : Nat) (hc : ∀ j, j < n → c j = c' j)
    (hs : ∀ j, j < n → s j = s' j) (w : Nat → R) : rotSeq c s n w = rotSeq c' s' n w := by
  induction n with
  | zero => rfl
  | succ n ih =>
    simp only [rotSeq]
    rw [ih (fun j hj => hc j (by omega)) (fun j hj => hs j (by omega)), hc n (by omega),
      hs n (by omega)]

theorem givens_lincomb (c s : R) (j : Nat) (b : Nat → R) (u : Nat → Nat → R) (z : Nat → R)
    (m : Nat) (i : Nat) :
    givens c s j (fun i => b i - ∑ k in Finset.range m, z k * u k i) i
      = givens c s j b i - ∑ k in Finset.range m, z k * givens c s j (u k) i := by
  simp only [givens]
  split
  · simp only [Finset.mul_sum, ← Finset.sum_add_distrib, mul_sub]
    rw [sub_add_sub_comm, ← Finset.sum_add_distrib]
    congr 1
    exact Finset.sum_congr rfl (fun k _ => by ring)
  · split
    · simp only [Finset.mul_sum, mul_sub]
      rw [sub_sub_sub_comm, ← Finset.sum_sub_distrib]
      congr 1
      exact Finset.sum_congr rfl (fun k _ => by ring)
    · rfl

theorem rotSeq_lincomb (c s : Nat → R) (n : Nat) (b : Nat → R) (u : Nat → Nat → R)
    (z : Nat → R) (m : Nat) :
    rotSeq c s n (fun i => b i - ∑ k in Finset.range m, z k * u k i)
      = fun i => rotSeq c s n b i - ∑ k in Finset.range m, z k * rotSeq c s n (u k) i := by
  induction n with
  | zero => rfl
  | succ n ih =>
    simp only [rotSeq]
    rw [ih]
    funext i
    exact givens_lincomb _ _ _ _ _ _ _ _

/-- A plane rotation preserves the sum of squares of the first `N` coordinates. -/
theorem givens_sq_sum (c s : R) (hcs : c ^ 2 + s ^ 2 = 1) (j N : Nat) (hN : j + 2 ≤ N)
    (w : Nat → R) :
    ∑ i in Finset.range N, (givens c s j w i) ^ 2 = ∑ i in Finset.range N, (w i) ^ 2 := by
  obtain ⟨d, rfl⟩ := Nat.exists_eq_add_of_le hN
  induction d with
  | zero =>
    rw [Nat.add_zero, Finset.sum_range_succ, Finset.sum_range_succ, Finset.sum_range_succ,
      Finset.sum_range_succ]
    have hlow : ∑ i in Finset.range j, (givens c s j w i) ^ 2 = ∑ i in Finset.range j, (w i) ^ 2 :=
      Finset.sum_congr rfl (fun i hi => by
        rw [givens_low _ _ _ _ (Finset.mem_range.mp hi)])
    rw [hlow]
    have h1 : givens c s j w j = c * w j + s * w (j + 1) := by simp [givens]
    have h2 : givens c s j w (j + 1) = c * w (j + 1) - s * w j := by simp [givens]
    rw [h1, h2, add_assoc, add_assoc]
    congr 1
    have : (c * w j + s * w (j + 1)) ^ 2 + (c * w (j + 1) - s * w j) ^ 2
        = (c ^ 2 + s ^ 2) * ((w j) ^ 2 + (w (j + 1)) ^ 2) := by ring
    rw [this, hcs, one_mul]
  | succ d ih =>
    rw [show j + 2 + (d + 1) = (j + 2 + d) + 1 from rfl, Finset.sum_range_succ,
      Finset.sum_range_succ, ih (by omega), givens_high _ _ _ _ (by omega)]

theorem rotSeq_sq_sum (c s : Nat → R) (n N : Nat) (hcs : ∀ j, j < n → (c j) ^ 2 + (s j) ^ 2 = 1)
    (hN : n + 1 ≤ N) (w : Nat → R) :
    ∑ i in Finset.range N, (rotSeq c s n w i) ^ 2 = ∑ i in Finset.range N, (w i) ^ 2 := by
  induction n with
  | zero => rfl
  | succ n ih =>
    simp only [rotSeq]
    rw [givens_sq_sum _ _ (hcs n (by omega)) n N (by omega),
      ih (fun j hj => hcs j (by omega)) (by omega)]
end RotLemmas

section ColumnImage
variable {α E : Type} [Field α]

/-- Column `it` of `HH` after `n` passes of the rotation loop is the image of
the column on entry under the stored rotations `0 .. n-1`. -/
theorem applyRotations_col (it : Nat) (st : KSP α E) (n : Nat) (i : Nat) :
    (applyRotations it st n).hh i it = rotSeq st.cc st.ss n (fun r => st.hh r it) i := by
  induction n generalizing i with
  | zero => rfl
  | succ n ih =>
    obtain ⟨H, hH, _⟩ := applyRotations_frame it st n
    have hcc : (applyRotations it st n).cc = st.cc := by rw [hH]
    have hss : (applyRotations it st n).ss = st.ss := by rw [hH]
    simp only [applyRotations, rotSeq, givens, KSP.setHH, setAt2, hcc, hss]
    rw [← ih n, ← ih (n + 1), ← ih i]
    by_cases h1 : i = n
    · subst h1
      simp
    · by_cases h2 : i = n + 1
      · subst h2
        simp
      · simp [h1, h2]
end ColumnImage

section UpdateValues
variable {E : Type}

/-- The values the QR update of column `it` stores, in terms of the rotated
diagonal entry `h`, the sub-diagonal entry `g` and `t = sqrt (h^2 + g^2)`. -/
theorem update_values (st : KSP ℝ E) (it : Nat) :
    (GMRESUpdateHessenberg Real.sqrt (fun x => |x|) st it).1.cc it
      = (applyRotations it st it).hh it it
        / Real.sqrt (((applyRotations it st it).hh it it) ^ 2 + (st.hh (it + 1) it) ^ 2) ∧
    (GMRESUpdateHessenberg Real.sqrt (fun x => |x|) st it).1.ss it
      = st.hh (it + 1) it
        / Real.sqrt (((applyRotations it st it).hh it it) ^ 2 + (st.hh (it + 1) it) ^ 2) ∧
    (GMRESUpdateHessenberg Real.sqrt (fun x => |x|) st it).1.rs it
      = (GMRESUpdateHessenberg Real.sqrt (fun x => |x|) st it).1.cc it * st.rs it ∧
    (GMRESUpdateHessenberg Real.sqrt (fun x => |x|) st it).1.rs (it + 1)
      = -((GMRESUpdateHessenberg Real.sqrt (fun x => |x|) st it).1.ss it * st.rs it) ∧
    (GMRESUpdateHessenberg Real.sqrt (fun x => |x|) st it).1.hh it it
      = (GMRESUpdateHessenberg Real.sqrt (fun x => |x|) st it).1.cc it
          * (applyRotations it st it).hh it it
        + (GMRESUpdateHessenberg Real.sqrt (fun x => |x|) st it).1.ss it * st.hh (it + 1) it ∧
    (∀ i, i ≠ it → (GMRESUpdateHessenberg Real.sqrt (fun x => |x|) st it).1.hh i it
      = (applyRotations it st it).hh i it) ∧
    (GMRESUpdateHessenberg Real.sqrt (fun x => |x|) st it).2
      = |(GMRESUpdateHessenberg Real.sqrt (fun x => |x|) st it).1.rs (it + 1)| := by
  obtain ⟨H, hH, hfr⟩ := applyRotations_frame it st it
  have hg : H (it + 1) it = st.hh (it + 1) it := hfr _ _ (Or.inr (Nat.lt_succ_self it))
  rw [hH]
  refine ⟨?_, ?_, ?_, ?_, ?_, ?_, ?_⟩
  all_goals simp [GMRESUpdateHessenberg, hH, KSP.setCC, KSP.setSS, KSP.setRS, KSP.setHH, setAt,
    setAt2, hg, sq]
  intro i hi
  simp [hi]
end UpdateValues

section UpdateFrame
variable {S E : Type} [Add S] [Sub S] [Mul S] [Div S] [Neg S]

/-- Frame of the QR update: the vectors and `HES` are untouched, `HH` changes
only in rows `0 .. it` of column `it`, `CC` and `SS` only at index `it`, and
`RS` only at the indices `it` and `it + 1`. -/
theorem GMRESUpdateHessenberg_frame (sqrt fabs : S → S) (st : KSP S E) (it : Nat) :
    (GMRESUpdateHessenberg sqrt fabs st it).1.vec = st.vec ∧
    (GMRESUpdateHessenberg sqrt fabs st it).1.hes = st.hes ∧
    (∀ r c, (c ≠ it ∨ it < r) → (GMRESUpdateHessenberg sqrt fabs st it).1.hh r c = st.hh r c) ∧
    (∀ k, k ≠ it → (GMRESUpdateHessenberg sqrt fabs st it).1.cc k = st.cc k) ∧
    (∀ k, k ≠ it → (GMRESUpdateHessenberg sqrt fabs st it).1.ss k = st.ss k) ∧
    (∀ k, k ≠ it → k ≠ it + 1 → (GMRESUpdateHessenberg sqrt fabs st it).1.rs k = st.rs k) := by
  obtain ⟨H, hH, hfr⟩ := applyRotations_frame it st it
  simp only [GMRESUpdateHessenberg, hH, KSP.setCC, KSP.setSS, KSP.setRS, KSP.setHH]
  refine ⟨trivial, trivial, fun r c h => ?_, fun k h => ?_, fun k h => ?_, fun k h1 h2 => ?_⟩
  · simp only [setAt2]
    rw [if_neg (by omega)]
    exact hfr r c h
  · simp only [setAt, if_neg h]
  · simp only [setAt, if_neg h]
  · simp only [setAt, if_neg h1, if_neg h2]
end UpdateFrame

section HappyBreakdown
variable {α E : Type} [LinearOrderedField α]

theorem happyBound_eq_min (ext : Ext α E) (hfabs : ∀ x, ext.fabs x = |x|) (st : KSP α E)
    (it : Nat) :
    happyBound ext st it = min (st.epsabs * |st.hh it it / st.rs it|) st.haptol := by
  simp only [happyBound, hfabs]
  split
  · rename_i h
    exact (min_eq_right (le_of_lt h)).symm
  · rename_i h
    exact (min_eq_left (not_lt.mp h)).symm

/-- C10. Happy-breakdown test: in one pass of the inner loop, with `tt` the norm
of `V[it+1]` after the orthogonalization, the pass leaves `tt` in `HH[it+1,it]`
and in `HES[it+1,it]`, its bound `hapbnd` is
`min (epsabs * |HH[it,it] / RS[it]|) haptol`, and `V[it+1]` is scaled by `1/tt`
when `tt > hapbnd` and left as it is, like every other vector, when
`tt <= hapbnd`. -/
theorem GMREScycle_happy_breakdown_test (ext : Ext α E) (hfabs : ∀ x, ext.fabs x = |x|) (itsSoFar : Int)
    (l : Loop α E) :
    (cycleBody ext itsSoFar l).ksp.hh (l.it + 1) l.it
      = ext.VecNorm ((cycleArnoldi ext itsSoFar l).1.vec (VEC_VV (l.it + 1))) ∧
    (cycleBody ext itsSoFar l).ksp.hes (l.it + 1) l.it
      = ext.VecNorm ((cycleArnoldi ext itsSoFar l).1.vec (VEC_VV (l.it + 1))) ∧
    happyBound ext
        (((cycleArnoldi ext itsSoFar l).1.setHH (l.it + 1) l.it
            (ext.VecNorm ((cycleArnoldi ext itsSoFar l).1.vec (VEC_VV (l.it + 1))))).setHES
          (l.it + 1) l.it
            (ext.VecNorm ((cycleArnoldi ext itsSoFar l).1.vec (VEC_VV (l.it + 1))))) l.it
      = min ((cycleArnoldi ext itsSoFar l).1.epsabs *
          |(cycleArnoldi ext itsSoFar l).1.hh l.it l.it / (cycleArnoldi ext itsSoFar l).1.rs l.it|)
          (cycleArnoldi ext itsSoFar l).1.haptol ∧
    (min ((cycleArnoldi ext itsSoFar l).1.epsabs *
          |(cycleArnoldi ext itsSoFar l).1.hh l.it l.it / (cycleArnoldi ext itsSoFar l).1.rs l.it|)
          (cycleArnoldi ext itsSoFar l).1.haptol
        < ext.VecNorm ((cycleArnoldi ext itsSoFar l).1.vec (VEC_VV (l.it + 1))) →
      (cycleBody ext itsSoFar l).ksp.vec (VEC_VV (l.it + 1))
        = ext.VecScale (1 / ext.VecNorm ((cycleArnoldi ext itsSoFar l).1.vec (VEC_VV (l.it + 1))))
            ((cycleArnoldi ext itsSoFar l).1.vec (VEC_VV (l.it + 1)))) ∧
    (ext.VecNorm ((cycleArnoldi ext itsSoFar l).1.vec (VEC_VV (l.it + 1)))
        ≤ min ((cycleArnoldi ext itsSoFar l).1.epsabs *
          |(cycleArnoldi ext itsSoFar l).1.hh l.it l.it / (cycleArnoldi ext itsSoFar l).1.rs l.it|)
          (cycleArnoldi ext itsSoFar l).1.haptol →
      (cycleBody ext itsSoFar l).ksp.vec = (cycleArnoldi ext itsSoFar l).1.vec) := by
  generalize hA : (cycleArnoldi ext itsSoFar l).1 = a
  generalize htt : ext.VecNorm (a.vec (VEC_VV (l.it + 1))) = tt
  have hb : happyBound ext ((a.setHH (l.it + 1) l.it tt).setHES (l.it + 1) l.it tt) l.it
      = min (a.epsabs * |a.hh l.it l.it / a.rs l.it|) a.haptol := by
    rw [happyBound_eq_min ext hfabs]
    simp [KSP.setHH, KSP.setHES, setAt2]
  obtain ⟨fv, fhes, fhh, _, _, _⟩ := GMRESUpdateHessenberg_frame ext.sqrt ext.fabs
    (cycleNormalize ext a l.it).1 l.it
  have hks : (cycleBody ext itsSoFar l).ksp.vec = (cycleNormalize ext a l.it).1.vec ∧
      (cycleBody ext itsSoFar l).ksp.hes = (cycleNormalize ext a l.it).1.hes ∧
      (cycleBody ext itsSoFar l).ksp.hh (l.it + 1) l.it
        = (cycleNormalize ext a l.it).1.hh (l.it + 1) l.it := by
    simp only [cycleBody, hA]
    exact ⟨fv, fhes, fhh _ _ (Or.inr (Nat.lt_succ_self _))⟩
  rw [hks.1, hks.2.1, hks.2.2]
  simp only [cycleNormalize, htt, hb]
  refine ⟨?_, ?_, trivial, ?_, ?_⟩
  · split <;> simp [KSP.setHH, KSP.setHES, KSP.setVec, setAt2]
  · split <;> simp [KSP.setHH, KSP.setHES, KSP.setVec, setAt2]
  · intro h
    rw [if_pos h]
    simp [KSP.setHH, KSP.setHES, KSP.setVec]
  · intro h
    rw [if_neg (not_lt.mpr h)]
    rfl
end HappyBreakdown


section Invariant
variable {E : Type}

theorem qrInv_step (H : Nat → Nat → ℝ) (beta : ℝ) (K : Nat) (s : KSP ℝ E)
    (hinv : qrInv H beta K s)
    (hnd : ((applyRotations K (loadColumn H s K) K).hh K K) ^ 2 + (H (K + 1) K) ^ 2 ≠ 0) :
    qrInv H beta (K + 1)
      (GMRESUpdateHessenberg Real.sqrt (fun x => |x|) (loadColumn H s K) K).1 := by
  obtain ⟨i1, i2, i3, i4⟩ := hinv
  obtain ⟨_, _, fhh, fcc, fss, frs⟩ :=
    GMRESUpdateHessenberg_frame Real.sqrt (fun x => |x|) (loadColumn H s K) K
  have hLsub : (loadColumn H s K).hh (K + 1) K = H (K + 1) K := by simp [loadColumn]
  obtain ⟨vcc, vss, vrs, vrs1, vhh, vcol, _⟩ := update_values (loadColumn H s K) K
  rw [hLsub] at vcc vss vhh
  have hLrs : (loadColumn H s K).rs = s.rs := rfl
  rw [hLrs] at vrs vrs1
  -- the rotated column
  have hA : ∀ i, i ≤ K + 1 → (applyRotations K (loadColumn H s K) K).hh i K
      = rotSeq s.cc s.ss K (hessColumn H K) i := by
    intro i hi
    rw [applyRotations_col]
    exact rotSeq_local _ _ K (K + 1) _ _ (by omega)
      (fun r hr => by simp [loadColumn, hessColumn, hr]) i hi
  have hAsub : rotSeq s.cc s.ss K (hessColumn H K) (K + 1) = H (K + 1) K := by
    rw [rotSeq_high _ _ _ _ (Nat.lt_succ_self K)]
    simp [hessColumn]
  generalize hs' : (GMRESUpdateHessenberg Real.sqrt (fun x => |x|) (loadColumn H s K) K).1 = s'
    at *
  generalize hh : (applyRotations K (loadColumn H s K) K).hh K K = h at *
  set g := H (K + 1) K with hg
  have hsum_pos : 0 < h ^ 2 + g ^ 2 := lt_of_le_of_ne (by positivity) (Ne.symm hnd)
  have ht : Real.sqrt (h ^ 2 + g ^ 2) ≠ 0 := (Real.sqrt_pos.mpr hsum_pos).ne'
  have htsq : Real.sqrt (h ^ 2 + g ^ 2) ^ 2 = h ^ 2 + g ^ 2 := Real.sq_sqrt hsum_pos.le
  generalize Real.sqrt (h ^ 2 + g ^ 2) = t at *
  have hcc' : ∀ j, j < K → s'.cc j = s.cc j := fun j hj => fcc j (by omega)
  have hss' : ∀ j, j < K → s'.ss j = s.ss j := fun j hj => fss j (by omega)
  have hrot : ∀ w, rotSeq s'.cc s'.ss (K + 1) w
      = givens (h / t) (g / t) K (rotSeq s.cc s.ss K w) := by
    intro w
    simp only [rotSeq]
    rw [rotSeq_congr s'.cc s'.ss s.cc s.ss K hcc' hss', vcc, vss]
  have hcol : ∀ r c, c ≠ K → s'.hh r c = s.hh r c := by
    intro r c hc
    rw [fhh r c (Or.inl hc)]
    simp [loadColumn, hc]
  refine ⟨?_, ?_, ?_, ?_⟩
  · intro j hj
    by_cases hjK : j = K
    · subst hjK
      rw [vcc, vss, div_pow, div_pow, ← add_div, htsq]
      exact div_self hnd
    · rw [hcc' j (by omega), hss' j (by omega)]
      exact i1 j (by omega)
  · intro i
    rw [hrot]
    simp only [givens, i2]
    by_cases h1 : i = K
    · subst h1
      simp [vrs, vcc]
    · by_cases h2 : i = K + 1
      · subst h2
        simp [vrs1, vss]
      · simp only [h1, h2, if_false]
        by_cases h3 : i ≤ K
        · rw [if_pos h3, if_pos (by omega), frs i h1 h2, hLrs]
        · rw [if_neg h3, if_neg (by omega)]
  · intro j hj i
    rw [hrot]
    by_cases hjK : j = K
    · subst hjK
      simp only [givens]
      by_cases h1 : i = j
      · subst h1
        rw [if_pos rfl, if_pos le_rfl, hAsub, ← hA i (by omega), hh, vhh, vcc, vss]
      · by_cases h2 : i = j + 1
        · subst h2
          rw [if_neg h1, if_pos rfl, if_neg (by omega), hAsub, ← hA j (by omega), hh]
          field_simp
          ring
        · rw [if_neg h1, if_neg h2]
          by_cases h3 : i ≤ j
          · rw [if_pos h3, ← hA i (by omega), vcol i h1]
          · rw [if_neg h3, rotSeq_high _ _ _ _ (by omega)]
            simp only [hessColumn]
            rw [if_neg (by omega)]
    · have hjlt : j < K := by omega
      simp only [givens, i3 j hjlt]
      by_cases h1 : i = K
      · subst h1
        simp [show ¬ i ≤ j by omega, show ¬ i + 1 ≤ j by omega]
      · by_cases h2 : i = K + 1
        · subst h2
          simp [show ¬ K ≤ j by omega, show ¬ K + 1 ≤ j by omega]
        · simp only [h1, h2, if_false]
          rw [hcol i j hjK]
  · intro j hj
    by_cases hjK : j = K
    · subst hjK
      rw [vhh, vcc, vss]
      have : h / t * h + g / t * g = (h ^ 2 + g ^ 2) / t := by field_simp; ring
      rw [this]
      exact div_ne_zero hnd ht
    · rw [hcol j j hjK]
      exact i4 j (by omega)
end Invariant

section LeastSquares
variable {E : Type}

theorem qrUpdates_inv (H : Nat → Nat → ℝ) (beta : ℝ) (st : KSP ℝ E) (hrs : st.rs 0 = beta)
    (K : Nat)
    (hnd : ∀ j, j < K →
      ((applyRotations j (loadColumn H (qrUpdates Real.sqrt (fun x => |x|) H st j) j) j).hh j j) ^ 2
        + (H (j + 1) j) ^ 2 ≠ 0) :
    qrInv H beta K (qrUpdates Real.sqrt (fun x => |x|) H st K) := by
  induction K with
  | zero =>
    refine ⟨fun j hj => absurd hj (Nat.not_lt_zero j), fun i => ?_,
      fun j hj => absurd hj (Nat.not_lt_zero j), fun j hj => absurd hj (Nat.not_lt_zero j)⟩
    simp only [rotSeq, firstUnit, qrUpdates]
    by_cases hi : i = 0
    · subst hi
      simp [hrs]
    · rw [if_neg hi, if_neg (by omega)]
  | succ K ih =>
    exact qrInv_step H beta K _ (ih (fun j hj => hnd j (by omega))) (hnd K (Nat.lt_succ_self K))

theorem sum_range_ite_le (n i : Nat) (f : Nat → ℝ) :
    ∑ j in Finset.range (n + 1), (if i ≤ j then f j else 0) = ∑ j in Finset.Icc i n, f j := by
  rw [← Finset.sum_filter]
  apply Finset.sum_congr
  · ext j
    simp only [Finset.mem_filter, Finset.mem_range, Finset.mem_Icc]
    omega
  · intro _ _
    rfl

/-- The least-squares functional in triangular form: the sum of squares of
the residual coordinates splits into the residuals of the triangular system
and the square of the last entry of `RS`. -/
theorem lsResidual_sq_sum (H : Nat → Nat → ℝ) (beta : ℝ) (n : Nat) (s : KSP ℝ E)
    (hinv : qrInv H beta (n + 1) s) (z : Nat → ℝ) :
    ∑ i in Finset.range (n + 2), (lsResidual beta H (n + 1) z i) ^ 2
      = ∑ i in Finset.range (n + 1), (s.rs i - ∑ j in Finset.Icc i n, s.hh i j * z j) ^ 2
        + (s.rs (n + 1)) ^ 2 := by
  obtain ⟨i1, i2, i3, _⟩ := hinv
  rw [← rotSeq_sq_sum s.cc s.ss (n + 1) (n + 2) i1 le_rfl]
  have hrot : ∀ i, rotSeq s.cc s.ss (n + 1) (lsResidual beta H (n + 1) z) i
      = (if i ≤ n + 1 then s.rs i else 0)
        - ∑ j in Finset.range (n + 1), z j * (if i ≤ j then s.hh i j else 0) := by
    intro i
    have := congrFun (rotSeq_lincomb s.cc s.ss (n + 1) (firstUnit beta)
      (fun j => hessColumn H j) z (n + 1)) i
    have hl : lsResidual beta H (n + 1) z
        = fun i => firstUnit beta i - ∑ k in Finset.range (n + 1), z k * hessColumn H k i := rfl
    rw [hl, this, i2]
    congr 1
    exact Finset.sum_congr rfl (fun j hj => by rw [i3 j (Finset.mem_range.mp hj)])
  rw [Finset.sum_range_succ]
  congr 1
  · refine Finset.sum_congr rfl (fun i hi => ?_)
    have hi' : i < n + 1 := Finset.mem_range.mp hi
    rw [hrot, if_pos (by omega), ← sum_range_ite_le]
    congr 2
    refine Finset.sum_congr rfl (fun j _ => ?_)
    split <;> ring
  · rw [hrot, if_pos le_rfl]
    have hz : ∑ j in Finset.range (n + 1), z j * (if n + 1 ≤ j then s.hh (n + 1) j else 0) = 0 :=
      Finset.sum_eq_zero (fun j hj => by
        rw [if_neg (by have := Finset.mem_range.mp hj; omega), mul_zero])
    rw [hz, sub_zero]
end LeastSquares

/-! ## The residual in the Krylov basis -/

section Krylov
variable {E : Type} [NormedAddCommGroup E] [InnerProductSpace ℝ E]

/-- The squared norm of a combination of orthonormal vectors is the sum of the
squares of its coefficients. -/
theorem norm_sq_combination (V : Nat → E) (N : Nat)
    (horth : ∀ i j, i < N → j < N → (inner (V i) (V j) : ℝ) = if i = j then 1 else 0)
    (w : Nat → ℝ) :
    ‖∑ i in Finset.range N, w i • V i‖ ^ 2 = ∑ i in Finset.range N, (w i) ^ 2 := by
  rw [← real_inner_self_eq_norm_sq, sum_inner]
  refine Finset.sum_congr rfl (fun i hi => ?_)
  rw [inner_sum, Finset.sum_eq_single i]
  · rw [inner_smul_left, inner_smul_right,
      horth i i (Finset.mem_range.mp hi) (Finset.mem_range.mp hi), if_pos rfl]
    simp only [conj_trivial, mul_one]
    ring
  · intro j hj hji
    rw [inner_smul_left, inner_smul_right,
      horth i j (Finset.mem_range.mp hi) (Finset.mem_range.mp hj), if_neg (Ne.symm hji)]
    simp
  · intro h
    exact absurd hi h

theorem sum_hessColumn_smul (V : Nat → E) (H : Nat → Nat → ℝ) (n j : Nat) (hj : j ≤ n) :
    ∑ i in Finset.range (n + 2), hessColumn H j i • V i
      = ∑ i in Finset.range (j + 2), H i j • V i := by
  simp only [hessColumn, ite_smul, zero_smul]
  rw [← Finset.sum_filter]
  apply Finset.sum_congr
  · ext i
    simp only [Finset.mem_filter, Finset.mem_range]
    omega
  · intro _ _
    rfl

/-- The residual of the coefficients `z` expanded in the Krylov basis. -/
theorem residual_expansion (M : E →ₗ[ℝ] E) (r0 : E) (V : Nat → E) (H : Nat → Nat → ℝ) (n : Nat)
    (hr0 : r0 = ‖r0‖ • V 0)
    (harn : ∀ j, j ≤ n → M (V j) = ∑ i in Finset.range (j + 2), H i j • V i) (z : Nat → ℝ) :
    r0 - M (∑ j in Finset.range (n + 1), z j • V j)
      = ∑ i in Finset.range (n + 2), lsResidual ‖r0‖ H (n + 1) z i • V i := by
  simp only [lsResidual, sub_smul, Finset.sum_sub_distrib]
  congr 1
  · rw [Finset.sum_eq_single 0]
    · simp only [firstUnit, if_true]
      exact hr0
    · intro i _ hi
      simp [firstUnit, hi]
    · intro h
      exact absurd (Finset.mem_range.mpr (Nat.succ_pos _)) h
  · rw [map_sum]
    simp only [Finset.sum_smul, map_smul]
    rw [Finset.sum_comm]
    refine Finset.sum_congr rfl (fun j hj => ?_)
    have hj' : j ≤ n := by have := Finset.mem_range.mp hj; omega
    rw [harn j hj', ← sum_hessColumn_smul V H n j hj', Finset.smul_sum]
    exact Finset.sum_congr rfl (fun i _ => by rw [mul_smul])

/-- The residual norm of the coefficients `z` is the Euclidean norm of the
residual coordinates. -/
theorem residual_norm_sq (M : E →ₗ[ℝ] E) (r0 : E) (V : Nat → E) (H : Nat → Nat → ℝ) (n : Nat)
    (horth : ∀ i j, i ≤ n + 1 → j ≤ n + 1 → (inner (V i) (V j) : ℝ) = if i = j then 1 else 0)
    (hr0 : r0 = ‖r0‖ • V 0)
    (harn : ∀ j, j ≤ n → M (V j) = ∑ i in Finset.range (j + 2), H i j • V i) (z : Nat → ℝ) :
    ‖r0 - M (∑ j in Finset.range (n + 1), z j • V j)‖ ^ 2
      = ∑ i in Finset.range (n + 2), (lsResidual ‖r0‖ H (n + 1) z i) ^ 2 := by
  rw [residual_expansion M r0 V H n hr0 harn z]
  exact norm_sq_combination V (n + 2) (fun i j hi hj => horth i j (by omega) (by omega)) _

/-- The residual estimate of the amended claim: equality for the coefficients
of the back-substitution and minimality. -/
theorem estimate_is_residual (M : E →ₗ[ℝ] E) (r0 : E) (V : Nat → E) (H : Nat → Nat → ℝ)
    (st : KSP ℝ E) (p : Buf) (n : Nat)
    (horth : ∀ i j, i ≤ n + 1 → j ≤ n + 1 → (inner (V i) (V j) : ℝ) = if i = j then 1 else 0)
    (hr0 : r0 = ‖r0‖ • V 0) (hrs : st.rs 0 = ‖r0‖)
    (harn : ∀ j, j ≤ n → M (V j) = ∑ i in Finset.range (j + 2), H i j • V i)
    (hnd : ∀ j, j ≤ n →
      ((applyRotations j (loadColumn H (qrUpdates Real.sqrt (fun x => |x|) H st j) j) j).hh j j) ^ 2
        + (H (j + 1) j) ^ 2 ≠ 0) :
    |(qrUpdates Real.sqrt (fun x => |x|) H st (n + 1)).rs (n + 1)|
      = ‖r0 - M (∑ j in Finset.range (n + 1),
          (backSubst p (qrUpdates Real.sqrt (fun x => |x|) H st (n + 1)) n).readBuf p j • V j)‖ ∧
    ∀ z : Nat → ℝ, |(qrUpdates Real.sqrt (fun x => |x|) H st (n + 1)).rs (n + 1)|
      ≤ ‖r0 - M (∑ j in Finset.range (n + 1), z j • V j)‖ := by
  have hinv := qrUpdates_inv H ‖r0‖ st hrs (n + 1) (fun j hj => hnd j (by omega))
  generalize qrUpdates Real.sqrt (fun x => |x|) H st (n + 1) = s at hinv ⊢
  have hsq : ∀ z : Nat → ℝ, ‖r0 - M (∑ j in Finset.range (n + 1), z j • V j)‖ ^ 2
      = ∑ i in Finset.range (n + 1), (s.rs i - ∑ j in Finset.Icc i n, s.hh i j * z j) ^ 2
        + (s.rs (n + 1)) ^ 2 := fun z => by
    rw [residual_norm_sq M r0 V H n horth hr0 harn z, lsResidual_sq_sum H ‖r0‖ n s hinv z]
  constructor
  · have hy : ∑ i in Finset.range (n + 1),
        (s.rs i - ∑ j in Finset.Icc i n, s.hh i j * (backSubst p s n).readBuf p j) ^ 2 = 0 :=
      Finset.sum_eq_zero (fun i hi => by
        rw [backSubst_solves p s n (fun k hk => hinv.2.2.2 k (by omega)) i
          (by have := Finset.mem_range.mp hi; omega), sub_self]
        ring)
    have h := hsq (fun j => (backSubst p s n).readBuf p j)
    rw [hy, zero_add] at h
    rw [← abs_norm, ← sq_eq_sq_iff_abs_eq_abs]
    exact h.symm
  · intro z
    have h := hsq z
    apply abs_le_of_sq_le_sq _ (norm_nonneg _)
    rw [h]
    have : 0 ≤ ∑ i in Finset.range (n + 1),
        (s.rs i - ∑ j in Finset.Icc i n, s.hh i j * z j) ^ 2 :=
      Finset.sum_nonneg (fun i _ => sq_nonneg _)
    linarith
end Krylov

/-! ## The residual estimate -/

section PassFrame
variable {S E : Type} [Add S] [Sub S] [Mul S] [Div S] [Neg S] [Zero S] [One S]
  [LT S] [DecidableRel (fun a b : S => a < b)] [DecidableEq S]

theorem GMRESGetNewVectors_rs (st : KSP S E) (it : Int) : (GMRESGetNewVectors st it).rs = st.rs := by
  unfold GMRESGetNewVectors
  simp only
  split <;> rfl

theorem MATOP_rs (ext : Ext S E) (st : KSP S E) (a b tmp : Vec) :
    (MATOP ext st a b tmp).1.rs = st.rs := by
  unfold MATOP
  split <;> rfl

theorem cycleNormalize_rs (ext : Ext S E) (st : KSP S E) (it : Nat) :
    (cycleNormalize ext st it).1.rs = st.rs := by
  unfold cycleNormalize
  simp only
  split <;> rfl

/-- A pass of the inner loop hands `RS` to the QR update as the pass found it,
when the orthogonalization plug-in does not write `RS`. -/
theorem pass_rs (ext : Ext S E) (horth : ∀ s k, (ext.orthog s k).rs = s.rs) (itsSoFar : Int)
    (l : Loop S E) :
    (cycleNormalize ext (cycleArnoldi ext itsSoFar l).1 l.it).1.rs = l.ksp.rs := by
  rw [cycleNormalize_rs]
  simp only [cycleArnoldi]
  rw [horth, MATOP_rs]
  split
  · rw [GMRESGetNewVectors_rs, callMonitor_rs, recordHistory_rs]
  · rw [callMonitor_rs, recordHistory_rs]
end PassFrame

section Monotone
variable {E : Type}

/-- C3. Monotone residual estimate, amended: every call of
`GMRESUpdateHessenberg(it)` whose rotation is defined, that is with
`h^2 + g^2` not zero for the rotated diagonal entry `h` and the sub-diagonal
entry `g`, returns an estimate `|RS[it+1]|` that is at most `|RS[it]|` on
entry; hence a pass of the inner loop of `GMREScycle` that starts with
`res = |RS[it]|`, whose rotation is defined and whose orthogonalization
plug-in does not write `RS`, ends with `res = |RS[it+1]|` not above the `res`
it started with. -/
theorem GMRESUpdateHessenberg_estimate_le :
    (∀ (st : KSP ℝ E) (it : Nat),
      ((applyRotations it st it).hh it it) ^ 2 + (st.hh (it + 1) it) ^ 2 ≠ 0 →
      (GMRESUpdateHessenberg Real.sqrt (fun x => |x|) st it).2 ≤ |st.rs it|) ∧
    (∀ (ext : Ext ℝ E) (itsSoFar : Int) (l : Loop ℝ E),
      ext.sqrt = Real.sqrt → ext.fabs = (fun x => |x|) →
      (∀ s k, (ext.orthog s k).rs = s.rs) →
      l.res = |l.ksp.rs l.it| →
      ((applyRotations l.it (cycleNormalize ext (cycleArnoldi ext itsSoFar l).1 l.it).1 l.it).hh
          l.it l.it) ^ 2
        + ((cycleNormalize ext (cycleArnoldi ext itsSoFar l).1 l.it).1.hh (l.it + 1) l.it) ^ 2
        ≠ 0 →
      (cycleBody ext itsSoFar l).res ≤ l.res ∧
      (cycleBody ext itsSoFar l).res
        = |(cycleBody ext itsSoFar l).ksp.rs (cycleBody ext itsSoFar l).it|) := by
  refine ⟨fun st it hne => update_estimate_le st it hne, ?_⟩
  intro ext itsSoFar l hsq hfa horth hres hne
  have hle := update_estimate_le _ _ hne
  rw [pass_rs ext horth itsSoFar l, ← hres] at hle
  have hret := (update_values (cycleNormalize ext (cycleArnoldi ext itsSoFar l).1 l.it).1 l.it).2.2.2.2.2.2
  constructor
  · simp only [cycleBody, hsq, hfa]
    exact hle
  · simp only [cycleBody, hsq, hfa]
    exact hret
end Monotone


section Plane

theorem planeV_orthonormal (i j : Nat) :
    (inner (planeV i) (planeV j) : ℝ) = if (i = 0 ↔ j = 0) then 1 else 0 := by
  simp only [planeV, Complex.inner]
  by_cases hi : i = 0 <;> by_cases hj : j = 0 <;> simp [hi, hj]

theorem planeV_orthonormal_le (i j : Nat) (hi : i ≤ 0 + 1) (hj : j ≤ 0 + 1) :
    (inner (planeV i) (planeV j) : ℝ) = if i = j then 1 else 0 := by
  rw [planeV_orthonormal]
  have : (i = 0 ↔ j = 0) ↔ i = j := by omega
  simp only [this]

theorem planeV_zero_norm : ‖planeV 0‖ = 1 := by
  simp [planeV]

theorem planeV_zero_unit : planeV 0 = (1 / ‖planeV 0‖) • planeV 0 := by
  rw [planeV_zero_norm]
  simp

end Plane

/-! ## Evaluations on test data -/

section Triangular

theorem triangular_diag (k : Nat) (hk : k ≤ 2) : triangularKSP.hh k k ≠ 0 := by
  simp only [triangularKSP, if_true]
  positivity

/-- Witness of C1: the triangular system of the specification, diagonal
`(2, 3, 4)`, unit super-diagonal, `RS = (2, 3, 4)`, solved by
`y = (2/3, 2/3, 1)`. -/
theorem BuildGmresSoln_solves_triangular_witness :
    (∀ k, k ≤ 2 → triangularKSP.hh k k ≠ 0) ∧
    (∀ k, k ≤ 2 → ∑ j in Finset.Icc k 2, triangularKSP.hh k j *
      (BuildGmresSoln (demoExt 2 1) Buf.nrsArea VEC_SOLN VEC_SOLN triangularKSP
        ((2 : Nat) : Int)).readBuf Buf.nrsArea j = triangularKSP.rs k) ∧
    (BuildGmresSoln (demoExt 2 1) Buf.nrsArea VEC_SOLN VEC_SOLN triangularKSP
        ((2 : Nat) : Int)).readBuf Buf.nrsArea 0 = 2 / 3 ∧
    (BuildGmresSoln (demoExt 2 1) Buf.nrsArea VEC_SOLN VEC_SOLN triangularKSP
        ((2 : Nat) : Int)).readBuf Buf.nrsArea 1 = 2 / 3 ∧
    (BuildGmresSoln (demoExt 2 1) Buf.nrsArea VEC_SOLN VEC_SOLN triangularKSP
        ((2 : Nat) : Int)).readBuf Buf.nrsArea 2 = 1 := by
  refine ⟨triangular_diag, fun k hk => BuildGmresSoln_solves_triangular (demoExt 2 1)
    Buf.nrsArea VEC_SOLN VEC_SOLN triangularKSP 2 triangular_diag k hk, ?_, ?_, ?_⟩
  all_goals
    rw [BuildGmresSoln_readBuf]
    simp [backSubst, backOuter, backInner, KSP.writeBuf, KSP.readBuf, setAt, triangularKSP,
      demoKSP, blankKSP]
  all_goals norm_num
end Triangular

section Evaluations

theorem givens_nondegenerate :
    ((applyRotations 0 givensKSP 0).hh 0 0) ^ 2 + (givensKSP.hh (0 + 1) 0) ^ 2 ≠ 0 := by
  simp [applyRotations, givensKSP]
  norm_num

theorem sqrt_twenty_five : Real.sqrt ((3 : ℝ) ^ 2 + 4 ^ 2) = 5 := by
  rw [show (3 : ℝ) ^ 2 + 4 ^ 2 = 5 ^ 2 by norm_num]
  exact Real.sqrt_sq (by norm_num)

/-- Witness of C3 as amended: the column `(3, 4)` with `RS[0] = 10`. -/
theorem GMRESUpdateHessenberg_estimate_le_witness :
    ((applyRotations 0 givensKSP 0).hh 0 0) ^ 2 + (givensKSP.hh (0 + 1) 0) ^ 2 ≠ 0 ∧
    (GMRESUpdateHessenberg Real.sqrt (fun x => |x|) givensKSP 0).2 ≤ |givensKSP.rs 0| :=
  ⟨givens_nondegenerate,
    (GMRESUpdateHessenberg_estimate_le (E := ℝ)).1 givensKSP 0 givens_nondegenerate⟩

theorem demo_zero_norm : (demoExt 2 1).VecNorm ((demoKSP ℚ 3 10 0).vec (VEC_VV 0)) = 0 := by
  simp [demoExt, demoKSP]

/-- C5. Zero-residual short-circuit: for every context in which the norm of
`V[0]` is exactly 0, `GMREScycle` returns 0, reports `itcount = 0`, changes
nothing but `RS[0]`, to which it assigns that norm, so the solution vector and
every other vector are unchanged, and makes no call at all: it applies neither
the operator nor the preconditioner, does not call the orthogonalization
routine and does not run the reconstruction. -/
theorem GMREScycle_zero_residual {S E : Type} [Add S] [Sub S] [Mul S] [Div S] [Neg S] [Zero S]
    [One S] [LT S] [DecidableRel (fun a b : S => a < b)] [DecidableEq S]
    (ext : Ext S E) (itcount : Option Int) (itsSoFar restart : Int)
    (st : KSP S E) (h0 : ext.VecNorm (st.vec (VEC_VV 0)) = 0) :
    (GMREScycle ext itcount itsSoFar restart st).status = 0 ∧
    (GMREScycle ext itcount itsSoFar restart st).itcount = itcount.map (fun _ => 0) ∧
    (GMREScycle ext itcount itsSoFar restart st).ksp = st.setRS 0 0 ∧
    (GMREScycle ext itcount itsSoFar restart st).ksp.vec = st.vec ∧
    (GMREScycle ext itcount itsSoFar restart st).trace = [] :=
  cycle_zero_residual ext itcount itsSoFar restart st h0

/-- Witness of C5: a context whose initial residual is the zero vector. -/
theorem GMREScycle_zero_residual_witness :
    (demoExt 2 1).VecNorm ((demoKSP ℚ 3 10 0).vec (VEC_VV 0)) = 0 ∧
    (GMREScycle (demoExt 2 1) (some 7) 0 0 (demoKSP ℚ 3 10 0)).status = 0 ∧
    (GMREScycle (demoExt 2 1) (some 7) 0 0 (demoKSP ℚ 3 10 0)).itcount = some 0 ∧
    (GMREScycle (demoExt 2 1) (some 7) 0 0 (demoKSP ℚ 3 10 0)).ksp
      = (demoKSP ℚ 3 10 0).setRS 0 0 ∧
    (GMREScycle (demoExt 2 1) (some 7) 0 0 (demoKSP ℚ 3 10 0)).ksp.vec
      = (demoKSP ℚ 3 10 0).vec ∧
    (GMREScycle (demoExt 2 1) (some 7) 0 0 (demoKSP ℚ 3 10 0)).trace = [] :=
  ⟨demo_zero_norm,
    GMREScycle_zero_residual (demoExt 2 1) (some 7) 0 0 (demoKSP ℚ 3 10 0) demo_zero_norm⟩

/-- Witness of C7: restart length 3, budget 10, no iteration so far. -/
theorem GMREScycle_itcount_bounds_witness :
    (0 : Int) ≤ (demoKSP ℚ 3 10 5).max_k ∧ (0 : Int) ≤ 0 ∧ (0 : Int) ≤ (demoKSP ℚ 3 10 5).max_it ∧
    ∃ n : Int, (GMREScycle (demoExt 2 1) (some 7) 0 0 (demoKSP ℚ 3 10 5)).itcount = some n ∧
      0 ≤ n ∧ n ≤ (demoKSP ℚ 3 10 5).max_k ∧ n + 0 ≤ (demoKSP ℚ 3 10 5).max_it :=
  ⟨by decide, by decide, by decide,
    GMREScycle_itcount_bounds (demoExt 2 1) 7 0 0 (demoKSP ℚ 3 10 5) (by decide) (by decide)
      (by decide)⟩

/-- Witness of C8: the operator `2 x` with the initial residual 5. -/
theorem GMREScycle_reconstruction_witness :
    ∃ n : Nat,
      (GMREScycle (demoExt 2 1) (some 7) 0 0 (demoKSP ℚ 3 10 5)).itcount = some (n : Int) ∧
      (GMREScycle (demoExt 2 1) (some 7) 0 0 (demoKSP ℚ 3 10 5)).trace.countP Event.isUpdate = n ∧
      (n = 0 →
        (GMREScycle (demoExt 2 1) (some 7) 0 0 (demoKSP ℚ 3 10 5)).trace.countP
          Event.isBuildSoln = 0 ∧
        (GMREScycle (demoExt 2 1) (some 7) 0 0 (demoKSP ℚ 3 10 5)).ksp.vec VEC_SOLN
          = (demoKSP ℚ 3 10 5).vec VEC_SOLN ∧
        (GMREScycle (demoExt 2 1) (some 7) 0 0 (demoKSP ℚ 3 10 5)).status = 0) ∧
      (1 ≤ n →
        ∃ pre tr, tr.countP Event.isBuildSoln = 0 ∧
          (GMREScycle (demoExt 2 1) (some 7) 0 0 (demoKSP ℚ 3 10 5)).trace
            = tr ++ [Event.buildSoln ((n : Int) - 1)] ∧
          (GMREScycle (demoExt 2 1) (some 7) 0 0 (demoKSP ℚ 3 10 5)).ksp
            = BuildGmresSoln (demoExt 2 1) Buf.rsArea VEC_SOLN VEC_SOLN pre ((n : Int) - 1) ∧
          pre.vec = (cycleLoop (demoExt 2 1) (demoKSP ℚ 3 10 5).max_k (demoKSP ℚ 3 10 5).max_it 0
            (cycleInit (demoExt 2 1) 0 (demoKSP ℚ 3 10 5))).ksp.vec ∧
          pre.hh = (cycleLoop (demoExt 2 1) (demoKSP ℚ 3 10 5).max_k (demoKSP ℚ 3 10 5).max_it 0
            (cycleInit (demoExt 2 1) 0 (demoKSP ℚ 3 10 5))).ksp.hh ∧
          pre.rs = (cycleLoop (demoExt 2 1) (demoKSP ℚ 3 10 5).max_k (demoKSP ℚ 3 10 5).max_it 0
            (cycleInit (demoExt 2 1) 0 (demoKSP ℚ 3 10 5))).ksp.rs) :=
  GMREScycle_reconstruction (demoExt 2 1) 7 0 0 (demoKSP ℚ 3 10 5)

theorem demo_axpy (a x y : ℚ) : (demoExt 2 1).VecAXPY a x y = y + a • x := rfl

theorem demo_set (x : ℚ) : (demoExt 2 1).VecSet 0 x = 0 := rfl

/-- Witness of C9: the triangular system of the specification, reconstructed
out of place into a vector of the caller. -/
theorem BuildGmresSoln_unwinds_witness :
    (∀ a x y, (demoExt 2 1).VecAXPY a x y = y + a • x) ∧
    (∀ x, (demoExt 2 1).VecSet 0 x = 0) ∧
    (∀ k, VEC_SOLN ≠ Vec.work k) ∧ (∀ k, Vec.user 0 ≠ Vec.work k) ∧
    ((BuildGmresSoln (demoExt 2 1) Buf.rsArea VEC_SOLN (Vec.user 0) triangularKSP
        ((2 : Nat) : Int)).vec (Vec.user 0)
      = triangularKSP.vec VEC_SOLN +
        (if triangularKSP.right_pre then
          (demoExt 2 1).PRE (∑ j in Finset.range (2 + 1),
            (BuildGmresSoln (demoExt 2 1) Buf.rsArea VEC_SOLN (Vec.user 0) triangularKSP
              ((2 : Nat) : Int)).readBuf Buf.rsArea j • triangularKSP.vec (VEC_VV j))
        else
          ∑ j in Finset.range (2 + 1),
            (BuildGmresSoln (demoExt 2 1) Buf.rsArea VEC_SOLN (Vec.user 0) triangularKSP
              ((2 : Nat) : Int)).readBuf Buf.rsArea j • triangularKSP.vec (VEC_VV j)) ∧
    (Vec.user 0 ≠ VEC_SOLN →
      (BuildGmresSoln (demoExt 2 1) Buf.rsArea VEC_SOLN (Vec.user 0) triangularKSP
        ((2 : Nat) : Int)).vec VEC_SOLN = triangularKSP.vec VEC_SOLN)) :=
  ⟨demo_axpy, demo_set, fun k => by simp [VEC_SOLN], fun k => by simp,
    BuildGmresSoln_unwinds (demoExt 2 1) demo_axpy demo_set Buf.rsArea VEC_SOLN (Vec.user 0)
      triangularKSP 2 (fun k => by simp [VEC_SOLN]) (fun k => by simp)⟩

theorem demo_fabs (x : ℚ) : (demoExt 2 1).fabs x = |x| := rfl

/-- Witness of C10: the first pass for the operator `2 x` with the initial
residual 5. -/
theorem GMREScycle_happy_breakdown_test_witness :
    (∀ x, (demoExt 2 1).fabs x = |x|) ∧
    ((cycleBody (demoExt 2 1) 0 demoLoop).ksp.hh (demoLoop.it + 1) demoLoop.it
      = (demoExt 2 1).VecNorm ((cycleArnoldi (demoExt 2 1) 0 demoLoop).1.vec (VEC_VV (demoLoop.it + 1))) ∧
    (cycleBody (demoExt 2 1) 0 demoLoop).ksp.hes (demoLoop.it + 1) demoLoop.it
      = (demoExt 2 1).VecNorm ((cycleArnoldi (demoExt 2 1) 0 demoLoop).1.vec (VEC_VV (demoLoop.it + 1))) ∧
    happyBound (demoExt 2 1)
        (((cycleArnoldi (demoExt 2 1) 0 demoLoop).1.setHH (demoLoop.it + 1) demoLoop.it
            ((demoExt 2 1).VecNorm ((cycleArnoldi (demoExt 2 1) 0 demoLoop).1.vec (VEC_VV (demoLoop.it + 1))))).setHES
          (demoLoop.it + 1) demoLoop.it
            ((demoExt 2 1).VecNorm ((cycleArnoldi (demoExt 2 1) 0 demoLoop).1.vec (VEC_VV (demoLoop.it + 1))))) demoLoop.it
      = min ((cycleArnoldi (demoExt 2 1) 0 demoLoop).1.epsabs *
          |(cycleArnoldi (demoExt 2 1) 0 demoLoop).1.hh demoLoop.it demoLoop.it / (cycleArnoldi (demoExt 2 1) 0 demoLoop).1.rs demoLoop.it|)
          (cycleArnoldi (demoExt 2 1) 0 demoLoop).1.haptol ∧
    (min ((cycleArnoldi (demoExt 2 1) 0 demoLoop).1.epsabs *
          |(cycleArnoldi (demoExt 2 1) 0 demoLoop).1.hh demoLoop.it demoLoop.it / (cycleArnoldi (demoExt 2 1) 0 demoLoop).1.rs demoLoop.it|)
          (cycleArnoldi (demoExt 2 1) 0 demoLoop).1.haptol
        < (demoExt 2 1).VecNorm ((cycleArnoldi (demoExt 2 1) 0 demoLoop).1.vec (VEC_VV (demoLoop.it + 1))) →
      (cycleBody (demoExt 2 1) 0 demoLoop).ksp.vec (VEC_VV (demoLoop.it + 1))
        = (demoExt 2 1).VecScale (1 / (demoExt 2 1).VecNorm ((cycleArnoldi (demoExt 2 1) 0 demoLoop).1.vec (VEC_VV (demoLoop.it + 1))))
            ((cycleArnoldi (demoExt 2 1) 0 demoLoop).1.vec (VEC_VV (demoLoop.it + 1)))) ∧
    ((demoExt 2 1).VecNorm ((cycleArnoldi (demoExt 2 1) 0 demoLoop).1.vec (VEC_VV (demoLoop.it + 1)))
        ≤ min ((cycleArnoldi (demoExt 2 1) 0 demoLoop).1.epsabs *
          |(cycleArnoldi (demoExt 2 1) 0 demoLoop).1.hh demoLoop.it demoLoop.it / (cycleArnoldi (demoExt 2 1) 0 demoLoop).1.rs demoLoop.it|)
          (cycleArnoldi (demoExt 2 1) 0 demoLoop).1.haptol →
      (cycleBody (demoExt 2 1) 0 demoLoop).ksp.vec = (cycleArnoldi (demoExt 2 1) 0 demoLoop).1.vec)) :=
  ⟨demo_fabs, GMREScycle_happy_breakdown_test (demoExt 2 1) demo_fabs 0 demoLoop⟩

/-- C6. The status of a cycle without iteration: in the context with
`max_k = 10` and `max_it = 1`, called as the restart cycle after one iteration
(`itsSoFar = 1`, `restart = 1`) with initial residual norm 5 and target
tolerance 0, the default convergence test does not pass at the loop exit and
`GMREScycle` returns 0. -/
theorem GMREScycle_status_without_iteration :
    (demoExt 2 1).VecNorm ((demoKSP ℚ 10 1 5).vec (VEC_VV 0)) ≠ 0 ∧
    (cycleLoop (demoExt 2 1) (demoKSP ℚ 10 1 5).max_k (demoKSP ℚ 10 1 5).max_it 1
      (cycleInit (demoExt 2 1) 1 (demoKSP ℚ 10 1 5))).converged = 0 ∧
    (GMREScycle (demoExt 2 1) (some 0) 1 1 (demoKSP ℚ 10 1 5)).status = 0 := by
  have hn : (demoExt 2 1).VecNorm ((demoKSP ℚ 10 1 5).vec (VEC_VV 0)) = 5 := by
    simp [demoExt, demoKSP, blankKSP]
  have hx : ¬ ((demoExt 2 1).converged (cycleInit (demoExt 2 1) 1 (demoKSP ℚ 10 1 5)).ksp
      (((cycleInit (demoExt 2 1) 1 (demoKSP ℚ 10 1 5)).it : Int) + 1)
      (cycleInit (demoExt 2 1) 1 (demoKSP ℚ 10 1 5)).res = 0 ∧
      ((cycleInit (demoExt 2 1) 1 (demoKSP ℚ 10 1 5)).it : Int) < (demoKSP ℚ 10 1 5).max_k ∧
      ((cycleInit (demoExt 2 1) 1 (demoKSP ℚ 10 1 5)).it : Int) + 1 < (demoKSP ℚ 10 1 5).max_it) := by
    simp [cycleInit, demoKSP, blankKSP]
  refine ⟨by rw [hn]; norm_num, ?_, ?_⟩
  · rw [cycleLoop_exit _ _ _ _ _ hx]
    simp [cycleInit, demoExt, demoKSP, blankKSP, KSPiGMRESDefaultConverged, KSP.setRS, KSP.setVec]
  · rw [GMREScycle_of_ne _ _ _ _ _ (by rw [hn]; norm_num), cycleLoop_exit _ _ _ _ _ hx]
    simp [cycleFinish, cycleInit]
end Evaluations

section UpdateFrame2
variable {S E : Type} [Add S] [Sub S] [Mul S] [Div S] [Neg S]

/-- C18. Frame of the QR update: `GMRESUpdateHessenberg(itP, it)` changes the
context only in the buffers `HH`, `CC`, `SS` and `RS`, and there only in rows
`0 .. it` of column `it` of `HH`, in `CC[it]`, in `SS[it]` and in `RS[it]`,
`RS[it+1]`: every entry of `HES`, every vector, every other column of `HH` and
the rows below `it` of column `it`, `CC[j]` and `SS[j]` for `j != it`, and
`RS[k]` for `k` outside `{it, it+1}` are as on entry. -/
theorem GMRESUpdateHessenberg_modifies (sqrt fabs : S → S) (st : KSP S E) (it : Nat) :
    (∃ (H : Nat → Nat → S) (C Sn R : Nat → S),
      (GMRESUpdateHessenberg sqrt fabs st it).1 = { st with hh := H, cc := C, ss := Sn, rs := R }) ∧
    (GMRESUpdateHessenberg sqrt fabs st it).1.hes = st.hes ∧
    (GMRESUpdateHessenberg sqrt fabs st it).1.vec = st.vec ∧
    (∀ r c, (c ≠ it ∨ it < r) → (GMRESUpdateHessenberg sqrt fabs st it).1.hh r c = st.hh r c) ∧
    (∀ j, j ≠ it → (GMRESUpdateHessenberg sqrt fabs st it).1.cc j = st.cc j) ∧
    (∀ j, j ≠ it → (GMRESUpdateHessenberg sqrt fabs st it).1.ss j = st.ss j) ∧
    (∀ k, k ≠ it → k ≠ it + 1 → (GMRESUpdateHessenberg sqrt fabs st it).1.rs k = st.rs k) := by
  obtain ⟨fv, fhes, fhh, fcc, fss, frs⟩ := GMRESUpdateHessenberg_frame sqrt fabs st it
  refine ⟨?_, fhes, fv, fhh, fcc, fss, frs⟩
  obtain ⟨H, hH, _⟩ := applyRotations_frame it st it
  simp only [GMRESUpdateHessenberg, hH, KSP.setCC, KSP.setSS, KSP.setRS, KSP.setHH]
  exact ⟨_, _, _, _, rfl⟩

/-- The QR update leaves the stored sub-diagonal entry of its column alone. -/
theorem update_subdiagonal (sqrt fabs : S → S) (st : KSP S E) (it : Nat) :
    (GMRESUpdateHessenberg sqrt fabs st it).1.hh (it + 1) it = st.hh (it + 1) it :=
  (GMRESUpdateHessenberg_frame sqrt fabs st it).2.2.1 _ _ (Or.inr (Nat.lt_succ_self it))

theorem qrUpdates_subdiagonal (sqrt fabs : S → S) (H : Nat → Nat → S) (st : KSP S E) (n : Nat) :
    ∀ j, j < n → (qrUpdates sqrt fabs H st n).hh (j + 1) j = H (j + 1) j := by
  induction n with
  | zero => intro j hj; omega
  | succ n ih =>
    intro j hj
    simp only [qrUpdates]
    by_cases hjn : j = n
    · subst hjn
      rw [update_subdiagonal]
      simp [loadColumn]
    · rw [(GMRESUpdateHessenberg_frame sqrt fabs _ n).2.2.1 _ _ (Or.inl hjn)]
      simp only [loadColumn]
      rw [if_neg (by omega)]
      exact ih j (by omega)
end UpdateFrame2
section Subdiagonal
variable {E : Type}

/-- C19 (as amended). The QR update does not store the annihilated entry: after
`GMRESUpdateHessenberg(itP, it)` the stored `HH[it+1,it]` is the value found on
entry (the norm the cycle put there), and what the new rotation annihilates is
the combination `CC[it] * g - SS[it] * h` of the rotated diagonal entry `h` and
of the sub-diagonal entry `g = HH[it+1,it]`, which is 0 when the rotation is
defined (`h^2 + g^2 != 0`) and is never written to `HH`; after the updates of
the columns `0 .. n-1` of a Hessenberg matrix `H` the stored sub-diagonal of
`HH` is the sub-diagonal of `H`. -/
theorem GMRESUpdateHessenberg_subdiagonal (st : KSP ℝ E) (it : Nat)
    (hne : ((applyRotations it st it).hh it it) ^ 2 + (st.hh (it + 1) it) ^ 2 ≠ 0) :
    (GMRESUpdateHessenberg Real.sqrt (fun x => |x|) st it).1.hh (it + 1) it = st.hh (it + 1) it ∧
    (GMRESUpdateHessenberg Real.sqrt (fun x => |x|) st it).1.cc it * st.hh (it + 1) it
      - (GMRESUpdateHessenberg Real.sqrt (fun x => |x|) st it).1.ss it
          * (applyRotations it st it).hh it it = 0 ∧
    (∀ (H : Nat → Nat → ℝ) (n j : Nat), j < n →
      (qrUpdates Real.sqrt (fun x => |x|) H st n).hh (j + 1) j = H (j + 1) j) := by
  obtain ⟨hcc, hss, _⟩ := update_values st it
  refine ⟨update_subdiagonal _ _ st it, ?_, fun H n j hj => qrUpdates_subdiagonal _ _ H st n j hj⟩
  rw [hcc, hss]
  ring
end Subdiagonal

section Evaluations2

/-- Counterexample to C19: for the column `(3, 4)` the QR update leaves the
value 4 in the stored `HH[1,0]`. -/
theorem givens_subdiagonal_kept :
    (GMRESUpdateHessenberg Real.sqrt (fun x => |x|) givensKSP 0).1.hh (0 + 1) 0 = 4 ∧
    ¬ ((GMRESUpdateHessenberg Real.sqrt (fun x => |x|) givensKSP 0).1.hh (0 + 1) 0 = 0) := by
  have h : (GMRESUpdateHessenberg Real.sqrt (fun x => |x|) givensKSP 0).1.hh (0 + 1) 0 = 4 := by
    rw [update_subdiagonal]
    simp [givensKSP]
  exact ⟨h, by rw [h]; norm_num⟩

/-- Witness of C19 as amended: the column `(3, 4)`. -/
theorem GMRESUpdateHessenberg_subdiagonal_witness :
    ((applyRotations 0 givensKSP 0).hh 0 0) ^ 2 + (givensKSP.hh (0 + 1) 0) ^ 2 ≠ 0 ∧
    ((GMRESUpdateHessenberg Real.sqrt (fun x => |x|) givensKSP 0).1.hh (0 + 1) 0
        = givensKSP.hh (0 + 1) 0 ∧
      (GMRESUpdateHessenberg Real.sqrt (fun x => |x|) givensKSP 0).1.cc 0 * givensKSP.hh (0 + 1) 0
        - (GMRESUpdateHessenberg Real.sqrt (fun x => |x|) givensKSP 0).1.ss 0
            * (applyRotations 0 givensKSP 0).hh 0 0 = 0 ∧
      (∀ (H : Nat → Nat → ℝ) (n j : Nat), j < n →
        (qrUpdates Real.sqrt (fun x => |x|) H givensKSP n).hh (j + 1) j = H (j + 1) j)) :=
  ⟨givens_nondegenerate, GMRESUpdateHessenberg_subdiagonal givensKSP 0 givens_nondegenerate⟩
end Evaluations2

section Breakdown2
variable {α E : Type} [LinearOrderedField α]

/-- C11. No division by a vanishing norm: in a pass of the inner loop whose
context has `epsabs >= 0` and `haptol >= 0` at the happy-breakdown test, the
bound `hapbnd` is nonnegative; the pass scales `V[it+1]` by `1/tt` only when
`tt > hapbnd`, so that the norm `tt` whose reciprocal is taken is strictly
positive; and when `tt = 0` the breakdown branch is taken: no vector is scaled
and every vector is left as the orthogonalization left it. -/
theorem GMREScycle_normalizes_positive (ext : Ext α E) (hfabs : ∀ x, ext.fabs x = |x|)
    (itsSoFar : Int) (l : Loop α E)
    (he : 0 ≤ (cycleArnoldi ext itsSoFar l).1.epsabs)
    (hh : 0 ≤ (cycleArnoldi ext itsSoFar l).1.haptol) :
    0 ≤ happyBound ext
        (((cycleArnoldi ext itsSoFar l).1.setHH (l.it + 1) l.it
            (ext.VecNorm ((cycleArnoldi ext itsSoFar l).1.vec (VEC_VV (l.it + 1))))).setHES
          (l.it + 1) l.it
            (ext.VecNorm ((cycleArnoldi ext itsSoFar l).1.vec (VEC_VV (l.it + 1))))) l.it ∧
    (Event.scale (VEC_VV (l.it + 1)) ∈ (cycleNormalize ext (cycleArnoldi ext itsSoFar l).1 l.it).2 →
      happyBound ext
        (((cycleArnoldi ext itsSoFar l).1.setHH (l.it + 1) l.it
            (ext.VecNorm ((cycleArnoldi ext itsSoFar l).1.vec (VEC_VV (l.it + 1))))).setHES
          (l.it + 1) l.it
            (ext.VecNorm ((cycleArnoldi ext itsSoFar l).1.vec (VEC_VV (l.it + 1))))) l.it
        < ext.VecNorm ((cycleArnoldi ext itsSoFar l).1.vec (VEC_VV (l.it + 1))) ∧
      0 < ext.VecNorm ((cycleArnoldi ext itsSoFar l).1.vec (VEC_VV (l.it + 1)))) ∧
    (ext.VecNorm ((cycleArnoldi ext itsSoFar l).1.vec (VEC_VV (l.it + 1))) = 0 →
      (cycleNormalize ext (cycleArnoldi ext itsSoFar l).1 l.it).2 = [] ∧
      (cycleBody ext itsSoFar l).ksp.vec = (cycleArnoldi ext itsSoFar l).1.vec) := by
  generalize hA : (cycleArnoldi ext itsSoFar l).1 = a at he hh ⊢
  generalize htt : ext.VecNorm (a.vec (VEC_VV (l.it + 1))) = tt
  have hb : happyBound ext ((a.setHH (l.it + 1) l.it tt).setHES (l.it + 1) l.it tt) l.it
      = min (a.epsabs * |a.hh l.it l.it / a.rs l.it|) a.haptol := by
    rw [happyBound_eq_min ext hfabs]
    simp [KSP.setHH, KSP.setHES, setAt2]
  have hb0 : 0 ≤ happyBound ext ((a.setHH (l.it + 1) l.it tt).setHES (l.it + 1) l.it tt) l.it := by
    rw [hb]
    exact le_min (mul_nonneg he (abs_nonneg _)) hh
  have hv : (cycleBody ext itsSoFar l).ksp.vec = (cycleNormalize ext a l.it).1.vec := by
    simp only [cycleBody, hA]
    exact (GMRESUpdateHessenberg_frame ext.sqrt ext.fabs (cycleNormalize ext a l.it).1 l.it).1
  refine ⟨hb0, ?_, ?_⟩
  · intro hm
    simp only [cycleNormalize, htt] at hm
    split at hm
    · rename_i hlt
      exact ⟨hlt, lt_of_le_of_lt hb0 hlt⟩
    · simp at hm
  · intro h0
    rw [hv]
    simp only [cycleNormalize, htt]
    rw [if_neg (not_lt.mpr (le_of_eq_of_le h0 hb0))]
    exact ⟨rfl, rfl⟩
end Breakdown2
section Evaluations3

theorem demo_arnoldi_thresholds :
    (cycleArnoldi (demoExt 2 1) 0 demoLoop).1.epsabs = 0 ∧
    (cycleArnoldi (demoExt 2 1) 0 demoLoop).1.haptol = 0 := by
  constructor <;>
  simp [cycleArnoldi, demoLoop, cycleInit, demoExt, demoKSP, blankKSP, recordHistory, callMonitor,
    MATOP, KSP.setVec, KSP.setHH, KSP.setHES, KSP.setRS, GMRESGetNewVectors, VEC_OFFSET]

theorem demo_arnoldi_norm :
    (demoExt 2 1).VecNorm ((cycleArnoldi (demoExt 2 1) 0 demoLoop).1.vec (VEC_VV (demoLoop.it + 1)))
      = 0 := by
  simp [cycleArnoldi, demoLoop, cycleInit, demoExt, demoKSP, blankKSP, recordHistory, callMonitor,
    MATOP, KSP.setVec, KSP.setHH, KSP.setHES, KSP.setRS, GMRESGetNewVectors, VEC_OFFSET, VEC_VV,
    VEC_TEMP_MATOP]

/-- Witness of C11: the first pass for the operator `2 x` with the initial
residual 5, in which the orthogonalized vector vanishes. -/
theorem GMREScycle_normalizes_positive_witness :
    (∀ x, (demoExt 2 1).fabs x = |x|) ∧
    0 ≤ (cycleArnoldi (demoExt 2 1) 0 demoLoop).1.epsabs ∧
    0 ≤ (cycleArnoldi (demoExt 2 1) 0 demoLoop).1.haptol ∧
    (demoExt 2 1).VecNorm ((cycleArnoldi (demoExt 2 1) 0 demoLoop).1.vec (VEC_VV (demoLoop.it + 1)))
      = 0 ∧
    (cycleNormalize (demoExt 2 1) (cycleArnoldi (demoExt 2 1) 0 demoLoop).1 demoLoop.it).2 = [] ∧
    (cycleBody (demoExt 2 1) 0 demoLoop).ksp.vec = (cycleArnoldi (demoExt 2 1) 0 demoLoop).1.vec :=
  ⟨demo_fabs, le_of_eq demo_arnoldi_thresholds.1.symm, le_of_eq demo_arnoldi_thresholds.2.symm,
    demo_arnoldi_norm,
    (GMREScycle_normalizes_positive (demoExt 2 1) demo_fabs 0 demoLoop
      (le_of_eq demo_arnoldi_thresholds.1.symm) (le_of_eq demo_arnoldi_thresholds.2.symm)).2.2
      demo_arnoldi_norm⟩

end Evaluations3
/-! ## The configuration through a cycle -/

section SetupFrame
variable {S E : Type} [Add S] [Sub S] [Mul S] [Div S] [Neg S] [Zero S] [One S]
  [LT S] [DecidableRel (fun a b : S => a < b)] [DecidableEq S]

theorem recordHistory_setup (hl : Int) (st : KSP S E) (n : Int) (res : S) :
    (recordHistory hl st n res).1.setup = st.setup := by
  unfold recordHistory
  split
  · split <;> rfl
  · rfl

theorem callMonitor_setup (st : KSP S E) (it : Nat) (n : Int) (res : S) :
    (callMonitor st it n res).1.setup = st.setup := by
  unfold callMonitor
  split <;> rfl

theorem GMRESGetNewVectors_setup (st : KSP S E) (it : Int) :
    (GMRESGetNewVectors st it).setup = st.setup := by
  unfold GMRESGetNewVectors
  simp only
  split <;> rfl

theorem MATOP_setup (ext : Ext S E) (st : KSP S E) (a b tmp : Vec) :
    (MATOP ext st a b tmp).1.setup = st.setup := by
  unfold MATOP
  split <;> rfl

theorem cycleNormalize_setup (ext : Ext S E) (st : KSP S E) (it : Nat) :
    (cycleNormalize ext st it).1.setup = st.setup := by
  unfold cycleNormalize
  simp only
  split <;> rfl

theorem GMRESUpdateHessenberg_setup (sqrt fabs : S → S) (st : KSP S E) (it : Nat) :
    (GMRESUpdateHessenberg sqrt fabs st it).1.setup = st.setup := by
  obtain ⟨H, hH, _⟩ := applyRotations_frame it st it
  simp only [GMRESUpdateHessenberg, hH, KSP.setCC, KSP.setSS, KSP.setRS, KSP.setHH]
  rfl

theorem cycleArnoldi_setup (ext : Ext S E) (horth : ∀ s k, (ext.orthog s k).setup = s.setup)
    (itsSoFar : Int) (l : Loop S E) :
    (cycleArnoldi ext itsSoFar l).1.setup = l.ksp.setup := by
  simp only [cycleArnoldi]
  rw [horth, MATOP_setup]
  split
  · rw [GMRESGetNewVectors_setup, callMonitor_setup, recordHistory_setup]
  · rw [callMonitor_setup, recordHistory_setup]

theorem cycleBody_setup (ext : Ext S E) (horth : ∀ s k, (ext.orthog s k).setup = s.setup)
    (itsSoFar : Int) (l : Loop S E) :
    (cycleBody ext itsSoFar l).ksp.setup = l.ksp.setup := by
  have h : (cycleBody ext itsSoFar l).ksp.setup
      = (GMRESUpdateHessenberg ext.sqrt ext.fabs
          (cycleNormalize ext (cycleArnoldi ext itsSoFar l).1 l.it).1 l.it).1.setup := rfl
  rw [h, GMRESUpdateHessenberg_setup, cycleNormalize_setup, cycleArnoldi_setup ext horth]

theorem cycleLoop_setup (ext : Ext S E) (horth : ∀ s k, (ext.orthog s k).setup = s.setup)
    (max_k max_it itsSoFar : Int) (l : Loop S E) :
    (cycleLoop ext max_k max_it itsSoFar l).ksp.setup = l.ksp.setup := by
  induction l using cycleLoop.induct ext max_k max_it itsSoFar with
  | case1 l c hc ih =>
    simp only [c] at hc ih
    rw [cycleLoop_step ext max_k max_it itsSoFar l hc, ih, cycleBody_setup ext horth]
  | case2 l c hc =>
    rw [cycleLoop_exit ext max_k max_it itsSoFar l hc]

theorem cycleTally_setup (itsSoFar : Int) (l : Loop S E) :
    (cycleTally itsSoFar l).1.setup = l.ksp.setup := by
  simp only [cycleTally]
  rw [callMonitor_setup]
  split
  · exact recordHistory_setup _ _ _ _
  · exact recordHistory_setup _ _ _ _

theorem writeBuf_setup (st : KSP S E) (p : Buf) (k : Nat) (v : S) :
    (st.writeBuf p k v).setup = st.setup := by
  cases p <;> rfl

theorem backOuter_setup (p : Buf) (it : Nat) (st : KSP S E) (c : Nat) :
    (backOuter p it st c).setup = st.setup := by
  induction c with
  | zero => rfl
  | succ c ih => simp only [backOuter, writeBuf_setup, ih]

theorem BasicMultiMaxpy_setup (ext : Ext S E) (st : KSP S E) (alpha : Buf) (z : Vec) (m : Nat) :
    (BasicMultiMaxpy ext st alpha z m).setup = st.setup := by
  induction m with
  | zero => rfl
  | succ m ih =>
    simp only [BasicMultiMaxpy]
    exact ih

theorem BuildGmresSoln_setup (ext : Ext S E) (p : Buf) (vs vdest : Vec) (st : KSP S E) (it : Int) :
    (BuildGmresSoln ext p vs vdest st it).setup = st.setup := by
  have hb : ∀ n, (BasicMultiMaxpy ext ((backSubst p st n).setVec VEC_TEMP
      (ext.VecSet 0 ((backSubst p st n).vec VEC_TEMP))) p VEC_TEMP (n + 1)).setup = st.setup := by
    intro n
    rw [BasicMultiMaxpy_setup]
    show (backSubst p st n).setup = st.setup
    unfold backSubst
    rw [backOuter_setup, writeBuf_setup]
  unfold BuildGmresSoln
  split
  · split <;> rfl
  · simp only
    split <;> split <;> exact hb _

theorem cycleFinish_setup (ext : Ext S E) (c : Option Int) (itsSoFar : Int) (l : Loop S E) :
    (cycleFinish ext c itsSoFar l).ksp.setup = l.ksp.setup := by
  unfold cycleFinish
  simp only
  split
  · exact cycleTally_setup itsSoFar l
  · show (BuildGmresSoln ext Buf.rsArea VEC_SOLN VEC_SOLN (cycleTally itsSoFar l).1 _).setup = _
    rw [BuildGmresSoln_setup, cycleTally_setup]

theorem cycleInit_setup (ext : Ext S E) (restart : Int) (st : KSP S E) (hr : restart ≠ 0) :
    (cycleInit ext restart st).ksp.setup = st.setup := by
  simp only [cycleInit, if_neg hr]
  rfl

theorem cycleInit_max_it (ext : Ext S E) (restart : Int) (st : KSP S E) :
    (cycleInit ext restart st).ksp.max_it = st.max_it := by
  simp only [cycleInit]
  split <;> rfl

/-- A cycle leaves the iteration budget as it found it, when the
orthogonalization plug-in does not change the configuration. -/
theorem GMREScycle_max_it (ext : Ext S E) (horth : ∀ s k, (ext.orthog s k).setup = s.setup)
    (c : Option Int) (itsSoFar restart : Int) (st : KSP S E) :
    (GMREScycle ext c itsSoFar restart st).ksp.max_it = st.max_it := by
  by_cases h0 : ext.VecNorm (st.vec (VEC_VV 0)) = 0
  · rw [(cycle_zero_residual ext c itsSoFar restart st h0).2.2.1]
    rfl
  · rw [GMREScycle_of_ne ext c itsSoFar restart st h0]
    have h := cycleFinish_setup ext c itsSoFar
      (cycleLoop ext st.max_k st.max_it itsSoFar (cycleInit ext restart st))
    rw [cycleLoop_setup ext horth] at h
    have h1 := congrArg (fun p => p.1) h
    exact h1.trans (cycleInit_max_it ext restart st)

theorem GMRESResidual_setup (ext : Ext S E) (st : KSP S E) (restart : Int) :
    (GMRESResidual ext st restart).1.setup = st.setup ∧ (GMRESResidual ext st restart).2 = 0 := by
  unfold GMRESResidual
  simp only
  refine ⟨?_, trivial⟩
  split
  · rfl
  · exact MATOP_setup ext st _ _ _
end SetupFrame
section Passes
variable {S E : Type} [Add S] [Sub S] [Mul S] [Div S] [Neg S] [Zero S] [One S]
  [LT S] [DecidableRel (fun a b : S => a < b)] [DecidableEq S]

theorem cyclePass_it (ext : Ext S E) (itsSoFar : Int) (l : Loop S E) (k : Nat) :
    (cyclePass ext itsSoFar l k).it = l.it + k := by
  induction k with
  | zero => rfl
  | succ k ih =>
    show (cyclePass ext itsSoFar l k).it + 1 = l.it + (k + 1)
    omega

theorem cyclePass_hist_len (ext : Ext S E) (itsSoFar : Int) (l : Loop S E) (k : Nat) :
    (cyclePass ext itsSoFar l k).hist_len = l.hist_len := by
  induction k with
  | zero => rfl
  | succ k ih => exact ih

theorem cyclePass_setup (ext : Ext S E) (horth : ∀ s k, (ext.orthog s k).setup = s.setup)
    (itsSoFar : Int) (l : Loop S E) (k : Nat) :
    (cyclePass ext itsSoFar l k).ksp.setup = l.ksp.setup := by
  induction k with
  | zero => rfl
  | succ k ih =>
    simp only [cyclePass]
    rw [cycleBody_setup ext horth]
    exact ih

theorem cyclePass_succ_left (ext : Ext S E) (itsSoFar : Int) (l : Loop S E) (k : Nat) :
    cyclePass ext itsSoFar l (k + 1)
      = cyclePass ext itsSoFar (cycleBody ext itsSoFar
          { l with converged := ext.converged l.ksp (l.it + itsSoFar) l.res }) k := by
  induction k with
  | zero => rfl
  | succ k ih =>
    rw [cyclePass, ih]
    rfl

/-- The inner loop makes a number `n` of passes: it stops in the state the
passes produce, with the flag `converged` set by the last test; the loop
condition holds before each pass and fails after the last one. -/
theorem cycleLoop_eq_pass (ext : Ext S E) (max_k max_it itsSoFar : Int) (l : Loop S E) :
    ∃ n : Nat,
      cycleLoop ext max_k max_it itsSoFar l
        = { cyclePass ext itsSoFar l n with
            converged := ext.converged (cyclePass ext itsSoFar l n).ksp
              ((cyclePass ext itsSoFar l n).it + itsSoFar) (cyclePass ext itsSoFar l n).res } ∧
      (∀ k, k < n →
        ext.converged (cyclePass ext itsSoFar l k).ksp
            ((cyclePass ext itsSoFar l k).it + itsSoFar) (cyclePass ext itsSoFar l k).res = 0 ∧
          ((cyclePass ext itsSoFar l k).it : Int) < max_k ∧
          ((cyclePass ext itsSoFar l k).it : Int) + itsSoFar < max_it) ∧
      ¬ (ext.converged (cyclePass ext itsSoFar l n).ksp
            ((cyclePass ext itsSoFar l n).it + itsSoFar) (cyclePass ext itsSoFar l n).res = 0 ∧
          ((cyclePass ext itsSoFar l n).it : Int) < max_k ∧
          ((cyclePass ext itsSoFar l n).it : Int) + itsSoFar < max_it) := by
  induction l using cycleLoop.induct ext max_k max_it itsSoFar with
  | case1 l c hc ih =>
    simp only [c] at hc ih
    obtain ⟨n, h1, h2, h3⟩ := ih
    refine ⟨n + 1, ?_, ?_, ?_⟩
    · rw [cycleLoop_step ext max_k max_it itsSoFar l hc, h1, cyclePass_succ_left]
    · intro k hk
      cases k with
      | zero => exact hc
      | succ k =>
        rw [cyclePass_succ_left]
        exact h2 k (by omega)
    · rw [cyclePass_succ_left]
      exact h3
  | case2 l c hc =>
    refine ⟨0, ?_, ?_, hc⟩
    · rw [cycleLoop_exit ext max_k max_it itsSoFar l hc]
      rfl
    · intro k hk
      omega
end Passes

section Tolerance
variable {α E : Type} [LinearOrderedField α]

theorem cycleInit_ttol (ext : Ext α E) (st : KSP α E) :
    (cycleInit ext 0 st).ksp.ttol
      = max st.atol (st.rtol * ext.VecNorm (st.vec (VEC_VV 0))) := by
  simp only [cycleInit, if_true]
  show (if st.atol > st.rtol * ext.VecNorm (st.vec (VEC_VV 0)) then st.atol
    else st.rtol * ext.VecNorm (st.vec (VEC_VV 0))) = _
  split
  · rename_i h
    exact (max_eq_left (le_of_lt h)).symm
  · rename_i h
    exact (max_eq_right (not_lt.mp h)).symm

theorem setup_ttol {a b : KSP α E} (h : a.setup = b.setup) : a.ttol = b.ttol :=
  congrArg (fun p => p.2.2.2.2.1) h

/-- C12. Target tolerance caching: when the orthogonalization plug-in does not
change the configuration, a non-restart cycle (`restart = 0`) with nonzero
initial residual norm `res_norm` sets `ttol = max(atol, rtol * res_norm)`, and
a restart cycle (`restart != 0`) leaves `ttol` as it found it, whatever the new
`res_norm` is; this is the value of `ttol` in the context at every test of the
inner loop and on return from the cycle. -/
theorem GMREScycle_ttol (ext : Ext α E) (horth : ∀ s k, (ext.orthog s k).setup = s.setup)
    (c : Option Int) (itsSoFar restart : Int) (st : KSP α E) :
    (restart = 0 → ext.VecNorm (st.vec (VEC_VV 0)) ≠ 0 →
      (∀ k, (cyclePass ext itsSoFar (cycleInit ext restart st) k).ksp.ttol
        = max st.atol (st.rtol * ext.VecNorm (st.vec (VEC_VV 0)))) ∧
      (GMREScycle ext c itsSoFar restart st).ksp.ttol
        = max st.atol (st.rtol * ext.VecNorm (st.vec (VEC_VV 0)))) ∧
    (restart ≠ 0 →
      (∀ k, (cyclePass ext itsSoFar (cycleInit ext restart st) k).ksp.ttol = st.ttol) ∧
      (GMREScycle ext c itsSoFar restart st).ksp.ttol = st.ttol) := by
  have hcyc : ext.VecNorm (st.vec (VEC_VV 0)) ≠ 0 →
      (GMREScycle ext c itsSoFar restart st).ksp.ttol = (cycleInit ext restart st).ksp.ttol := by
    intro h0
    rw [GMREScycle_of_ne ext c itsSoFar restart st h0]
    have h := cycleFinish_setup ext c itsSoFar
      (cycleLoop ext st.max_k st.max_it itsSoFar (cycleInit ext restart st))
    rw [cycleLoop_setup ext horth] at h
    exact setup_ttol h
  constructor
  · intro hr h0
    subst hr
    refine ⟨fun k => ?_, ?_⟩
    · rw [setup_ttol (cyclePass_setup ext horth itsSoFar _ k), cycleInit_ttol]
    · rw [hcyc h0, cycleInit_ttol]
  · intro hr
    refine ⟨fun k => ?_, ?_⟩
    · rw [setup_ttol (cyclePass_setup ext horth itsSoFar _ k),
        setup_ttol (cycleInit_setup ext restart st hr)]
    · by_cases h0 : ext.VecNorm (st.vec (VEC_VV 0)) = 0
      · rw [(cycle_zero_residual ext c itsSoFar restart st h0).2.2.1]
        rfl
      · rw [hcyc h0, setup_ttol (cycleInit_setup ext restart st hr)]
end Tolerance
/-! ## The restart loop -/

section SolveLemmas
variable {S E : Type} [Add S] [Sub S] [Mul S] [Div S] [Neg S] [Zero S] [One S]
  [LT S] [DecidableRel (fun a b : S => a < b)] [DecidableEq S]

theorem cycleLoop_budget (ext : Ext S E) (max_k max_it itsSoFar : Int) (l : Loop S E)
    (h2 : (l.it : Int) + itsSoFar ≤ max_it) :
    ((cycleLoop ext max_k max_it itsSoFar l).it : Int) + itsSoFar ≤ max_it := by
  induction l using cycleLoop.induct ext max_k max_it itsSoFar with
  | case1 l c hc ih =>
    rw [cycleLoop_step ext max_k max_it itsSoFar l hc]
    apply ih
    show ((l.it + 1 : Nat) : Int) + itsSoFar ≤ max_it
    omega
  | case2 l c hc =>
    rw [cycleLoop_exit ext max_k max_it itsSoFar l hc]
    exact h2

/-- The count a cycle reports stays within the budget, and a cycle that
returns a nonzero status has made at least one iteration. -/
theorem cycle_count (ext : Ext S E) (c : Int) (itsSoFar restart : Int) (st : KSP S E)
    (hm : itsSoFar ≤ st.max_it) :
    ∃ n : Nat, (GMREScycle ext (some c) itsSoFar restart st).itcount = some (n : Int) ∧
      (n : Int) + itsSoFar ≤ st.max_it ∧
      ((GMREScycle ext (some c) itsSoFar restart st).status ≠ 0 → 1 ≤ n) := by
  by_cases h0 : ext.VecNorm (st.vec (VEC_VV 0)) = 0
  · obtain ⟨h1, h2, _⟩ := cycle_zero_residual ext (some c) itsSoFar restart st h0
    exact ⟨0, h2, by simpa using hm, fun h => absurd h1 h⟩
  · refine ⟨(cycleLoop ext st.max_k st.max_it itsSoFar (cycleInit ext restart st)).it, ?_, ?_, ?_⟩
    · rw [GMREScycle_of_ne ext _ itsSoFar restart st h0, cycleFinish_itcount]
    · exact cycleLoop_budget ext st.max_k st.max_it itsSoFar (cycleInit ext restart st)
        (by show ((0 : Nat) : Int) + itsSoFar ≤ st.max_it; omega)
    · intro hs
      rw [cycle_status ext (some c) itsSoFar restart st h0] at hs
      by_cases hz : (cycleLoop ext st.max_k st.max_it itsSoFar (cycleInit ext restart st)).it = 0
      · rw [if_pos hz] at hs
        exact absurd rfl hs
      · omega

theorem setup_max_it {a b : KSP S E} (h : a.setup = b.setup) : a.max_it = b.max_it :=
  congrArg (fun p => p.1) h

theorem solveLoop_done (ext : Ext S E) (fuel : Nat) (s : Solve S E) (n : Int)
    (hn : (GMREScycle ext (some s.its) s.itcount s.restart s.ksp).itcount = some n)
    (hst : (GMREScycle ext (some s.its) s.itcount s.restart s.ksp).status = 0) :
    solveLoop ext (fuel + 1) s
      = some (solveExit
          { ksp := (GMREScycle ext (some s.its) s.itcount s.restart s.ksp).ksp, its := n,
            itcount := s.itcount, restart := s.restart,
            cycles := s.cycles ++ [CycleCall.mk s.itcount s.restart 0 n] }) := by
  simp only [solveLoop, hst, hn, Option.getD_some, ne_eq, not_true_eq_false, if_false]

theorem solveLoop_again (ext : Ext S E) (fuel : Nat) (s : Solve S E) (n : Int)
    (hn : (GMREScycle ext (some s.its) s.itcount s.restart s.ksp).itcount = some n)
    (hst : (GMREScycle ext (some s.its) s.itcount s.restart s.ksp).status ≠ 0)
    (hb : s.itcount + n ≤ (GMRESResidual ext
      (GMREScycle ext (some s.its) s.itcount s.restart s.ksp).ksp 1).1.max_it) :
    solveLoop ext (fuel + 1) s
      = solveLoop ext fuel
          { ksp := (GMRESResidual ext
              (GMREScycle ext (some s.its) s.itcount s.restart s.ksp).ksp 1).1,
            its := n, itcount := s.itcount + n, restart := 1,
            cycles := s.cycles ++ [CycleCall.mk s.itcount s.restart
              (GMREScycle ext (some s.its) s.itcount s.restart s.ksp).status n] } := by
  have hg := (GMRESResidual_setup ext
    (GMREScycle ext (some s.its) s.itcount s.restart s.ksp).ksp 1).2
  have hnb : ¬ (s.itcount + n > (GMRESResidual ext
      (GMREScycle ext (some s.its) s.itcount s.restart s.ksp).ksp 1).1.max_it) := by omega
  simp only [solveLoop, hst, hn, Option.getD_some, ne_eq, not_false_eq_true, if_true,
    hg, not_true_eq_false, if_false, hnb]

/-- The restart loop returns when the fuel covers the remaining budget plus
one cycle: it returns 0 after cycles that all returned a nonzero status and
made at least one iteration, followed by one cycle that returned 0; the count
written to `*outits` is the count on entry plus the counts of these cycles,
each taken once, and stays within the budget. -/
theorem solveLoop_run (ext : Ext S E) (horth : ∀ s k, (ext.orthog s k).setup = s.setup)
    (fuel : Nat) :
    ∀ s : Solve S E, s.itcount ≤ s.ksp.max_it →
      (s.ksp.max_it - s.itcount).toNat + 1 ≤ fuel →
      ∃ (r : SolveResult S E) (pre : List CycleCall) (last : CycleCall),
        solveLoop ext fuel s = some r ∧ r.status = 0 ∧ r.cycles = s.cycles ++ (pre ++ [last]) ∧
        (∀ c ∈ pre, c.status ≠ 0 ∧ 1 ≤ c.its) ∧ last.status = 0 ∧ 0 ≤ last.its ∧
        r.outits = some (s.itcount + ((pre.map CycleCall.its).sum + last.its)) ∧
        s.itcount + ((pre.map CycleCall.its).sum + last.its) ≤ s.ksp.max_it ∧
        r.ksp.max_it = s.ksp.max_it := by
  induction fuel with
  | zero => intro s _ hf; omega
  | succ fuel ih =>
    intro s hm hf
    obtain ⟨n, hn, hb, hs⟩ := cycle_count ext s.its s.itcount s.restart s.ksp hm
    have hmax := GMREScycle_max_it ext horth (some s.its) s.itcount s.restart s.ksp
    by_cases hst : (GMREScycle ext (some s.its) s.itcount s.restart s.ksp).status = 0
    · refine ⟨_, [], CycleCall.mk s.itcount s.restart 0 n,
        solveLoop_done ext fuel s n hn hst, rfl, rfl, ?_, rfl, ?_, ?_, ?_, hmax⟩
      · intro c hc
        simp at hc
      · show (0 : Int) ≤ (n : Int)
        omega
      · simp [solveExit]
      · simp only [List.map_nil, List.sum_nil, zero_add]
        omega
    · have hn1 := hs hst
      have hg := GMRESResidual_setup ext
        (GMREScycle ext (some s.its) s.itcount s.restart s.ksp).ksp 1
      have hgm := (setup_max_it hg.1).trans hmax
      obtain ⟨r, pre, last, h1, h2, h3, h4, h5, h6, h7, h8, h9⟩ := ih
        { ksp := (GMRESResidual ext (GMREScycle ext (some s.its) s.itcount s.restart s.ksp).ksp 1).1,
          its := n,
          itcount := s.itcount + n,
          restart := 1,
          cycles := s.cycles ++ [CycleCall.mk s.itcount s.restart
            (GMREScycle ext (some s.its) s.itcount s.restart s.ksp).status n] }
        (by show s.itcount + (n : Int) ≤ _; rw [hgm]; omega)
        (by show (_ - (s.itcount + (n : Int))).toNat + 1 ≤ fuel; rw [hgm]; omega)
      refine ⟨r, CycleCall.mk s.itcount s.restart
            (GMREScycle ext (some s.its) s.itcount s.restart s.ksp).status n
          :: pre, last, ?_, h2, ?_, ?_, h5, h6, ?_, ?_, h9.trans hgm⟩
      · rw [← h1]
        exact solveLoop_again ext fuel s n hn hst (by rw [hgm]; omega)
      · rw [h3]
        simp
      · intro c hc
        rcases List.mem_cons.mp hc with h | h
        · rw [h]
          exact ⟨hst, by show (1 : Int) ≤ (n : Int); omega⟩
        · exact h4 c h
      · rw [h7]
        simp only [List.map_cons, List.sum_cons]
        congr 1
        ring
      · have h8' : s.itcount + (n : Int) + ((pre.map CycleCall.its).sum + last.its)
            ≤ s.ksp.max_it := by
          rw [← hgm]; exact h8
        simp only [List.map_cons, List.sum_cons]
        omega
end SolveLemmas
section SolveRun
variable {S E : Type} [Add S] [Sub S] [Mul S] [Div S] [Neg S] [Zero S] [One S]
  [LT S] [DecidableRel (fun a b : S => a < b)] [DecidableEq S]

theorem solveInit_setup (ext : Ext S E) (st : KSP S E) :
    (solveInit ext st).1.setup = st.setup ∧ (solveInit ext st).2 = 0 := by
  have hs0 : ∀ s0 : KSP S E, s0.setup = st.setup →
      (if !s0.guess_zero then GMRESResidual ext s0 0
        else (VecCopy s0 VEC_BINVF (VEC_VV 0), 0)).1.setup = st.setup ∧
      (if !s0.guess_zero then GMRESResidual ext s0 0
        else (VecCopy s0 VEC_BINVF (VEC_VV 0), 0)).2 = 0 := by
    intro s0 h
    split
    · exact ⟨(GMRESResidual_setup ext s0 0).1.trans h, (GMRESResidual_setup ext s0 0).2⟩
    · exact ⟨h, rfl⟩
  unfold solveInit
  apply hs0
  split <;> rfl

theorem KSPiGMRESSolve_eq (ext : Ext S E) (fuel : Nat) (its0 : Int) (st : KSP S E) :
    KSPiGMRESSolve ext fuel its0 st
      = solveLoop ext fuel
          { ksp := (solveInit ext st).1, its := its0, itcount := 0, restart := 0, cycles := [] } := by
  simp only [KSPiGMRESSolve, (solveInit_setup ext st).2, ne_eq, not_true_eq_false, if_false]

theorem length_le_sum_its (pre : List CycleCall) (h : ∀ c ∈ pre, c.status ≠ 0 ∧ 1 ≤ c.its) :
    (pre.length : Int) ≤ (pre.map CycleCall.its).sum := by
  induction pre with
  | nil => simp
  | cons c pre ih =>
    have h1 := (h c (List.mem_cons_self c pre)).2
    have h2 := ih (fun d hd => h d (List.mem_cons_of_mem c hd))
    simp only [List.length_cons, List.map_cons, List.sum_cons]
    push_cast
    omega

/-- The solve returns when the fuel covers the budget plus one cycle: it
returns 0 after cycles that all returned a nonzero status and made at least
one iteration, followed by one cycle that returned 0; the count written to
`*outits` is the sum of the counts of the cycles run and stays within the
budget, and at most `max_it + 1` cycles are run. -/
theorem solve_run (ext : Ext S E) (horth : ∀ s k, (ext.orthog s k).setup = s.setup)
    (fuel : Nat) (its0 : Int) (st : KSP S E) (h0 : 0 ≤ st.max_it)
    (hf : st.max_it.toNat + 1 ≤ fuel) :
    ∃ (r : SolveResult S E) (pre : List CycleCall) (last : CycleCall),
      KSPiGMRESSolve ext fuel its0 st = some r ∧ r.status = 0 ∧ r.cycles = pre ++ [last] ∧
      (∀ c ∈ pre, c.status ≠ 0 ∧ 1 ≤ c.its) ∧ last.status = 0 ∧ 0 ≤ last.its ∧
      r.outits = some ((r.cycles.map CycleCall.its).sum) ∧
      (r.cycles.map CycleCall.its).sum ≤ st.max_it ∧
      (r.cycles.length : Int) ≤ st.max_it + 1 ∧ r.ksp.max_it = st.max_it := by
  obtain ⟨hs, he⟩ := solveInit_setup ext st
  have hm := setup_max_it hs
  obtain ⟨r, pre, last, h1, h2, h3, h4, h5, h6, h7, h8, h9⟩ := solveLoop_run ext horth fuel
    { ksp := (solveInit ext st).1, its := its0, itcount := 0, restart := 0, cycles := [] }
    (by show (0 : Int) ≤ (solveInit ext st).1.max_it; rw [hm]; exact h0)
    (by show ((solveInit ext st).1.max_it - 0).toNat + 1 ≤ fuel; rw [hm]; simpa using hf)
  simp only [List.nil_append, zero_add] at h3 h7 h8
  rw [hm] at h8 h9
  have hsum : (r.cycles.map CycleCall.its).sum = (pre.map CycleCall.its).sum + last.its := by
    rw [h3]
    simp
  have hlen := length_le_sum_its pre h4
  refine ⟨r, pre, last, ?_, h2, h3, h4, h5, h6, ?_, ?_, ?_, h9⟩
  · rw [← h1]
    exact KSPiGMRESSolve_eq ext fuel its0 st
  · rw [h7, hsum]
  · rw [hsum]; exact h8
  · rw [h3]
    simp only [List.length_append, List.length_singleton]
    push_cast
    omega

/-- C14. The iteration budget bounds the solve: for every budget `max_it >= 0`,
every restart length `max_k`, every convergence test, even one that never
passes, and an orthogonalization plug-in that does not change the
configuration, the restart loop of `KSPiGMRESSolve` terminates (every fuel of
at least `max_it + 1` cycles suffices) after at most `max_it + 1` calls of
`GMREScycle`, and the count written to `*outits` is at most `max_it`. -/
theorem KSPiGMRESSolve_budget (ext : Ext S E)
    (horth : ∀ s k, (ext.orthog s k).setup = s.setup)
    (fuel : Nat) (its0 : Int) (st : KSP S E) (h0 : 0 ≤ st.max_it)
    (hf : st.max_it.toNat + 1 ≤ fuel) :
    ∃ (r : SolveResult S E) (n : Int),
      KSPiGMRESSolve ext fuel its0 st = some r ∧
      (r.cycles.length : Int) ≤ st.max_it + 1 ∧
      r.outits = some n ∧ 0 ≤ n ∧ n ≤ st.max_it := by
  obtain ⟨r, pre, last, h1, _, h3, h4, _, h6, h7, h8, h9, _⟩ :=
    solve_run ext horth fuel its0 st h0 hf
  refine ⟨r, _, h1, h9, h7, ?_, h8⟩
  have hlen := length_le_sum_its pre h4
  rw [h3]
  simp only [List.map_append, List.map_cons, List.map_nil, List.sum_append, List.sum_cons,
    List.sum_nil, add_zero]
  omega

/-- C15 (as amended). The return value of the solve does not report
non-convergence: for every budget `max_it >= 0` and every convergence test,
`KSPiGMRESSolve` returns 0 and writes the aggregated count to `*outits`,
whether the test passed or the budget ran out; a nonzero status of a cycle is
consumed by the restart loop, which ends on the first cycle that returns 0, so
that the status of the last cycle run is 0 in every run. -/
theorem KSPiGMRESSolve_returns_zero (ext : Ext S E)
    (horth : ∀ s k, (ext.orthog s k).setup = s.setup)
    (fuel : Nat) (its0 : Int) (st : KSP S E) (h0 : 0 ≤ st.max_it)
    (hf : st.max_it.toNat + 1 ≤ fuel) :
    ∃ (r : SolveResult S E) (pre : List CycleCall) (last : CycleCall),
      KSPiGMRESSolve ext fuel its0 st = some r ∧ r.status = 0 ∧ r.outits.isSome = true ∧
      r.cycles = pre ++ [last] ∧ (∀ c ∈ pre, c.status ≠ 0) ∧ last.status = 0 := by
  obtain ⟨r, pre, last, h1, h2, h3, h4, h5, _, h7, _⟩ := solve_run ext horth fuel its0 st h0 hf
  exact ⟨r, pre, last, h1, h2, by rw [h7]; rfl, h3, fun c hc => (h4 c hc).1, h5⟩
end SolveRun
section PassAnatomy
variable {S E : Type} [Add S] [Sub S] [Mul S] [Div S] [Neg S] [Zero S] [One S]
  [LT S] [DecidableRel (fun a b : S => a < b)] [DecidableEq S]

/-- The first part of a pass without history buffer, monitor and allocation,
under left preconditioning: the operator and the preconditioner are applied to
`V[it]` and the plug-in is called. -/
theorem cycleArnoldi_plain (ext : Ext S E) (itsSoFar : Int) (l : Loop S E)
    (hres : l.ksp.residual_history = none) (hmon : l.ksp.usr_monitor = false)
    (hvv : ¬ (l.ksp.vv_allocated ≤ (l.it : Int) + VEC_OFFSET + 1))
    (hpre : l.ksp.right_pre = false) :
    (cycleArnoldi ext itsSoFar l).1
      = ext.orthog ((l.ksp.setVec VEC_TEMP_MATOP (ext.MM (l.ksp.vec (VEC_VV l.it)))).setVec
          (VEC_VV (l.it + 1))
          (ext.PRE ((l.ksp.setVec VEC_TEMP_MATOP (ext.MM (l.ksp.vec (VEC_VV l.it)))).vec
            VEC_TEMP_MATOP))) l.it := by
  have h1 : recordHistory l.hist_len l.ksp (l.it + itsSoFar) l.res = (l.ksp, []) := by
    simp [recordHistory, hres]
  have h2 : callMonitor l.ksp l.it (l.it + itsSoFar) l.res = (l.ksp, []) := by
    simp [callMonitor, hmon]
  simp only [cycleArnoldi, h1, h2, if_neg hvv, MATOP, hpre]
  rfl

/-- The QR update of column 0 in terms of the entries it reads. -/
theorem update_first (sqrt fabs : S → S) (st : KSP S E) :
    (GMRESUpdateHessenberg sqrt fabs st 0).2
      = fabs (-(st.hh 1 0 / sqrt (st.hh 0 0 * st.hh 0 0 + st.hh 1 0 * st.hh 1 0) * st.rs 0)) ∧
    (GMRESUpdateHessenberg sqrt fabs st 0).1.rs 1
      = -(st.hh 1 0 / sqrt (st.hh 0 0 * st.hh 0 0 + st.hh 1 0 * st.hh 1 0) * st.rs 0) ∧
    (GMRESUpdateHessenberg sqrt fabs st 0).1.rs 0
      = st.hh 0 0 / sqrt (st.hh 0 0 * st.hh 0 0 + st.hh 1 0 * st.hh 1 0) * st.rs 0 := by
  simp [GMRESUpdateHessenberg, applyRotations, KSP.setCC, KSP.setSS, KSP.setRS, KSP.setHH, setAt,
    setAt2]

/-- What the normalization step leaves in the entries the QR update reads. -/
theorem cycleNormalize_entries (ext : Ext S E) (st : KSP S E) (it : Nat) :
    (cycleNormalize ext st it).1.hh (it + 1) it = ext.VecNorm (st.vec (VEC_VV (it + 1))) ∧
    (cycleNormalize ext st it).1.hh it it = st.hh it it ∧
    (cycleNormalize ext st it).1.rs = st.rs := by
  refine ⟨?_, ?_, cycleNormalize_rs ext st it⟩
  · unfold cycleNormalize
    simp only
    split <;> simp [KSP.setHH, KSP.setHES, KSP.setVec, setAt2]
  · unfold cycleNormalize
    simp only
    split <;> simp [KSP.setHH, KSP.setHES, KSP.setVec, setAt2]

theorem cycleBody_res (ext : Ext S E) (itsSoFar : Int) (l : Loop S E) :
    (cycleBody ext itsSoFar l).res
      = (GMRESUpdateHessenberg ext.sqrt ext.fabs
          (cycleNormalize ext (cycleArnoldi ext itsSoFar l).1 l.it).1 l.it).2 ∧
    (cycleBody ext itsSoFar l).ksp.rs
      = (GMRESUpdateHessenberg ext.sqrt ext.fabs
          (cycleNormalize ext (cycleArnoldi ext itsSoFar l).1 l.it).1 l.it).1.rs :=
  ⟨rfl, rfl⟩
end PassAnatomy
section InitFields
variable {S E : Type} [Add S] [Sub S] [Mul S] [Div S] [Neg S] [Zero S] [One S]
  [LT S] [DecidableRel (fun a b : S => a < b)] [DecidableEq S]

/-- What the loop entry leaves of the context: the buffers other than `RS[0]`,
the monitor and the allocation are as on entry, `RS[0]` is the norm of the
initial residual and `V[0]` is scaled by its reciprocal. -/
theorem cycleInit_fields (ext : Ext S E) (restart : Int) (st : KSP S E) :
    (cycleInit ext restart st).ksp.residual_history = st.residual_history ∧
    (cycleInit ext restart st).ksp.usr_monitor = st.usr_monitor ∧
    (cycleInit ext restart st).ksp.vv_allocated = st.vv_allocated ∧
    (cycleInit ext restart st).ksp.right_pre = st.right_pre ∧
    (cycleInit ext restart st).ksp.rs 0 = ext.VecNorm (st.vec (VEC_VV 0)) ∧
    (cycleInit ext restart st).ksp.vec (VEC_VV 0)
      = ext.VecScale (1 / ext.VecNorm (st.vec (VEC_VV 0))) (st.vec (VEC_VV 0)) ∧
    (cycleInit ext restart st).res = ext.VecNorm (st.vec (VEC_VV 0)) := by
  simp only [cycleInit]
  split <;> simp [KSP.setVec, KSP.setRS, setAt]
end InitFields

section SwapData

theorem qsqrt_one : qsqrt 1 = 1 := by
  simp [qsqrt]

theorem qsqrt_zero : qsqrt 0 = 0 := by
  simp [qsqrt]

theorem swap_arnoldi (itsSoFar : Int) (l : Loop ℚ (ℚ × ℚ)) (hit : l.it = 0)
    (hres : l.ksp.residual_history = none) (hmon : l.ksp.usr_monitor = false)
    (hvv : l.ksp.vv_allocated = 5) (hpre : l.ksp.right_pre = false)
    (hv0 : l.ksp.vec (VEC_VV 0) = (1, 0)) (hrs : l.ksp.rs 0 = 1) :
    (cycleArnoldi swapExt itsSoFar l).1.vec (VEC_VV 1) = (0, 1) ∧
    (cycleArnoldi swapExt itsSoFar l).1.hh 0 0 = 0 ∧
    (cycleArnoldi swapExt itsSoFar l).1.rs 0 = 1 := by
  rw [cycleArnoldi_plain swapExt itsSoFar l hres hmon
    (by rw [hvv, hit]; simp [VEC_OFFSET]) hpre, hit]
  have hv0' : l.ksp.vec (Vec.work 3) = (1, 0) := hv0
  simp [swapExt, planeOrthog, KSP.setVec, KSP.setHH, KSP.setHES, setAt2, hv0', hrs, VEC_VV,
    VEC_OFFSET, VEC_TEMP_MATOP]

/-- The first pass of the inner loop on the plane, for the swap operator and
the initial residual `(1, 0)`: the new direction `(0, 1)` is orthogonal to
`V[0]`, the rotation has cosine 0 and sine 1, `RS` becomes `(0, -1)` and the
residual estimate stays 1. -/
theorem swap_first_pass (st : KSP ℚ (ℚ × ℚ)) (hres : st.residual_history = none)
    (hmon : st.usr_monitor = false) (hvv : st.vv_allocated = 5) (hpre : st.right_pre = false)
    (hv0 : st.vec (VEC_VV 0) = (1, 0)) (itsSoFar restart : Int) (c : Int) :
    (cycleBody swapExt itsSoFar { cycleInit swapExt restart st with converged := c }).res = 1 ∧
    (cycleBody swapExt itsSoFar { cycleInit swapExt restart st with converged := c }).ksp.rs 1
      = -1 ∧
    (cycleBody swapExt itsSoFar { cycleInit swapExt restart st with converged := c }).ksp.rs 0
      = 0 := by
  have hn : swapExt.VecNorm (st.vec (VEC_VV 0)) = 1 := by
    rw [hv0]
    simp [swapExt, qsqrt_one]
  obtain ⟨f1, f2, f3, f4, f5, f6, _⟩ := cycleInit_fields swapExt restart st
  rw [hn] at f5 f6
  rw [hv0] at f6
  obtain ⟨a1, a2, a3⟩ := swap_arnoldi itsSoFar
    { cycleInit swapExt restart st with converged := c } rfl (f1.trans hres) (f2.trans hmon)
    (f3.trans hvv) (f4.trans hpre) (f6.trans (by simp [swapExt])) f5
  obtain ⟨n1, n2, n3⟩ := cycleNormalize_entries swapExt
    (cycleArnoldi swapExt itsSoFar { cycleInit swapExt restart st with converged := c }).1 0
  obtain ⟨u1, u2, u3⟩ := update_first swapExt.sqrt swapExt.fabs
    (cycleNormalize swapExt
      (cycleArnoldi swapExt itsSoFar { cycleInit swapExt restart st with converged := c }).1 0).1
  obtain ⟨b1, b2⟩ := cycleBody_res swapExt itsSoFar
    { cycleInit swapExt restart st with converged := c }
  have hit : ({ cycleInit swapExt restart st with converged := c } : Loop ℚ (ℚ × ℚ)).it = 0 := rfl
  rw [hit] at b1 b2
  rw [a1] at n1
  rw [a2] at n2
  have n1' : (cycleNormalize swapExt
      (cycleArnoldi swapExt itsSoFar { cycleInit swapExt restart st with converged := c }).1 0).1.hh
        1 0 = 1 := by
    rw [n1]
    simp [swapExt, qsqrt_one]
  rw [n1', n2, n3, a3] at u1 u2 u3
  rw [b1, b2, u1, u2, u3]
  simp [swapExt, qsqrt_one]
end SwapData
section SignInvariant
variable {α E : Type} [LinearOrderedField α]

end SignInvariant

section SwapEvaluations

theorem planeOrthog_setup (st : KSP ℚ (ℚ × ℚ)) (it n : Nat) :
    (planeOrthog st it n).setup = st.setup := by
  induction n with
  | zero => rfl
  | succ n ih =>
    simp only [planeOrthog]
    exact ih

theorem swap_orthog_setup (s : KSP ℚ (ℚ × ℚ)) (k : Nat) : (swapExt.orthog s k).setup = s.setup :=
  planeOrthog_setup s k (k + 1)

end SwapEvaluations
/-! ## The residual history -/

section History
variable {S E : Type} [Add S] [Sub S] [Mul S] [Div S] [Neg S] [Zero S] [One S]
  [LT S] [DecidableRel (fun a b : S => a < b)] [DecidableEq S]

theorem history_mem_record (hl : Int) (st : KSP S E) (n : Int) (res : S) (i : Int) (v : S)
    (h : Event.history i v ∈ (recordHistory hl st n res).2) : i = n ∧ v = res ∧ n < hl := by
  unfold recordHistory at h
  split at h
  · split at h
    · rename_i hlt
      simp at h
      exact ⟨h.1, h.2, hlt⟩
    · simp at h
  · simp at h

theorem history_not_mem_monitor (st : KSP S E) (it : Nat) (n : Int) (res : S) (i : Int) (v : S) :
    Event.history i v ∉ (callMonitor st it n res).2 := by
  unfold callMonitor
  split <;> simp

theorem history_not_mem_MATOP (ext : Ext S E) (st : KSP S E) (a b tmp : Vec) (i : Int) (v : S) :
    Event.history i v ∉ (MATOP ext st a b tmp).2 := by
  unfold MATOP
  split <;> simp

theorem history_not_mem_normalize (ext : Ext S E) (st : KSP S E) (it : Nat) (i : Int) (v : S) :
    Event.history i v ∉ (cycleNormalize ext st it).2 := by
  unfold cycleNormalize
  simp only
  split <;> simp

theorem history_mem_arnoldi (ext : Ext S E) (itsSoFar : Int) (l : Loop S E) (i : Int) (v : S)
    (h : Event.history i v ∈ (cycleArnoldi ext itsSoFar l).2) :
    i = l.it + itsSoFar ∧ v = l.res ∧ i < l.hist_len := by
  simp only [cycleArnoldi, List.mem_append] at h
  rcases h with (((h | h) | h) | h) | h
  · obtain ⟨h1, h2, h3⟩ := history_mem_record _ _ _ _ _ _ h
    exact ⟨h1, h2, by rw [h1]; exact h3⟩
  · exact absurd h (history_not_mem_monitor _ _ _ _ _ _)
  · split at h <;> simp at h
  · exact absurd h (history_not_mem_MATOP _ _ _ _ _ _ _)
  · simp at h

theorem history_mem_body (ext : Ext S E) (itsSoFar : Int) (l : Loop S E) (i : Int) (v : S)
    (h : Event.history i v ∈ (cycleBody ext itsSoFar l).trace) :
    Event.history i v ∈ l.trace ∨ (i = l.it + itsSoFar ∧ v = l.res ∧ i < l.hist_len) := by
  simp only [cycleBody, List.mem_append] at h
  rcases h with ((h | h) | h) | h
  · exact Or.inl h
  · exact Or.inr (history_mem_arnoldi ext itsSoFar l i v h)
  · exact absurd h (history_not_mem_normalize _ _ _ _ _)
  · simp at h

/-- Every history write of the first `k` passes is made by a pass `j < k`, at
the index `it + itsSoFar` of that pass, below the length of the buffer, with
the residual estimate the pass starts from. -/
theorem history_mem_pass (ext : Ext S E) (itsSoFar : Int) (l : Loop S E) (i : Int) (v : S)
    (k : Nat) (h : Event.history i v ∈ (cyclePass ext itsSoFar l k).trace) :
    Event.history i v ∈ l.trace ∨
      ∃ j, j < k ∧ i = ((l.it + j : Nat) : Int) + itsSoFar ∧
        v = (cyclePass ext itsSoFar l j).res ∧ i < l.hist_len := by
  induction k with
  | zero => exact Or.inl h
  | succ k ih =>
    rcases history_mem_body ext itsSoFar _ i v h with h1 | ⟨h1, h2, h3⟩
    · rcases ih h1 with h4 | ⟨j, hj, h5⟩
      · exact Or.inl h4
      · exact Or.inr ⟨j, by omega, h5⟩
    · refine Or.inr ⟨k, by omega, ?_, h2, ?_⟩
      · rw [h1]
        show (((cyclePass ext itsSoFar l k).it : Nat) : Int) + itsSoFar = _
        rw [cyclePass_it]
      · have := cyclePass_hist_len ext itsSoFar l k
        show i < l.hist_len
        rw [← this]
        exact h3

theorem history_mem_tally (itsSoFar : Int) (l : Loop S E) (i : Int) (v : S)
    (h : Event.history i v ∈ (cycleTally itsSoFar l).2) :
    i = l.it + itsSoFar ∧ v = l.res ∧ i < l.hist_len := by
  simp only [cycleTally, List.mem_append] at h
  rcases h with h | h
  · obtain ⟨h1, h2, h3⟩ := history_mem_record _ _ _ _ _ _ h
    exact ⟨h1, h2, by rw [h1]; exact h3⟩
  · exact absurd h (history_not_mem_monitor _ _ _ _ _ _)

theorem history_mem_finish (ext : Ext S E) (c : Option Int) (itsSoFar : Int) (l : Loop S E)
    (i : Int) (v : S) (h : Event.history i v ∈ (cycleFinish ext c itsSoFar l).trace) :
    Event.history i v ∈ l.trace ∨ (i = l.it + itsSoFar ∧ v = l.res ∧ i < l.hist_len) := by
  unfold cycleFinish at h
  simp only at h
  split at h
  · simp only [List.mem_append] at h
    rcases h with h | h
    · exact Or.inl h
    · exact Or.inr (history_mem_tally itsSoFar l i v h)
  · simp only [List.mem_append] at h
    rcases h with (h | h) | h
    · exact Or.inl h
    · exact Or.inr (history_mem_tally itsSoFar l i v h)
    · simp at h

/-- C16. Bounded residual history: for every `itsSoFar >= 0`, every history
length and every run of `GMREScycle`, each write to the residual-history
buffer is made at an index `i = it + itsSoFar` for an iteration index
`0 <= it <= ` the number of passes of the inner loop, with
`0 <= i < res_hist_size`, and stores the residual estimate `res` current at
iteration `it`; hence no entry of index `>= res_hist_size` is ever written. -/
theorem GMREScycle_history_bounded (ext : Ext S E) (c : Option Int) (itsSoFar restart : Int)
    (st : KSP S E) (hs : 0 ≤ itsSoFar) (i : Int) (v : S)
    (hmem : Event.history i v ∈ (GMREScycle ext c itsSoFar restart st).trace) :
    0 ≤ i ∧ i < st.res_hist_size ∧
    ∃ it : Nat, i = (it : Int) + itsSoFar ∧
      it ≤ (cycleLoop ext st.max_k st.max_it itsSoFar (cycleInit ext restart st)).it ∧
      v = (cyclePass ext itsSoFar (cycleInit ext restart st) it).res := by
  by_cases h0 : ext.VecNorm (st.vec (VEC_VV 0)) = 0
  · rw [(cycle_zero_residual ext c itsSoFar restart st h0).2.2.2.2] at hmem
    simp at hmem
  · rw [GMREScycle_of_ne ext c itsSoFar restart st h0] at hmem
    obtain ⟨n, hn, _, _⟩ := cycleLoop_eq_pass ext st.max_k st.max_it itsSoFar
      (cycleInit ext restart st)
    have hit : (cycleLoop ext st.max_k st.max_it itsSoFar (cycleInit ext restart st)).it = n := by
      rw [hn]
      show (cyclePass ext itsSoFar (cycleInit ext restart st) n).it = n
      rw [cyclePass_it]
      exact Nat.zero_add n
    have hres : (cycleLoop ext st.max_k st.max_it itsSoFar (cycleInit ext restart st)).res
        = (cyclePass ext itsSoFar (cycleInit ext restart st) n).res := by
      rw [hn]
    have htr : (cycleLoop ext st.max_k st.max_it itsSoFar (cycleInit ext restart st)).trace
        = (cyclePass ext itsSoFar (cycleInit ext restart st) n).trace := by
      rw [hn]
    have hhl : (cycleLoop ext st.max_k st.max_it itsSoFar (cycleInit ext restart st)).hist_len
        = st.res_hist_size := by
      rw [hn]
      exact cyclePass_hist_len ext itsSoFar (cycleInit ext restart st) n
    have key : ∃ it : Nat, it ≤ n ∧ i = (it : Int) + itsSoFar ∧
        v = (cyclePass ext itsSoFar (cycleInit ext restart st) it).res ∧
        i < st.res_hist_size := by
      rcases history_mem_finish ext c itsSoFar _ i v hmem with h | ⟨h1, h2, h3⟩
      · rw [htr] at h
        rcases history_mem_pass ext itsSoFar _ i v n h with h | ⟨j, hj, h5, h6, h7⟩
        · simp [cycleInit] at h
        · exact ⟨j, by omega, by rw [h5]; show (((0 + j : Nat) : Int)) + itsSoFar = _; simp,
            h6, h7⟩
      · rw [hit] at h1
        rw [hres] at h2
        rw [hhl] at h3
        exact ⟨n, le_rfl, h1, h2, h3⟩
    obtain ⟨it, h1, h2, h3, h4⟩ := key
    exact ⟨by omega, h4, it, h2, by rw [hit]; exact h1, h3⟩
end History
section TraceGrowth
variable {S E : Type} [Add S] [Sub S] [Mul S] [Div S] [Neg S] [Zero S] [One S]
  [LT S] [DecidableRel (fun a b : S => a < b)] [DecidableEq S]

theorem mem_body_trace (ext : Ext S E) (itsSoFar : Int) (l : Loop S E) (e : Event S)
    (h : e ∈ l.trace) : e ∈ (cycleBody ext itsSoFar l).trace := by
  simp only [cycleBody, List.mem_append]
  exact Or.inl (Or.inl (Or.inl h))

theorem mem_loop_trace (ext : Ext S E) (max_k max_it itsSoFar : Int) (l : Loop S E) (e : Event S)
    (h : e ∈ l.trace) : e ∈ (cycleLoop ext max_k max_it itsSoFar l).trace := by
  induction l using cycleLoop.induct ext max_k max_it itsSoFar with
  | case1 l c hc ih =>
    simp only [c] at hc ih
    rw [cycleLoop_step ext max_k max_it itsSoFar l hc]
    exact ih (mem_body_trace ext itsSoFar _ e h)
  | case2 l c hc =>
    rw [cycleLoop_exit ext max_k max_it itsSoFar l hc]
    exact h

theorem mem_finish_trace (ext : Ext S E) (c : Option Int) (itsSoFar : Int) (l : Loop S E)
    (e : Event S) (h : e ∈ l.trace) : e ∈ (cycleFinish ext c itsSoFar l).trace := by
  unfold cycleFinish
  simp only
  split
  · simp only [List.mem_append]
    exact Or.inl h
  · simp only [List.mem_append]
    exact Or.inl (Or.inl h)

/-- A pass that finds a history buffer and an index below its length records
the residual estimate it starts from. -/
theorem history_recorded_body (ext : Ext S E) (itsSoFar : Int) (l : Loop S E) (nres : Int → S)
    (hb : l.ksp.residual_history = some nres) (hlt : (l.it : Int) + itsSoFar < l.hist_len) :
    Event.history (l.it + itsSoFar) l.res ∈ (cycleBody ext itsSoFar l).trace := by
  have h1 : (recordHistory l.hist_len l.ksp (l.it + itsSoFar) l.res).2
      = [Event.history (l.it + itsSoFar) l.res] := by
    simp [recordHistory, hb, hlt]
  simp [cycleBody, cycleArnoldi, h1]
end TraceGrowth
section HistoryEvaluations

theorem hist_norm : (demoExt 2 1).VecNorm ((histKSP 5).vec (VEC_VV 0)) = 5 := by
  simp [demoExt, histKSP, demoKSP]

theorem demo_orthog_setup (s : KSP ℚ ℚ) (k : Nat) : ((demoExt 2 1).orthog s k).setup = s.setup :=
  rfl

theorem hist_entry_condition :
    (demoExt 2 1).converged (cycleInit (demoExt 2 1) 0 (histKSP 5)).ksp
        (((cycleInit (demoExt 2 1) 0 (histKSP 5)).it : Int) + 0)
        (cycleInit (demoExt 2 1) 0 (histKSP 5)).res = 0 ∧
      ((cycleInit (demoExt 2 1) 0 (histKSP 5)).it : Int) < (histKSP 5).max_k ∧
      ((cycleInit (demoExt 2 1) 0 (histKSP 5)).it : Int) + 0 < (histKSP 5).max_it := by
  refine ⟨?_, by decide, by decide⟩
  have hc : (demoExt 2 1).converged = KSPiGMRESDefaultConverged := rfl
  obtain ⟨_, _, _, _, _, _, f7⟩ := cycleInit_fields (demoExt 2 1) 0 (histKSP 5)
  rw [hc]
  simp only [KSPiGMRESDefaultConverged, f7, cycleInit_ttol, hist_norm]
  simp [histKSP, demoKSP, blankKSP]

theorem hist_first_write :
    Event.history 0 5 ∈ (GMREScycle (demoExt 2 1) (some 7) 0 0 (histKSP 5)).trace := by
  rw [GMREScycle_of_ne _ _ _ _ _ (by rw [hist_norm]; norm_num),
    cycleLoop_step _ _ _ _ _ hist_entry_condition]
  apply mem_finish_trace
  apply mem_loop_trace
  obtain ⟨f1, _, _, _, _, _, f7⟩ := cycleInit_fields (demoExt 2 1) 0 (histKSP 5)
  have h := history_recorded_body (demoExt 2 1) 0
    { cycleInit (demoExt 2 1) 0 (histKSP 5) with
      converged := (demoExt 2 1).converged (cycleInit (demoExt 2 1) 0 (histKSP 5)).ksp
        (((cycleInit (demoExt 2 1) 0 (histKSP 5)).it : Int) + 0)
        (cycleInit (demoExt 2 1) 0 (histKSP 5)).res }
    (fun _ => -1) f1 (by decide)
  have e1 : (cycleInit (demoExt 2 1) 0 (histKSP 5)).res = 5 := f7.trans hist_norm
  have e2 : (((cycleInit (demoExt 2 1) 0 (histKSP 5)).it : Int) + 0) = 0 := by decide
  simp only [e1, e2] at h
  exact h

/-- Witness of C16: the cycle for the operator `2 x` with the initial residual
5 and a history buffer of length 4 writes the value 5 at index 0. -/
theorem GMREScycle_history_bounded_witness :
    (0 : Int) ≤ 0 ∧
    Event.history 0 5 ∈ (GMREScycle (demoExt 2 1) (some 7) 0 0 (histKSP 5)).trace ∧
    ((0 : Int) ≤ 0 ∧ (0 : Int) < (histKSP 5).res_hist_size ∧
      ∃ it : Nat, (0 : Int) = (it : Int) + 0 ∧
        it ≤ (cycleLoop (demoExt 2 1) (histKSP 5).max_k (histKSP 5).max_it 0
          (cycleInit (demoExt 2 1) 0 (histKSP 5))).it ∧
        (5 : ℚ) = (cyclePass (demoExt 2 1) 0 (cycleInit (demoExt 2 1) 0 (histKSP 5)) it).res) :=
  ⟨le_rfl, hist_first_write,
    GMREScycle_history_bounded (demoExt 2 1) (some 7) 0 0 (histKSP 5) le_rfl 0 5 hist_first_write⟩

/-- C17. The residual history of a cycle that does nothing: in the context with
zero initial residual and a history buffer of length 4 filled with `-1`,
`GMREScycle` called with `itsSoFar = 0` reports `itcount = 0`, which is below
the length of the buffer, and makes no history write: `nres[0]` still holds
`-1` on return and `res_act_size` is not set. -/
theorem GMREScycle_history_gap :
    (demoExt 2 1).VecNorm ((histKSP 0).vec (VEC_VV 0)) = 0 ∧
    (GMREScycle (demoExt 2 1) (some 7) 0 0 (histKSP 0)).itcount = some 0 ∧
    (0 : Int) < (histKSP 0).res_hist_size ∧
    (GMREScycle (demoExt 2 1) (some 7) 0 0 (histKSP 0)).trace = [] ∧
    (GMREScycle (demoExt 2 1) (some 7) 0 0 (histKSP 0)).ksp.residual_history.map (fun f => f 0)
      = some (-1) ∧
    (GMREScycle (demoExt 2 1) (some 7) 0 0 (histKSP 0)).ksp.res_act_size
      = (histKSP 0).res_act_size := by
  have hn : (demoExt 2 1).VecNorm ((histKSP 0).vec (VEC_VV 0)) = 0 := by
    simp [demoExt, histKSP, demoKSP]
  obtain ⟨_, h2, h3, _, h5⟩ := cycle_zero_residual (demoExt 2 1) (some 7) 0 0 (histKSP 0) hn
  refine ⟨hn, h2, by decide, h5, ?_, ?_⟩
  · rw [h3]
    rfl
  · rw [h3]
    rfl
end HistoryEvaluations
section ShortCycles
variable {S E : Type} [Add S] [Sub S] [Mul S] [Div S] [Neg S] [Zero S] [One S]
  [LT S] [DecidableRel (fun a b : S => a < b)] [DecidableEq S]

/-- A cycle with nonzero initial residual whose loop condition fails at the
entry: no iteration, status 0. -/
theorem cycle_no_pass (ext : Ext S E) (c : Int) (itsSoFar restart : Int) (st : KSP S E)
    (h0 : ext.VecNorm (st.vec (VEC_VV 0)) ≠ 0)
    (hc : ¬ (ext.converged (cycleInit ext restart st).ksp
        (((cycleInit ext restart st).it : Int) + itsSoFar) (cycleInit ext restart st).res = 0 ∧
      ((cycleInit ext restart st).it : Int) < st.max_k ∧
      ((cycleInit ext restart st).it : Int) + itsSoFar < st.max_it)) :
    (GMREScycle ext (some c) itsSoFar restart st).itcount = some 0 ∧
    (GMREScycle ext (some c) itsSoFar restart st).status = 0 ∧
    (cycleLoop ext st.max_k st.max_it itsSoFar (cycleInit ext restart st)).converged
      = ext.converged (cycleInit ext restart st).ksp
        (((cycleInit ext restart st).it : Int) + itsSoFar) (cycleInit ext restart st).res := by
  have hl := cycleLoop_exit ext st.max_k st.max_it itsSoFar (cycleInit ext restart st) hc
  have hit : (cycleLoop ext st.max_k st.max_it itsSoFar (cycleInit ext restart st)).it = 0 := by
    rw [hl]
    rfl
  refine ⟨?_, ?_, ?_⟩
  · rw [GMREScycle_of_ne ext _ itsSoFar restart st h0, cycleFinish_itcount, hit]
    rfl
  · rw [cycle_status ext _ itsSoFar restart st h0, if_pos hit]
  · rw [hl]

/-- A cycle with nonzero initial residual whose loop condition holds at the
entry and fails after the first pass: one iteration, and the status is 1
exactly when the convergence test fails after that pass. -/
theorem cycle_one_pass (ext : Ext S E) (c : Int) (itsSoFar restart : Int) (st : KSP S E)
    (h0 : ext.VecNorm (st.vec (VEC_VV 0)) ≠ 0)
    (hc : ext.converged (cycleInit ext restart st).ksp
        (((cycleInit ext restart st).it : Int) + itsSoFar) (cycleInit ext restart st).res = 0 ∧
      ((cycleInit ext restart st).it : Int) < st.max_k ∧
      ((cycleInit ext restart st).it : Int) + itsSoFar < st.max_it)
    (hx : ¬ (ext.converged (cyclePass ext itsSoFar (cycleInit ext restart st) 1).ksp
        (((cyclePass ext itsSoFar (cycleInit ext restart st) 1).it : Int) + itsSoFar)
        (cyclePass ext itsSoFar (cycleInit ext restart st) 1).res = 0 ∧
      ((cyclePass ext itsSoFar (cycleInit ext restart st) 1).it : Int) < st.max_k ∧
      ((cyclePass ext itsSoFar (cycleInit ext restart st) 1).it : Int) + itsSoFar < st.max_it)) :
    (GMREScycle ext (some c) itsSoFar restart st).itcount = some 1 ∧
    (GMREScycle ext (some c) itsSoFar restart st).status
      = (if ext.converged (cyclePass ext itsSoFar (cycleInit ext restart st) 1).ksp
          (((cyclePass ext itsSoFar (cycleInit ext restart st) 1).it : Int) + itsSoFar)
          (cyclePass ext itsSoFar (cycleInit ext restart st) 1).res = 0 then 1 else 0) ∧
    (GMREScycle ext (some c) itsSoFar restart st).ksp
      = BuildGmresSoln ext Buf.rsArea VEC_SOLN VEC_SOLN
          (cycleTally itsSoFar (cycleLoop ext st.max_k st.max_it itsSoFar
            (cycleInit ext restart st))).1 0 ∧
    (cycleLoop ext st.max_k st.max_it itsSoFar (cycleInit ext restart st)).ksp
      = (cyclePass ext itsSoFar (cycleInit ext restart st) 1).ksp ∧
    (cycleLoop ext st.max_k st.max_it itsSoFar (cycleInit ext restart st)).converged
      = ext.converged (cyclePass ext itsSoFar (cycleInit ext restart st) 1).ksp
          (((cyclePass ext itsSoFar (cycleInit ext restart st) 1).it : Int) + itsSoFar)
          (cyclePass ext itsSoFar (cycleInit ext restart st) 1).res := by
  have hl : cycleLoop ext st.max_k st.max_it itsSoFar (cycleInit ext restart st)
      = { cyclePass ext itsSoFar (cycleInit ext restart st) 1 with
          converged := ext.converged (cyclePass ext itsSoFar (cycleInit ext restart st) 1).ksp
            (((cyclePass ext itsSoFar (cycleInit ext restart st) 1).it : Int) + itsSoFar)
            (cyclePass ext itsSoFar (cycleInit ext restart st) 1).res } := by
    rw [cycleLoop_step ext st.max_k st.max_it itsSoFar (cycleInit ext restart st) hc]
    exact cycleLoop_exit ext st.max_k st.max_it itsSoFar _ hx
  have hit : (cycleLoop ext st.max_k st.max_it itsSoFar (cycleInit ext restart st)).it = 1 := by
    rw [hl]
    rfl
  have hcv : (cycleLoop ext st.max_k st.max_it itsSoFar (cycleInit ext restart st)).converged
      = ext.converged (cyclePass ext itsSoFar (cycleInit ext restart st) 1).ksp
          (((cyclePass ext itsSoFar (cycleInit ext restart st) 1).it : Int) + itsSoFar)
          (cyclePass ext itsSoFar (cycleInit ext restart st) 1).res := by
    rw [hl]
  refine ⟨?_, ?_, ?_, ?_, ?_⟩
  · rw [GMREScycle_of_ne ext _ itsSoFar restart st h0, cycleFinish_itcount, hit]
    rfl
  · rw [cycle_status ext _ itsSoFar restart st h0, if_neg (by rw [hit]; decide), hcv]
  · rw [GMREScycle_of_ne ext _ itsSoFar restart st h0]
    have hne : ¬ (((cycleLoop ext st.max_k st.max_it itsSoFar (cycleInit ext restart st)).it : Nat)
        : Int) = 0 := by rw [hit]; decide
    simp only [cycleFinish, hne, if_false, hit]
    rfl
  · rw [hl]
  · exact hcv
end ShortCycles
section VecFrame
variable {S E : Type} [Add S] [Sub S] [Mul S] [Div S] [Neg S] [Zero S] [One S]
  [LT S] [DecidableRel (fun a b : S => a < b)] [DecidableEq S]

theorem GMRESGetNewVectors_vec (st : KSP S E) (it : Int) :
    (GMRESGetNewVectors st it).vec = st.vec := by
  unfold GMRESGetNewVectors
  simp only
  split <;> rfl

theorem MATOP_vec_other (ext : Ext S E) (st : KSP S E) (a b tmp x : Vec) (hb : x ≠ b)
    (ht : x ≠ tmp) : (MATOP ext st a b tmp).1.vec x = st.vec x := by
  unfold MATOP
  split <;> simp [KSP.setVec, hb, ht]

theorem cycleNormalize_vec_other (ext : Ext S E) (st : KSP S E) (it : Nat) (x : Vec)
    (hx : x ≠ VEC_VV (it + 1)) : (cycleNormalize ext st it).1.vec x = st.vec x := by
  unfold cycleNormalize
  simp only
  split <;> simp [KSP.setVec, KSP.setHH, KSP.setHES, hx]

/-- A pass of the inner loop writes no vector besides the scratch vector of
the operator and `V[it+1]`, when the plug-in writes no other vector than
`V[it+1]`. -/
theorem cycleBody_vec_other (ext : Ext S E)
    (horth : ∀ s k x, x ≠ VEC_VV (k + 1) → (ext.orthog s k).vec x = s.vec x)
    (itsSoFar : Int) (l : Loop S E) (x : Vec) (h1 : x ≠ VEC_TEMP_MATOP)
    (h2 : x ≠ VEC_VV (l.it + 1)) :
    (cycleBody ext itsSoFar l).ksp.vec x = l.ksp.vec x := by
  have h : (cycleBody ext itsSoFar l).ksp.vec
      = (GMRESUpdateHessenberg ext.sqrt ext.fabs
          (cycleNormalize ext (cycleArnoldi ext itsSoFar l).1 l.it).1 l.it).1.vec := rfl
  rw [h, (GMRESUpdateHessenberg_frame _ _ _ _).1, cycleNormalize_vec_other _ _ _ _ h2]
  simp only [cycleArnoldi]
  rw [horth _ _ _ h2, MATOP_vec_other _ _ _ _ _ _ h2 h1]
  split
  · rw [GMRESGetNewVectors_vec, callMonitor_vec, recordHistory_vec]
  · rw [callMonitor_vec, recordHistory_vec]

theorem cycleInit_vec_other (ext : Ext S E) (restart : Int) (st : KSP S E) (x : Vec)
    (hx : x ≠ VEC_VV 0) : (cycleInit ext restart st).ksp.vec x = st.vec x := by
  simp only [cycleInit]
  split <;> simp [KSP.setVec, KSP.setRS, hx]

/-- The reconstruction after one iteration, in place and under left
preconditioning, in terms of the entries it reads. -/
theorem BuildGmresSoln_first (ext : Ext S E) (st : KSP S E) (hp : st.right_pre = false) :
    (BuildGmresSoln ext Buf.rsArea VEC_SOLN VEC_SOLN st 0).vec VEC_SOLN
      = ext.VecAXPY 1
          (ext.VecAXPY (st.rs 0 / st.hh 0 0) (st.vec (VEC_VV 0)) (ext.VecSet 0 (st.vec VEC_TEMP)))
          (st.vec VEC_SOLN) ∧
    (∀ x, x ≠ VEC_SOLN → x ≠ VEC_TEMP →
      (BuildGmresSoln ext Buf.rsArea VEC_SOLN VEC_SOLN st 0).vec x = st.vec x) := by
  constructor
  · simp [BuildGmresSoln, backSubst, backOuter, BasicMultiMaxpy, KSP.writeBuf, KSP.readBuf,
      KSP.setVec, hp, setAt, VEC_SOLN, VEC_TEMP, VEC_VV, VEC_OFFSET]
  · intro x h1 h2
    simp [BuildGmresSoln, backSubst, backOuter, BasicMultiMaxpy, KSP.writeBuf, KSP.readBuf,
      KSP.setVec, hp, setAt, h1, h2]

/-- The residual recomputed under left preconditioning. -/
theorem GMRESResidual_vec (ext : Ext S E) (st : KSP S E) (restart : Int)
    (hp : st.right_pre = false) :
    (GMRESResidual ext st restart).1.vec (VEC_VV 0)
      = ext.VecAXPY (-1) (ext.PRE (ext.MM (st.vec VEC_SOLN))) (st.vec VEC_BINVF) := by
  simp [GMRESResidual, MATOP, VecCopy, KSP.setVec, hp, VEC_SOLN, VEC_TEMP, VEC_VV, VEC_BINVF,
    VEC_TEMP_MATOP, VEC_OFFSET]
end VecFrame
section CycleSetup
variable {S E : Type} [Add S] [Sub S] [Mul S] [Div S] [Neg S] [Zero S] [One S]
  [LT S] [DecidableRel (fun a b : S => a < b)] [DecidableEq S]

/-- A cycle with nonzero initial residual returns the configuration of its
loop entry, when the plug-in does not change the configuration. -/
theorem GMREScycle_setup (ext : Ext S E) (horth : ∀ s k, (ext.orthog s k).setup = s.setup)
    (c : Option Int) (itsSoFar restart : Int) (st : KSP S E)
    (h0 : ext.VecNorm (st.vec (VEC_VV 0)) ≠ 0) :
    (GMREScycle ext c itsSoFar restart st).ksp.setup = (cycleInit ext restart st).ksp.setup := by
  rw [GMREScycle_of_ne ext c itsSoFar restart st h0, cycleFinish_setup, cycleLoop_setup ext horth]

theorem setup_right_pre {a b : KSP S E} (h : a.setup = b.setup) : a.right_pre = b.right_pre :=
  congrArg (fun p => p.2.2.2.2.2.1) h
end CycleSetup

section SwapSolve

theorem planeOrthog_vec (st : KSP ℚ (ℚ × ℚ)) (it n : Nat) (x : Vec) (hx : x ≠ VEC_VV (it + 1)) :
    (planeOrthog st it n).vec x = st.vec x := by
  induction n with
  | zero => rfl
  | succ n ih =>
    simp only [planeOrthog]
    rw [vec_setVec_other _ _ hx]
    exact ih

theorem swap_orthog_vec (s : KSP ℚ (ℚ × ℚ)) (k : Nat) (x : Vec) (hx : x ≠ VEC_VV (k + 1)) :
    (swapExt.orthog s k).vec x = s.vec x :=
  planeOrthog_vec s k (k + 1) x hx

theorem swapEntry_fields :
    swapEntry.residual_history = none ∧ swapEntry.usr_monitor = false ∧
    swapEntry.vv_allocated = 5 ∧ swapEntry.right_pre = false ∧
    swapEntry.vec (VEC_VV 0) = (1, 0) ∧ swapEntry.vec VEC_BINVF = (1, 0) ∧
    swapEntry.vec VEC_SOLN = (0, 0) ∧ swapEntry.max_k = 2 ∧ swapEntry.max_it = 1 ∧
    swapEntry.rtol = 1 / 2 ∧ swapEntry.atol = 0 := by
  refine ⟨rfl, rfl, rfl, rfl, ?_, ?_, ?_, rfl, rfl, rfl, rfl⟩ <;>
  simp [swapEntry, solveInit, swapRhsKSP, blankKSP, VecCopy, KSP.setVec, swapExt, VEC_VV,
    VEC_BINVF, VEC_SOLN, VEC_RHS, VEC_OFFSET]
end SwapSolve
section SwapSolve2

theorem swapEntry_norm : swapExt.VecNorm (swapEntry.vec (VEC_VV 0)) = 1 := by
  rw [swapEntry_fields.2.2.2.2.1]
  simp [swapExt, qsqrt_one]

theorem swap_entry_ttol : (cycleInit swapExt 0 swapEntry).ksp.ttol = 1 / 2 := by
  rw [cycleInit_ttol, swapEntry_norm, swapEntry_fields.2.2.2.2.2.2.2.2.2.1,
    swapEntry_fields.2.2.2.2.2.2.2.2.2.2]
  norm_num

theorem swap_entry_condition :
    swapExt.converged (cycleInit swapExt 0 swapEntry).ksp
        (((cycleInit swapExt 0 swapEntry).it : Int) + 0) (cycleInit swapExt 0 swapEntry).res = 0 ∧
      ((cycleInit swapExt 0 swapEntry).it : Int) < swapEntry.max_k ∧
      ((cycleInit swapExt 0 swapEntry).it : Int) + 0 < swapEntry.max_it := by
  refine ⟨?_, by decide, by decide⟩
  have hc : swapExt.converged = KSPiGMRESDefaultConverged := rfl
  obtain ⟨_, _, _, _, _, _, f7⟩ := cycleInit_fields swapExt 0 swapEntry
  rw [hc]
  simp only [KSPiGMRESDefaultConverged, f7, swap_entry_ttol, swapEntry_norm]
  norm_num

/-- The state after the only pass of the first cycle: estimate 1, `RS[0] = 0`,
target tolerance `1/2`, and the vectors `VEC_BINVF` and `VEC_SOLN` as on
entry. -/
theorem swap_pass_state :
    (cyclePass swapExt 0 (cycleInit swapExt 0 swapEntry) 1).res = 1 ∧
    (cyclePass swapExt 0 (cycleInit swapExt 0 swapEntry) 1).ksp.rs 0 = 0 ∧
    (cyclePass swapExt 0 (cycleInit swapExt 0 swapEntry) 1).ksp.ttol = 1 / 2 ∧
    (cyclePass swapExt 0 (cycleInit swapExt 0 swapEntry) 1).ksp.vec VEC_BINVF = (1, 0) ∧
    (cyclePass swapExt 0 (cycleInit swapExt 0 swapEntry) 1).ksp.vec VEC_SOLN = (0, 0) := by
  obtain ⟨e1, e2, e3, e4, e5, e6, e7, _⟩ := swapEntry_fields
  obtain ⟨p1, _, p3⟩ := swap_first_pass swapEntry e1 e2 e3 e4 e5 0 0
    (swapExt.converged (cycleInit swapExt 0 swapEntry).ksp
      (((cycleInit swapExt 0 swapEntry).it : Int) + 0) (cycleInit swapExt 0 swapEntry).res)
  have hpass : cyclePass swapExt 0 (cycleInit swapExt 0 swapEntry) 1
      = cycleBody swapExt 0 { cycleInit swapExt 0 swapEntry with
          converged := swapExt.converged (cycleInit swapExt 0 swapEntry).ksp
            (((cycleInit swapExt 0 swapEntry).it : Int) + 0)
            (cycleInit swapExt 0 swapEntry).res } := rfl
  rw [← hpass] at p1 p3
  refine ⟨p1, p3, ?_, ?_, ?_⟩
  · rw [setup_ttol (cyclePass_setup swapExt swap_orthog_setup 0 _ 1), swap_entry_ttol]
  · rw [hpass, cycleBody_vec_other swapExt swap_orthog_vec 0 _ _
      (by simp [VEC_BINVF, VEC_TEMP_MATOP]) (by simp [VEC_BINVF, VEC_VV, VEC_OFFSET]; omega)]
    show (cycleInit swapExt 0 swapEntry).ksp.vec VEC_BINVF = _
    rw [cycleInit_vec_other _ _ _ _ (by simp [VEC_BINVF, VEC_VV, VEC_OFFSET]), e6]
  · rw [hpass, cycleBody_vec_other swapExt swap_orthog_vec 0 _ _
      (by simp [VEC_SOLN, VEC_TEMP_MATOP]) (by simp [VEC_SOLN, VEC_VV])]
    show (cycleInit swapExt 0 swapEntry).ksp.vec VEC_SOLN = _
    rw [cycleInit_vec_other _ _ _ _ (by simp [VEC_SOLN, VEC_VV]), e7]

theorem swap_pass_exit :
    ¬ (swapExt.converged (cyclePass swapExt 0 (cycleInit swapExt 0 swapEntry) 1).ksp
        (((cyclePass swapExt 0 (cycleInit swapExt 0 swapEntry) 1).it : Int) + 0)
        (cyclePass swapExt 0 (cycleInit swapExt 0 swapEntry) 1).res = 0 ∧
      ((cyclePass swapExt 0 (cycleInit swapExt 0 swapEntry) 1).it : Int) < swapEntry.max_k ∧
      ((cyclePass swapExt 0 (cycleInit swapExt 0 swapEntry) 1).it : Int) + 0
        < swapEntry.max_it) := by
  intro h
  have h3 := h.2.2
  have hit : (cyclePass swapExt 0 (cycleInit swapExt 0 swapEntry) 1).it = 1 := rfl
  rw [hit, swapEntry_fields.2.2.2.2.2.2.2.2.1] at h3
  exact absurd h3 (by decide)

/-- The first cycle of the solve on the plane: one iteration, status 1 because
the default test fails on the estimate 1, and on return the solution is still
the zero vector. -/
theorem swap_first_cycle :
    (GMREScycle swapExt (some 0) 0 0 swapEntry).itcount = some 1 ∧
    (GMREScycle swapExt (some 0) 0 0 swapEntry).status = 1 ∧
    (GMREScycle swapExt (some 0) 0 0 swapEntry).ksp.vec VEC_SOLN = (0, 0) ∧
    (GMREScycle swapExt (some 0) 0 0 swapEntry).ksp.vec VEC_BINVF = (1, 0) ∧
    (GMREScycle swapExt (some 0) 0 0 swapEntry).ksp.setup
      = (cycleInit swapExt 0 swapEntry).ksp.setup := by
  obtain ⟨c1, c2, c3, c4, _⟩ := cycle_one_pass swapExt 0 0 0 swapEntry
    (by rw [swapEntry_norm]; norm_num) swap_entry_condition swap_pass_exit
  obtain ⟨s1, s2, s3, s4, s5⟩ := swap_pass_state
  have hc : swapExt.converged = KSPiGMRESDefaultConverged := rfl
  have hset := GMREScycle_setup swapExt swap_orthog_setup (some 0) 0 0 swapEntry
    (by rw [swapEntry_norm]; norm_num)
  obtain ⟨t1, _, t3⟩ := cycleTally_frame 0
    (cycleLoop swapExt swapEntry.max_k swapEntry.max_it 0 (cycleInit swapExt 0 swapEntry))
  have hrp : (cycleTally 0 (cycleLoop swapExt swapEntry.max_k swapEntry.max_it 0
      (cycleInit swapExt 0 swapEntry))).1.right_pre = false := by
    rw [setup_right_pre (cycleTally_setup 0 _),
      setup_right_pre (cycleLoop_setup swapExt swap_orthog_setup _ _ _ _),
      (cycleInit_fields swapExt 0 swapEntry).2.2.2.1]
    exact swapEntry_fields.2.2.2.1
  obtain ⟨b1, b2⟩ := BuildGmresSoln_first swapExt _ hrp
  refine ⟨c1, ?_, ?_, ?_, hset⟩
  · rw [c2, hc]
    simp only [KSPiGMRESDefaultConverged, s1, s3]
    norm_num
  · rw [c3, b1, t1, t3, c4, s2, s5]
    simp [swapExt]
  · rw [c3, b2 _ (by simp [VEC_BINVF, VEC_SOLN]) (by simp [VEC_BINVF, VEC_TEMP]), t1, c4, s4]
end SwapSolve2
section SwapSolve3

theorem swapRestart_fields :
    swapRestart.vec (VEC_VV 0) = (1, 0) ∧ swapRestart.max_it = 1 ∧ swapRestart.ttol = 1 / 2 := by
  obtain ⟨_, _, c3, c4, c5⟩ := swap_first_cycle
  have hrp : (GMREScycle swapExt (some 0) 0 0 swapEntry).ksp.right_pre = false := by
    rw [setup_right_pre c5, (cycleInit_fields swapExt 0 swapEntry).2.2.2.1]
    exact swapEntry_fields.2.2.2.1
  have hs : swapRestart.setup = (cycleInit swapExt 0 swapEntry).ksp.setup :=
    (GMRESResidual_setup swapExt _ 1).1.trans c5
  refine ⟨?_, ?_, ?_⟩
  · show (GMRESResidual swapExt (GMREScycle swapExt (some 0) 0 0 swapEntry).ksp 1).1.vec (VEC_VV 0)
      = _
    rw [GMRESResidual_vec swapExt _ 1 hrp, c3, c4]
    simp [swapExt]
  · rw [setup_max_it hs, cycleInit_max_it]
    exact swapEntry_fields.2.2.2.2.2.2.2.2.1
  · rw [setup_ttol hs, swap_entry_ttol]

theorem swapRestart_norm : swapExt.VecNorm (swapRestart.vec (VEC_VV 0)) = 1 := by
  rw [swapRestart_fields.1]
  simp [swapExt, qsqrt_one]

theorem swap_restart_condition :
    ¬ (swapExt.converged (cycleInit swapExt 1 swapRestart).ksp
        (((cycleInit swapExt 1 swapRestart).it : Int) + 1) (cycleInit swapExt 1 swapRestart).res
          = 0 ∧
      ((cycleInit swapExt 1 swapRestart).it : Int) < swapRestart.max_k ∧
      ((cycleInit swapExt 1 swapRestart).it : Int) + 1 < swapRestart.max_it) := by
  intro h
  have h3 := h.2.2
  have hit : (cycleInit swapExt 1 swapRestart).it = 0 := rfl
  rw [hit, swapRestart_fields.2.1] at h3
  exact absurd h3 (by decide)

/-- The second cycle of the solve on the plane: the budget is used up, so the
cycle makes no iteration and returns 0, although the default test fails on the
recomputed residual of norm 1. -/
theorem swap_second_cycle :
    (GMREScycle swapExt (some 1) 1 1 swapRestart).itcount = some 0 ∧
    (GMREScycle swapExt (some 1) 1 1 swapRestart).status = 0 ∧
    (cycleLoop swapExt swapRestart.max_k swapRestart.max_it 1
      (cycleInit swapExt 1 swapRestart)).converged = 0 := by
  obtain ⟨c1, c2, c3⟩ := cycle_no_pass swapExt 1 1 1 swapRestart
    (by rw [swapRestart_norm]; norm_num) swap_restart_condition
  refine ⟨c1, c2, ?_⟩
  have hc : swapExt.converged = KSPiGMRESDefaultConverged := rfl
  obtain ⟨_, _, _, _, _, _, f7⟩ := cycleInit_fields swapExt 1 swapRestart
  rw [c3, hc]
  simp only [KSPiGMRESDefaultConverged, f7, swapRestart_norm,
    setup_ttol (cycleInit_setup swapExt 1 swapRestart (by decide)), swapRestart_fields.2.2]
  norm_num

/-- The solve on the plane with a budget of one iteration: two cycles, the
first with one iteration and status 1, the second without iteration; the
returned value is 0 and the count is 1. -/
theorem swap_solve :
    KSPiGMRESSolve swapExt 2 0 (swapRhsKSP 2 1)
      = some (solveExit
          { ksp := (GMREScycle swapExt (some 1) 1 1 swapRestart).ksp, its := 0, itcount := 1,
            restart := 1, cycles := [CycleCall.mk 0 0 1 1, CycleCall.mk 1 1 0 0] }) := by
  obtain ⟨a1, a2, _⟩ := swap_first_cycle
  obtain ⟨b1, b2, _⟩ := swap_second_cycle
  rw [KSPiGMRESSolve_eq]
  have h1 := solveLoop_again swapExt 1
    { ksp := swapEntry, its := 0, itcount := 0, restart := 0, cycles := [] } 1 a1
    (by rw [a2]; decide)
    (by show (0 : Int) + 1 ≤ swapRestart.max_it; rw [swapRestart_fields.2.1]; decide)
  have h2 := solveLoop_done swapExt 0
    { ksp := swapRestart, its := 1, itcount := 1, restart := 1,
      cycles := [CycleCall.mk 0 0 1 1] } 0 b1 b2
  have e : (solveInit swapExt (swapRhsKSP 2 1)).1 = swapEntry := rfl
  rw [e, h1]
  simp only [a2, zero_add, List.nil_append]
  exact h2
end SwapSolve3
section DemoSolve

theorem demoEntry_fields :
    demoEntry.residual_history = none ∧ demoEntry.usr_monitor = false ∧
    demoEntry.vv_allocated = 5 ∧ demoEntry.right_pre = false ∧
    demoEntry.vec (VEC_VV 0) = 5 ∧ demoEntry.max_k = 3 ∧ demoEntry.max_it = 1 ∧
    demoEntry.rtol = 0 ∧ demoEntry.atol = 0 := by
  refine ⟨rfl, rfl, rfl, rfl, ?_, rfl, rfl, rfl, rfl⟩
  simp [demoEntry, solveInit, rhsKSP, blankKSP, VecCopy, KSP.setVec, demoExt, VEC_VV,
    VEC_BINVF, VEC_RHS, VEC_OFFSET]

theorem demoEntry_norm : (demoExt 2 1).VecNorm (demoEntry.vec (VEC_VV 0)) = 5 := by
  rw [demoEntry_fields.2.2.2.2.1]
  simp [demoExt]

theorem demo_entry_ttol : (cycleInit (demoExt 2 1) 0 demoEntry).ksp.ttol = 0 := by
  rw [cycleInit_ttol, demoEntry_norm, demoEntry_fields.2.2.2.2.2.2.2.1,
    demoEntry_fields.2.2.2.2.2.2.2.2]
  norm_num

theorem demo_entry_condition :
    (demoExt 2 1).converged (cycleInit (demoExt 2 1) 0 demoEntry).ksp
        (((cycleInit (demoExt 2 1) 0 demoEntry).it : Int) + 0)
        (cycleInit (demoExt 2 1) 0 demoEntry).res = 0 ∧
      ((cycleInit (demoExt 2 1) 0 demoEntry).it : Int) < demoEntry.max_k ∧
      ((cycleInit (demoExt 2 1) 0 demoEntry).it : Int) + 0 < demoEntry.max_it := by
  refine ⟨?_, by decide, by decide⟩
  have hc : (demoExt 2 1).converged = KSPiGMRESDefaultConverged := rfl
  obtain ⟨_, _, _, _, _, _, f7⟩ := cycleInit_fields (demoExt 2 1) 0 demoEntry
  rw [hc]
  simp only [KSPiGMRESDefaultConverged, f7, demo_entry_ttol, demoEntry_norm]
  norm_num

theorem demo_arnoldi (itsSoFar : Int) (l : Loop ℚ ℚ) (hit : l.it = 0)
    (hres : l.ksp.residual_history = none) (hmon : l.ksp.usr_monitor = false)
    (hvv : l.ksp.vv_allocated = 5) (hpre : l.ksp.right_pre = false)
    (hv0 : l.ksp.vec (VEC_VV 0) = 1) :
    (cycleArnoldi (demoExt 2 1) itsSoFar l).1.vec (VEC_VV 1) = 0 := by
  rw [cycleArnoldi_plain (demoExt 2 1) itsSoFar l hres hmon
    (by rw [hvv, hit]; simp [VEC_OFFSET]) hpre, hit]
  have hv0' : l.ksp.vec (Vec.work 3) = 1 := hv0
  simp [demoExt, KSP.setVec, KSP.setHH, KSP.setHES, hv0', VEC_VV, VEC_OFFSET, VEC_TEMP_MATOP]

/-- The first pass of the inner loop on one-dimensional vectors for the
operator `2 x` and the initial residual 5: the new direction vanishes after
the orthogonalization and the residual estimate is 0. -/
theorem demo_first_pass (st : KSP ℚ ℚ) (hres : st.residual_history = none)
    (hmon : st.usr_monitor = false) (hvv : st.vv_allocated = 5) (hpre : st.right_pre = false)
    (hv0 : st.vec (VEC_VV 0) = 5) (itsSoFar restart : Int) (c : Int) :
    (cycleBody (demoExt 2 1) itsSoFar
      { cycleInit (demoExt 2 1) restart st with converged := c }).res = 0 := by
  have hn : (demoExt 2 1).VecNorm (st.vec (VEC_VV 0)) = 5 := by
    rw [hv0]
    simp [demoExt]
  obtain ⟨f1, f2, f3, f4, _, f6, _⟩ := cycleInit_fields (demoExt 2 1) restart st
  rw [hn, hv0] at f6
  have a1 := demo_arnoldi itsSoFar
    { cycleInit (demoExt 2 1) restart st with converged := c } rfl (f1.trans hres)
    (f2.trans hmon) (f3.trans hvv) (f4.trans hpre) (f6.trans (by simp [demoExt]))
  obtain ⟨n1, _, _⟩ := cycleNormalize_entries (demoExt 2 1)
    (cycleArnoldi (demoExt 2 1) itsSoFar
      { cycleInit (demoExt 2 1) restart st with converged := c }).1 0
  obtain ⟨u1, _, _⟩ := update_first (demoExt 2 1).sqrt (demoExt 2 1).fabs
    (cycleNormalize (demoExt 2 1)
      (cycleArnoldi (demoExt 2 1) itsSoFar
        { cycleInit (demoExt 2 1) restart st with converged := c }).1 0).1
  obtain ⟨b1, _⟩ := cycleBody_res (demoExt 2 1) itsSoFar
    { cycleInit (demoExt 2 1) restart st with converged := c }
  have hit : ({ cycleInit (demoExt 2 1) restart st with converged := c } : Loop ℚ ℚ).it = 0 := rfl
  rw [hit] at b1
  rw [a1] at n1
  have n1' : (cycleNormalize (demoExt 2 1)
      (cycleArnoldi (demoExt 2 1) itsSoFar
        { cycleInit (demoExt 2 1) restart st with converged := c }).1 0).1.hh 1 0 = 0 := by
    rw [n1]
    simp [demoExt]
  rw [n1'] at u1
  rw [b1, u1]
  simp [demoExt]

/-- The state after the only pass of the cycle on one-dimensional vectors: the
residual estimate is 0 and the target tolerance is 0. -/
theorem demo_pass_state :
    (cyclePass (demoExt 2 1) 0 (cycleInit (demoExt 2 1) 0 demoEntry) 1).res = 0 ∧
    (cyclePass (demoExt 2 1) 0 (cycleInit (demoExt 2 1) 0 demoEntry) 1).ksp.ttol = 0 := by
  obtain ⟨e1, e2, e3, e4, e5, _⟩ := demoEntry_fields
  refine ⟨?_, ?_⟩
  · exact demo_first_pass demoEntry e1 e2 e3 e4 e5 0 0
      ((demoExt 2 1).converged (cycleInit (demoExt 2 1) 0 demoEntry).ksp
        (((cycleInit (demoExt 2 1) 0 demoEntry).it : Int) + 0)
        (cycleInit (demoExt 2 1) 0 demoEntry).res)
  · rw [setup_ttol (cyclePass_setup (demoExt 2 1) demo_orthog_setup 0 _ 1), demo_entry_ttol]

theorem demo_pass_exit :
    ¬ ((demoExt 2 1).converged (cyclePass (demoExt 2 1) 0 (cycleInit (demoExt 2 1) 0 demoEntry) 1).ksp
        (((cyclePass (demoExt 2 1) 0 (cycleInit (demoExt 2 1) 0 demoEntry) 1).it : Int) + 0)
        (cyclePass (demoExt 2 1) 0 (cycleInit (demoExt 2 1) 0 demoEntry) 1).res = 0 ∧
      ((cyclePass (demoExt 2 1) 0 (cycleInit (demoExt 2 1) 0 demoEntry) 1).it : Int)
        < demoEntry.max_k ∧
      ((cyclePass (demoExt 2 1) 0 (cycleInit (demoExt 2 1) 0 demoEntry) 1).it : Int) + 0
        < demoEntry.max_it) := by
  intro h
  have h3 := h.2.2
  have hit : (cyclePass (demoExt 2 1) 0 (cycleInit (demoExt 2 1) 0 demoEntry) 1).it = 1 := rfl
  rw [hit, demoEntry_fields.2.2.2.2.2.2.1] at h3
  exact absurd h3 (by decide)

/-- The cycle of the solve on one-dimensional vectors: one iteration, after
which the default test passes, and status 0. -/
theorem demo_first_cycle :
    (GMREScycle (demoExt 2 1) (some 0) 0 0 demoEntry).itcount = some 1 ∧
    (GMREScycle (demoExt 2 1) (some 0) 0 0 demoEntry).status = 0 ∧
    (cycleLoop (demoExt 2 1) demoEntry.max_k demoEntry.max_it 0
      (cycleInit (demoExt 2 1) 0 demoEntry)).converged = 1 := by
  obtain ⟨c1, c2, _, _, c5⟩ := cycle_one_pass (demoExt 2 1) 0 0 0 demoEntry
    (by rw [demoEntry_norm]; norm_num) demo_entry_condition demo_pass_exit
  obtain ⟨s1, s2⟩ := demo_pass_state
  have hc : (demoExt 2 1).converged = KSPiGMRESDefaultConverged := rfl
  have hflag : (demoExt 2 1).converged
      (cyclePass (demoExt 2 1) 0 (cycleInit (demoExt 2 1) 0 demoEntry) 1).ksp
      (((cyclePass (demoExt 2 1) 0 (cycleInit (demoExt 2 1) 0 demoEntry) 1).it : Int) + 0)
      (cyclePass (demoExt 2 1) 0 (cycleInit (demoExt 2 1) 0 demoEntry) 1).res = 1 := by
    rw [hc]
    simp only [KSPiGMRESDefaultConverged, s1, s2]
    norm_num
  refine ⟨c1, ?_, ?_⟩
  · rw [c2, hflag]
    decide
  · rw [c5, hflag]

/-- The solve on one-dimensional vectors with a budget of one iteration: one
cycle with one iteration and status 0; the returned value is 0 and the count
is 1. -/
theorem demo_solve :
    KSPiGMRESSolve (demoExt 2 1) 2 0 (rhsKSP 3 1 5)
      = some (solveExit
          { ksp := (GMREScycle (demoExt 2 1) (some 0) 0 0 demoEntry).ksp, its := 1, itcount := 0,
            restart := 0, cycles := [CycleCall.mk 0 0 0 1] }) := by
  obtain ⟨a1, a2, _⟩ := demo_first_cycle
  rw [KSPiGMRESSolve_eq]
  exact solveLoop_done (demoExt 2 1) 1
    { ksp := demoEntry, its := 0, itcount := 0, restart := 0, cycles := [] } 1 a1 a2
end DemoSolve
section DriverEvaluations

/-- Counterexample to C15: two solves with a budget of one iteration.  On
one-dimensional vectors the single cycle makes one iteration, after which the
default test passes.  On the plane with the swap operator the first cycle
makes the one iteration of the budget and returns 1 because the test fails,
and the second cycle makes no iteration, the test failing again on the
recomputed residual.  Both solves return 0 and write the count 1. -/
theorem solve_status_blind :
    (rhsKSP 3 1 5).max_it = 1 ∧ (swapRhsKSP 2 1).max_it = 1 ∧
    (cycleLoop (demoExt 2 1) demoEntry.max_k demoEntry.max_it 0
      (cycleInit (demoExt 2 1) 0 demoEntry)).converged = 1 ∧
    (cycleLoop swapExt swapRestart.max_k swapRestart.max_it 1
      (cycleInit swapExt 1 swapRestart)).converged = 0 ∧
    (∃ rA : SolveResult ℚ ℚ, ∃ rB : SolveResult ℚ (ℚ × ℚ),
      KSPiGMRESSolve (demoExt 2 1) 2 0 (rhsKSP 3 1 5) = some rA ∧
      KSPiGMRESSolve swapExt 2 0 (swapRhsKSP 2 1) = some rB ∧
      rA.cycles = [CycleCall.mk 0 0 0 1] ∧
      rB.cycles = [CycleCall.mk 0 0 1 1, CycleCall.mk 1 1 0 0] ∧
      rA.status = 0 ∧ rB.status = 0 ∧ rA.outits = some 1 ∧ rB.outits = some 1) :=
  ⟨rfl, rfl, demo_first_cycle.2.2, swap_second_cycle.2.2,
    _, _, demo_solve, swap_solve, rfl, rfl, rfl, rfl, rfl, rfl⟩

/-- Witness of C12: the cycle for the operator `2 x` with initial residual 5,
`rtol = 1/10` and `atol = 1/4` sets `ttol = 1/2`. -/
theorem GMREScycle_ttol_witness :
    (∀ s k, ((demoExt 2 1).orthog s k).setup = s.setup) ∧
    (GMREScycle (demoExt 2 1) (some 7) 0 0 tolKSP).ksp.ttol = 1 / 2 := by
  have hn : (demoExt 2 1).VecNorm (tolKSP.vec (VEC_VV 0)) = 5 := by
    simp [demoExt, tolKSP, demoKSP]
  refine ⟨demo_orthog_setup, ?_⟩
  rw [((GMREScycle_ttol (demoExt 2 1) demo_orthog_setup (some 7) 0 0 tolKSP).1 rfl
    (by rw [hn]; norm_num)).2, hn]
  simp only [tolKSP]
  norm_num

/-- Witness of C14: the solve on the plane with the swap operator, restart
length 2 and budget 10. -/
theorem KSPiGMRESSolve_budget_witness :
    (∀ s k, (swapExt.orthog s k).setup = s.setup) ∧
    (0 : Int) ≤ (swapRhsKSP 2 10).max_it ∧ (swapRhsKSP 2 10).max_it.toNat + 1 ≤ 11 ∧
    ∃ (r : SolveResult ℚ (ℚ × ℚ)) (n : Int),
      KSPiGMRESSolve swapExt 11 0 (swapRhsKSP 2 10) = some r ∧
      (r.cycles.length : Int) ≤ (swapRhsKSP 2 10).max_it + 1 ∧
      r.outits = some n ∧ 0 ≤ n ∧ n ≤ (swapRhsKSP 2 10).max_it :=
  ⟨swap_orthog_setup, by decide, by decide,
    KSPiGMRESSolve_budget swapExt swap_orthog_setup 11 0 (swapRhsKSP 2 10) (by decide)
      (by decide)⟩

/-- Witness of C15 as amended: the solve on the plane with the swap operator
and a budget of one iteration. -/
theorem KSPiGMRESSolve_returns_zero_witness :
    (∀ s k, (swapExt.orthog s k).setup = s.setup) ∧
    (0 : Int) ≤ (swapRhsKSP 2 1).max_it ∧ (swapRhsKSP 2 1).max_it.toNat + 1 ≤ 2 ∧
    ∃ (r : SolveResult ℚ (ℚ × ℚ)) (pre : List CycleCall) (last : CycleCall),
      KSPiGMRESSolve swapExt 2 0 (swapRhsKSP 2 1) = some r ∧ r.status = 0 ∧
      r.outits.isSome = true ∧
      r.cycles = pre ++ [last] ∧ (∀ c ∈ pre, c.status ≠ 0) ∧ last.status = 0 :=
  ⟨swap_orthog_setup, by decide, by decide,
    KSPiGMRESSolve_returns_zero swapExt swap_orthog_setup 2 0 (swapRhsKSP 2 1) (by decide)
      (by decide)⟩

end DriverEvaluations
/-! ## In-place and out-of-place back-substitution -/

section Aliasing
variable {S E : Type} [Add S] [Sub S] [Mul S] [Div S] [Neg S]

theorem backInner_congr (sA sB : KSP S E) (pA pB : Buf) (k : Nat) (tt : S) (m : Nat)
    (hhh : sA.hh = sB.hh)
    (hbuf : ∀ j, k < j → j ≤ k + m → sA.readBuf pA j = sB.readBuf pB j) :
    backInner sA pA k tt m = backInner sB pB k tt m := by
  induction m with
  | zero => rfl
  | succ m ih =>
    simp only [backInner]
    rw [ih (fun j h1 h2 => hbuf j h1 (by omega)), hhh, hbuf (k + 1 + m) (by omega) (by omega)]

/-- The passes of the back-substitution loop on the aliased work area and on a
separate one keep the same coefficients in the indices already computed, and
the aliased one has not yet written the entries of `RS` still to be read. -/
theorem backOuter_alias (it : Nat) (sA sB : KSP S E) (hhh : sA.hh = sB.hh)
    (hrs : ∀ j, j < it → sA.rs j = sB.rs j) (hit : sA.rs it = sB.nrs it) (c : Nat)
    (hc : c ≤ it) :
    (backOuter Buf.rsArea it sA c).hh = sA.hh ∧
    (backOuter Buf.nrsArea it sB c).hh = sB.hh ∧
    (backOuter Buf.nrsArea it sB c).rs = sB.rs ∧
    (∀ j, it - c ≤ j → j ≤ it →
      (backOuter Buf.rsArea it sA c).rs j = (backOuter Buf.nrsArea it sB c).nrs j) ∧
    (∀ j, j < it - c → (backOuter Buf.rsArea it sA c).rs j = sA.rs j) := by
  induction c with
  | zero =>
    refine ⟨rfl, rfl, rfl, fun j h1 h2 => ?_, fun j _ => rfl⟩
    have hj : j = it := by omega
    rw [hj]
    exact hit
  | succ c ih =>
    obtain ⟨a1, a2, a3, a4, a5⟩ := ih (by omega)
    have hk : (backOuter Buf.rsArea it sA c).rs (it - (c + 1))
        = (backOuter Buf.nrsArea it sB c).rs (it - (c + 1)) := by
      rw [a5 _ (by omega), a3, hrs _ (by omega)]
    have hin : backInner (backOuter Buf.rsArea it sA c) Buf.rsArea (it - (c + 1))
          ((backOuter Buf.rsArea it sA c).rs (it - (c + 1))) (it - (it - (c + 1)))
        = backInner (backOuter Buf.nrsArea it sB c) Buf.nrsArea (it - (c + 1))
          ((backOuter Buf.nrsArea it sB c).rs (it - (c + 1))) (it - (it - (c + 1))) := by
      rw [hk]
      exact backInner_congr _ _ _ _ _ _ _ (by rw [a1, a2, hhh])
        (fun j h1 h2 => a4 j (by omega) (by omega))
    have hd : (backOuter Buf.rsArea it sA c).hh (it - (c + 1)) (it - (c + 1))
        = (backOuter Buf.nrsArea it sB c).hh (it - (c + 1)) (it - (c + 1)) := by
      rw [a1, a2, hhh]
    refine ⟨a1, a2, a3, fun j h1 h2 => ?_, fun j h => ?_⟩
    · simp only [backOuter, KSP.writeBuf, setAt]
      by_cases hj : j = it - (c + 1)
      · rw [if_pos hj, if_pos hj, hin, hd]
      · rw [if_neg hj, if_neg hj]
        exact a4 j (by omega) h2
    · simp only [backOuter, KSP.writeBuf, setAt]
      rw [if_neg (by omega)]
      exact a5 j (by omega)

theorem BasicMultiMaxpy_rs [Zero S] [One S] (ext : Ext S E) (st : KSP S E) (alpha : Buf)
    (z : Vec) (m : Nat) : (BasicMultiMaxpy ext st alpha z m).rs = st.rs := by
  induction m with
  | zero => rfl
  | succ m ih =>
    simp only [BasicMultiMaxpy]
    exact ih

/-- C30. In-place back-substitution is equivalent to the out-of-place one: for
every `it >= 0`, every `HH` and `RS` and every scalar arithmetic, the
coefficients `y[0..it]` that `BuildGmresSoln` leaves in its work area are the
same when the work area is the `RS` array itself (the call of `GMREScycle`)
and when it is the separate buffer `nrs` (the call of `GMRESBuildSolution`),
and the out-of-place call leaves `RS` as it was. -/
theorem BuildGmresSoln_alias_free [Zero S] [One S] (ext : Ext S E) (vs vdest : Vec)
    (st : KSP S E) (it : Nat) :
    (∀ k, k ≤ it →
      (BuildGmresSoln ext Buf.rsArea vs vdest st (it : Int)).readBuf Buf.rsArea k
        = (BuildGmresSoln ext Buf.nrsArea vs vdest st (it : Int)).readBuf Buf.nrsArea k) ∧
    (∀ k, k ≤ it →
      (backSubst Buf.rsArea st it).rs k = (backSubst Buf.nrsArea st it).nrs k) ∧
    (BuildGmresSoln ext Buf.nrsArea vs vdest st (it : Int)).rs = st.rs := by
  have key := backOuter_alias it (st.writeBuf Buf.rsArea it (st.rs it / st.hh it it))
    (st.writeBuf Buf.nrsArea it (st.rs it / st.hh it it)) rfl
    (fun j hj => by simp only [KSP.writeBuf, setAt]; rw [if_neg (by omega)])
    (by simp [KSP.writeBuf, setAt]) it le_rfl
  obtain ⟨_, _, k3, k4, _⟩ := key
  have hco : ∀ k, k ≤ it →
      (backSubst Buf.rsArea st it).rs k = (backSubst Buf.nrsArea st it).nrs k :=
    fun k hk => k4 k (by omega) hk
  have hb : ∀ (p : Buf) (k : Nat),
      (BuildGmresSoln ext p vs vdest st (it : Int)).readBuf p k = (backSubst p st it).readBuf p k := by
    intro p k
    have hlt : ¬ ((it : Int) < 0) := by omega
    simp only [BuildGmresSoln, hlt, if_false, Int.toNat_ofNat]
    split <;> split <;>
      simp only [readBuf_setVec, (BasicMultiMaxpy_frame ext _ p VEC_TEMP (it + 1)).2.1]
  refine ⟨fun k hk => ?_, hco, ?_⟩
  · rw [hb, hb]
    exact hco k hk
  · have h1 := hb Buf.rsArea
    funext k
    have hlt : ¬ ((it : Int) < 0) := by omega
    have hr : ∀ s : KSP S E, s.rs k = s.readBuf Buf.rsArea k := fun _ => rfl
    have hfr : (BuildGmresSoln ext Buf.nrsArea vs vdest st (it : Int)).readBuf Buf.rsArea k
        = (backSubst Buf.nrsArea st it).readBuf Buf.rsArea k := by
      simp only [BuildGmresSoln, hlt, if_false, Int.toNat_ofNat]
      split <;> split <;> simp only [readBuf_setVec] <;>
        exact congrFun (BasicMultiMaxpy_rs ext _ Buf.nrsArea VEC_TEMP (it + 1)) k
    rw [hr, hfr]
    show (backOuter Buf.nrsArea it _ it).rs k = st.rs k
    rw [k3]
    rfl
end Aliasing
/-! ## Nonlinear solver defaults and step scaling -/

section Nonlinear

/-- C21. The defaults of a fresh nonlinear solver context: when every
collaborator succeeds, `SNESCreate` returns 0 for either problem type with a
context whose maximum number of iterations is 50 and whose maximum number of
function evaluations is 10000, not 1000, and `SNESGetTolerances` returns these
two values. -/
theorem SNESCreate_defaults (env : SNESEnv) (type : SNESProblemType)
    (ht : type = SNESProblemType.nonlinearEquations ∨
      type = SNESProblemType.unconstrainedMinimization)
    (h1 : env.headerErr = 0) (h2 : env.newOk = true) (h3 : env.slesErr = 0)
    (h4 : env.publishErr = 0) :
    (SNESCreate env type).1 = 0 ∧
    ∃ snes : SNES, (SNESCreate env type).2 = some snes ∧
      snes.max_its = 50 ∧ snes.max_funcs = 10000 ∧ snes.max_funcs ≠ 1000 ∧
      (SNESGetTolerances snes false false false true true).2.2.2 = (some 50, some 10000) := by
  rcases ht with h | h <;> subst h <;>
    simp [SNESCreate, h1, h2, h3, h4, SNESGetTolerances]

/-- Witness of C21: the problem type of systems of nonlinear equations, with
collaborators that all succeed. -/
theorem SNESCreate_defaults_witness :
    (SNESProblemType.nonlinearEquations = SNESProblemType.nonlinearEquations ∨
      SNESProblemType.nonlinearEquations = SNESProblemType.unconstrainedMinimization) ∧
    okEnv.headerErr = 0 ∧ okEnv.newOk = true ∧ okEnv.slesErr = 0 ∧ okEnv.publishErr = 0 ∧
    (SNESCreate okEnv SNESProblemType.nonlinearEquations).1 = 0 ∧
    ∃ snes : SNES, (SNESCreate okEnv SNESProblemType.nonlinearEquations).2 = some snes ∧
      snes.max_its = 50 ∧ snes.max_funcs = 10000 ∧ snes.max_funcs ≠ 1000 ∧
      (SNESGetTolerances snes false false false true true).2.2.2 = (some 50, some 10000) :=
  ⟨Or.inl rfl, rfl, rfl, rfl, rfl,
    SNESCreate_defaults okEnv SNESProblemType.nonlinearEquations (Or.inl rfl) rfl rfl rfl rfl⟩

/-- The step scaling for a positive function norm, in exact arithmetic with a
nonnegative, absolutely homogeneous norm: the predicted norm is 0 when the
step lies within the trust region and positive otherwise, and the reported
step norm is the norm of the step left in `y`, the smaller of the norm of the
step and `delta`. -/
theorem SNESScaleStep_spec {α E : Type} [LinearOrderedField α] (VecNorm : E → α)
    (VecScale : α → E → E) (hh : ∀ a y, VecNorm (VecScale a y) = |a| * VecNorm y)
    (y : E) (fnorm delta : α) (hf : 0 < fnorm) (hd : 0 < delta) :
    (VecNorm y ≤ delta → (SNESScaleStep_Private VecNorm VecScale y fnorm delta).2.1 = 0) ∧
    (delta < VecNorm y → 0 < (SNESScaleStep_Private VecNorm VecScale y fnorm delta).2.1) ∧
    (SNESScaleStep_Private VecNorm VecScale y fnorm delta).2.2
      = VecNorm (SNESScaleStep_Private VecNorm VecScale y fnorm delta).1 ∧
    (SNESScaleStep_Private VecNorm VecScale y fnorm delta).2.2 = min (VecNorm y) delta := by
  by_cases h : delta < VecNorm y
  · have hn : 0 < VecNorm y := lt_trans hd h
    have hq : delta / VecNorm y < 1 := (div_lt_one hn).mpr h
    have hq0 : 0 < delta / VecNorm y := div_pos hd hn
    simp only [SNESScaleStep_Private, gt_iff_lt, h, if_true]
    refine ⟨fun hle => absurd h (not_lt.mpr hle), fun _ => mul_pos (by linarith) hf, ?_, ?_⟩
    · rw [hh, abs_of_pos hq0, div_mul_cancel₀ _ (ne_of_gt hn)]
    · exact (min_eq_right (le_of_lt h)).symm
  · simp only [SNESScaleStep_Private, gt_iff_lt, h, if_false]
    exact ⟨fun _ => trivial, fun hlt => hlt.elim, trivial,
      (min_eq_left (not_lt.mp h)).symm⟩

/-- C22. The step scaling at a vanishing function norm: for the step 2 on
one-dimensional vectors, `fnorm = 0` and `delta = 1`, the step lies outside
the trust region, it is scaled to 1, the reported step norm is 1 and the
predicted norm written to `gpnorm` is 0, not a positive value. -/
theorem SNESScaleStep_zero_fnorm :
    (1 : ℚ) < |(2 : ℚ)| ∧
    SNESScaleStep_Private (fun x : ℚ => |x|) (fun a x => a * x) 2 0 1 = (1, 0, 1) ∧
    ¬ (0 < (SNESScaleStep_Private (fun x : ℚ => |x|) (fun a x => a * x) 2 0 1).2.1) := by
  have h : SNESScaleStep_Private (fun x : ℚ => |x|) (fun a x => a * x) 2 0 1 = (1, 0, 1) := by
    simp [SNESScaleStep_Private]
  refine ⟨by norm_num, h, ?_⟩
  rw [h]
  norm_num
end Nonlinear
section WorkVectors

/-- C29. The batches visited by the work-vector adjustment: after
`KSPiGMRESSetUp` without preallocation, which allocates one batch of 5
vectors, `KSPiGMRESAdjustWork` with a callback that always succeeds hands the
slots `user_work[i]`, `mwork_alloc[i]` for `i = 0, 1, 2, 3, 4` to the callback,
four of them beyond the single allocated batch, where `KSPiGMRESDestroy` frees
the batch 0 only. -/
theorem KSPiGMRESAdjustWork_visits :
    (KSPiGMRESSetUp 0 0 false (blankKSP ℚ ℚ 10 100)).1 = 0 ∧
    (KSPiGMRESSetUp 0 0 false (blankKSP ℚ ℚ 10 100)).2.nwork_alloc = 1 ∧
    (KSPiGMRESSetUp 0 0 false (blankKSP ℚ ℚ 10 100)).2.vv_allocated = 5 ∧
    KSPiGMRESAdjustWork (some (fun _ _ => 0)) (KSPiGMRESSetUp 0 0 false (blankKSP ℚ ℚ 10 100)).2
      = (0, [0, 1, 2, 3, 4]) ∧
    KSPiGMRESDestroy (KSPiGMRESSetUp 0 0 false (blankKSP ℚ ℚ 10 100)).2 = [(0, 5)] := by
  refine ⟨rfl, rfl, rfl, ?_, ?_⟩
  · simp [KSPiGMRESAdjustWork, KSPiGMRESSetUp, adjustFrom, blankKSP]
  · decide
end WorkVectors

section ActualSize

/-- C28. The reported history size after a cycle without iteration: in the
context with a budget of one iteration and a history buffer of length 1,
called as the restart cycle after one iteration (`itsSoFar = 1`,
`restart = 1`), `GMREScycle` makes no history write and stores 2 in
`res_act_size`, which exceeds the length of the buffer. -/
theorem GMREScycle_res_act_size_overrun :
    (demoExt 2 1).VecNorm (shortHistKSP.vec (VEC_VV 0)) ≠ 0 ∧
    shortHistKSP.res_hist_size = 1 ∧
    (GMREScycle (demoExt 2 1) (some 0) 1 1 shortHistKSP).itcount = some 0 ∧
    (GMREScycle (demoExt 2 1) (some 0) 1 1 shortHistKSP).ksp.res_act_size = 2 ∧
    (∀ i v, Event.history i v ∉ (GMREScycle (demoExt 2 1) (some 0) 1 1 shortHistKSP).trace) := by
  have hn : (demoExt 2 1).VecNorm (shortHistKSP.vec (VEC_VV 0)) = 5 := by
    simp [demoExt, shortHistKSP, demoKSP, blankKSP]
  have hx : ¬ ((demoExt 2 1).converged (cycleInit (demoExt 2 1) 1 shortHistKSP).ksp
      (((cycleInit (demoExt 2 1) 1 shortHistKSP).it : Int) + 1)
      (cycleInit (demoExt 2 1) 1 shortHistKSP).res = 0 ∧
      ((cycleInit (demoExt 2 1) 1 shortHistKSP).it : Int) < shortHistKSP.max_k ∧
      ((cycleInit (demoExt 2 1) 1 shortHistKSP).it : Int) + 1 < shortHistKSP.max_it) := by
    intro h
    exact absurd h.2.2 (by decide)
  have hne : (demoExt 2 1).VecNorm (shortHistKSP.vec (VEC_VV 0)) ≠ 0 := by rw [hn]; norm_num
  obtain ⟨c1, _, _⟩ := cycle_no_pass (demoExt 2 1) 0 1 1 shortHistKSP hne hx
  have hk : (GMREScycle (demoExt 2 1) (some 0) 1 1 shortHistKSP).ksp
      = (cycleTally 1 (cycleLoop (demoExt 2 1) shortHistKSP.max_k shortHistKSP.max_it 1
          (cycleInit (demoExt 2 1) 1 shortHistKSP))).1 ∧
      (GMREScycle (demoExt 2 1) (some 0) 1 1 shortHistKSP).trace
      = (cycleLoop (demoExt 2 1) shortHistKSP.max_k shortHistKSP.max_it 1
          (cycleInit (demoExt 2 1) 1 shortHistKSP)).trace ++
        (cycleTally 1 (cycleLoop (demoExt 2 1) shortHistKSP.max_k shortHistKSP.max_it 1
          (cycleInit (demoExt 2 1) 1 shortHistKSP))).2 := by
    rw [GMREScycle_of_ne _ _ _ _ _ hne, cycleLoop_exit _ _ _ _ _ hx]
    simp [cycleFinish, cycleInit]
  refine ⟨hne, rfl, c1, ?_, ?_⟩
  · rw [hk.1, cycleLoop_exit _ _ _ _ _ hx]
    simp [cycleTally, cycleInit, recordHistory, callMonitor, shortHistKSP, demoKSP, blankKSP,
      KSP.setRS, KSP.setVec]
  · intro i v
    rw [hk.2, cycleLoop_exit _ _ _ _ _ hx]
    simp [cycleTally, cycleInit, recordHistory, callMonitor, shortHistKSP, demoKSP, blankKSP,
      KSP.setRS, KSP.setVec]
end ActualSize

section RestartBudget

/-- Counterexample to C23: a restart with the budget used up.  In the solve on
the plane with the swap operator and a budget of one iteration, the first cycle
uses the one iteration and returns 1; the accumulated count is then equal to
`max_it`, yet the residual is recomputed and a second cycle is started with
`itsSoFar = 1` and `restart = 1`, on the context that `GMRESResidual`
returned. -/
theorem KSPiGMRESSolve_restarts_without_budget :
    (swapRhsKSP 2 1).max_it = 1 ∧
    swapRestart = (GMRESResidual swapExt (GMREScycle swapExt (some 0) 0 0 swapEntry).ksp 1).1 ∧
    ∃ r : SolveResult ℚ (ℚ × ℚ),
      KSPiGMRESSolve swapExt 2 0 (swapRhsKSP 2 1) = some r ∧
      r.cycles = [CycleCall.mk 0 0 1 1, CycleCall.mk 1 1 0 0] ∧
      r.ksp = (GMREScycle swapExt (some 1) 1 1 swapRestart).ksp :=
  ⟨rfl, rfl, _, swap_solve, rfl, rfl⟩
end RestartBudget
/-! ## The monitor -/

section Monitor
variable {S E : Type} [Add S] [Sub S] [Mul S] [Div S] [Neg S] [Zero S] [One S]
  [LT S] [DecidableRel (fun a b : S => a < b)] [DecidableEq S]

theorem setup_usr_monitor {a b : KSP S E} (h : a.setup = b.setup) :
    a.usr_monitor = b.usr_monitor :=
  congrArg (fun p => p.2.2.2.2.2.2.2.2.1) h

theorem callMonitor_on (st : KSP S E) (it : Nat) (n : Int) (res : S)
    (hm : st.usr_monitor = true) : (callMonitor st it n res).2 = [Event.monitor n res] := by
  simp [callMonitor, hm]

theorem recordHistory_no_monitor (hl : Int) (st : KSP S E) (n : Int) (r : S) :
    (recordHistory hl st n r).2.countP Event.isMonitor = 0 := by
  unfold recordHistory
  split
  · split <;> simp [Event.isMonitor]
  · simp

theorem MATOP_no_monitor (ext : Ext S E) (st : KSP S E) (a b tmp : Vec) :
    (MATOP ext st a b tmp).2.countP Event.isMonitor = 0 ∧
    (MATOP ext st a b tmp).2.countP Event.isUpdate = 0 := by
  unfold MATOP
  split <;> simp [Event.isMonitor, Event.isUpdate]

theorem cycleNormalize_no_monitor (ext : Ext S E) (st : KSP S E) (it : Nat) :
    (cycleNormalize ext st it).2.countP Event.isMonitor = 0 ∧
    (cycleNormalize ext st it).2.countP Event.isUpdate = 0 := by
  unfold cycleNormalize
  simp only
  split <;> simp [Event.isMonitor, Event.isUpdate]

theorem ite_events_count (c : Prop) [Decidable c] (A B : KSP S E) (e : Event S)
    (p : Event S → Bool) (hp : p e = false) :
    ((if c then (A, [e]) else (B, [])) : KSP S E × List (Event S)).2.countP p = 0 := by
  split <;> simp [hp]

/-- The calls of the first part of a pass: the history write, the call of the
monitor, and calls that are neither a call of the monitor nor a QR update. -/
theorem cycleArnoldi_events (ext : Ext S E) (itsSoFar : Int) (l : Loop S E) :
    ∃ post : List (Event S),
      (cycleArnoldi ext itsSoFar l).2
        = (recordHistory l.hist_len l.ksp (l.it + itsSoFar) l.res).2
          ++ (callMonitor (recordHistory l.hist_len l.ksp (l.it + itsSoFar) l.res).1 l.it
              (l.it + itsSoFar) l.res).2 ++ post ∧
      post.countP Event.isMonitor = 0 ∧ post.countP Event.isUpdate = 0 := by
  simp only [cycleArnoldi]
  refine ⟨_, by rw [List.append_assoc, List.append_assoc, List.append_assoc], ?_, ?_⟩
  · rw [List.countP_append, List.countP_append, (MATOP_no_monitor _ _ _ _ _).1,
      ite_events_count _ _ _ _ _ rfl]
    rfl
  · rw [List.countP_append, List.countP_append, (MATOP_no_monitor _ _ _ _ _).2,
      ite_events_count _ _ _ _ _ rfl]
    rfl

/-- C24 (as amended). The progress callback is called at the start of an
inner iteration, not after its QR update: in every pass of the inner loop of
`GMREScycle` in which a callback is registered, the calls made are the history
write, if any, then one call of the callback with the index `it + itsSoFar`
and the residual estimate `res` with which the pass starts (the norm of the
initial residual for `it = 0`, the estimate of the previous QR update
otherwise), then calls among which there is no further call of the callback,
and last the QR update of column `it`; after the loop the callback is called
once more, with the final index and the final estimate. -/
theorem GMREScycle_monitor_order (ext : Ext S E) (itsSoFar : Int) (l : Loop S E)
    (hm : l.ksp.usr_monitor = true) :
    (∃ post : List (Event S),
      (cycleBody ext itsSoFar l).trace
        = l.trace ++ (recordHistory l.hist_len l.ksp (l.it + itsSoFar) l.res).2
          ++ [Event.monitor (l.it + itsSoFar) l.res] ++ post ++ [Event.update l.it] ∧
      post.countP Event.isMonitor = 0 ∧ post.countP Event.isUpdate = 0) ∧
    (∃ pre : List (Event S),
      (cycleTally itsSoFar l).2 = pre ++ [Event.monitor (l.it + itsSoFar) l.res] ∧
      pre.countP Event.isMonitor = 0) := by
  have h1 : (recordHistory l.hist_len l.ksp (l.it + itsSoFar) l.res).1.usr_monitor = true :=
    (setup_usr_monitor (recordHistory_setup _ _ _ _)).trans hm
  constructor
  · obtain ⟨post, hp, hp1, hp2⟩ := cycleArnoldi_events ext itsSoFar l
    rw [callMonitor_on _ _ _ _ h1] at hp
    obtain ⟨n1, n2⟩ := cycleNormalize_no_monitor ext (cycleArnoldi ext itsSoFar l).1 l.it
    refine ⟨post ++ (cycleNormalize ext (cycleArnoldi ext itsSoFar l).1 l.it).2, ?_, ?_, ?_⟩
    · simp only [cycleBody, hp, List.append_assoc]
    · rw [List.countP_append, hp1, n1]
    · rw [List.countP_append, hp2, n2]
  · refine ⟨(recordHistory l.hist_len
        { l.ksp with
          nmatop := l.ksp.nmatop + (l.it : Int)
          nvectors := l.ksp.nvectors + (3 + (l.it : Int) * (3 + ((l.it : Int) - 1))) }
        (l.it + itsSoFar) l.res).2, ?_, recordHistory_no_monitor _ _ _ _⟩
    have h2 : (recordHistory l.hist_len
        { l.ksp with
          nmatop := l.ksp.nmatop + (l.it : Int)
          nvectors := l.ksp.nvectors + (3 + (l.it : Int) * (3 + ((l.it : Int) - 1))) }
        (l.it + itsSoFar) l.res).1.usr_monitor = true :=
      (setup_usr_monitor (recordHistory_setup _ _ _ _)).trans hm
    simp only [cycleTally]
    congr 1
    apply callMonitor_on
    split
    · exact h2
    · exact h2
end Monitor
section MonitorEvaluations

theorem monitor_entry :
    (cycleInit (demoExt 2 1) 0 monitorKSP).ksp.usr_monitor = true ∧
    (cycleInit (demoExt 2 1) 0 monitorKSP).res = 5 ∧
    (cycleInit (demoExt 2 1) 0 monitorKSP).it = 0 ∧
    (cycleInit (demoExt 2 1) 0 monitorKSP).trace = [Event.scale (VEC_VV 0)] := by
  refine ⟨rfl, ?_, rfl, rfl⟩
  simp [cycleInit, demoExt, monitorKSP, demoKSP, blankKSP]

theorem monitor_arnoldi :
    (cycleArnoldi (demoExt 2 1) 0 (cycleInit (demoExt 2 1) 0 monitorKSP)).1.vec (VEC_VV 1) = 0 ∧
    (cycleArnoldi (demoExt 2 1) 0 (cycleInit (demoExt 2 1) 0 monitorKSP)).1.epsabs = 0 ∧
    (cycleArnoldi (demoExt 2 1) 0 (cycleInit (demoExt 2 1) 0 monitorKSP)).1.haptol = 0 ∧
    (cycleArnoldi (demoExt 2 1) 0 (cycleInit (demoExt 2 1) 0 monitorKSP)).2
      = [Event.monitor 0 5, Event.mm (VEC_VV 0) VEC_TEMP_MATOP,
          Event.pre VEC_TEMP_MATOP (VEC_VV 1), Event.orthog 0] := by
  refine ⟨?_, ?_, ?_, ?_⟩ <;>
  simp [cycleArnoldi, cycleInit, demoExt, monitorKSP, demoKSP, blankKSP, recordHistory,
    callMonitor, MATOP, KSP.setVec, KSP.setHH, KSP.setHES, KSP.setRS, GMRESGetNewVectors,
    VEC_OFFSET, VEC_VV, VEC_TEMP_MATOP]

theorem demo_normalize_zero (a : KSP ℚ ℚ) (it : Nat) (h1 : a.vec (VEC_VV (it + 1)) = 0)
    (h2 : a.epsabs = 0) (h3 : a.haptol = 0) :
    (cycleNormalize (demoExt 2 1) a it).2 = [] ∧
    (cycleNormalize (demoExt 2 1) a it).1.hh (it + 1) it = 0 := by
  have hn : (demoExt 2 1).VecNorm (a.vec (VEC_VV (it + 1))) = 0 := by
    rw [h1]
    simp [demoExt]
  have hb : happyBound (demoExt 2 1)
      ((a.setHH (it + 1) it 0).setHES (it + 1) it 0) it = 0 := by
    simp [happyBound, KSP.setHH, KSP.setHES, h2, h3]
  simp only [cycleNormalize, hn, hb, gt_iff_lt, lt_self_iff_false, if_false]
  exact ⟨trivial, by simp [KSP.setHH, KSP.setHES, setAt2]⟩

theorem monitor_normalize :
    (cycleNormalize (demoExt 2 1)
      (cycleArnoldi (demoExt 2 1) 0 (cycleInit (demoExt 2 1) 0 monitorKSP)).1 0).2 = [] ∧
    (cycleNormalize (demoExt 2 1)
      (cycleArnoldi (demoExt 2 1) 0 (cycleInit (demoExt 2 1) 0 monitorKSP)).1 0).1.hh 1 0
        = 0 := by
  obtain ⟨a1, a2, a3, _⟩ := monitor_arnoldi
  exact demo_normalize_zero _ 0 a1 a2 a3

/-- Counterexample to C24: the first inner iteration of the cycle for the
operator `2 x` with initial residual 5 and a registered callback.  The
iteration is run; its calls are the call of the callback with index 0 and the
value 5, then the operator, the preconditioner and the orthogonalization, and
last the QR update, which produces the estimate 0: the callback is called
before the QR update, with the norm of the initial residual. -/
theorem monitor_before_update :
    ((demoExt 2 1).converged (cycleInit (demoExt 2 1) 0 monitorKSP).ksp
        (((cycleInit (demoExt 2 1) 0 monitorKSP).it : Int) + 0)
        (cycleInit (demoExt 2 1) 0 monitorKSP).res = 0 ∧
      ((cycleInit (demoExt 2 1) 0 monitorKSP).it : Int) < monitorKSP.max_k ∧
      ((cycleInit (demoExt 2 1) 0 monitorKSP).it : Int) + 0 < monitorKSP.max_it) ∧
    (cycleBody (demoExt 2 1) 0 (cycleInit (demoExt 2 1) 0 monitorKSP)).trace
      = [Event.scale (VEC_VV 0), Event.monitor 0 5, Event.mm (VEC_VV 0) VEC_TEMP_MATOP,
          Event.pre VEC_TEMP_MATOP (VEC_VV 1), Event.orthog 0, Event.update 0] ∧
    (cycleBody (demoExt 2 1) 0 (cycleInit (demoExt 2 1) 0 monitorKSP)).res = 0 := by
  obtain ⟨m1, m2, m3, m4⟩ := monitor_entry
  obtain ⟨_, _, _, a4⟩ := monitor_arnoldi
  obtain ⟨n1, n2⟩ := monitor_normalize
  refine ⟨⟨?_, by decide, by decide⟩, ?_, ?_⟩
  · have hc : (demoExt 2 1).converged = KSPiGMRESDefaultConverged := rfl
    have ht : (cycleInit (demoExt 2 1) 0 monitorKSP).ksp.ttol = 0 := by
      rw [cycleInit_ttol]
      simp [monitorKSP, demoKSP, blankKSP]
    rw [hc]
    simp only [KSPiGMRESDefaultConverged, m2, ht]
    norm_num
  · simp only [cycleBody, m4, a4, n1, m3]
    rfl
  · obtain ⟨b1, _⟩ := cycleBody_res (demoExt 2 1) 0 (cycleInit (demoExt 2 1) 0 monitorKSP)
    obtain ⟨u1, _, _⟩ := update_first (demoExt 2 1).sqrt (demoExt 2 1).fabs
      (cycleNormalize (demoExt 2 1)
        (cycleArnoldi (demoExt 2 1) 0 (cycleInit (demoExt 2 1) 0 monitorKSP)).1 0).1
    rw [m3] at b1
    rw [n2] at u1
    rw [b1, u1]
    simp [demoExt]

/-- Witness of C24 as amended: the same first iteration. -/
theorem GMREScycle_monitor_order_witness :
    (cycleInit (demoExt 2 1) 0 monitorKSP).ksp.usr_monitor = true ∧
    (∃ post : List (Event ℚ),
      (cycleBody (demoExt 2 1) 0 (cycleInit (demoExt 2 1) 0 monitorKSP)).trace
        = (cycleInit (demoExt 2 1) 0 monitorKSP).trace
          ++ (recordHistory (cycleInit (demoExt 2 1) 0 monitorKSP).hist_len
              (cycleInit (demoExt 2 1) 0 monitorKSP).ksp
              (((cycleInit (demoExt 2 1) 0 monitorKSP).it : Int) + 0)
              (cycleInit (demoExt 2 1) 0 monitorKSP).res).2
          ++ [Event.monitor (((cycleInit (demoExt 2 1) 0 monitorKSP).it : Int) + 0)
              (cycleInit (demoExt 2 1) 0 monitorKSP).res]
          ++ post ++ [Event.update (cycleInit (demoExt 2 1) 0 monitorKSP).it] ∧
      post.countP Event.isMonitor = 0 ∧ post.countP Event.isUpdate = 0) :=
  ⟨rfl, (GMREScycle_monitor_order (demoExt 2 1) 0 (cycleInit (demoExt 2 1) 0 monitorKSP) rfl).1⟩
end MonitorEvaluations
/-! ## Happy breakdown as an exit -/

section LoopReach
variable {S E : Type} [Add S] [Sub S] [Mul S] [Div S] [Neg S] [Zero S] [One S]
  [LT S] [DecidableRel (fun a b : S => a < b)] [DecidableEq S]

/-- The inner loop started in `l` continues from the state after `k` passes
when the loop condition holds before each of them. -/
theorem cycleLoop_reach (ext : Ext S E) (max_k max_it itsSoFar : Int) (k : Nat) :
    ∀ l : Loop S E,
      (∀ j, j < k →
        ext.converged (cyclePass ext itsSoFar l j).ksp
            ((cyclePass ext itsSoFar l j).it + itsSoFar) (cyclePass ext itsSoFar l j).res = 0 ∧
          ((cyclePass ext itsSoFar l j).it : Int) < max_k ∧
          ((cyclePass ext itsSoFar l j).it : Int) + itsSoFar < max_it) →
      cycleLoop ext max_k max_it itsSoFar l
        = cycleLoop ext max_k max_it itsSoFar (cyclePass ext itsSoFar l k) := by
  induction k with
  | zero => intro l _; rfl
  | succ k ih =>
    intro l h
    rw [cycleLoop_step ext max_k max_it itsSoFar l (h 0 (Nat.succ_pos k)), cyclePass_succ_left]
    apply ih
    intro j hj
    have := h (j + 1) (by omega)
    rw [cyclePass_succ_left] at this
    exact this

theorem cyclePass_init_it (ext : Ext S E) (itsSoFar restart : Int) (st : KSP S E) (k : Nat) :
    (cyclePass ext itsSoFar (cycleInit ext restart st) k).it = k := by
  rw [cyclePass_it]
  exact Nat.zero_add k
end LoopReach

section BreakdownExit
variable {α E : Type} [LinearOrderedField α]

/-- The QR update of a column whose sub-diagonal entry is 0: the sine, the new
entry of `RS` and the returned estimate vanish. -/
theorem update_breakdown (sqrt fabs : α → α) (hfabs : ∀ x, fabs x = |x|) (st : KSP α E)
    (it : Nat) (hg : st.hh (it + 1) it = 0) :
    (GMRESUpdateHessenberg sqrt fabs st it).1.ss it = 0 ∧
    (GMRESUpdateHessenberg sqrt fabs st it).1.rs (it + 1) = 0 ∧
    (GMRESUpdateHessenberg sqrt fabs st it).2 = 0 := by
  obtain ⟨H, hH, hfr⟩ := applyRotations_frame it st it
  have hgH : H (it + 1) it = 0 := (hfr _ _ (Or.inr (Nat.lt_succ_self it))).trans hg
  refine ⟨?_, ?_, ?_⟩ <;>
  simp [GMRESUpdateHessenberg, hH, KSP.setCC, KSP.setSS, KSP.setRS, KSP.setHH, setAt, setAt2,
    hgH, hfabs]
end BreakdownExit
section BreakdownExit2
variable {α E : Type} [LinearOrderedField α]

/-- C25 as amended (exact arithmetic: a linearly ordered field, where the
square of a nonzero entry is positive).  Happy breakdown is an early exit: let
`l` be the local variables at
the head of the inner iteration `it = k` of a cycle with nonzero initial
residual, an iteration that the loop runs.  If the sub-diagonal norm
`HH[it+1,it]` handed to the QR update is 0 while the diagonal entry of column
`it` after the stored rotations is nonzero, then the square root the update
divides by (taken of the squares of the rotated diagonal entry and of the
entry below it) is not 0, the update leaves `SS[it] = 0` and `RS[it+1] = 0` and
returns the estimate 0; with the default convergence test and `ttol >= 0` the
loop exits after this iteration, the cycle reports `it + 1` iterations, ends
with the reconstruction `BuildGmresSoln(..., it)` over these `it + 1`
iterations and returns 0. -/
theorem GMREScycle_breakdown_exit (ext : Ext α E) (hfabs : ∀ x, ext.fabs x = |x|)
    (hsqrt : ∀ x, 0 < x → ext.sqrt x ≠ 0)
    (hconv : ∀ (s : KSP α E) (n : Int) (r : α), ext.converged s n r = if r ≤ s.ttol then 1 else 0)
    (c : Int) (itsSoFar restart : Int) (st : KSP α E) (k : Nat) (l : Loop α E)
    (hl : l = cyclePass ext itsSoFar (cycleInit ext restart st) k)
    (h0 : ext.VecNorm (st.vec (VEC_VV 0)) ≠ 0)
    (hrun : ∀ j, j ≤ k →
      ext.converged (cyclePass ext itsSoFar (cycleInit ext restart st) j).ksp
          ((cyclePass ext itsSoFar (cycleInit ext restart st) j).it + itsSoFar)
          (cyclePass ext itsSoFar (cycleInit ext restart st) j).res = 0 ∧
        ((cyclePass ext itsSoFar (cycleInit ext restart st) j).it : Int) < st.max_k ∧
        ((cyclePass ext itsSoFar (cycleInit ext restart st) j).it : Int) + itsSoFar < st.max_it)
    (hg : (cycleNormalize ext (cycleArnoldi ext itsSoFar l).1 l.it).1.hh (l.it + 1) l.it = 0)
    (hh : (applyRotations l.it (cycleNormalize ext (cycleArnoldi ext itsSoFar l).1 l.it).1
      l.it).hh l.it l.it ≠ 0)
    (httol : 0 ≤ (cycleBody ext itsSoFar l).ksp.ttol) :
    l.it = k ∧
    ext.sqrt
      ((applyRotations l.it (cycleNormalize ext (cycleArnoldi ext itsSoFar l).1 l.it).1
          l.it).hh l.it l.it *
        (applyRotations l.it (cycleNormalize ext (cycleArnoldi ext itsSoFar l).1 l.it).1
          l.it).hh l.it l.it +
        (applyRotations l.it (cycleNormalize ext (cycleArnoldi ext itsSoFar l).1 l.it).1
          l.it).hh (l.it + 1) l.it *
        (applyRotations l.it (cycleNormalize ext (cycleArnoldi ext itsSoFar l).1 l.it).1
          l.it).hh (l.it + 1) l.it) ≠ 0 ∧
    (cycleBody ext itsSoFar l).ksp.ss k = 0 ∧
    (cycleBody ext itsSoFar l).ksp.rs (k + 1) = 0 ∧
    (cycleBody ext itsSoFar l).res = 0 ∧
    (cycleLoop ext st.max_k st.max_it itsSoFar (cycleInit ext restart st)).it = k + 1 ∧
    (cycleLoop ext st.max_k st.max_it itsSoFar (cycleInit ext restart st)).converged = 1 ∧
    (GMREScycle ext (some c) itsSoFar restart st).itcount = some ((k : Int) + 1) ∧
    (GMREScycle ext (some c) itsSoFar restart st).status = 0 ∧
    (∃ tr, (GMREScycle ext (some c) itsSoFar restart st).trace
      = tr ++ [Event.buildSoln (k : Int)]) := by
  have hit : l.it = k := by rw [hl]; exact cyclePass_init_it ext itsSoFar restart st k
  obtain ⟨u1, u2, u3⟩ := update_breakdown ext.sqrt ext.fabs hfabs
    (cycleNormalize ext (cycleArnoldi ext itsSoFar l).1 l.it).1 l.it hg
  have hss : (cycleBody ext itsSoFar l).ksp.ss l.it = 0 := u1
  have hrs : (cycleBody ext itsSoFar l).ksp.rs (l.it + 1) = 0 := u2
  have hres : (cycleBody ext itsSoFar l).res = 0 := u3
  have hsq : ext.sqrt
      ((applyRotations l.it (cycleNormalize ext (cycleArnoldi ext itsSoFar l).1 l.it).1
          l.it).hh l.it l.it *
        (applyRotations l.it (cycleNormalize ext (cycleArnoldi ext itsSoFar l).1 l.it).1
          l.it).hh l.it l.it +
        (applyRotations l.it (cycleNormalize ext (cycleArnoldi ext itsSoFar l).1 l.it).1
          l.it).hh (l.it + 1) l.it *
        (applyRotations l.it (cycleNormalize ext (cycleArnoldi ext itsSoFar l).1 l.it).1
          l.it).hh (l.it + 1) l.it) ≠ 0 := by
    obtain ⟨H, hH, hfr⟩ := applyRotations_frame l.it
      (cycleNormalize ext (cycleArnoldi ext itsSoFar l).1 l.it).1 l.it
    have hgH : (applyRotations l.it (cycleNormalize ext (cycleArnoldi ext itsSoFar l).1 l.it).1
        l.it).hh (l.it + 1) l.it = 0 := by
      rw [hH]
      exact (hfr _ _ (Or.inr (Nat.lt_succ_self l.it))).trans hg
    apply hsqrt
    rw [hgH, mul_zero, add_zero]
    exact mul_self_pos.mpr hh
  -- the loop reaches `l`, makes the pass and exits
  have hreach := cycleLoop_reach ext st.max_k st.max_it itsSoFar k (cycleInit ext restart st)
    (fun j hj => hrun j (le_of_lt hj))
  rw [← hl] at hreach
  have hck := hrun k le_rfl
  rw [← hl] at hck
  have hbody : cycleBody ext itsSoFar
      { l with converged := ext.converged l.ksp (l.it + itsSoFar) l.res }
      = { cycleBody ext itsSoFar l with
          converged := ext.converged l.ksp (l.it + itsSoFar) l.res } := rfl
  have hstep := cycleLoop_step ext st.max_k st.max_it itsSoFar l hck
  have htest : ext.converged (cycleBody ext itsSoFar
        { l with converged := ext.converged l.ksp (l.it + itsSoFar) l.res }).ksp
      ((cycleBody ext itsSoFar
        { l with converged := ext.converged l.ksp (l.it + itsSoFar) l.res }).it + itsSoFar)
      (cycleBody ext itsSoFar
        { l with converged := ext.converged l.ksp (l.it + itsSoFar) l.res }).res = 1 := by
    rw [hconv]
    show (if (cycleBody ext itsSoFar l).res ≤ (cycleBody ext itsSoFar l).ksp.ttol then (1 : Int)
      else 0) = 1
    rw [hres, if_pos httol]
  have hexit := cycleLoop_exit ext st.max_k st.max_it itsSoFar
    (cycleBody ext itsSoFar { l with converged := ext.converged l.ksp (l.it + itsSoFar) l.res })
    (by rw [htest]; intro h; exact absurd h.1 (by decide))
  rw [htest] at hexit
  have hloop : cycleLoop ext st.max_k st.max_it itsSoFar (cycleInit ext restart st)
      = { cycleBody ext itsSoFar
            { l with converged := ext.converged l.ksp (l.it + itsSoFar) l.res } with
          converged := 1 } := by
    rw [hreach, hstep, hexit]
  have hlit : (cycleLoop ext st.max_k st.max_it itsSoFar (cycleInit ext restart st)).it
      = k + 1 := by
    rw [hloop]
    show l.it + 1 = k + 1
    rw [hit]
  have hlcv : (cycleLoop ext st.max_k st.max_it itsSoFar (cycleInit ext restart st)).converged
      = 1 := by
    rw [hloop]
  obtain ⟨f1, _, tail, _, f2, _⟩ := cycleFinish_pos ext (some c) itsSoFar
    (cycleLoop ext st.max_k st.max_it itsSoFar (cycleInit ext restart st))
    (by rw [hlit]; omega)
  rw [hit] at hss hrs
  refine ⟨hit, hsq, hss, hrs, hres, hlit, hlcv, ?_, ?_, ?_⟩
  · rw [GMREScycle_of_ne ext _ itsSoFar restart st h0, cycleFinish_itcount, hlit]
    rfl
  · rw [GMREScycle_of_ne ext _ itsSoFar restart st h0, f1, hlcv]
    decide
  · rw [GMREScycle_of_ne ext _ itsSoFar restart st h0, f2, hlit]
    refine ⟨(cycleLoop ext st.max_k st.max_it itsSoFar (cycleInit ext restart st)).trace
      ++ tail, ?_⟩
    simp
end BreakdownExit2
section BreakdownEvaluations

theorem qsqrt_ne_zero (x : ℚ) (hx : 0 < x) : qsqrt x ≠ 0 := by
  unfold qsqrt
  have h1 : 0 < x.num.toNat := by
    have := Rat.num_pos.mpr hx
    omega
  have h2 : 0 < Nat.sqrt x.num.toNat := Nat.sqrt_pos.mpr h1
  have h3 : 0 < Nat.sqrt x.den := Nat.sqrt_pos.mpr x.den_pos
  apply div_ne_zero
  · exact_mod_cast h2.ne.symm
  · exact_mod_cast h3.ne.symm

/-- The first column on one-dimensional vectors for the operator `2 x`: after
the orthogonalization and the normalization the diagonal entry is 2 and the
entry below it is 0. -/
theorem demo_first_column (itsSoFar : Int) (l : Loop ℚ ℚ) (hit : l.it = 0)
    (hres : l.ksp.residual_history = none) (hmon : l.ksp.usr_monitor = false)
    (hvv : l.ksp.vv_allocated = 5) (hpre : l.ksp.right_pre = false)
    (hv0 : l.ksp.vec (VEC_VV 0) = 1) :
    (cycleNormalize (demoExt 2 1) (cycleArnoldi (demoExt 2 1) itsSoFar l).1 0).1.hh 1 0 = 0 ∧
    (cycleNormalize (demoExt 2 1) (cycleArnoldi (demoExt 2 1) itsSoFar l).1 0).1.hh 0 0 = 2 := by
  obtain ⟨n1, n2, _⟩ := cycleNormalize_entries (demoExt 2 1)
    (cycleArnoldi (demoExt 2 1) itsSoFar l).1 0
  have a1 := demo_arnoldi itsSoFar l hit hres hmon hvv hpre hv0
  refine ⟨?_, ?_⟩
  · rw [n1, a1]
    simp [demoExt]
  · rw [n2, cycleArnoldi_plain (demoExt 2 1) itsSoFar l hres hmon
      (by rw [hvv, hit]; simp [VEC_OFFSET]) hpre, hit]
    have hv0' : l.ksp.vec (Vec.work 3) = 1 := hv0
    simp [demoExt, KSP.setVec, KSP.setHH, KSP.setHES, hv0', VEC_VV, VEC_OFFSET, VEC_TEMP_MATOP,
      setAt2]

/-- Witness of C25: the solve on one-dimensional vectors for the operator
`2 x`.  The first column is `(2, 0)`, the cycle makes one iteration, ends with
the reconstruction over it and returns 0. -/
theorem GMREScycle_breakdown_exit_witness :
    (cycleNormalize (demoExt 2 1)
      (cycleArnoldi (demoExt 2 1) 0 (cycleInit (demoExt 2 1) 0 demoEntry)).1 0).1.hh 1 0 = 0 ∧
    (cycleNormalize (demoExt 2 1)
      (cycleArnoldi (demoExt 2 1) 0 (cycleInit (demoExt 2 1) 0 demoEntry)).1 0).1.hh 0 0 = 2 ∧
    (cycleBody (demoExt 2 1) 0 (cycleInit (demoExt 2 1) 0 demoEntry)).res = 0 ∧
    (GMREScycle (demoExt 2 1) (some 0) 0 0 demoEntry).itcount = some 1 ∧
    (GMREScycle (demoExt 2 1) (some 0) 0 0 demoEntry).status = 0 ∧
    (∃ tr, (GMREScycle (demoExt 2 1) (some 0) 0 0 demoEntry).trace
      = tr ++ [Event.buildSoln 0]) := by
  obtain ⟨e1, e2, e3, e4, e5, _⟩ := demoEntry_fields
  obtain ⟨f1, f2, f3, f4, _, f6, _⟩ := cycleInit_fields (demoExt 2 1) 0 demoEntry
  rw [demoEntry_norm, e5] at f6
  obtain ⟨c1, c2⟩ := demo_first_column 0 (cycleInit (demoExt 2 1) 0 demoEntry) rfl
    (f1.trans e1) (f2.trans e2) (f3.trans e3) (f4.trans e4) (f6.trans (by simp [demoExt]))
  have ht : (cycleBody (demoExt 2 1) 0 (cycleInit (demoExt 2 1) 0 demoEntry)).ksp.ttol = 0 := by
    rw [setup_ttol (cycleBody_setup (demoExt 2 1) demo_orthog_setup 0 _), demo_entry_ttol]
  have t := GMREScycle_breakdown_exit (demoExt 2 1) demo_fabs qsqrt_ne_zero
    (fun _ _ _ => rfl) 0 0 0 demoEntry 0 (cycleInit (demoExt 2 1) 0 demoEntry) rfl
    (by rw [demoEntry_norm]; norm_num)
    (fun j hj => by
      have hj0 : j = 0 := Nat.le_zero.mp hj
      subst hj0
      exact demo_entry_condition)
    c1 (by
      show (cycleNormalize (demoExt 2 1)
        (cycleArnoldi (demoExt 2 1) 0 (cycleInit (demoExt 2 1) 0 demoEntry)).1 0).1.hh 0 0 ≠ 0
      rw [c2]
      norm_num)
    (le_of_eq ht.symm)
  exact ⟨c1, c2, t.2.2.2.2.1, t.2.2.2.2.2.2.2.1, t.2.2.2.2.2.2.2.2.1, t.2.2.2.2.2.2.2.2.2⟩
end BreakdownEvaluations
/-! ## Divisors of the back-substitution -/

section HessenbergFrame
variable {S E : Type} [Add S] [Sub S] [Mul S] [Div S] [Neg S] [Zero S] [One S]
  [LT S] [DecidableRel (fun a b : S => a < b)] [DecidableEq S]

theorem GMRESGetNewVectors_hh (st : KSP S E) (it : Int) :
    (GMRESGetNewVectors st it).hh = st.hh := by
  unfold GMRESGetNewVectors
  simp only
  split <;> rfl

theorem MATOP_hh (ext : Ext S E) (st : KSP S E) (a b tmp : Vec) :
    (MATOP ext st a b tmp).1.hh = st.hh := by
  unfold MATOP
  split <;> rfl

theorem cycleNormalize_hh_other (ext : Ext S E) (st : KSP S E) (it : Nat) (r c : Nat)
    (h : c ≠ it) : (cycleNormalize ext st it).1.hh r c = st.hh r c := by
  unfold cycleNormalize
  simp only
  split <;> simp [KSP.setHH, KSP.setHES, KSP.setVec, setAt2, h]

/-- A pass of the inner loop writes only column `it` of `HH`, when the
orthogonalization plug-in writes only that column. -/
theorem cycleBody_hh_other (ext : Ext S E)
    (horth : ∀ (s : KSP S E) (k r c : Nat), c ≠ k → (ext.orthog s k).hh r c = s.hh r c)
    (itsSoFar : Int) (l : Loop S E) (r c : Nat) (h : c ≠ l.it) :
    (cycleBody ext itsSoFar l).ksp.hh r c = l.ksp.hh r c := by
  have hb : (cycleBody ext itsSoFar l).ksp.hh
      = (GMRESUpdateHessenberg ext.sqrt ext.fabs (cycleUpdateInput ext itsSoFar l) l.it).1.hh :=
    rfl
  rw [hb, (GMRESUpdateHessenberg_frame ext.sqrt ext.fabs _ l.it).2.2.1 r c (Or.inl h)]
  unfold cycleUpdateInput
  rw [cycleNormalize_hh_other ext _ l.it r c h]
  simp only [cycleArnoldi]
  rw [horth _ _ _ _ h, MATOP_hh]
  split
  · rw [GMRESGetNewVectors_hh, callMonitor_hh, recordHistory_hh]
  · rw [callMonitor_hh, recordHistory_hh]

theorem cyclePass_hh_later (ext : Ext S E)
    (horth : ∀ (s : KSP S E) (k r c : Nat), c ≠ k → (ext.orthog s k).hh r c = s.hh r c)
    (itsSoFar : Int) (l : Loop S E) (r c : Nat) (n m : Nat) (hc : c < l.it + n) :
    (cyclePass ext itsSoFar l (n + m)).ksp.hh r c = (cyclePass ext itsSoFar l n).ksp.hh r c := by
  induction m with
  | zero => rfl
  | succ m ih =>
    have hne : c ≠ (cyclePass ext itsSoFar l (n + m)).it := by
      rw [cyclePass_it]
      omega
    rw [← ih]
    exact cycleBody_hh_other ext horth itsSoFar _ r c hne
end HessenbergFrame

section DiagonalValue
variable {E : Type}

/-- The diagonal entry that the QR update of column `it` stores, when the pair
of the rotated diagonal entry and the entry below it is not `(0, 0)`: the
positive square root of the sum of their squares. -/
theorem update_diagonal (st : KSP ℝ E) (it : Nat)
    (hnz : ¬ ((applyRotations it st it).hh it it = 0 ∧
      (applyRotations it st it).hh (it + 1) it = 0)) :
    (GMRESUpdateHessenberg Real.sqrt (fun x => |x|) st it).1.hh it it
      = Real.sqrt (((applyRotations it st it).hh it it) ^ 2
          + ((applyRotations it st it).hh (it + 1) it) ^ 2) ∧
    0 < Real.sqrt (((applyRotations it st it).hh it it) ^ 2
          + ((applyRotations it st it).hh (it + 1) it) ^ 2) := by
  obtain ⟨H, hH, hfr⟩ := applyRotations_frame it st it
  have hg : (applyRotations it st it).hh (it + 1) it = st.hh (it + 1) it := by
    rw [hH]
    exact hfr _ _ (Or.inr (Nat.lt_succ_self it))
  obtain ⟨v1, v2, _, _, v5, _, _⟩ := update_values st it
  rw [hg] at hnz ⊢
  have hpos : 0 < ((applyRotations it st it).hh it it) ^ 2 + (st.hh (it + 1) it) ^ 2 := by
    by_contra hcon
    have hz : ((applyRotations it st it).hh it it) ^ 2 + (st.hh (it + 1) it) ^ 2 = 0 :=
      le_antisymm (not_lt.mp hcon) (by positivity)
    obtain ⟨a1, a2⟩ := (add_eq_zero_iff_of_nonneg (sq_nonneg _) (sq_nonneg _)).mp hz
    exact hnz ⟨by simpa using a1, by simpa using a2⟩
  have ht := Real.sqrt_pos.mpr hpos
  refine ⟨?_, ht⟩
  rw [v5, v1, v2]
  have hsq := Real.sq_sqrt hpos.le
  field_simp
  nlinarith [hsq]
end DiagonalValue
section DivisorsPositive
variable {E : Type}

/-- After `n` passes of the inner loop each diagonal entry of the first `n`
columns of `HH` is the positive square root stored by the QR update of its
column, when no update met the pair `(0, 0)`. -/
theorem cyclePass_diagonal (ext : Ext ℝ E) (hs : ext.sqrt = Real.sqrt)
    (hf : ext.fabs = fun x => |x|)
    (horth : ∀ (s : KSP ℝ E) (k r c : Nat), c ≠ k → (ext.orthog s k).hh r c = s.hh r c)
    (itsSoFar : Int) (l : Loop ℝ E) (hl : l.it = 0) (n : Nat)
    (hnz : ∀ j, j < n →
      ¬ ((applyRotations j (cycleUpdateInput ext itsSoFar (cyclePass ext itsSoFar l j)) j).hh j j
          = 0 ∧
        (applyRotations j (cycleUpdateInput ext itsSoFar (cyclePass ext itsSoFar l j)) j).hh
          (j + 1) j = 0))
    (k : Nat) (hk : k < n) :
    (cyclePass ext itsSoFar l n).ksp.hh k k
      = Real.sqrt
        (((applyRotations k (cycleUpdateInput ext itsSoFar (cyclePass ext itsSoFar l k)) k).hh
            k k) ^ 2 +
          ((applyRotations k (cycleUpdateInput ext itsSoFar (cyclePass ext itsSoFar l k)) k).hh
            (k + 1) k) ^ 2) ∧
    0 < Real.sqrt
        (((applyRotations k (cycleUpdateInput ext itsSoFar (cyclePass ext itsSoFar l k)) k).hh
            k k) ^ 2 +
          ((applyRotations k (cycleUpdateInput ext itsSoFar (cyclePass ext itsSoFar l k)) k).hh
            (k + 1) k) ^ 2) := by
  obtain ⟨m, hm⟩ : ∃ m, n = (k + 1) + m := ⟨n - (k + 1), by omega⟩
  have hxit : (cyclePass ext itsSoFar l k).it = k := by
    rw [cyclePass_it, hl]
    exact Nat.zero_add k
  obtain ⟨d1, d2⟩ := update_diagonal
    (cycleUpdateInput ext itsSoFar (cyclePass ext itsSoFar l k)) k (hnz k hk)
  refine ⟨?_, d2⟩
  rw [hm, cyclePass_hh_later ext horth itsSoFar l k k (k + 1) m (by omega), ← d1]
  show (GMRESUpdateHessenberg ext.sqrt ext.fabs
    (cycleUpdateInput ext itsSoFar (cyclePass ext itsSoFar l k))
    (cyclePass ext itsSoFar l k).it).1.hh k k = _
  rw [hxit, hs, hf]

/-- C27 as amended (exact arithmetic: the reals, where `h^2 + g^2` does not
overflow).  The back-substitution divides by positive diagonal entries: in a
cycle with nonzero initial residual whose inner loop makes `it + 1` passes, if
for every column `j <= it` the pair (diagonal entry of column `j` after the
stored rotations, entry `HH[j+1,j]` below it) handed to the computation of the
rotation in `GMRESUpdateHessenberg(j)` is not `(0, 0)`, then the cycle ends
with `BuildGmresSoln(..., it)`, and each diagonal entry `HH[k,k]`,
`0 <= k <= it`, is the square root of `h_k^2 + g_k^2` and positive in the
context that `BuildGmresSoln` receives and throughout its back-substitution
loop.  The square root and absolute value are the real ones and the
orthogonalization plug-in writes only column `it` of `HH`. -/
theorem GMREScycle_divisors_positive (ext : Ext ℝ E) (hs : ext.sqrt = Real.sqrt)
    (hf : ext.fabs = fun x => |x|)
    (horth : ∀ (s : KSP ℝ E) (k r c : Nat), c ≠ k → (ext.orthog s k).hh r c = s.hh r c)
    (c : Option Int) (itsSoFar restart : Int) (st : KSP ℝ E) (it : Nat)
    (h0 : ext.VecNorm (st.vec (VEC_VV 0)) ≠ 0)
    (hit : (cycleLoop ext st.max_k st.max_it itsSoFar (cycleInit ext restart st)).it = it + 1)
    (hnz : ∀ j, j ≤ it →
      ¬ ((applyRotations j (cycleUpdateInput ext itsSoFar
            (cyclePass ext itsSoFar (cycleInit ext restart st) j)) j).hh j j = 0 ∧
        (applyRotations j (cycleUpdateInput ext itsSoFar
            (cyclePass ext itsSoFar (cycleInit ext restart st) j)) j).hh (j + 1) j = 0)) :
    (GMREScycle ext c itsSoFar restart st).ksp
      = BuildGmresSoln ext Buf.rsArea VEC_SOLN VEC_SOLN
          (cycleTally itsSoFar
            (cycleLoop ext st.max_k st.max_it itsSoFar (cycleInit ext restart st))).1
          (it : Int) ∧
    ∀ k, k ≤ it →
      (∀ n, (backOuter Buf.rsArea it
          ((cycleTally itsSoFar
              (cycleLoop ext st.max_k st.max_it itsSoFar (cycleInit ext restart st))).1.writeBuf
            Buf.rsArea it
            ((cycleTally itsSoFar
                (cycleLoop ext st.max_k st.max_it itsSoFar (cycleInit ext restart st))).1.rs it /
              (cycleTally itsSoFar
                (cycleLoop ext st.max_k st.max_it itsSoFar (cycleInit ext restart st))).1.hh
                it it)) n).hh k k
        = Real.sqrt
          (((applyRotations k (cycleUpdateInput ext itsSoFar
              (cyclePass ext itsSoFar (cycleInit ext restart st) k)) k).hh k k) ^ 2 +
            ((applyRotations k (cycleUpdateInput ext itsSoFar
              (cyclePass ext itsSoFar (cycleInit ext restart st) k)) k).hh (k + 1) k) ^ 2)) ∧
      0 < Real.sqrt
          (((applyRotations k (cycleUpdateInput ext itsSoFar
              (cyclePass ext itsSoFar (cycleInit ext restart st) k)) k).hh k k) ^ 2 +
            ((applyRotations k (cycleUpdateInput ext itsSoFar
              (cyclePass ext itsSoFar (cycleInit ext restart st) k)) k).hh (k + 1) k) ^ 2) := by
  obtain ⟨n, e1, _, _⟩ := cycleLoop_eq_pass ext st.max_k st.max_it itsSoFar
    (cycleInit ext restart st)
  have hn : n = it + 1 := by
    have h := congrArg Loop.it e1
    rw [hit] at h
    have h2 : (cyclePass ext itsSoFar (cycleInit ext restart st) n).it = n :=
      cyclePass_init_it ext itsSoFar restart st n
    exact (h.trans h2).symm
  have hhh : (cycleLoop ext st.max_k st.max_it itsSoFar (cycleInit ext restart st)).ksp.hh
      = (cyclePass ext itsSoFar (cycleInit ext restart st) (it + 1)).ksp.hh := by
    rw [e1, hn]
  constructor
  · rw [GMREScycle_of_ne ext c itsSoFar restart st h0]
    have hne : ¬ (((cycleLoop ext st.max_k st.max_it itsSoFar
        (cycleInit ext restart st)).it : Nat) : Int) = 0 := by
      rw [hit]
      omega
    simp only [cycleFinish, hne, if_false]
    rw [hit]
    simp
  · intro k hk
    obtain ⟨d1, d2⟩ := cyclePass_diagonal ext hs hf horth itsSoFar (cycleInit ext restart st) rfl
      (it + 1) (fun j hj => hnz j (by omega)) k (by omega)
    refine ⟨fun n => ?_, d2⟩
    rw [hh_backOuter, hh_writeBuf, (cycleTally_frame itsSoFar _).2.1, hhh, d1]
end DivisorsPositive
section DivisorEvaluations

theorem unit_norm : (planeExt Real.sqrt).VecNorm (unitKSP.vec (VEC_VV 0)) = 1 := by
  simp [planeExt, unitKSP]

theorem unit_loop_it :
    (cycleLoop (planeExt Real.sqrt) unitKSP.max_k unitKSP.max_it 0
      (cycleInit (planeExt Real.sqrt) 0 unitKSP)).it = 0 + 1 := by
  rw [cycleLoop_step (planeExt Real.sqrt) unitKSP.max_k unitKSP.max_it 0 _
    ⟨rfl, by decide, by decide⟩]
  rw [cycleLoop_exit (planeExt Real.sqrt) unitKSP.max_k unitKSP.max_it 0 _
    (fun h => absurd h.2.1 (by decide))]
  rfl

/-- The first column on the plane for the identity operator and the initial
residual 1, with a plug-in that writes nothing: the entry below the diagonal is
the norm 1 of the new direction. -/
theorem unit_subdiagonal :
    (cycleUpdateInput (planeExt Real.sqrt) 0
      (cycleInit (planeExt Real.sqrt) 0 unitKSP)).hh 1 0 = 1 := by
  obtain ⟨f1, f2, f3, f4, _, f6, _⟩ := cycleInit_fields (planeExt Real.sqrt) 0 unitKSP
  rw [unit_norm] at f6
  have hv : (cycleInit (planeExt Real.sqrt) 0 unitKSP).ksp.vec (Vec.work 3) = 1 := by
    have h6 : (cycleInit (planeExt Real.sqrt) 0 unitKSP).ksp.vec (VEC_VV 0)
        = (planeExt Real.sqrt).VecScale (1 / 1) (unitKSP.vec (VEC_VV 0)) := f6
    rw [show (cycleInit (planeExt Real.sqrt) 0 unitKSP).ksp.vec (Vec.work 3)
      = (cycleInit (planeExt Real.sqrt) 0 unitKSP).ksp.vec (VEC_VV 0) from rfl, h6]
    apply Complex.ext <;> simp [planeExt, unitKSP]
  have hit : (cycleInit (planeExt Real.sqrt) 0 unitKSP).it = 0 := rfl
  have hn := (cycleNormalize_entries (planeExt Real.sqrt)
    (cycleArnoldi (planeExt Real.sqrt) 0 (cycleInit (planeExt Real.sqrt) 0 unitKSP)).1 0).1
  have hu : (cycleUpdateInput (planeExt Real.sqrt) 0
      (cycleInit (planeExt Real.sqrt) 0 unitKSP)).hh 1 0
      = (cycleNormalize (planeExt Real.sqrt)
          (cycleArnoldi (planeExt Real.sqrt) 0 (cycleInit (planeExt Real.sqrt) 0 unitKSP)).1
          0).1.hh (0 + 1) 0 := rfl
  rw [hu, hn, cycleArnoldi_plain (planeExt Real.sqrt) 0 _ (f1.trans rfl) (f2.trans rfl)
      (by rw [f3]; decide) (f4.trans rfl), hit]
  generalize (cycleInit (planeExt Real.sqrt) 0 unitKSP).ksp = K at hv
  simp [planeExt, KSP.setVec, hv, VEC_VV, VEC_OFFSET, VEC_TEMP_MATOP]

/-- Witness of C27: one pass on the plane for the identity operator.  The
first column handed to the QR update is `(0, 1)`. -/
theorem GMREScycle_divisors_positive_witness :
    (planeExt Real.sqrt).VecNorm (unitKSP.vec (VEC_VV 0)) ≠ 0 ∧
    (cycleLoop (planeExt Real.sqrt) unitKSP.max_k unitKSP.max_it 0
      (cycleInit (planeExt Real.sqrt) 0 unitKSP)).it = 0 + 1 ∧
    (cycleUpdateInput (planeExt Real.sqrt) 0
      (cycleInit (planeExt Real.sqrt) 0 unitKSP)).hh 1 0 = 1 ∧
    (GMREScycle (planeExt Real.sqrt) (some 0) 0 0 unitKSP).ksp
      = BuildGmresSoln (planeExt Real.sqrt) Buf.rsArea VEC_SOLN VEC_SOLN
          (cycleTally 0
            (cycleLoop (planeExt Real.sqrt) unitKSP.max_k unitKSP.max_it 0
              (cycleInit (planeExt Real.sqrt) 0 unitKSP))).1 ((0 : Nat) : Int) ∧
    0 < Real.sqrt
      (((applyRotations 0 (cycleUpdateInput (planeExt Real.sqrt) 0
          (cyclePass (planeExt Real.sqrt) 0 (cycleInit (planeExt Real.sqrt) 0 unitKSP) 0))
          0).hh 0 0) ^ 2 +
        ((applyRotations 0 (cycleUpdateInput (planeExt Real.sqrt) 0
          (cyclePass (planeExt Real.sqrt) 0 (cycleInit (planeExt Real.sqrt) 0 unitKSP) 0))
          0).hh (0 + 1) 0) ^ 2) := by
  have h0 : (planeExt Real.sqrt).VecNorm (unitKSP.vec (VEC_VV 0)) ≠ 0 := by
    rw [unit_norm]
    exact one_ne_zero
  have t := GMREScycle_divisors_positive (planeExt Real.sqrt) rfl rfl (fun _ _ _ _ _ => rfl)
    (some 0) 0 0 unitKSP 0 h0 unit_loop_it
    (fun j hj h => by
      have hj0 : j = 0 := Nat.le_zero.mp hj
      subst hj0
      have h2 : (cycleUpdateInput (planeExt Real.sqrt) 0
        (cycleInit (planeExt Real.sqrt) 0 unitKSP)).hh 1 0 = 0 := h.2
      rw [unit_subdiagonal] at h2
      exact one_ne_zero h2)
  exact ⟨h0, unit_loop_it, unit_subdiagonal, t.1, (t.2 0 le_rfl).2⟩
end DivisorEvaluations
/-! ## Capacity of the basis storage -/

section AllocFrame
variable {S E : Type} [Add S] [Sub S] [Mul S] [Div S] [Neg S] [Zero S] [One S]
  [LT S] [DecidableRel (fun a b : S => a < b)] [DecidableEq S]

theorem recordHistory_alloc (hl : Int) (st : KSP S E) (n : Int) (res : S) :
    (recordHistory hl st n res).1.alloc = st.alloc := by
  unfold recordHistory
  split
  · split <;> rfl
  · rfl

theorem callMonitor_alloc (st : KSP S E) (it : Nat) (n : Int) (res : S) :
    (callMonitor st it n res).1.alloc = st.alloc := by
  unfold callMonitor
  split <;> rfl

theorem MATOP_alloc (ext : Ext S E) (st : KSP S E) (a b tmp : Vec) :
    (MATOP ext st a b tmp).1.alloc = st.alloc := by
  unfold MATOP
  split <;> rfl

theorem cycleNormalize_alloc (ext : Ext S E) (st : KSP S E) (it : Nat) :
    (cycleNormalize ext st it).1.alloc = st.alloc := by
  unfold cycleNormalize
  simp only
  split <;> rfl

theorem GMRESUpdateHessenberg_alloc (sqrt fabs : S → S) (st : KSP S E) (it : Nat) :
    (GMRESUpdateHessenberg sqrt fabs st it).1.alloc = st.alloc := by
  obtain ⟨H, hH, _⟩ := applyRotations_frame it st it
  simp only [GMRESUpdateHessenberg, hH, KSP.setCC, KSP.setSS, KSP.setRS, KSP.setHH]
  rfl

theorem cycleBeforeGrowth_alloc (itsSoFar : Int) (l : Loop S E) :
    (cycleBeforeGrowth itsSoFar l).alloc = l.ksp.alloc := by
  unfold cycleBeforeGrowth
  rw [callMonitor_alloc, recordHistory_alloc]

theorem cycleBeforeGrowth_setup (itsSoFar : Int) (l : Loop S E) :
    (cycleBeforeGrowth itsSoFar l).setup = l.ksp.setup := by
  unfold cycleBeforeGrowth
  rw [callMonitor_setup, recordHistory_setup]

theorem cycleGrowth_eq (itsSoFar : Int) (l : Loop S E) :
    cycleGrowth itsSoFar l
      = if (cycleBeforeGrowth itsSoFar l).vv_allocated ≤ (l.it : Int) + VEC_OFFSET + 1 then
          GMRESGetNewVectors (cycleBeforeGrowth itsSoFar l) ((l.it : Int) + 1)
        else cycleBeforeGrowth itsSoFar l := rfl

theorem cycleGrowth_setup (itsSoFar : Int) (l : Loop S E) :
    (cycleGrowth itsSoFar l).setup = l.ksp.setup := by
  rw [cycleGrowth_eq]
  split
  · rw [GMRESGetNewVectors_setup, cycleBeforeGrowth_setup]
  · rw [cycleBeforeGrowth_setup]

/-- After the growth step a pass leaves the allocation state as it is, when the
orthogonalization plug-in does. -/
theorem cycleBody_alloc (ext : Ext S E) (horth : ∀ s k, (ext.orthog s k).alloc = s.alloc)
    (itsSoFar : Int) (l : Loop S E) :
    (cycleBody ext itsSoFar l).ksp.alloc = (cycleGrowth itsSoFar l).alloc := by
  have h : (cycleBody ext itsSoFar l).ksp.alloc
      = (GMRESUpdateHessenberg ext.sqrt ext.fabs
          (cycleNormalize ext (cycleArnoldi ext itsSoFar l).1 l.it).1 l.it).1.alloc := rfl
  have ha : (cycleArnoldi ext itsSoFar l).1
      = ext.orthog (MATOP ext (cycleGrowth itsSoFar l) (VEC_VV l.it) (VEC_VV (l.it + 1))
          VEC_TEMP_MATOP).1 l.it := by
    simp only [cycleArnoldi, cycleGrowth]
    split <;> rfl
  rw [h, GMRESUpdateHessenberg_alloc, cycleNormalize_alloc, ha, horth, MATOP_alloc]

theorem cycleTally_alloc (itsSoFar : Int) (l : Loop S E) :
    (cycleTally itsSoFar l).1.alloc = l.ksp.alloc := by
  simp only [cycleTally]
  rw [callMonitor_alloc]
  split
  · exact recordHistory_alloc _ _ _ _
  · exact recordHistory_alloc _ _ _ _

theorem writeBuf_alloc (st : KSP S E) (p : Buf) (k : Nat) (v : S) :
    (st.writeBuf p k v).alloc = st.alloc := by
  cases p <;> rfl

theorem backOuter_alloc (p : Buf) (it : Nat) (st : KSP S E) (c : Nat) :
    (backOuter p it st c).alloc = st.alloc := by
  induction c with
  | zero => rfl
  | succ c ih => simp only [backOuter, writeBuf_alloc, ih]

theorem BasicMultiMaxpy_alloc (ext : Ext S E) (st : KSP S E) (alpha : Buf) (z : Vec) (m : Nat) :
    (BasicMultiMaxpy ext st alpha z m).alloc = st.alloc := by
  induction m with
  | zero => rfl
  | succ m ih =>
    simp only [BasicMultiMaxpy]
    exact ih

theorem BuildGmresSoln_alloc (ext : Ext S E) (p : Buf) (vs vdest : Vec) (st : KSP S E) (it : Int) :
    (BuildGmresSoln ext p vs vdest st it).alloc = st.alloc := by
  have hb : ∀ n, (BasicMultiMaxpy ext ((backSubst p st n).setVec VEC_TEMP
      (ext.VecSet 0 ((backSubst p st n).vec VEC_TEMP))) p VEC_TEMP (n + 1)).alloc = st.alloc := by
    intro n
    rw [BasicMultiMaxpy_alloc]
    show (backSubst p st n).alloc = st.alloc
    unfold backSubst
    rw [backOuter_alloc, writeBuf_alloc]
  unfold BuildGmresSoln
  split
  · split <;> rfl
  · simp only
    split <;> split <;> exact hb _

theorem cycleFinish_alloc (ext : Ext S E) (c : Option Int) (itsSoFar : Int) (l : Loop S E) :
    (cycleFinish ext c itsSoFar l).ksp.alloc = l.ksp.alloc := by
  unfold cycleFinish
  simp only
  split
  · exact cycleTally_alloc itsSoFar l
  · show (BuildGmresSoln ext Buf.rsArea VEC_SOLN VEC_SOLN (cycleTally itsSoFar l).1 _).alloc = _
    rw [BuildGmresSoln_alloc, cycleTally_alloc]

theorem cycleInit_alloc (ext : Ext S E) (restart : Int) (st : KSP S E) :
    (cycleInit ext restart st).ksp.alloc = st.alloc := by
  simp only [cycleInit]
  split <;> rfl

theorem cycleInit_max_k (ext : Ext S E) (restart : Int) (st : KSP S E) :
    (cycleInit ext restart st).ksp.max_k = st.max_k := by
  simp only [cycleInit]
  split <;> rfl

theorem GMRESResidual_alloc (ext : Ext S E) (st : KSP S E) (restart : Int) :
    (GMRESResidual ext st restart).1.alloc = st.alloc := by
  unfold GMRESResidual
  simp only
  split
  · rfl
  · exact MATOP_alloc ext st _ _ _

theorem solveInit_alloc (ext : Ext S E) (st : KSP S E) :
    (solveInit ext st).1.alloc = st.alloc := by
  have hs0 : ∀ s0 : KSP S E, s0.alloc = st.alloc →
      (if !s0.guess_zero then GMRESResidual ext s0 0
        else (VecCopy s0 VEC_BINVF (VEC_VV 0), 0)).1.alloc = st.alloc := by
    intro s0 h
    split
    · exact (GMRESResidual_alloc ext s0 0).trans h
    · exact h
  unfold solveInit
  apply hs0
  split <;> rfl
end AllocFrame
section Capacity
variable {S E : Type} [Add S] [Sub S] [Mul S] [Div S] [Neg S] [Zero S] [One S]
  [LT S] [DecidableRel (fun a b : S => a < b)] [DecidableEq S]

theorem setup_max_k {a b : KSP S E} (h : a.setup = b.setup) : a.max_k = b.max_k :=
  congrArg (fun p => p.2.1) h

theorem alloc_vv {a b : KSP S E} (h : a.alloc = b.alloc) : a.vv_allocated = b.vv_allocated :=
  congrArg (fun p => p.1) h

theorem alloc_vecs {a b : KSP S E} (h : a.alloc = b.alloc) :
    a.vecs_allocated = b.vecs_allocated :=
  congrArg (fun p => p.2.1) h

theorem alloc_delta {a b : KSP S E} (h : a.alloc = b.alloc) :
    a.delta_allocate = b.delta_allocate :=
  congrArg (fun p => p.2.2.1) h

theorem capInv_congr {a b : KSP S E} (hs : a.setup = b.setup) (ha : a.alloc = b.alloc)
    (h : capInv b) : capInv a := by
  unfold capInv at *
  rw [setup_max_k hs, alloc_vv ha, alloc_vecs ha, alloc_delta ha]
  exact h

/-- The growth request of the pass `it < max_k`, made when exactly the vectors
up to `V[it]` are allocated: the batch has at least one vector, its pointer
slots `it + 1 + VEC_OFFSET + k`, `k < nalloc`, lie below `vecs_allocated`, and
the count of allocated vectors grows by the size of the batch. -/
theorem GMRESGetNewVectors_grows (m : KSP S E) (it : Nat) (hc : capInv m)
    (hv : m.vv_allocated = (it : Int) + VEC_OFFSET + 1) (hk : (it : Int) < m.max_k) :
    1 ≤ newVectorCount m ((it : Int) + 1) ∧
    ((it : Int) + 1) + VEC_OFFSET + newVectorCount m ((it : Int) + 1) ≤ m.vecs_allocated ∧
    (GMRESGetNewVectors m ((it : Int) + 1)).vv_allocated
      = m.vv_allocated + newVectorCount m ((it : Int) + 1) ∧
    (GMRESGetNewVectors m ((it : Int) + 1)).vecs_allocated = m.vecs_allocated ∧
    (GMRESGetNewVectors m ((it : Int) + 1)).delta_allocate = m.delta_allocate := by
  obtain ⟨c1, c2, c3, c4⟩ := hc
  have hoff : ((VEC_OFFSET : Nat) : Int) = 3 := rfl
  rw [hoff] at c1 c2 hv ⊢
  have hn : 1 ≤ newVectorCount m ((it : Int) + 1) ∧
      ((it : Int) + 1) + 3 + newVectorCount m ((it : Int) + 1) ≤ m.vecs_allocated := by
    unfold newVectorCount
    rw [hoff]
    split <;> constructor <;> omega
  have hne : ¬ newVectorCount m ((it : Int) + 1) = 0 := by omega
  refine ⟨hn.1, hn.2, ?_, ?_, ?_⟩ <;> simp only [GMRESGetNewVectors, if_neg hne]

/-- The growth step of a pass `it < max_k` entered with the vectors up to
`V[it]` allocated. -/
theorem cycleGrowth_capacity (itsSoFar : Int) (l : Loop S E) (hc : capInv l.ksp)
    (hv : (l.it : Int) + VEC_OFFSET + 1 ≤ l.ksp.vv_allocated)
    (hk : (l.it : Int) < l.ksp.max_k) :
    capInv (cycleGrowth itsSoFar l) ∧
    (l.it : Int) + 1 + VEC_OFFSET < (cycleGrowth itsSoFar l).vv_allocated ∧
    (cycleGrowth itsSoFar l).vv_allocated ≤ (cycleGrowth itsSoFar l).vecs_allocated ∧
    (cycleGrowth itsSoFar l).vecs_allocated = l.ksp.vecs_allocated ∧
    l.ksp.vv_allocated ≤ (cycleGrowth itsSoFar l).vv_allocated ∧
    ((cycleBeforeGrowth itsSoFar l).vv_allocated ≤ (l.it : Int) + VEC_OFFSET + 1 →
      1 ≤ newVectorCount (cycleBeforeGrowth itsSoFar l) ((l.it : Int) + 1) ∧
      ((l.it : Int) + 1) + VEC_OFFSET
          + newVectorCount (cycleBeforeGrowth itsSoFar l) ((l.it : Int) + 1)
        ≤ (cycleBeforeGrowth itsSoFar l).vecs_allocated) := by
  have ha := cycleBeforeGrowth_alloc itsSoFar l
  have hs := cycleBeforeGrowth_setup itsSoFar l
  have hm : capInv (cycleBeforeGrowth itsSoFar l) := capInv_congr hs ha hc
  have e1 := alloc_vv ha
  have e2 := alloc_vecs ha
  have e3 := setup_max_k hs
  have hsg := setup_max_k (cycleGrowth_setup itsSoFar l)
  by_cases hreq : (cycleBeforeGrowth itsSoFar l).vv_allocated ≤ (l.it : Int) + VEC_OFFSET + 1
  · obtain ⟨g1, g2, g3, g4, g5⟩ := GMRESGetNewVectors_grows (cycleBeforeGrowth itsSoFar l) l.it hm
      (le_antisymm hreq (by rw [e1]; exact hv)) (by rw [e3]; exact hk)
    have hg : cycleGrowth itsSoFar l
        = GMRESGetNewVectors (cycleBeforeGrowth itsSoFar l) ((l.it : Int) + 1) := by
      rw [cycleGrowth_eq, if_pos hreq]
    rw [hg] at hsg ⊢
    obtain ⟨c1, c2, c3, c4⟩ := hm
    refine ⟨⟨?_, ?_, ?_, ?_⟩, ?_, ?_, ?_, ?_, fun _ => ⟨g1, g2⟩⟩
    · rw [g4, c1, hsg, e3]
    · rw [g3]; omega
    · rw [g3, g4]; omega
    · rw [g5]; exact c4
    · rw [g3]; omega
    · rw [g3, g4]; omega
    · rw [g4, e2]
    · rw [g3]; omega
  · have hg : cycleGrowth itsSoFar l = cycleBeforeGrowth itsSoFar l := by
      rw [cycleGrowth_eq, if_neg hreq]
    rw [hg]
    obtain ⟨c1, c2, c3, c4⟩ := hm
    refine ⟨⟨c1, c2, c3, c4⟩, ?_, c3, e2, ?_, fun h => absurd h hreq⟩
    · omega
    · omega
end Capacity
section CapacityPasses
variable {S E : Type} [Add S] [Sub S] [Mul S] [Div S] [Neg S] [Zero S] [One S]
  [LT S] [DecidableRel (fun a b : S => a < b)] [DecidableEq S]

/-- The capacity invariant at the head of the inner loop: after `k` passes, all
of them with `it < max_k`, the vectors up to `V[k]` are allocated, the count of
allocated vectors has not decreased and the number of slots is unchanged. -/
theorem cyclePass_capacity (ext : Ext S E) (hset : ∀ s k, (ext.orthog s k).setup = s.setup)
    (hall : ∀ s k, (ext.orthog s k).alloc = s.alloc) (itsSoFar : Int) (l : Loop S E)
    (hl : l.it = 0) (hc : capInv l.ksp) (k : Nat) (hk : ∀ j, j < k → (j : Int) < l.ksp.max_k) :
    capInv (cyclePass ext itsSoFar l k).ksp ∧
    (k : Int) + VEC_OFFSET + 1 ≤ (cyclePass ext itsSoFar l k).ksp.vv_allocated ∧
    l.ksp.vv_allocated ≤ (cyclePass ext itsSoFar l k).ksp.vv_allocated ∧
    (cyclePass ext itsSoFar l k).ksp.vecs_allocated = l.ksp.vecs_allocated := by
  induction k with
  | zero =>
    refine ⟨hc, ?_, le_rfl, rfl⟩
    have h2 := hc.2.1
    show ((0 : Nat) : Int) + VEC_OFFSET + 1 ≤ l.ksp.vv_allocated
    omega
  | succ k ih =>
    obtain ⟨i1, i2, i3, i4⟩ := ih (fun j hj => hk j (by omega))
    have hxit : (cyclePass ext itsSoFar l k).it = k := by
      rw [cyclePass_it, hl]
      exact Nat.zero_add k
    have hmk : (cyclePass ext itsSoFar l k).ksp.max_k = l.ksp.max_k :=
      setup_max_k (cyclePass_setup ext hset itsSoFar l k)
    obtain ⟨g1, g2, g3, g4, g5, _⟩ := cycleGrowth_capacity itsSoFar (cyclePass ext itsSoFar l k)
      i1 (by rw [hxit]; exact i2) (by rw [hxit, hmk]; exact hk k (Nat.lt_succ_self k))
    have ha : (cyclePass ext itsSoFar l (k + 1)).ksp.alloc
        = (cycleGrowth itsSoFar (cyclePass ext itsSoFar l k)).alloc :=
      cycleBody_alloc ext hall itsSoFar _
    have hs : (cyclePass ext itsSoFar l (k + 1)).ksp.setup
        = (cycleGrowth itsSoFar (cyclePass ext itsSoFar l k)).setup := by
      rw [cyclePass_setup ext hset, cycleGrowth_setup, cyclePass_setup ext hset]
    rw [hxit] at g2
    refine ⟨capInv_congr hs ha g1, ?_, ?_, ?_⟩
    · rw [alloc_vv ha]
      push_cast
      omega
    · rw [alloc_vv ha]
      omega
    · rw [alloc_vecs ha, g4, i4]

/-- A cycle keeps the capacity invariant, does not decrease the count of
allocated vectors and leaves the number of slots as it is. -/
theorem GMREScycle_capacity (ext : Ext S E) (hset : ∀ s k, (ext.orthog s k).setup = s.setup)
    (hall : ∀ s k, (ext.orthog s k).alloc = s.alloc) (c : Option Int) (itsSoFar restart : Int)
    (st : KSP S E) (hc : capInv st) :
    capInv (GMREScycle ext c itsSoFar restart st).ksp ∧
    st.vv_allocated ≤ (GMREScycle ext c itsSoFar restart st).ksp.vv_allocated ∧
    (GMREScycle ext c itsSoFar restart st).ksp.vecs_allocated = st.vecs_allocated ∧
    (GMREScycle ext c itsSoFar restart st).ksp.max_k = st.max_k := by
  by_cases h0 : ext.VecNorm (st.vec (VEC_VV 0)) = 0
  · rw [(cycle_zero_residual ext c itsSoFar restart st h0).2.2.1]
    exact ⟨hc, le_rfl, rfl, rfl⟩
  · obtain ⟨n, e1, e2, _⟩ := cycleLoop_eq_pass ext st.max_k st.max_it itsSoFar
      (cycleInit ext restart st)
    have hmk := cycleInit_max_k ext restart st
    have hci : capInv (cycleInit ext restart st).ksp := by
      have ha := cycleInit_alloc ext restart st
      unfold capInv at *
      rw [hmk, alloc_vv ha, alloc_vecs ha, alloc_delta ha]
      exact hc
    obtain ⟨p1, _, p3, p4⟩ := cyclePass_capacity ext hset hall itsSoFar (cycleInit ext restart st)
      rfl hci n (fun j hj => by
        have h := (e2 j hj).2.1
        rw [cyclePass_init_it] at h
        rw [hmk]
        exact h)
    have hk : (cycleLoop ext st.max_k st.max_it itsSoFar (cycleInit ext restart st)).ksp
        = (cyclePass ext itsSoFar (cycleInit ext restart st) n).ksp := by
      rw [e1]
    have ha : (GMREScycle ext c itsSoFar restart st).ksp.alloc
        = (cyclePass ext itsSoFar (cycleInit ext restart st) n).ksp.alloc := by
      rw [GMREScycle_of_ne ext c itsSoFar restart st h0, cycleFinish_alloc, hk]
    have hs : (GMREScycle ext c itsSoFar restart st).ksp.setup
        = (cyclePass ext itsSoFar (cycleInit ext restart st) n).ksp.setup := by
      rw [GMREScycle_of_ne ext c itsSoFar restart st h0, cycleFinish_setup, hk]
    refine ⟨capInv_congr hs ha p1, ?_, ?_, ?_⟩
    · rw [alloc_vv ha]
      exact le_trans (le_of_eq (alloc_vv (cycleInit_alloc ext restart st)).symm) p3
    · rw [alloc_vecs ha, p4]
      exact alloc_vecs (cycleInit_alloc ext restart st)
    · rw [setup_max_k hs, setup_max_k (cyclePass_setup ext hset itsSoFar _ n)]
      exact hmk

/-- Every call of `GMREScycle` made by the restart loop starts from a context
with the capacity invariant, and the count of allocated vectors does not
decrease from a call to a later one. -/
theorem cycleEntries_capacity (ext : Ext S E) (hset : ∀ s k, (ext.orthog s k).setup = s.setup)
    (hall : ∀ s k, (ext.orthog s k).alloc = s.alloc) (fuel : Nat) :
    ∀ s : Solve S E, capInv s.ksp →
      (∀ e ∈ cycleEntries ext fuel s, capInv e.1 ∧ s.ksp.vv_allocated ≤ e.1.vv_allocated ∧
        e.1.vecs_allocated = s.ksp.vecs_allocated ∧ e.1.max_k = s.ksp.max_k) ∧
      List.Pairwise (fun a b : KSP S E × Int × Int => a.1.vv_allocated ≤ b.1.vv_allocated)
        (cycleEntries ext fuel s) := by
  induction fuel with
  | zero =>
    intro s _
    exact ⟨fun e he => absurd he (List.not_mem_nil e), List.Pairwise.nil⟩
  | succ fuel ih =>
    intro s hc
    obtain ⟨q1, q2, q3, q4⟩ := GMREScycle_capacity ext hset hall (some s.its) s.itcount
      s.restart s.ksp hc
    have hone : (∀ e ∈ [(s.ksp, s.itcount, s.restart)], capInv e.1 ∧
        s.ksp.vv_allocated ≤ e.1.vv_allocated ∧ e.1.vecs_allocated = s.ksp.vecs_allocated ∧
        e.1.max_k = s.ksp.max_k) ∧
        List.Pairwise (fun a b : KSP S E × Int × Int => a.1.vv_allocated ≤ b.1.vv_allocated)
          [(s.ksp, s.itcount, s.restart)] := by
      refine ⟨fun e he => ?_, List.pairwise_singleton _ _⟩
      rw [List.mem_singleton] at he
      subst he
      exact ⟨hc, le_rfl, rfl, rfl⟩
    have hra := GMRESResidual_alloc ext
      (GMREScycle ext (some s.its) s.itcount s.restart s.ksp).ksp 1
    have hrs := (GMRESResidual_setup ext
      (GMREScycle ext (some s.its) s.itcount s.restart s.ksp).ksp 1).1
    simp only [cycleEntries]
    split
    · split
      · exact hone
      · split
        · exact hone
        · obtain ⟨j1, j2⟩ := ih
            { ksp := (GMRESResidual ext
                (GMREScycle ext (some s.its) s.itcount s.restart s.ksp).ksp 1).1,
              its := (GMREScycle ext (some s.its) s.itcount s.restart s.ksp).itcount.getD s.its,
              itcount := s.itcount
                + (GMREScycle ext (some s.its) s.itcount s.restart s.ksp).itcount.getD s.its,
              restart := 1,
              cycles := s.cycles ++ [CycleCall.mk s.itcount s.restart
                (GMREScycle ext (some s.its) s.itcount s.restart s.ksp).status
                ((GMREScycle ext (some s.its) s.itcount s.restart s.ksp).itcount.getD s.its)] }
            (capInv_congr hrs hra q1)
          refine ⟨fun e he => ?_, List.Pairwise.cons (fun b hb => ?_) j2⟩
          · rcases List.mem_cons.mp he with h | h
            · subst h
              exact ⟨hc, le_rfl, rfl, rfl⟩
            · obtain ⟨k1, k2, k3, k4⟩ := j1 e h
              refine ⟨k1, ?_, ?_, ?_⟩
              · exact le_trans q2 (le_trans (le_of_eq (alloc_vv hra).symm) k2)
              · exact k3.trans ((alloc_vecs hra).trans q3)
              · exact k4.trans ((setup_max_k hrs).trans q4)
          · obtain ⟨_, k2, _, _⟩ := j1 b hb
            exact le_trans q2 (le_trans (le_of_eq (alloc_vv hra).symm) k2)
    · exact hone

/-- The log of a solve lists the calls of `cycleEntries`: the same number of
cycles with the same arguments `itsSoFar` and `restart`. -/
theorem cycleEntries_log (ext : Ext S E) (fuel : Nat) :
    ∀ (s : Solve S E) (r : SolveResult S E), solveLoop ext fuel s = some r →
      r.cycles.map (fun c => (c.itsSoFar, c.restart))
        = s.cycles.map (fun c => (c.itsSoFar, c.restart))
          ++ (cycleEntries ext fuel s).map (fun e => e.2) := by
  induction fuel with
  | zero =>
    intro s r h
    exact absurd h (by simp [solveLoop])
  | succ fuel ih =>
    intro s r h
    simp only [solveLoop] at h
    simp only [cycleEntries]
    split at h
    · split at h
      · rename_i h1 h2
        rw [if_pos h1, if_pos h2]
        cases h
        simp
      · split at h
        · rename_i h1 h2 h3
          rw [if_pos h1, if_neg h2, if_pos h3]
          cases h
          simp [solveExit]
        · rename_i h1 h2 h3
          rw [if_pos h1, if_neg h2, if_neg h3]
          rw [ih _ r h]
          simp
    · rename_i h1
      rw [if_neg h1]
      cases h
      simp [solveExit]
end CapacityPasses
section CapacitySolve
variable {S E : Type} [Add S] [Sub S] [Mul S] [Div S] [Neg S] [Zero S] [One S]
  [LT S] [DecidableRel (fun a b : S => a < b)] [DecidableEq S]

/-- What `KSPiGMRESSetUp` without preallocation leaves: five work vectors,
`VEC_OFFSET + 2 + max_k` pointer slots, and the capacity invariant when
`max_k >= 0` and `delta_allocate >= 1`. -/
theorem KSPiGMRESSetUp_capacity (st0 : KSP S E) (hk : 0 ≤ st0.max_k)
    (hd : 1 ≤ st0.delta_allocate) :
    (KSPiGMRESSetUp 0 0 false st0).1 = 0 ∧
    (KSPiGMRESSetUp 0 0 false st0).2.vv_allocated = 5 ∧
    (KSPiGMRESSetUp 0 0 false st0).2.vecs_allocated = VEC_OFFSET + 2 + st0.max_k ∧
    (KSPiGMRESSetUp 0 0 false st0).2.max_k = st0.max_k ∧
    capInv (KSPiGMRESSetUp 0 0 false st0).2 := by
  have hoff : ((VEC_OFFSET : Nat) : Int) = 3 := rfl
  refine ⟨rfl, rfl, rfl, rfl, rfl, ?_, ?_, hd⟩
  · show ((VEC_OFFSET : Nat) : Int) + 2 ≤ 5
    rw [hoff]
    decide
  · show (5 : Int) ≤ ((VEC_OFFSET : Nat) : Int) + 2 + st0.max_k
    rw [hoff]
    omega

/-- The pass hands the context after the growth step to the operator. -/
theorem cycleArnoldi_growth (ext : Ext S E) (itsSoFar : Int) (l : Loop S E) :
    (cycleArnoldi ext itsSoFar l).1
      = ext.orthog (MATOP ext (cycleGrowth itsSoFar l) (VEC_VV l.it) (VEC_VV (l.it + 1))
          VEC_TEMP_MATOP).1 l.it := by
  simp only [cycleArnoldi, cycleGrowth]
  split <;> rfl

/-- C26. Basis capacity invariant, for an orthogonalization plug-in that
changes neither the configuration nor the allocation state.  After
`KSPiGMRESSetUp` without preallocation (return code 0, 5 work vectors,
`VEC_OFFSET + 2 + max_k` pointer slots) with `max_k >= 0` and
`delta_allocate >= 1`, the cycles of a solve are the calls listed by
`cycleEntries`, the count `vv_allocated` does not decrease from one cycle to a
later one nor within a cycle, and in every cycle, for every pass `it = k` with
`k < max_k` of the inner loop: after the growth step
`k + 1 + VEC_OFFSET < vv_allocated <= vecs_allocated`, the growth step does not
decrease `vv_allocated` and the rest of the pass leaves it as it is, and a
growth request allocates `nalloc >= 1` vectors whose pointer slots
`k + 1 + VEC_OFFSET + j`, `j < nalloc`, lie below `vecs_allocated`. -/
theorem KSPiGMRESSolve_capacity (ext : Ext S E)
    (hset : ∀ s k, (ext.orthog s k).setup = s.setup)
    (hall : ∀ s k, (ext.orthog s k).alloc = s.alloc)
    (st0 : KSP S E) (hk : 0 ≤ st0.max_k) (hd : 1 ≤ st0.delta_allocate) (fuel : Nat)
    (its0 : Int) :
    (KSPiGMRESSetUp 0 0 false st0).1 = 0 ∧
    (KSPiGMRESSetUp 0 0 false st0).2.vv_allocated = 5 ∧
    (KSPiGMRESSetUp 0 0 false st0).2.vecs_allocated = VEC_OFFSET + 2 + st0.max_k ∧
    (∀ r, KSPiGMRESSolve ext fuel its0 (KSPiGMRESSetUp 0 0 false st0).2 = some r →
      r.cycles.map (fun c => (c.itsSoFar, c.restart))
        = (cycleEntries ext fuel
            { ksp := (solveInit ext (KSPiGMRESSetUp 0 0 false st0).2).1, its := its0,
              itcount := 0, restart := 0, cycles := [] }).map (fun e => e.2)) ∧
    List.Pairwise (fun a b : KSP S E × Int × Int => a.1.vv_allocated ≤ b.1.vv_allocated)
      (cycleEntries ext fuel
        { ksp := (solveInit ext (KSPiGMRESSetUp 0 0 false st0).2).1, its := its0,
          itcount := 0, restart := 0, cycles := [] }) ∧
    ∀ e ∈ cycleEntries ext fuel
        { ksp := (solveInit ext (KSPiGMRESSetUp 0 0 false st0).2).1, its := its0,
          itcount := 0, restart := 0, cycles := [] },
      5 ≤ e.1.vv_allocated ∧ e.1.max_k = st0.max_k ∧
      (∀ c : Option Int,
        e.1.vv_allocated ≤ (GMREScycle ext c e.2.1 e.2.2 e.1).ksp.vv_allocated) ∧
      ∀ k : Nat, (k : Int) < st0.max_k →
        (cyclePass ext e.2.1 (cycleInit ext e.2.2 e.1) k).it = k ∧
        (cycleArnoldi ext e.2.1 (cyclePass ext e.2.1 (cycleInit ext e.2.2 e.1) k)).1
          = ext.orthog (MATOP ext
              (cycleGrowth e.2.1 (cyclePass ext e.2.1 (cycleInit ext e.2.2 e.1) k))
              (VEC_VV (cyclePass ext e.2.1 (cycleInit ext e.2.2 e.1) k).it)
              (VEC_VV ((cyclePass ext e.2.1 (cycleInit ext e.2.2 e.1) k).it + 1))
              VEC_TEMP_MATOP).1 (cyclePass ext e.2.1 (cycleInit ext e.2.2 e.1) k).it ∧
        (k : Int) + 1 + VEC_OFFSET
          < (cycleGrowth e.2.1 (cyclePass ext e.2.1 (cycleInit ext e.2.2 e.1) k)).vv_allocated ∧
        (cycleGrowth e.2.1 (cyclePass ext e.2.1 (cycleInit ext e.2.2 e.1) k)).vv_allocated
          ≤ (cycleGrowth e.2.1
              (cyclePass ext e.2.1 (cycleInit ext e.2.2 e.1) k)).vecs_allocated ∧
        (cycleGrowth e.2.1 (cyclePass ext e.2.1 (cycleInit ext e.2.2 e.1) k)).vecs_allocated
          = VEC_OFFSET + 2 + st0.max_k ∧
        (cyclePass ext e.2.1 (cycleInit ext e.2.2 e.1) k).ksp.vv_allocated
          ≤ (cycleGrowth e.2.1 (cyclePass ext e.2.1 (cycleInit ext e.2.2 e.1) k)).vv_allocated ∧
        (cyclePass ext e.2.1 (cycleInit ext e.2.2 e.1) (k + 1)).ksp.vv_allocated
          = (cycleGrowth e.2.1 (cyclePass ext e.2.1 (cycleInit ext e.2.2 e.1) k)).vv_allocated ∧
        ((cycleBeforeGrowth e.2.1
            (cyclePass ext e.2.1 (cycleInit ext e.2.2 e.1) k)).vv_allocated
            ≤ (k : Int) + VEC_OFFSET + 1 →
          1 ≤ newVectorCount
              (cycleBeforeGrowth e.2.1 (cyclePass ext e.2.1 (cycleInit ext e.2.2 e.1) k))
              ((k : Int) + 1) ∧
          ((k : Int) + 1) + VEC_OFFSET
              + newVectorCount
                  (cycleBeforeGrowth e.2.1 (cyclePass ext e.2.1 (cycleInit ext e.2.2 e.1) k))
                  ((k : Int) + 1)
            ≤ (cycleBeforeGrowth e.2.1
                (cyclePass ext e.2.1 (cycleInit ext e.2.2 e.1) k)).vecs_allocated ∧
          (cycleBeforeGrowth e.2.1
              (cyclePass ext e.2.1 (cycleInit ext e.2.2 e.1) k)).vecs_allocated
            = VEC_OFFSET + 2 + st0.max_k) := by
  obtain ⟨u1, u2, u3, u4, u5⟩ := KSPiGMRESSetUp_capacity st0 hk hd
  have hi : capInv (solveInit ext (KSPiGMRESSetUp 0 0 false st0).2).1 :=
    capInv_congr (solveInit_setup ext _).1 (solveInit_alloc ext _) u5
  have hivecs : (solveInit ext (KSPiGMRESSetUp 0 0 false st0).2).1.vecs_allocated
      = VEC_OFFSET + 2 + st0.max_k :=
    (alloc_vecs (solveInit_alloc ext _)).trans u3
  have himk : (solveInit ext (KSPiGMRESSetUp 0 0 false st0).2).1.max_k = st0.max_k :=
    (setup_max_k (solveInit_setup ext _).1).trans u4
  obtain ⟨n1, n2⟩ := cycleEntries_capacity ext hset hall fuel
    { ksp := (solveInit ext (KSPiGMRESSetUp 0 0 false st0).2).1, its := its0,
      itcount := 0, restart := 0, cycles := [] } hi
  refine ⟨u1, u2, u3, fun r hr => ?_, n2, fun e he => ?_⟩
  · rw [KSPiGMRESSolve_eq] at hr
    have h := cycleEntries_log ext fuel _ r hr
    simpa using h
  · obtain ⟨m1, _, m3, m4⟩ := n1 e he
    have m3' : e.1.vecs_allocated = VEC_OFFSET + 2 + st0.max_k := m3.trans hivecs
    have m4' : e.1.max_k = st0.max_k := m4.trans himk
    have hci : capInv (cycleInit ext e.2.2 e.1).ksp := by
      have ha := cycleInit_alloc ext e.2.2 e.1
      unfold capInv at *
      rw [cycleInit_max_k, alloc_vv ha, alloc_vecs ha, alloc_delta ha]
      exact m1
    have hcmk : (cycleInit ext e.2.2 e.1).ksp.max_k = st0.max_k :=
      (cycleInit_max_k ext e.2.2 e.1).trans m4'
    have hcvecs : (cycleInit ext e.2.2 e.1).ksp.vecs_allocated = VEC_OFFSET + 2 + st0.max_k :=
      (alloc_vecs (cycleInit_alloc ext e.2.2 e.1)).trans m3'
    refine ⟨?_, m4', fun c => (GMREScycle_capacity ext hset hall c e.2.1 e.2.2 e.1 m1).2.1,
      fun k hk' => ?_⟩
    · have h2 := m1.2.1
      have hoff : ((VEC_OFFSET : Nat) : Int) = 3 := rfl
      rw [hoff] at h2
      exact h2
    · obtain ⟨p1, p2, _, p4⟩ := cyclePass_capacity ext hset hall e.2.1 (cycleInit ext e.2.2 e.1)
        rfl hci k (fun j hj => by rw [hcmk]; omega)
      have hxit : (cyclePass ext e.2.1 (cycleInit ext e.2.2 e.1) k).it = k :=
        cyclePass_init_it ext e.2.1 e.2.2 e.1 k
      have hxmk : (cyclePass ext e.2.1 (cycleInit ext e.2.2 e.1) k).ksp.max_k = st0.max_k :=
        (setup_max_k (cyclePass_setup ext hset e.2.1 _ k)).trans hcmk
      obtain ⟨g1, g2, g3, g4, g5, g6⟩ := cycleGrowth_capacity e.2.1
        (cyclePass ext e.2.1 (cycleInit ext e.2.2 e.1) k) p1 (by rw [hxit]; exact p2)
        (by rw [hxit, hxmk]; exact hk')
      rw [hxit] at g2 g6
      refine ⟨hxit, cycleArnoldi_growth ext e.2.1 _, g2, g3, ?_, g5, ?_, fun hreq => ?_⟩
      · rw [g4, p4, hcvecs]
      · exact alloc_vv (cycleBody_alloc ext hall e.2.1 _)
      · obtain ⟨r1, r2⟩ := g6 hreq
        refine ⟨r1, r2, ?_⟩
        rw [alloc_vecs (cycleBeforeGrowth_alloc e.2.1 _), p4, hcvecs]
end CapacitySolve
section CapacityEvaluations

theorem demo_orthog_alloc (s : KSP ℚ ℚ) (k : Nat) : ((demoExt 2 1).orthog s k).alloc = s.alloc :=
  rfl

/-- Witness of C26: the solve on one-dimensional vectors with restart length 3
and batches of 5 vectors. -/
theorem KSPiGMRESSolve_capacity_witness :
    (0 : Int) ≤ (rhsKSP 3 1 5).max_k ∧ (1 : Int) ≤ (rhsKSP 3 1 5).delta_allocate ∧
    (KSPiGMRESSetUp 0 0 false (rhsKSP 3 1 5)).1 = 0 ∧
    (KSPiGMRESSetUp 0 0 false (rhsKSP 3 1 5)).2.vv_allocated = 5 ∧
    (KSPiGMRESSetUp 0 0 false (rhsKSP 3 1 5)).2.vecs_allocated
      = VEC_OFFSET + 2 + (rhsKSP 3 1 5).max_k ∧
    List.Pairwise (fun a b : KSP ℚ ℚ × Int × Int => a.1.vv_allocated ≤ b.1.vv_allocated)
      (cycleEntries (demoExt 2 1) 2
        { ksp := (solveInit (demoExt 2 1) (KSPiGMRESSetUp 0 0 false (rhsKSP 3 1 5)).2).1,
          its := 0, itcount := 0, restart := 0, cycles := [] }) := by
  have hk : (0 : Int) ≤ (rhsKSP 3 1 5).max_k := by decide
  have hd : (1 : Int) ≤ (rhsKSP 3 1 5).delta_allocate := by decide
  have t := KSPiGMRESSolve_capacity (demoExt 2 1) demo_orthog_setup demo_orthog_alloc
    (rhsKSP 3 1 5) hk hd 2 0
  exact ⟨hk, hd, t.1, t.2.1, t.2.2.1, t.2.2.2.2.1⟩
end CapacityEvaluations
/-! ## The restart step -/

section RestartStep
variable {S E : Type} [Add S] [Sub S] [Mul S] [Div S] [Neg S] [Zero S] [One S]
  [LT S] [DecidableRel (fun a b : S => a < b)] [DecidableEq S]

/-- With fuel for one call the restart loop calls `GMREScycle` on the context
it holds. -/
theorem cycleEntries_head (ext : Ext S E) (fuel : Nat) (s : Solve S E) :
    ∃ rest, cycleEntries ext (fuel + 1) s = (s.ksp, s.itcount, s.restart) :: rest := by
  simp only [cycleEntries]
  split
  · split
    · exact ⟨[], rfl⟩
    · split
      · exact ⟨[], rfl⟩
      · exact ⟨_, rfl⟩
  · exact ⟨[], rfl⟩

/-- C23 as amended.  For a plug-in that does not change the configuration and
an accumulated count `itcount <= max_it` before the cycle.  A cycle that
returned a nonzero status made at least one iteration and leaves the
accumulated count at most `max_it`, so the test `itcount > max_it` does not stop
the loop: `GMRESResidual` is called on the context the cycle left, returns 0,
and the loop goes on from the context it returns, whatever the accumulated
count is, also when it has reached `max_it`; the next call of `GMREScycle` is
made on that context with `itsSoFar` the accumulated count and `restart = 1`.
A cycle that returned 0 ends the loop without a residual computation. -/
theorem KSPiGMRESSolve_restart_step (ext : Ext S E)
    (horth : ∀ s k, (ext.orthog s k).setup = s.setup) (fuel : Nat) (s : Solve S E)
    (hle : s.itcount ≤ s.ksp.max_it) :
    ((GMREScycle ext (some s.its) s.itcount s.restart s.ksp).status ≠ 0 →
      1 ≤ (GMREScycle ext (some s.its) s.itcount s.restart s.ksp).itcount.getD s.its ∧
      s.itcount + (GMREScycle ext (some s.its) s.itcount s.restart s.ksp).itcount.getD s.its
        ≤ (GMRESResidual ext
            (GMREScycle ext (some s.its) s.itcount s.restart s.ksp).ksp 1).1.max_it ∧
      (GMRESResidual ext
        (GMREScycle ext (some s.its) s.itcount s.restart s.ksp).ksp 1).1.max_it = s.ksp.max_it ∧
      (GMRESResidual ext (GMREScycle ext (some s.its) s.itcount s.restart s.ksp).ksp 1).2 = 0 ∧
      solveLoop ext (fuel + 1) s
        = solveLoop ext fuel
            { ksp := (GMRESResidual ext
                (GMREScycle ext (some s.its) s.itcount s.restart s.ksp).ksp 1).1,
              its := (GMREScycle ext (some s.its) s.itcount s.restart s.ksp).itcount.getD s.its,
              itcount := s.itcount
                + (GMREScycle ext (some s.its) s.itcount s.restart s.ksp).itcount.getD s.its,
              restart := 1,
              cycles := s.cycles ++ [CycleCall.mk s.itcount s.restart
                (GMREScycle ext (some s.its) s.itcount s.restart s.ksp).status
                ((GMREScycle ext (some s.its) s.itcount s.restart s.ksp).itcount.getD s.its)] } ∧
      ∃ rest, cycleEntries ext (fuel + 2) s
        = (s.ksp, s.itcount, s.restart)
          :: ((GMRESResidual ext
                (GMREScycle ext (some s.its) s.itcount s.restart s.ksp).ksp 1).1,
              s.itcount
                + (GMREScycle ext (some s.its) s.itcount s.restart s.ksp).itcount.getD s.its,
              1) :: rest) ∧
    ((GMREScycle ext (some s.its) s.itcount s.restart s.ksp).status = 0 →
      solveLoop ext (fuel + 1) s
        = some (solveExit
            { ksp := (GMREScycle ext (some s.its) s.itcount s.restart s.ksp).ksp,
              its := (GMREScycle ext (some s.its) s.itcount s.restart s.ksp).itcount.getD s.its,
              itcount := s.itcount, restart := s.restart,
              cycles := s.cycles ++ [CycleCall.mk s.itcount s.restart 0
                ((GMREScycle ext (some s.its) s.itcount s.restart s.ksp).itcount.getD s.its)] }) ∧
      cycleEntries ext (fuel + 1) s = [(s.ksp, s.itcount, s.restart)]) := by
  have hg := (GMRESResidual_setup ext
    (GMREScycle ext (some s.its) s.itcount s.restart s.ksp).ksp 1).2
  have hmax : (GMRESResidual ext
      (GMREScycle ext (some s.its) s.itcount s.restart s.ksp).ksp 1).1.max_it = s.ksp.max_it :=
    (setup_max_it (GMRESResidual_setup ext _ 1).1).trans
      (GMREScycle_max_it ext horth (some s.its) s.itcount s.restart s.ksp)
  constructor
  · intro hst
    obtain ⟨n, hn, hb, hs⟩ := cycle_count ext s.its s.itcount s.restart s.ksp hle
    have hn1 := hs hst
    have hget : (GMREScycle ext (some s.its) s.itcount s.restart s.ksp).itcount.getD s.its
        = (n : Int) := by
      rw [hn]
      rfl
    have hcnt : s.itcount
        + (GMREScycle ext (some s.its) s.itcount s.restart s.ksp).itcount.getD s.its
        ≤ (GMRESResidual ext
            (GMREScycle ext (some s.its) s.itcount s.restart s.ksp).ksp 1).1.max_it := by
      rw [hmax, hget]
      omega
    have hn : ¬ (s.itcount
        + (GMREScycle ext (some s.its) s.itcount s.restart s.ksp).itcount.getD s.its
        > (GMRESResidual ext
            (GMREScycle ext (some s.its) s.itcount s.restart s.ksp).ksp 1).1.max_it) := by
      omega
    refine ⟨by rw [hget]; exact_mod_cast hn1, hcnt, hmax, hg, ?_, ?_⟩
    · rw [solveLoop]
      simp only [hst, ne_eq, not_false_eq_true, if_true, hg, not_true_eq_false, if_false, hn]
    · obtain ⟨rest, hrest⟩ := cycleEntries_head ext fuel
        { ksp := (GMRESResidual ext
            (GMREScycle ext (some s.its) s.itcount s.restart s.ksp).ksp 1).1,
          its := (GMREScycle ext (some s.its) s.itcount s.restart s.ksp).itcount.getD s.its,
          itcount := s.itcount
            + (GMREScycle ext (some s.its) s.itcount s.restart s.ksp).itcount.getD s.its,
          restart := 1,
          cycles := s.cycles ++ [CycleCall.mk s.itcount s.restart
            (GMREScycle ext (some s.its) s.itcount s.restart s.ksp).status
            ((GMREScycle ext (some s.its) s.itcount s.restart s.ksp).itcount.getD s.its)] }
      refine ⟨rest, ?_⟩
      rw [cycleEntries]
      simp only [hst, ne_eq, not_false_eq_true, if_true, hg, not_true_eq_false, if_false, hn]
      rw [hrest]
  · intro hst
    constructor
    · simp only [solveLoop, hst, ne_eq, not_true_eq_false, if_false]
    · simp only [cycleEntries, hst, ne_eq, not_true_eq_false, if_false]
end RestartStep
section RestartStepEvaluations

/-- Witness of C23 as amended: the solve on the plane with the swap operator
and a budget of one iteration.  The first cycle returns 1 after one iteration,
the accumulated count is then `max_it = 1`, and the second call of `GMREScycle`
is made on the context returned by `GMRESResidual`, with `itsSoFar = 1` and
`restart = 1`. -/
theorem KSPiGMRESSolve_restart_step_witness :
    (0 : Int) ≤ swapEntry.max_it ∧
    (GMREScycle swapExt (some 0) 0 0 swapEntry).status ≠ 0 ∧
    (0 : Int) + (GMREScycle swapExt (some 0) 0 0 swapEntry).itcount.getD 0 = 1 ∧
    (GMRESResidual swapExt (GMREScycle swapExt (some 0) 0 0 swapEntry).ksp 1).1.max_it = 1 ∧
    ∃ rest, cycleEntries swapExt (0 + 2)
        { ksp := swapEntry, its := 0, itcount := 0, restart := 0, cycles := [] }
      = (swapEntry, 0, 0)
        :: ((GMRESResidual swapExt (GMREScycle swapExt (some 0) 0 0 swapEntry).ksp 1).1,
            (0 : Int) + (GMREScycle swapExt (some 0) 0 0 swapEntry).itcount.getD 0, 1) :: rest := by
  have hle : (0 : Int) ≤ swapEntry.max_it := by
    rw [swapEntry_fields.2.2.2.2.2.2.2.2.1]
    decide
  have hst : (GMREScycle swapExt (some 0) 0 0 swapEntry).status ≠ 0 := by
    rw [swap_first_cycle.2.1]
    decide
  have t := (KSPiGMRESSolve_restart_step swapExt swap_orthog_setup 0
    { ksp := swapEntry, its := 0, itcount := 0, restart := 0, cycles := [] } hle).1 hst
  refine ⟨hle, hst, ?_, ?_, t.2.2.2.2.2⟩
  · rw [swap_first_cycle.1]
    rfl
  · rw [t.2.2.1]
    exact swapEntry_fields.2.2.2.2.2.2.2.2.1
end RestartStepEvaluations
/-! ## The Givens update against the rotations of the specification -/

section GivensUpdate
variable {E : Type}

/-- C2. One-step Givens update: let `h` be the value of `HH[it,it]` after the
stored rotations `(CC[j], SS[j])`, `j < it`, have been applied in order to
column `it` of `HH` (the rotations `rotSeq` of the specification, applied to
the column as it is on entry), `g = HH[it+1,it]` and `r = RS[it]` on entry.  If
`h^2 + g^2` is not zero then `sqrt (h^2 + g^2)` is not zero and
`GMRESUpdateHessenberg(it)` stores `CC[it] = h / sqrt (h^2 + g^2)`,
`SS[it] = g / sqrt (h^2 + g^2)`, `RS[it] = CC[it] * r`, `RS[it+1] = -SS[it] * r`
and returns `|RS[it+1]|`; the rotation loop of the routine leaves the rotated
column in `HH[0..it+1, it]`. -/
theorem GMRESUpdateHessenberg_givens (st : KSP ℝ E) (it : Nat)
    (hne : (rotSeq st.cc st.ss it (fun r => st.hh r it) it) ^ 2 + (st.hh (it + 1) it) ^ 2 ≠ 0) :
    Real.sqrt ((rotSeq st.cc st.ss it (fun r => st.hh r it) it) ^ 2
      + (st.hh (it + 1) it) ^ 2) ≠ 0 ∧
    (GMRESUpdateHessenberg Real.sqrt (fun x => |x|) st it).1.cc it
      = rotSeq st.cc st.ss it (fun r => st.hh r it) it
        / Real.sqrt ((rotSeq st.cc st.ss it (fun r => st.hh r it) it) ^ 2
          + (st.hh (it + 1) it) ^ 2) ∧
    (GMRESUpdateHessenberg Real.sqrt (fun x => |x|) st it).1.ss it
      = st.hh (it + 1) it
        / Real.sqrt ((rotSeq st.cc st.ss it (fun r => st.hh r it) it) ^ 2
          + (st.hh (it + 1) it) ^ 2) ∧
    (GMRESUpdateHessenberg Real.sqrt (fun x => |x|) st it).1.rs it
      = (GMRESUpdateHessenberg Real.sqrt (fun x => |x|) st it).1.cc it * st.rs it ∧
    (GMRESUpdateHessenberg Real.sqrt (fun x => |x|) st it).1.rs (it + 1)
      = -(GMRESUpdateHessenberg Real.sqrt (fun x => |x|) st it).1.ss it * st.rs it ∧
    (GMRESUpdateHessenberg Real.sqrt (fun x => |x|) st it).2
      = |(GMRESUpdateHessenberg Real.sqrt (fun x => |x|) st it).1.rs (it + 1)| ∧
    (∀ i, (applyRotations it st it).hh i it
      = rotSeq st.cc st.ss it (fun r => st.hh r it) i) := by
  have e := applyRotations_col it st it it
  rw [← e] at hne ⊢
  obtain ⟨h0, h1, h2, h3, h4, h5⟩ := update_givens st it hne
  exact ⟨h0, h1, h2, h3, h4, h5, fun i => applyRotations_col it st it i⟩
end GivensUpdate

section GivensEvaluations

theorem rotated_column : rotSeq rotatedKSP.cc rotatedKSP.ss 1 (fun r => rotatedKSP.hh r 1) 1 = 3 := by
  simp [rotSeq, givens, rotatedKSP]

theorem rotated_nondegenerate :
    (rotSeq rotatedKSP.cc rotatedKSP.ss 1 (fun r => rotatedKSP.hh r 1) 1) ^ 2
      + (rotatedKSP.hh (1 + 1) 1) ^ 2 ≠ 0 := by
  rw [rotated_column]
  simp [rotatedKSP]
  norm_num

/-- Witness of C2: the column `(-3, 7, 4)` of index 1 after the stored rotation
with cosine 0 and sine 1, and `RS[1] = 10`.  The rotation turns the column into
`(7, 3, 4)`, so `h = 3`, `g = 4`, and the update stores `CC[1] = 3/5`,
`SS[1] = 4/5`, `RS[1] = 6`, `RS[2] = -8` and returns 8. -/
theorem GMRESUpdateHessenberg_givens_witness :
    (rotSeq rotatedKSP.cc rotatedKSP.ss 1 (fun r => rotatedKSP.hh r 1) 1) ^ 2
      + (rotatedKSP.hh (1 + 1) 1) ^ 2 ≠ 0 ∧
    rotatedKSP.hh 1 1 = 7 ∧
    rotSeq rotatedKSP.cc rotatedKSP.ss 1 (fun r => rotatedKSP.hh r 1) 1 = 3 ∧
    (GMRESUpdateHessenberg Real.sqrt (fun x => |x|) rotatedKSP 1).1.cc 1 = 3 / 5 ∧
    (GMRESUpdateHessenberg Real.sqrt (fun x => |x|) rotatedKSP 1).1.ss 1 = 4 / 5 ∧
    (GMRESUpdateHessenberg Real.sqrt (fun x => |x|) rotatedKSP 1).1.rs 1 = 6 ∧
    (GMRESUpdateHessenberg Real.sqrt (fun x => |x|) rotatedKSP 1).1.rs 2 = -8 ∧
    (GMRESUpdateHessenberg Real.sqrt (fun x => |x|) rotatedKSP 1).2 = 8 := by
  obtain ⟨_, h1, h2, h3, h4, h5, _⟩ :=
    GMRESUpdateHessenberg_givens rotatedKSP 1 rotated_nondegenerate
  have e2 : rotatedKSP.hh (1 + 1) 1 = 4 := by simp [rotatedKSP]
  have e3 : rotatedKSP.rs 1 = 10 := rfl
  rw [rotated_column, e2, sqrt_twenty_five] at h1 h2
  rw [h1, e3] at h3
  rw [h2, e3] at h4
  rw [h4] at h5
  refine ⟨rotated_nondegenerate, by simp [rotatedKSP], rotated_column, h1, h2,
    by rw [h3]; norm_num, by rw [h4]; norm_num, ?_⟩
  rw [h5]
  norm_num
end GivensEvaluations
/-! ## The residual estimate on the columns a cycle produces -/

section ResidualEstimate
variable {E : Type} [NormedAddCommGroup E] [InnerProductSpace ℝ E]

/-- What the normalization step of a pass leaves in `V[it+1]`: the direction it
found there, scaled by the inverse of its norm or left as it is. -/
theorem cycleNormalize_vec (ext : Ext ℝ E) (a : KSP ℝ E) (it : Nat) :
    (cycleNormalize ext a it).1.vec (VEC_VV (it + 1)) = a.vec (VEC_VV (it + 1)) ∨
    (cycleNormalize ext a it).1.vec (VEC_VV (it + 1))
      = ext.VecScale (1 / ext.VecNorm (a.vec (VEC_VV (it + 1)))) (a.vec (VEC_VV (it + 1))) := by
  unfold cycleNormalize
  simp only
  split
  · right
    simp [KSP.setHH, KSP.setHES, KSP.setVec]
  · left
    rfl

/-- A sub-diagonal entry stored by the normalization step next to a unit
vector `V[it+1]` is not zero. -/
theorem subdiagonal_ne_zero (ext : Ext ℝ E) (hvn : ∀ x, ext.VecNorm x = ‖x‖)
    (hvs : ∀ (c : ℝ) (x : E), ext.VecScale c x = c • x) (a : KSP ℝ E) (it : Nat)
    (hunit : ‖(cycleNormalize ext a it).1.vec (VEC_VV (it + 1))‖ = 1) :
    (cycleNormalize ext a it).1.hh (it + 1) it ≠ 0 := by
  rw [(cycleNormalize_entries ext a it).1, hvn]
  intro h0
  have hw : a.vec (VEC_VV (it + 1)) = 0 := norm_eq_zero.mp h0
  rcases cycleNormalize_vec ext a it with h | h
  · rw [h, hw, norm_zero] at hunit
    exact zero_ne_one hunit
  · rw [h, hvs, hw, smul_zero, norm_zero] at hunit
    exact zero_ne_one hunit

/-- C4. The residual estimate is the true residual norm: in exact arithmetic
(real scalars, the real square root and absolute value, `VecNorm` the norm and
`VecScale` the scalar multiple), let `V[0..it+1]` be orthonormal with
`V[0] = r0/||r0||`, `RS[0] = ||r0||`, and let the Hessenberg columns satisfy
`M V[j] = sum_{i<=j+1} H[i,j] V[i]` for `j <= it`, `M` linear, where the
sub-diagonal entry `H[j+1,j]` and the vector `V[j+1]` are the ones that the
normalization step of the cycle stores for the direction left by the
orthogonalization.  Then after the QR updates of the columns `0..it` the value
`|RS[it+1]|` equals `||r0 - M (sum_{j<=it} y[j] V[j])||` for the coefficients
`y` that `BuildGmresSoln` computes, and no coefficient vector gives a smaller
norm. -/
theorem gmres_estimate_is_residual (ext : Ext ℝ E) (hvn : ∀ x, ext.VecNorm x = ‖x‖)
    (hvs : ∀ (c : ℝ) (x : E), ext.VecScale c x = c • x)
    (M : E →ₗ[ℝ] E) (r0 : E) (V : Nat → E)
    (H : Nat → Nat → ℝ) (st : KSP ℝ E) (p : Buf) (vs vdest : Vec) (it : Nat)
    (horth : ∀ i j, i ≤ it + 1 → j ≤ it + 1 → (inner (V i) (V j) : ℝ) = if i = j then 1 else 0)
    (hV0 : V 0 = (1 / ‖r0‖) • r0) (hrs : st.rs 0 = ‖r0‖)
    (harn : ∀ j, j ≤ it → M (V j) = ∑ i in Finset.range (j + 2), H i j • V i)
    (hsub : ∀ j, j ≤ it → ∃ a : KSP ℝ E,
      H (j + 1) j = (cycleNormalize ext a j).1.hh (j + 1) j ∧
      V (j + 1) = (cycleNormalize ext a j).1.vec (VEC_VV (j + 1))) :
    |(qrUpdates Real.sqrt (fun x => |x|) H st (it + 1)).rs (it + 1)|
      = ‖r0 - M (∑ j in Finset.range (it + 1),
          (BuildGmresSoln ext p vs vdest (qrUpdates Real.sqrt (fun x => |x|) H st (it + 1))
            (it : Int)).readBuf p j • V j)‖ ∧
    ∀ z : Nat → ℝ, |(qrUpdates Real.sqrt (fun x => |x|) H st (it + 1)).rs (it + 1)|
      ≤ ‖r0 - M (∑ j in Finset.range (it + 1), z j • V j)‖ := by
  have hV0ne : V 0 ≠ 0 := by
    intro h0
    have h1 := horth 0 0 (Nat.zero_le _) (Nat.zero_le _)
    rw [h0, inner_zero_left, if_pos rfl] at h1
    exact zero_ne_one h1
  have hr0ne : ‖r0‖ ≠ 0 := by
    intro h0
    apply hV0ne
    rw [hV0, norm_eq_zero.mp h0, smul_zero]
  have hr0 : r0 = ‖r0‖ • V 0 := by
    rw [hV0, smul_smul, mul_one_div_cancel hr0ne, one_smul]
  have hg : ∀ j, j ≤ it → H (j + 1) j ≠ 0 := by
    intro j hj
    obtain ⟨a, h1, h2⟩ := hsub j hj
    rw [h1]
    apply subdiagonal_ne_zero ext hvn hvs a j
    rw [← h2]
    have h3 := horth (j + 1) (j + 1) (by omega) (by omega)
    rw [if_pos rfl, real_inner_self_eq_norm_sq] at h3
    have h4 : ‖V (j + 1)‖ ^ 2 = 1 ^ 2 := by rw [h3]; norm_num
    exact (sq_eq_sq₀ (norm_nonneg _) zero_le_one).mp h4
  have hnd : ∀ j, j ≤ it →
      ((applyRotations j (loadColumn H (qrUpdates Real.sqrt (fun x => |x|) H st j) j) j).hh j j) ^ 2
        + (H (j + 1) j) ^ 2 ≠ 0 := by
    intro j hj
    have h1 : 0 < (H (j + 1) j) ^ 2 := by
      have := hg j hj
      positivity
    have h2 := sq_nonneg
      ((applyRotations j (loadColumn H (qrUpdates Real.sqrt (fun x => |x|) H st j) j) j).hh j j)
    linarith
  simp only [BuildGmresSoln_readBuf]
  exact estimate_is_residual M r0 V H st p it horth hr0 hrs harn hnd
end ResidualEstimate
section TurnEvaluations

theorem plane_norm (x : ℂ) : (planeExt Real.sqrt).VecNorm x = ‖x‖ := by
  show Real.sqrt (x.re ^ 2 + x.im ^ 2) = ‖x‖
  rw [Complex.norm_eq_abs, Complex.abs_apply, Complex.normSq_apply, sq, sq]

theorem plane_scale (c : ℝ) (x : ℂ) : (planeExt Real.sqrt).VecScale c x = c • x := by
  apply Complex.ext <;> simp [planeExt]

theorem turn_arnoldi (j : Nat) (hj : j ≤ 0) :
    (LinearMap.mulLeft ℝ Complex.I) (planeV j)
      = ∑ i in Finset.range (j + 2), turnHessenberg i j • planeV i := by
  have h0 : j = 0 := by omega
  subst h0
  simp [Finset.sum_range_succ, turnHessenberg, planeV]

theorem turn_direction : turnKSP.vec (VEC_VV (0 + 1)) = Complex.I := by
  simp [turnKSP]

/-- The normalization step on the direction `I`: the norm 1 goes to `HH[1,0]`
and `V[1]` is `I`. -/
theorem turn_subdiagonal (j : Nat) (hj : j ≤ 0) :
    ∃ a : KSP ℝ ℂ,
      turnHessenberg (j + 1) j = (cycleNormalize (planeExt Real.sqrt) a j).1.hh (j + 1) j ∧
      planeV (j + 1) = (cycleNormalize (planeExt Real.sqrt) a j).1.vec (VEC_VV (j + 1)) := by
  have h0 : j = 0 := by omega
  subst h0
  have hn : (planeExt Real.sqrt).VecNorm (turnKSP.vec (VEC_VV (0 + 1))) = 1 := by
    rw [turn_direction, plane_norm]
    simp
  refine ⟨turnKSP, ?_, ?_⟩
  · rw [(cycleNormalize_entries (planeExt Real.sqrt) turnKSP 0).1, hn]
    simp [turnHessenberg]
  · rcases cycleNormalize_vec (planeExt Real.sqrt) turnKSP 0 with h | h
    · rw [h, turn_direction]
      simp [planeV]
    · rw [h, hn, turn_direction, plane_scale]
      simp [planeV]

/-- Witness of C4: the quarter turn of the plane, `r0 = V[0] = 1`, `V[1] = I`,
one column `(0, 1)` whose sub-diagonal entry is the norm of the direction `I`. -/
theorem gmres_estimate_is_residual_witness :
    (∀ x, (planeExt Real.sqrt).VecNorm x = ‖x‖) ∧
    (∀ (c : ℝ) (x : ℂ), (planeExt Real.sqrt).VecScale c x = c • x) ∧
    (∀ i j, i ≤ 0 + 1 → j ≤ 0 + 1 →
      (inner (planeV i) (planeV j) : ℝ) = if i = j then 1 else 0) ∧
    planeV 0 = (1 / ‖planeV 0‖) • planeV 0 ∧
    planeKSP.rs 0 = ‖planeV 0‖ ∧
    (∀ j, j ≤ 0 → (LinearMap.mulLeft ℝ Complex.I) (planeV j)
      = ∑ i in Finset.range (j + 2), turnHessenberg i j • planeV i) ∧
    (∀ j, j ≤ 0 → ∃ a : KSP ℝ ℂ,
      turnHessenberg (j + 1) j = (cycleNormalize (planeExt Real.sqrt) a j).1.hh (j + 1) j ∧
      planeV (j + 1) = (cycleNormalize (planeExt Real.sqrt) a j).1.vec (VEC_VV (j + 1))) ∧
    (|(qrUpdates Real.sqrt (fun x => |x|) turnHessenberg planeKSP (0 + 1)).rs (0 + 1)|
      = ‖planeV 0 - (LinearMap.mulLeft ℝ Complex.I) (∑ j in Finset.range (0 + 1),
          (BuildGmresSoln (planeExt Real.sqrt) Buf.rsArea VEC_SOLN VEC_SOLN
            (qrUpdates Real.sqrt (fun x => |x|) turnHessenberg planeKSP (0 + 1))
            ((0 : Nat) : Int)).readBuf Buf.rsArea j • planeV j)‖ ∧
    ∀ z : Nat → ℝ,
      |(qrUpdates Real.sqrt (fun x => |x|) turnHessenberg planeKSP (0 + 1)).rs (0 + 1)|
        ≤ ‖planeV 0 - (LinearMap.mulLeft ℝ Complex.I)
            (∑ j in Finset.range (0 + 1), z j • planeV j)‖) :=
  ⟨plane_norm, plane_scale, planeV_orthonormal_le, planeV_zero_unit, planeV_zero_norm.symm,
    turn_arnoldi, turn_subdiagonal,
    gmres_estimate_is_residual (planeExt Real.sqrt) plane_norm plane_scale
      (LinearMap.mulLeft ℝ Complex.I) (planeV 0) planeV turnHessenberg planeKSP Buf.rsArea
      VEC_SOLN VEC_SOLN 0 planeV_orthonormal_le planeV_zero_unit planeV_zero_norm.symm
      turn_arnoldi turn_subdiagonal⟩
end TurnEvaluations
/-! ## Happy breakdown and the divisors at the ends of the range of doubles -/

namespace Dbl

theorem ofExact_under (q : ℚ) (h : |q| < 1 / (2 : ℚ) ^ 1075) : ofExact q = fin 0 := by
  have h1 : ¬ ((2 : ℚ) ^ 1024 ≤ |q|) := by
    have h2 : (1 : ℚ) / 2 ^ 1075 ≤ 1 := by
      rw [div_le_one (by positivity)]
      exact one_le_pow₀ (by norm_num)
    have h3 : (1 : ℚ) ≤ 2 ^ 1024 := one_le_pow₀ (by norm_num)
    intro h4
    linarith
  simp only [ofExact, if_neg h1, if_pos h]

theorem ofExact_over (q : ℚ) (h : (2 : ℚ) ^ 1024 ≤ |q|) : ofExact q = inf (decide (q < 0)) := by
  simp only [ofExact, if_pos h]

theorem ofExact_fin (q : ℚ) (h1 : |q| < (2 : ℚ) ^ 1024) (h2 : 1 / (2 : ℚ) ^ 1075 ≤ |q|) :
    ofExact q = fin q := by
  simp only [ofExact, if_neg (not_le.mpr h1), if_neg (not_lt.mpr h2)]

theorem ofExact_zero : ofExact 0 = fin 0 :=
  ofExact_under 0 (by rw [abs_zero]; positivity)

theorem ofExact_one : ofExact 1 = fin 1 :=
  ofExact_fin 1 (by rw [abs_one]; exact one_lt_pow₀ (by norm_num) (by norm_num))
    (by rw [abs_one, div_le_one (by positivity)]; exact one_le_pow₀ (by norm_num))

theorem one_eq : (1 : Dbl) = fin 1 := rfl

theorem zero_eq : (0 : Dbl) = fin 0 := rfl

theorem fin_mul_fin (a b : ℚ) : fin a * fin b = ofExact (a * b) := rfl

theorem fin_add_fin (a b : ℚ) : fin a + fin b = ofExact (a + b) := rfl

theorem fin_sub_fin (a b : ℚ) : fin a - fin b = ofExact (a + -b) := rfl

theorem fin_div_fin (a b : ℚ) (hb : b ≠ 0) : fin a / fin b = ofExact (a / b) := by
  show div (fin a) (fin b) = _
  simp only [div, if_neg hb]

theorem zero_div_zero : fin 0 / fin 0 = nan := by
  show div (fin 0) (fin 0) = _
  simp [div]

theorem fin_div_zero (a : ℚ) (ha : 0 < a) : fin a / fin 0 = inf false := by
  show div (fin a) (fin 0) = _
  simp [div, ha.ne.symm, not_lt.mpr ha.le]

theorem fin_div_inf (a : ℚ) (s : Bool) : fin a / inf s = fin 0 := rfl

theorem nan_mul (x : Dbl) : nan * x = nan := by
  cases x <;> rfl

theorem neg_nan : -nan = nan := rfl

theorem neg_fin (a : ℚ) : -fin a = fin (-a) := rfl

theorem fabs_nan : fabs nan = nan := rfl

theorem fabs_fin (a : ℚ) : fabs (fin a) = fin |a| := rfl

theorem sqrt_zero : sqrt (fin 0) = fin 0 := by
  simp [sqrt, qsqrt_zero]

theorem sqrt_inf : sqrt (inf false) = inf false := rfl

theorem inf_add_inf : inf false + inf false = inf false := rfl

theorem not_nan_le (x : Dbl) : ¬ (nan ≤ x) := fun h => by cases h

theorem fin_le_fin (a b : ℚ) : (fin a ≤ fin b) ↔ a ≤ b := Iff.rfl

theorem fin_lt_fin (a b : ℚ) : (fin a < fin b) ↔ a < b := Iff.rfl

end Dbl
section TinyValues

theorem tiny_pos : 0 < tiny := by
  unfold tiny
  positivity

theorem tiny_ne_zero : Dbl.fin tiny ≠ Dbl.fin 0 := by
  intro h
  injection h with h
  exact tiny_pos.ne.symm h

theorem tiny_mul_one : Dbl.fin tiny * Dbl.fin 1 = Dbl.fin tiny := by
  rw [Dbl.fin_mul_fin, mul_one]
  apply Dbl.ofExact_fin <;> rw [abs_of_pos tiny_pos] <;> unfold tiny <;> norm_num

theorem tiny_sq : Dbl.fin tiny * Dbl.fin tiny = Dbl.fin 0 := by
  rw [Dbl.fin_mul_fin]
  apply Dbl.ofExact_under
  rw [abs_of_pos (mul_pos tiny_pos tiny_pos)]
  unfold tiny
  norm_num

theorem tiny_sub_tiny : Dbl.fin tiny - Dbl.fin tiny = Dbl.fin 0 := by
  rw [Dbl.fin_sub_fin, add_neg_cancel, Dbl.ofExact_zero]

theorem dbl_zero_mul_zero : Dbl.fin 0 * Dbl.fin 0 = Dbl.fin 0 := by
  rw [Dbl.fin_mul_fin, mul_zero, Dbl.ofExact_zero]

theorem dbl_zero_mul_one : Dbl.fin 0 * Dbl.fin 1 = Dbl.fin 0 := by
  rw [Dbl.fin_mul_fin, zero_mul, Dbl.ofExact_zero]

theorem dbl_zero_add_zero : Dbl.fin 0 + Dbl.fin 0 = Dbl.fin 0 := by
  rw [Dbl.fin_add_fin, add_zero, Dbl.ofExact_zero]

theorem dbl_one_mul_one : Dbl.fin 1 * Dbl.fin 1 = Dbl.fin 1 := by
  rw [Dbl.fin_mul_fin, mul_one, Dbl.ofExact_one]

theorem dbl_one_div_one : Dbl.fin 1 / Dbl.fin 1 = Dbl.fin 1 := by
  rw [Dbl.fin_div_fin 1 1 one_ne_zero, div_one, Dbl.ofExact_one]

theorem dbl_fabs_one : Dbl.fabs (Dbl.fin 1) = Dbl.fin 1 := by
  rw [Dbl.fabs_fin, abs_one]

theorem dbl_fabs_zero : Dbl.fabs (Dbl.fin 0) = Dbl.fin 0 := by
  rw [Dbl.fabs_fin, abs_zero]
end TinyValues

section TinyPass
variable {S E : Type} [Add S] [Sub S] [Mul S] [Div S] [Neg S]

/-- The sine that the QR update of column 0 stores, in terms of the entries it
reads. -/
theorem update_first_ss (sqrt fabs : S → S) (st : KSP S E) :
    (GMRESUpdateHessenberg sqrt fabs st 0).1.ss 0
      = st.hh 1 0 / sqrt (st.hh 0 0 * st.hh 0 0 + st.hh 1 0 * st.hh 1 0) := by
  simp [GMRESUpdateHessenberg, applyRotations, KSP.setCC, KSP.setSS, KSP.setRS, KSP.setHH, setAt,
    setAt2]
end TinyPass

section TinyCycle

theorem tiny_norm : tinyExt.VecNorm (dblKSP.vec (VEC_VV 0)) = Dbl.fin 1 := by
  have h : dblKSP.vec (VEC_VV 0) = Dbl.fin 1 := by simp [dblKSP]
  rw [h]
  exact dbl_fabs_one

theorem tiny_entry :
    (cycleInit tinyExt 0 dblKSP).ksp.residual_history = none ∧
    (cycleInit tinyExt 0 dblKSP).ksp.usr_monitor = false ∧
    (cycleInit tinyExt 0 dblKSP).ksp.vv_allocated = 5 ∧
    (cycleInit tinyExt 0 dblKSP).ksp.right_pre = false ∧
    (cycleInit tinyExt 0 dblKSP).ksp.rs 0 = Dbl.fin 1 ∧
    (cycleInit tinyExt 0 dblKSP).ksp.vec (VEC_VV 0) = Dbl.fin 1 ∧
    (cycleInit tinyExt 0 dblKSP).res = Dbl.fin 1 := by
  obtain ⟨f1, f2, f3, f4, f5, f6, f7⟩ := cycleInit_fields tinyExt 0 dblKSP
  have h : dblKSP.vec (VEC_VV 0) = Dbl.fin 1 := by simp [dblKSP]
  rw [tiny_norm] at f5 f6 f7
  rw [h] at f6
  refine ⟨f1, f2, f3, f4, f5, ?_, f7⟩
  rw [f6]
  show (1 / Dbl.fin 1) * Dbl.fin 1 = Dbl.fin 1
  rw [Dbl.one_eq, dbl_one_div_one, dbl_one_mul_one]
end TinyCycle
section TinyRun

/-- The first column for the operator `2^-600 x` on one-dimensional vectors
over `Dbl`: the orthogonalization stores the coefficient `2^-600` on the
diagonal and leaves the zero direction. -/
theorem tiny_arnoldi :
    (cycleArnoldi tinyExt 0 (cycleInit tinyExt 0 dblKSP)).1.vec (VEC_VV 1) = Dbl.fin 0 ∧
    (cycleArnoldi tinyExt 0 (cycleInit tinyExt 0 dblKSP)).1.hh 0 0 = Dbl.fin tiny ∧
    (cycleArnoldi tinyExt 0 (cycleInit tinyExt 0 dblKSP)).1.rs 0 = Dbl.fin 1 := by
  obtain ⟨e1, e2, e3, e4, e5, e6, _⟩ := tiny_entry
  have hit : (cycleInit tinyExt 0 dblKSP).it = 0 := rfl
  rw [cycleArnoldi_plain tinyExt 0 _ e1 e2 (by rw [e3, hit]; decide) e4, hit]
  have hv0 : (cycleInit tinyExt 0 dblKSP).ksp.vec (Vec.work 3) = Dbl.fin 1 := e6
  generalize (cycleInit tinyExt 0 dblKSP).ksp = K at hv0 e5
  refine ⟨?_, ?_, ?_⟩
  · simp [tinyExt, dblExt, KSP.setVec, KSP.setHH, KSP.setHES, hv0, VEC_VV, VEC_OFFSET,
      VEC_TEMP_MATOP, tiny_mul_one, tiny_sub_tiny]
  · simp [tinyExt, dblExt, KSP.setVec, KSP.setHH, KSP.setHES, hv0, VEC_VV, VEC_OFFSET,
      VEC_TEMP_MATOP, tiny_mul_one, setAt2]
  · simp [tinyExt, dblExt, KSP.setVec, KSP.setHH, KSP.setHES, e5]

/-- The column handed to the QR update of that pass is `(2^-600, 0)`, with
`RS[0] = 1`. -/
theorem tiny_column :
    (cycleUpdateInput tinyExt 0 (cycleInit tinyExt 0 dblKSP)).hh 1 0 = Dbl.fin 0 ∧
    (cycleUpdateInput tinyExt 0 (cycleInit tinyExt 0 dblKSP)).hh 0 0 = Dbl.fin tiny ∧
    (cycleUpdateInput tinyExt 0 (cycleInit tinyExt 0 dblKSP)).rs 0 = Dbl.fin 1 := by
  obtain ⟨a1, a2, a3⟩ := tiny_arnoldi
  obtain ⟨n1, n2, n3⟩ := cycleNormalize_entries tinyExt
    (cycleArnoldi tinyExt 0 (cycleInit tinyExt 0 dblKSP)).1 0
  refine ⟨?_, ?_, ?_⟩
  · show (cycleNormalize tinyExt (cycleArnoldi tinyExt 0 (cycleInit tinyExt 0 dblKSP)).1 0).1.hh
      (0 + 1) 0 = _
    rw [n1, a1]
    exact dbl_fabs_zero
  · exact n2.trans a2
  · show (cycleNormalize tinyExt (cycleArnoldi tinyExt 0 (cycleInit tinyExt 0 dblKSP)).1 0).1.rs
      0 = _
    rw [n3, a3]

/-- The QR update of the column `(2^-600, 0)`: the sum of the squares
underflows to 0, so the sine is `0/0`. -/
theorem tiny_update :
    (GMRESUpdateHessenberg Dbl.sqrt Dbl.fabs
      (cycleUpdateInput tinyExt 0 (cycleInit tinyExt 0 dblKSP)) 0).1.ss 0 = Dbl.nan ∧
    (GMRESUpdateHessenberg Dbl.sqrt Dbl.fabs
      (cycleUpdateInput tinyExt 0 (cycleInit tinyExt 0 dblKSP)) 0).1.rs 1 = Dbl.nan ∧
    (GMRESUpdateHessenberg Dbl.sqrt Dbl.fabs
      (cycleUpdateInput tinyExt 0 (cycleInit tinyExt 0 dblKSP)) 0).2 = Dbl.nan := by
  obtain ⟨c1, c2, c3⟩ := tiny_column
  obtain ⟨u1, u2, _⟩ := update_first Dbl.sqrt Dbl.fabs
    (cycleUpdateInput tinyExt 0 (cycleInit tinyExt 0 dblKSP))
  have u3 := update_first_ss Dbl.sqrt Dbl.fabs
    (cycleUpdateInput tinyExt 0 (cycleInit tinyExt 0 dblKSP))
  rw [c1, c2, c3, tiny_sq, dbl_zero_mul_zero, dbl_zero_add_zero, Dbl.sqrt_zero,
    Dbl.zero_div_zero, Dbl.nan_mul, Dbl.neg_nan] at u1 u2
  rw [c1, c2, tiny_sq, dbl_zero_mul_zero, dbl_zero_add_zero, Dbl.sqrt_zero,
    Dbl.zero_div_zero] at u3
  exact ⟨u3, u2, u1⟩
end TinyRun
section TinyCounterexample

theorem tiny_ttol : (cycleInit tinyExt 0 dblKSP).ksp.ttol = Dbl.fin 0 := by
  simp only [cycleInit, if_true]
  show (if dblKSP.atol > dblKSP.rtol * tinyExt.VecNorm (dblKSP.vec (VEC_VV 0)) then dblKSP.atol
    else dblKSP.rtol * tinyExt.VecNorm (dblKSP.vec (VEC_VV 0))) = _
  rw [tiny_norm]
  have h1 : dblKSP.atol = Dbl.fin 0 := rfl
  have h2 : dblKSP.rtol = Dbl.fin 0 := rfl
  rw [h1, h2, dbl_zero_mul_one, if_neg]
  exact fun h => absurd ((Dbl.fin_lt_fin 0 0).mp h) (lt_irrefl 0)

theorem tiny_orthog_setup (s : KSP Dbl Dbl) (k : Nat) : (tinyExt.orthog s k).setup = s.setup :=
  rfl

/-- Counterexample to C25: the cycle for the operator `2^-600 x` on
one-dimensional vectors with initial residual 1, `max_k = 3`, `max_it = 10`,
the default test and `ttol = 0`, in the arithmetic with the range of doubles.
The inner iteration 0 is run; the column handed to its QR update has the
sub-diagonal entry 0 and the nonzero diagonal entry `2^-600`; the square of the
latter underflows, so `sqrt (h*h + g*g)` is 0, the update stores
`SS[0] = 0/0` and `RS[1]`, both not numbers, and returns an estimate that is
not a number instead of 0; the default test fails on it and the loop
condition holds again, so the loop does not exit after this iteration. -/
theorem breakdown_underflow :
    tinyExt.VecNorm (dblKSP.vec (VEC_VV 0)) ≠ 0 ∧
    (0 : Dbl) ≤ (cyclePass tinyExt 0 (cycleInit tinyExt 0 dblKSP) 1).ksp.ttol ∧
    (tinyExt.converged (cycleInit tinyExt 0 dblKSP).ksp
        (((cycleInit tinyExt 0 dblKSP).it : Int) + 0) (cycleInit tinyExt 0 dblKSP).res = 0 ∧
      ((cycleInit tinyExt 0 dblKSP).it : Int) < dblKSP.max_k ∧
      ((cycleInit tinyExt 0 dblKSP).it : Int) + 0 < dblKSP.max_it) ∧
    (cycleUpdateInput tinyExt 0 (cycleInit tinyExt 0 dblKSP)).hh 1 0 = 0 ∧
    (applyRotations 0 (cycleUpdateInput tinyExt 0 (cycleInit tinyExt 0 dblKSP)) 0).hh 0 0
      = Dbl.fin tiny ∧
    Dbl.fin tiny ≠ 0 ∧
    (cyclePass tinyExt 0 (cycleInit tinyExt 0 dblKSP) 1).ksp.ss 0 = Dbl.nan ∧
    (cyclePass tinyExt 0 (cycleInit tinyExt 0 dblKSP) 1).ksp.rs 1 = Dbl.nan ∧
    (cyclePass tinyExt 0 (cycleInit tinyExt 0 dblKSP) 1).res = Dbl.nan ∧
    (cyclePass tinyExt 0 (cycleInit tinyExt 0 dblKSP) 1).res ≠ 0 ∧
    (tinyExt.converged (cyclePass tinyExt 0 (cycleInit tinyExt 0 dblKSP) 1).ksp
        (((cyclePass tinyExt 0 (cycleInit tinyExt 0 dblKSP) 1).it : Int) + 0)
        (cyclePass tinyExt 0 (cycleInit tinyExt 0 dblKSP) 1).res = 0 ∧
      ((cyclePass tinyExt 0 (cycleInit tinyExt 0 dblKSP) 1).it : Int) < dblKSP.max_k ∧
      ((cyclePass tinyExt 0 (cycleInit tinyExt 0 dblKSP) 1).it : Int) + 0 < dblKSP.max_it) := by
  obtain ⟨_, _, _, _, _, _, e7⟩ := tiny_entry
  obtain ⟨c1, c2, _⟩ := tiny_column
  obtain ⟨u1, u2, u3⟩ := tiny_update
  have hc : tinyExt.converged = KSPiGMRESDefaultConverged := rfl
  have hss : (cyclePass tinyExt 0 (cycleInit tinyExt 0 dblKSP) 1).ksp.ss 0 = Dbl.nan := u1
  have hrs : (cyclePass tinyExt 0 (cycleInit tinyExt 0 dblKSP) 1).ksp.rs 1 = Dbl.nan := u2
  have hres : (cyclePass tinyExt 0 (cycleInit tinyExt 0 dblKSP) 1).res = Dbl.nan := u3
  have httol : (cyclePass tinyExt 0 (cycleInit tinyExt 0 dblKSP) 1).ksp.ttol = Dbl.fin 0 := by
    have h := cyclePass_setup tinyExt tiny_orthog_setup 0 (cycleInit tinyExt 0 dblKSP) 1
    have h2 : (cyclePass tinyExt 0 (cycleInit tinyExt 0 dblKSP) 1).ksp.ttol
        = (cycleInit tinyExt 0 dblKSP).ksp.ttol := congrArg (fun p => p.2.2.2.2.1) h
    rw [h2, tiny_ttol]
  refine ⟨?_, ?_, ⟨?_, by decide, by decide⟩, c1, c2, tiny_ne_zero, hss, hrs, hres, ?_,
    ⟨?_, by decide, by decide⟩⟩
  · rw [tiny_norm]
    exact fun h => by cases h
  · rw [httol]
    exact (Dbl.fin_le_fin 0 0).mpr le_rfl
  · rw [hc]
    simp only [KSPiGMRESDefaultConverged, e7, tiny_ttol]
    rw [if_neg]
    exact fun h => absurd ((Dbl.fin_le_fin 1 0).mp h) (by norm_num)
  · rw [hres]
    exact fun h => by cases h
  · rw [hc]
    simp only [KSPiGMRESDefaultConverged, hres]
    rw [if_neg (Dbl.not_nan_le _)]
end TinyCounterexample
section HugeValues

theorem huge_pos : 0 < huge := by
  unfold huge
  positivity

theorem huge_ne_zero : Dbl.fin huge ≠ Dbl.fin 0 := by
  intro h
  injection h with h
  exact huge_pos.ne.symm h

theorem huge_range : Dbl.ofExact huge = Dbl.fin huge := by
  apply Dbl.ofExact_fin <;> rw [abs_of_pos huge_pos] <;> unfold huge <;> norm_num

theorem huge_mul_one : Dbl.fin huge * Dbl.fin 1 = Dbl.fin huge := by
  rw [Dbl.fin_mul_fin, mul_one, huge_range]

theorem huge_mul_zero : Dbl.fin huge * Dbl.fin 0 = Dbl.fin 0 := by
  rw [Dbl.fin_mul_fin, mul_zero, Dbl.ofExact_zero]

theorem zero_mul_huge : Dbl.fin 0 * Dbl.fin huge = Dbl.fin 0 := by
  rw [Dbl.fin_mul_fin, zero_mul, Dbl.ofExact_zero]

theorem huge_add_zero : Dbl.fin huge + Dbl.fin 0 = Dbl.fin huge := by
  rw [Dbl.fin_add_fin, add_zero, huge_range]

theorem huge_sub_huge : Dbl.fin huge - Dbl.fin huge = Dbl.fin 0 := by
  rw [Dbl.fin_sub_fin, add_neg_cancel, Dbl.ofExact_zero]

theorem huge_sub_zero : Dbl.fin huge - Dbl.fin 0 = Dbl.fin huge := by
  rw [Dbl.fin_sub_fin, neg_zero, add_zero, huge_range]

theorem huge_sq : Dbl.fin huge * Dbl.fin huge = Dbl.inf false := by
  rw [Dbl.fin_mul_fin, Dbl.ofExact_over _ (by
    rw [abs_of_pos (mul_pos huge_pos huge_pos)]
    unfold huge
    norm_num)]
  simp [not_lt.mpr (mul_pos huge_pos huge_pos).le]

theorem huge_div_huge : Dbl.fin huge / Dbl.fin huge = Dbl.fin 1 := by
  rw [Dbl.fin_div_fin _ _ huge_pos.ne.symm, div_self huge_pos.ne.symm, Dbl.ofExact_one]

theorem zero_div_huge : Dbl.fin 0 / Dbl.fin huge = Dbl.fin 0 := by
  rw [Dbl.fin_div_fin _ _ huge_pos.ne.symm, zero_div, Dbl.ofExact_zero]

theorem huge_div_one : Dbl.fin huge / Dbl.fin 1 = Dbl.fin huge := by
  rw [Dbl.fin_div_fin _ _ one_ne_zero, div_one, huge_range]

theorem dbl_zero_div_one : Dbl.fin 0 / Dbl.fin 1 = Dbl.fin 0 := by
  rw [Dbl.fin_div_fin _ _ one_ne_zero, zero_div, Dbl.ofExact_zero]

theorem dbl_zero_add_one : Dbl.fin 0 + Dbl.fin 1 = Dbl.fin 1 := by
  rw [Dbl.fin_add_fin, zero_add, Dbl.ofExact_one]

theorem dbl_one_add_zero : Dbl.fin 1 + Dbl.fin 0 = Dbl.fin 1 := by
  rw [Dbl.fin_add_fin, add_zero, Dbl.ofExact_one]

theorem dbl_one_mul_zero : Dbl.fin 1 * Dbl.fin 0 = Dbl.fin 0 := by
  rw [Dbl.fin_mul_fin, mul_zero, Dbl.ofExact_zero]

theorem dbl_sqrt_one : Dbl.sqrt (Dbl.fin 1) = Dbl.fin 1 := by
  simp [Dbl.sqrt, qsqrt_one]

theorem dbl_neg_zero : -Dbl.fin 0 = Dbl.fin 0 := by
  rw [Dbl.neg_fin, neg_zero]

theorem dbl_fabs_huge : Dbl.fabs (Dbl.fin huge) = Dbl.fin huge := by
  rw [Dbl.fabs_fin, abs_of_pos huge_pos]

theorem dbl_one_ne_zero : Dbl.fin 1 ≠ Dbl.fin 0 := by
  intro h
  injection h with h
  exact one_ne_zero h

theorem norm2_unit : Dbl.norm2 (Dbl.fin 1, Dbl.fin 0) = Dbl.fin 1 := by
  have hlt : ¬ (Dbl.fin 1 < Dbl.fin 0) := fun h =>
    absurd ((Dbl.fin_lt_fin 1 0).mp h) (by norm_num)
  simp only [Dbl.norm2, dbl_fabs_one, dbl_fabs_zero, if_neg hlt, Dbl.zero_eq,
    if_neg dbl_one_ne_zero, dbl_one_div_one, dbl_zero_div_one, dbl_one_mul_one,
    dbl_zero_mul_zero, dbl_one_add_zero, dbl_sqrt_one]

theorem norm2_huge : Dbl.norm2 (Dbl.fin 0, Dbl.fin huge) = Dbl.fin huge := by
  have hlt : Dbl.fin 0 < Dbl.fin huge := (Dbl.fin_lt_fin 0 huge).mpr huge_pos
  simp only [Dbl.norm2, dbl_fabs_huge, dbl_fabs_zero, if_pos hlt, Dbl.zero_eq,
    if_neg huge_ne_zero, huge_div_huge, zero_div_huge, dbl_one_mul_one,
    dbl_zero_mul_zero, dbl_zero_add_one, dbl_sqrt_one, huge_mul_one]
end HugeValues
section HugePass
variable {S E : Type} [Add S] [Sub S] [Mul S] [Div S] [Neg S]

/-- The diagonal entry that the QR update of column 0 stores, in terms of the
entries it reads. -/
theorem update_first_hh (sqrt fabs : S → S) (st : KSP S E) :
    (GMRESUpdateHessenberg sqrt fabs st 0).1.hh 0 0
      = st.hh 0 0 / sqrt (st.hh 0 0 * st.hh 0 0 + st.hh 1 0 * st.hh 1 0) * st.hh 0 0
        + st.hh 1 0 / sqrt (st.hh 0 0 * st.hh 0 0 + st.hh 1 0 * st.hh 1 0) * st.hh 1 0 := by
  simp [GMRESUpdateHessenberg, applyRotations, KSP.setCC, KSP.setSS, KSP.setRS, KSP.setHH, setAt,
    setAt2]
end HugePass

section HugeRun

theorem huge_norm : hugeExt.VecNorm (hugeKSP.vec (VEC_VV 0)) = Dbl.fin 1 := by
  have h : hugeKSP.vec (VEC_VV 0) = (Dbl.fin 1, Dbl.fin 0) := by simp [hugeKSP]
  rw [h]
  exact norm2_unit

theorem huge_entry :
    (cycleInit hugeExt 0 hugeKSP).ksp.residual_history = none ∧
    (cycleInit hugeExt 0 hugeKSP).ksp.usr_monitor = false ∧
    (cycleInit hugeExt 0 hugeKSP).ksp.vv_allocated = 5 ∧
    (cycleInit hugeExt 0 hugeKSP).ksp.right_pre = false ∧
    (cycleInit hugeExt 0 hugeKSP).ksp.rs 0 = Dbl.fin 1 ∧
    (cycleInit hugeExt 0 hugeKSP).ksp.vec (VEC_VV 0) = (Dbl.fin 1, Dbl.fin 0) ∧
    (cycleInit hugeExt 0 hugeKSP).res = Dbl.fin 1 := by
  obtain ⟨f1, f2, f3, f4, f5, f6, f7⟩ := cycleInit_fields hugeExt 0 hugeKSP
  have h : hugeKSP.vec (VEC_VV 0) = (Dbl.fin 1, Dbl.fin 0) := by simp [hugeKSP]
  rw [huge_norm] at f5 f6 f7
  rw [h] at f6
  refine ⟨f1, f2, f3, f4, f5, ?_, f7⟩
  rw [f6]
  show ((1 / Dbl.fin 1) * Dbl.fin 1, (1 / Dbl.fin 1) * Dbl.fin 0) = _
  rw [Dbl.one_eq, dbl_one_div_one, dbl_one_mul_one, dbl_one_mul_zero]

theorem huge_ttol : (cycleInit hugeExt 0 hugeKSP).ksp.ttol = Dbl.fin 0 := by
  simp only [cycleInit, if_true]
  show (if hugeKSP.atol > hugeKSP.rtol * hugeExt.VecNorm (hugeKSP.vec (VEC_VV 0))
    then hugeKSP.atol else hugeKSP.rtol * hugeExt.VecNorm (hugeKSP.vec (VEC_VV 0))) = _
  rw [huge_norm]
  have h1 : hugeKSP.atol = Dbl.fin 0 := rfl
  have h2 : hugeKSP.rtol = Dbl.fin 0 := rfl
  rw [h1, h2, dbl_zero_mul_one, if_neg]
  exact fun h => absurd ((Dbl.fin_lt_fin 0 0).mp h) (lt_irrefl 0)

theorem pairOrthog_setup (st : KSP Dbl (Dbl × Dbl)) (it n : Nat) :
    (pairOrthog st it n).setup = st.setup := by
  induction n with
  | zero => rfl
  | succ n ih =>
    simp only [pairOrthog]
    exact ih

theorem huge_orthog_setup (s : KSP Dbl (Dbl × Dbl)) (k : Nat) :
    (hugeExt.orthog s k).setup = s.setup :=
  pairOrthog_setup s k (k + 1)

/-- The first column for the operator `(x, y) -> 2^600 (x, x)` and the initial
residual `(1, 0)`: the orthogonalization stores the coefficient `2^600` on the
diagonal and leaves the direction `(0, 2^600)`. -/
theorem huge_arnoldi :
    (cycleArnoldi hugeExt 0 (cycleInit hugeExt 0 hugeKSP)).1.vec (VEC_VV 1)
      = (Dbl.fin 0, Dbl.fin huge) ∧
    (cycleArnoldi hugeExt 0 (cycleInit hugeExt 0 hugeKSP)).1.hh 0 0 = Dbl.fin huge ∧
    (cycleArnoldi hugeExt 0 (cycleInit hugeExt 0 hugeKSP)).1.rs 0 = Dbl.fin 1 := by
  obtain ⟨e1, e2, e3, e4, e5, e6, _⟩ := huge_entry
  have hit : (cycleInit hugeExt 0 hugeKSP).it = 0 := rfl
  rw [cycleArnoldi_plain hugeExt 0 _ e1 e2 (by rw [e3, hit]; decide) e4, hit]
  have hv0 : (cycleInit hugeExt 0 hugeKSP).ksp.vec (Vec.work 3) = (Dbl.fin 1, Dbl.fin 0) := e6
  generalize (cycleInit hugeExt 0 hugeKSP).ksp = K at hv0 e5
  refine ⟨?_, ?_, ?_⟩
  · simp [hugeExt, pairOrthog, KSP.setVec, KSP.setHH, KSP.setHES, hv0, VEC_VV, VEC_OFFSET,
      VEC_TEMP_MATOP, huge_mul_one, huge_mul_zero, huge_add_zero, huge_sub_huge, huge_sub_zero]
  · simp [hugeExt, pairOrthog, KSP.setVec, KSP.setHH, KSP.setHES, hv0, VEC_VV, VEC_OFFSET,
      VEC_TEMP_MATOP, huge_mul_one, huge_mul_zero, huge_add_zero, setAt2]
  · simp [hugeExt, pairOrthog, KSP.setVec, KSP.setHH, KSP.setHES, e5]

/-- The column handed to the QR update of that pass is `(2^600, 2^600)`, with
`RS[0] = 1`. -/
theorem huge_column :
    (cycleUpdateInput hugeExt 0 (cycleInit hugeExt 0 hugeKSP)).hh 1 0 = Dbl.fin huge ∧
    (cycleUpdateInput hugeExt 0 (cycleInit hugeExt 0 hugeKSP)).hh 0 0 = Dbl.fin huge ∧
    (cycleUpdateInput hugeExt 0 (cycleInit hugeExt 0 hugeKSP)).rs 0 = Dbl.fin 1 := by
  obtain ⟨a1, a2, a3⟩ := huge_arnoldi
  obtain ⟨n1, n2, n3⟩ := cycleNormalize_entries hugeExt
    (cycleArnoldi hugeExt 0 (cycleInit hugeExt 0 hugeKSP)).1 0
  refine ⟨?_, ?_, ?_⟩
  · show (cycleNormalize hugeExt (cycleArnoldi hugeExt 0 (cycleInit hugeExt 0 hugeKSP)).1 0).1.hh
      (0 + 1) 0 = _
    have hv : hugeExt.VecNorm = Dbl.norm2 := rfl
    rw [n1, a1, hv, norm2_huge]
  · exact n2.trans a2
  · show (cycleNormalize hugeExt (cycleArnoldi hugeExt 0 (cycleInit hugeExt 0 hugeKSP)).1 0).1.rs
      0 = _
    rw [n3, a3]

/-- The QR update of the column `(2^600, 2^600)`: the squares overflow, the
square root is infinite, cosine and sine are 0 and so are the diagonal entry
stored, `RS[0]`, `RS[1]` and the estimate. -/
theorem huge_update :
    (GMRESUpdateHessenberg Dbl.sqrt Dbl.fabs
      (cycleUpdateInput hugeExt 0 (cycleInit hugeExt 0 hugeKSP)) 0).1.hh 0 0 = Dbl.fin 0 ∧
    (GMRESUpdateHessenberg Dbl.sqrt Dbl.fabs
      (cycleUpdateInput hugeExt 0 (cycleInit hugeExt 0 hugeKSP)) 0).1.rs 0 = Dbl.fin 0 ∧
    (GMRESUpdateHessenberg Dbl.sqrt Dbl.fabs
      (cycleUpdateInput hugeExt 0 (cycleInit hugeExt 0 hugeKSP)) 0).2 = Dbl.fin 0 := by
  obtain ⟨c1, c2, c3⟩ := huge_column
  obtain ⟨u1, _, u2⟩ := update_first Dbl.sqrt Dbl.fabs
    (cycleUpdateInput hugeExt 0 (cycleInit hugeExt 0 hugeKSP))
  have u3 := update_first_hh Dbl.sqrt Dbl.fabs
    (cycleUpdateInput hugeExt 0 (cycleInit hugeExt 0 hugeKSP))
  rw [c1, c2, c3, huge_sq, Dbl.inf_add_inf, Dbl.sqrt_inf, Dbl.fin_div_inf, dbl_zero_mul_one]
    at u1 u2
  rw [dbl_neg_zero, dbl_fabs_zero] at u1
  rw [c1, c2, huge_sq, Dbl.inf_add_inf, Dbl.sqrt_inf, Dbl.fin_div_inf, zero_mul_huge,
    dbl_zero_add_zero] at u3
  exact ⟨u3, u2, u1⟩
end HugeRun
section HugeCounterexample

theorem huge_pass_state :
    (cyclePass hugeExt 0 (cycleInit hugeExt 0 hugeKSP) 1).ksp.hh 0 0 = Dbl.fin 0 ∧
    (cyclePass hugeExt 0 (cycleInit hugeExt 0 hugeKSP) 1).ksp.rs 0 = Dbl.fin 0 ∧
    (cyclePass hugeExt 0 (cycleInit hugeExt 0 hugeKSP) 1).res = Dbl.fin 0 ∧
    (cyclePass hugeExt 0 (cycleInit hugeExt 0 hugeKSP) 1).ksp.ttol = Dbl.fin 0 := by
  obtain ⟨u1, u2, u3⟩ := huge_update
  refine ⟨u1, u2, u3, ?_⟩
  have h := cyclePass_setup hugeExt huge_orthog_setup 0 (cycleInit hugeExt 0 hugeKSP) 1
  have h2 : (cyclePass hugeExt 0 (cycleInit hugeExt 0 hugeKSP) 1).ksp.ttol
      = (cycleInit hugeExt 0 hugeKSP).ksp.ttol := congrArg (fun p => p.2.2.2.2.1) h
  rw [h2, huge_ttol]

theorem huge_entry_condition :
    hugeExt.converged (cycleInit hugeExt 0 hugeKSP).ksp
        (((cycleInit hugeExt 0 hugeKSP).it : Int) + 0) (cycleInit hugeExt 0 hugeKSP).res = 0 ∧
      ((cycleInit hugeExt 0 hugeKSP).it : Int) < hugeKSP.max_k ∧
      ((cycleInit hugeExt 0 hugeKSP).it : Int) + 0 < hugeKSP.max_it := by
  refine ⟨?_, by decide, by decide⟩
  have hc : hugeExt.converged = KSPiGMRESDefaultConverged := rfl
  rw [hc]
  simp only [KSPiGMRESDefaultConverged, huge_entry.2.2.2.2.2.2, huge_ttol]
  rw [if_neg]
  exact fun h => absurd ((Dbl.fin_le_fin 1 0).mp h) (by norm_num)

theorem huge_pass_test :
    hugeExt.converged (cyclePass hugeExt 0 (cycleInit hugeExt 0 hugeKSP) 1).ksp
      (((cyclePass hugeExt 0 (cycleInit hugeExt 0 hugeKSP) 1).it : Int) + 0)
      (cyclePass hugeExt 0 (cycleInit hugeExt 0 hugeKSP) 1).res = 1 := by
  obtain ⟨_, _, s3, s4⟩ := huge_pass_state
  have hc : hugeExt.converged = KSPiGMRESDefaultConverged := rfl
  rw [hc]
  simp only [KSPiGMRESDefaultConverged, s3, s4]
  rw [if_pos ((Dbl.fin_le_fin 0 0).mpr le_rfl)]

/-- Counterexample to C27: the cycle for the operator `(x, y) -> 2^600 (x, x)`
on pairs with initial residual `(1, 0)`, `max_k = 3`, `max_it = 10`, the
default test and `ttol = 0`, in the arithmetic with the range of doubles.  The
inner iteration 0 is run; the pair handed to the computation of its rotation
is `(2^600, 2^600)`, not `(0, 0)`; the squares overflow, cosine and sine are
0, the diagonal entry stored is 0 and the estimate is 0, so the default test
passes and the cycle ends after this iteration with `BuildGmresSoln(..., 0)`
and status 0.  The entry `HH[0,0]` that the back-substitution divides by is
0, not positive, and its first quotient `RS[0] / HH[0,0]` is `0/0`, not a
number. -/
theorem divisor_overflow :
    hugeExt.VecNorm (hugeKSP.vec (VEC_VV 0)) ≠ 0 ∧
    (applyRotations 0 (cycleUpdateInput hugeExt 0 (cycleInit hugeExt 0 hugeKSP)) 0).hh 0 0
      = Dbl.fin huge ∧
    (applyRotations 0 (cycleUpdateInput hugeExt 0 (cycleInit hugeExt 0 hugeKSP)) 0).hh (0 + 1) 0
      = Dbl.fin huge ∧
    Dbl.fin huge ≠ 0 ∧
    (GMREScycle hugeExt (some 0) 0 0 hugeKSP).itcount = some 1 ∧
    (GMREScycle hugeExt (some 0) 0 0 hugeKSP).status = 0 ∧
    (GMREScycle hugeExt (some 0) 0 0 hugeKSP).ksp
      = BuildGmresSoln hugeExt Buf.rsArea VEC_SOLN VEC_SOLN
          (cycleTally 0 (cycleLoop hugeExt hugeKSP.max_k hugeKSP.max_it 0
            (cycleInit hugeExt 0 hugeKSP))).1 0 ∧
    (cycleTally 0 (cycleLoop hugeExt hugeKSP.max_k hugeKSP.max_it 0
      (cycleInit hugeExt 0 hugeKSP))).1.hh 0 0 = Dbl.fin 0 ∧
    ¬ ((0 : Dbl) < (cycleTally 0 (cycleLoop hugeExt hugeKSP.max_k hugeKSP.max_it 0
      (cycleInit hugeExt 0 hugeKSP))).1.hh 0 0) ∧
    (backSubst Buf.rsArea (cycleTally 0 (cycleLoop hugeExt hugeKSP.max_k hugeKSP.max_it 0
      (cycleInit hugeExt 0 hugeKSP))).1 0).rs 0 = Dbl.nan := by
  obtain ⟨c1, c2, _⟩ := huge_column
  obtain ⟨s1, s2, _, _⟩ := huge_pass_state
  have h0 : hugeExt.VecNorm (hugeKSP.vec (VEC_VV 0)) ≠ 0 := by
    rw [huge_norm]
    exact dbl_one_ne_zero
  have hx : ¬ (hugeExt.converged (cyclePass hugeExt 0 (cycleInit hugeExt 0 hugeKSP) 1).ksp
        (((cyclePass hugeExt 0 (cycleInit hugeExt 0 hugeKSP) 1).it : Int) + 0)
        (cyclePass hugeExt 0 (cycleInit hugeExt 0 hugeKSP) 1).res = 0 ∧
      ((cyclePass hugeExt 0 (cycleInit hugeExt 0 hugeKSP) 1).it : Int) < hugeKSP.max_k ∧
      ((cyclePass hugeExt 0 (cycleInit hugeExt 0 hugeKSP) 1).it : Int) + 0 < hugeKSP.max_it) := by
    rw [huge_pass_test]
    exact fun h => absurd h.1 (by decide)
  obtain ⟨k1, k2, k3, k4, _⟩ := cycle_one_pass hugeExt 0 0 0 hugeKSP h0 huge_entry_condition hx
  obtain ⟨_, t2, t3⟩ := cycleTally_frame 0
    (cycleLoop hugeExt hugeKSP.max_k hugeKSP.max_it 0 (cycleInit hugeExt 0 hugeKSP))
  have hh : (cycleTally 0 (cycleLoop hugeExt hugeKSP.max_k hugeKSP.max_it 0
      (cycleInit hugeExt 0 hugeKSP))).1.hh 0 0 = Dbl.fin 0 := by
    rw [t2, k4, s1]
  have hr : (cycleTally 0 (cycleLoop hugeExt hugeKSP.max_k hugeKSP.max_it 0
      (cycleInit hugeExt 0 hugeKSP))).1.rs 0 = Dbl.fin 0 := by
    rw [t3, k4, s2]
  refine ⟨h0, c2, c1, huge_ne_zero, k1, ?_, k3, hh, ?_, ?_⟩
  · rw [k2, huge_pass_test]
    decide
  · rw [hh]
    exact fun h => absurd ((Dbl.fin_lt_fin 0 0).mp h) (lt_irrefl 0)
  · show (cycleTally 0 (cycleLoop hugeExt hugeKSP.max_k hugeKSP.max_it 0
        (cycleInit hugeExt 0 hugeKSP))).1.rs 0
      / (cycleTally 0 (cycleLoop hugeExt hugeKSP.max_k hugeKSP.max_it 0
        (cycleInit hugeExt 0 hugeKSP))).1.hh 0 0 = Dbl.nan
    rw [hh, hr, Dbl.zero_div_zero]
end HugeCounterexample
end GMRES
